import Mathlib

/-!
# AtlasEngine: invalidation state machine, cell grid and glyph atlas

A shallow embedding of `src/renderer/atlas/AtlasEngine.{h,cpp}`.

Conventions of the embedding
* `u16` values are natural numbers; every place where the source truncates to
  16 bits is written with an explicit `% 65536`.
* `FAIL_FAST`, a failed `yolo_narrow`, an integer division by zero, a null
  dereference and an out-of-bounds write have no successor state: the
  operation returns `none` (or `Outcome.failFast`).
* Calls into Direct3D / Direct2D / DirectWrite are not part of the repository.
  Each of them is represented by an oracle argument that says whether the call
  succeeds or which exception it raises.
* The GPU handles of `_r` are represented by booleans (handle present or not).
* Floating point values (`cellSizeDIP`, the scaling) and allocation failures of
  the standard containers are not part of the model.
-/

namespace AtlasEngine

/-! ## Status codes and exceptions -/

/-- HRESULT is a signed 32-bit status code; negative values are failures. -/
abbrev HRESULT := Int

def S_OK : HRESULT := 0

/-- Value 0x8000000A of the Windows SDK. -/
def E_PENDING : HRESULT := -2147483638

/-- Value 0x887A0005 of the Windows SDK. -/
def DXGI_ERROR_DEVICE_REMOVED : HRESULT := -2005270523

/-- Value 0x887A0007 of the Windows SDK. -/
def DXGI_ERROR_DEVICE_RESET : HRESULT := -2005270521

/-- Value 0x8899000C of the Windows SDK. -/
def D2DERR_RECREATE_TARGET : HRESULT := -2003238900

/-- The macro `SUCCEEDED(hr)` of the Windows SDK. -/
def SUCCEEDED (hr : HRESULT) : Prop := 0 ≤ hr

/-- A failed HRESULT. `THROW_IF_FAILED`, `THROW_LAST_ERROR_IF` and
`THROW_IF_NULL_ALLOC` only ever raise failed codes, and `RETURN_IF_FAILED`
only returns failed codes. -/
structure ErrorCode where
  hr : HRESULT
  failed : hr < 0

/-- What a `throw` inside a `try` block of the engine carries.
`ResultException` is `wil::ResultException` (routed to `_handleException`);
`other` is any other exception type, with the code `CATCH_RETURN()` maps it to. -/
inductive Exception where
  | ResultException (code : ErrorCode)
  | other (code : ErrorCode)

/-- Result of running a block of the engine on a state.
`thrown` keeps the state at the moment of the throw (side effects made before
the throw are not rolled back); `failFast` is process termination. -/
inductive Outcome (σ : Type) where
  | ok (s : σ)
  | thrown (ex : Exception) (s : σ)
  | failFast

/-! ## Vectors and narrowing -/

/-- The type `vec2<u16>` of the header. -/
structure u16x2 where
  x : Nat := 0
  y : Nat := 0
deriving DecidableEq

/-- The type `vec2<u32>` of the header. -/
structure u32x2 where
  x : Nat := 0
  y : Nat := 0
deriving DecidableEq

namespace u16x2

/-- `vec2::operator*` at `T = u16`: the product is truncated by `static_cast<T>`. -/
def mul (a b : u16x2) : u16x2 :=
  { x := (a.x * b.x) % 65536, y := (a.y * b.y) % 65536 }

/-- `vec2::operator/` at `T = u16`. Integer division; a zero divisor is
undefined behaviour (`none`). -/
def div (a b : u16x2) : Option u16x2 :=
  if b.x = 0 ∨ b.y = 0 then none else some { x := a.x / b.x, y := a.y / b.y }

/-- `vec2::area<size_t>()`. -/
def area (a : u16x2) : Nat := a.x * a.y

end u16x2

/-- `yolo_narrow<u16>` applied to a signed integer: fails fast unless the
value is representable. -/
def yolo_narrow (u : Int) : Option Nat :=
  if 0 ≤ u ∧ u ≤ 65535 then some u.toNat else none

/-- The Windows type `SIZE` (two `LONG`). -/
structure SIZE where
  cx : Int
  cy : Int

/-- The Windows type `COORD` (two `SHORT`). -/
structure COORD where
  X : Int
  Y : Int

/-- `yolo_vec2<u16>` on the two components of a `SIZE` or `COORD`. -/
def yolo_vec2 (a b : Int) : Option u16x2 :=
  match yolo_narrow a, yolo_narrow b with
  | some x, some y => some { x := x, y := y }
  | _, _ => none

/-! ## Invalidation flags -/

/-- The enumerators of `invalidation_flags` other than `none`. -/
inductive invalidation_flag where
  | device | size | font | cbuffer | title
deriving DecidableEq

/-- A value of `invalidation_flags`: one boolean per enumerator bit
(bits 0 to 4 of the `u8`; bits 5 to 7 are never written). -/
structure invalidation_flags where
  device : Bool := false
  size : Bool := false
  font : Bool := false
  cbuffer : Bool := false
  title : Bool := false
deriving DecidableEq

namespace invalidation_flags

/-- The enumerator `invalidation_flags::none`. -/
def none : invalidation_flags := {}

end invalidation_flags

def WI_IsFlagSet (v : invalidation_flags) (f : invalidation_flag) : Bool :=
  match f with
  | .device => v.device
  | .size => v.size
  | .font => v.font
  | .cbuffer => v.cbuffer
  | .title => v.title

def WI_SetFlag (v : invalidation_flags) (f : invalidation_flag) : invalidation_flags :=
  match f with
  | .device => { v with device := true }
  | .size => { v with size := true }
  | .font => { v with font := true }
  | .cbuffer => { v with cbuffer := true }
  | .title => { v with title := true }

def WI_ClearFlag (v : invalidation_flags) (f : invalidation_flag) : invalidation_flags :=
  match f with
  | .device => { v with device := false }
  | .size => { v with size := false }
  | .font => { v with font := false }
  | .cbuffer => { v with cbuffer := false }
  | .title => { v with title := false }

/-! ## Data model -/

/-- The bit-field struct `glyph_entry_attributes`; `cells` is a 4-bit field. -/
structure glyph_entry_attributes where
  bold : Bool := false
  italic : Bool := false
  cells : Nat := 0
deriving DecidableEq

/-- The struct `glyph_entry`: `chars` are the 15 code units, compared bytewise
together with the attributes by `operator==`. -/
structure glyph_entry where
  chars : List Nat
  attributes : glyph_entry_attributes
deriving DecidableEq

/-- The struct `cell`. -/
structure cell where
  glyphIndex16 : u16x2 := {}
  flags : Nat := 0
  color : u32x2 := {}
deriving DecidableEq

/-- The value-initialised `std::array<u16x2, 16>`. -/
def emptyCoords : List u16x2 := List.replicate 16 {}

/-- The struct `resources` (`_r`). GPU and DirectWrite handles are booleans. -/
structure resources where
  device : Bool := false
  swapChain : Bool := false
  renderTargetView : Bool := false
  cellBuffer : Bool := false
  glyphBuffer : Bool := false
  d2dRenderTarget : Bool := false
  textFormats : Bool := false
  cells : List cell := []
  glyphs : List (glyph_entry × List u16x2) := []
  glyphQueue : List (glyph_entry × List u16x2) := []
  atlasSizeInPixel : u16x2 := {}
  atlasPosition : u16x2 := {}

/-- The struct `api_state` (`_api`), without the floating point `cellSizeDIP`
and the callback. -/
structure api_state where
  cellSize : u16x2 := {}
  cellCount : u16x2 := {}
  sizeInPixel : u16x2 := {}
  fontName : String := ""
  fontSize : Nat := 0
  fontWeight : Nat := 400
  dpi : Nat := 96
  antialiasingMode : Nat := 1
  hwnd : Bool := false

/-- The rectangle type of `dirtyArea`. -/
structure rectangle where
  left : Nat := 0
  top : Nat := 0
  right : Nat := 0
  bottom : Nat := 0
deriving DecidableEq

/-- The struct `render_api_state` (`_rapi`). Of the shaping scratch buffers
only what the engine itself depends on is kept: the length of `textProps`
(the engine writes into it) and the length of `glyphProps` (the capacity
offered to `GetGlyphs`). `analysisResults` is refilled before each use and is
passed around as a value. -/
structure render_api_state where
  bufferLine : List Nat := []
  bufferLinePos : List Nat := []
  textPropsSize : Nat := 0
  glyphPropsSize : Nat := 0
  dirtyArea : rectangle := {}
  currentColor : u32x2 := {}
  attributes : glyph_entry_attributes := {}
  backgroundColor : Nat := 4294967295
  selectionColor : Nat := 2147483647

/-- A call into the backend that the engine makes; recorded in `Engine.calls`. -/
inductive BackendCall where
  | createResources
  | recreateSizeDependentResources
  | recreateFontDependentResources
  | drawGlyph (entry : glyph_entry) (coords : List u16x2)
  | updateConstantBuffer
deriving DecidableEq

/-- The engine instance. `calls` is a ghost field that is not in the source:
it records, oldest first, which rebuild steps and draws were started. -/
structure Engine where
  _api : api_state := {}
  _r : resources := {}
  _rapi : render_api_state := {}
  _invalidations : invalidation_flags := { device := true }
  calls : List BackendCall := []

/-- The engine right after its constructor. -/
def Engine.new : Engine := {}

/-! ## Size and font setters -/

/-- The method `AtlasEngine::SetWindowSize`. -/
def SetWindowSize (pixels : SIZE) (e : Engine) : Option (HRESULT × Engine) :=
  match yolo_vec2 pixels.cx pixels.cy with
  | none => none
  | some newSize =>
    if e._api.sizeInPixel ≠ newSize ∧ newSize ≠ {} then
      match u16x2.div newSize e._api.cellSize with
      | none => none
      | some cellCount =>
        some (S_OK,
          { e with
            _api := { e._api with sizeInPixel := newSize, cellCount := cellCount }
            _invalidations := WI_SetFlag e._invalidations .size })
    else
      some (S_OK, e)

/-- What `GetProposedFont` and the two font descriptions hand to `UpdateFont`:
`engineSizeY` is `fontInfoDesired.GetEngineSize().Y`, the rest is read from
`fontInfo`. -/
structure FontInfo where
  faceName : String
  weight : Int
  engineSizeY : Int
  size : COORD

/-- The four-argument method `AtlasEngine::UpdateFont`. `proposed` is the
result of `GetProposedFont` (DirectWrite and GDI measurements). -/
def UpdateFont (proposed : Except ErrorCode FontInfo) (e : Engine) : Option (HRESULT × Engine) :=
  match proposed with
  | .error code => some (code.hr, e)
  | .ok fontInfo =>
    match yolo_narrow fontInfo.weight with
    | none => none
    | some weight =>
      let api1 : api_state :=
        { e._api with
          fontSize := (fontInfo.engineSizeY % 65536).toNat
          fontName := fontInfo.faceName
          fontWeight := weight }
      let inv1 := WI_SetFlag e._invalidations .font
      match yolo_vec2 fontInfo.size.X fontInfo.size.Y with
      | none => none
      | some newSize =>
        if api1.cellSize ≠ newSize then
          match u16x2.div api1.sizeInPixel newSize with
          | none => none
          | some cellCount =>
            some (S_OK,
              { e with
                _api := { api1 with cellSize := newSize, cellCount := cellCount }
                _invalidations := WI_SetFlag inv1 .size })
        else
          some (S_OK, { e with _api := api1, _invalidations := inv1 })

/-- A call of one of the two setters that change the cell grid geometry. -/
inductive GeometryCall where
  | SetWindowSize (pixels : SIZE)
  | UpdateFont (proposed : Except ErrorCode FontInfo)

/-- Run one geometry call. -/
def GeometryCall.run (c : GeometryCall) (e : Engine) : Option (HRESULT × Engine) :=
  match c with
  | .SetWindowSize pixels => AtlasEngine.SetWindowSize pixels e
  | .UpdateFont proposed => AtlasEngine.UpdateFont proposed e

/-- Run a sequence of geometry calls, oldest first; `none` when one of them
terminates the process. -/
def runGeometry (e : Engine) : List GeometryCall → Option Engine
  | [] => some e
  | c :: cs =>
    match c.run e with
    | none => none
    | some (_, e1) => runGeometry e1 cs

/-- The relation `cellCount = sizeInPixel / cellSize` of the comment on
`api_state::cellCount`, for a cell size without zero component. -/
def CellCountCached (e : Engine) : Prop :=
  e._api.cellSize.x ≠ 0 → e._api.cellSize.y ≠ 0 →
    e._api.cellCount.x = e._api.sizeInPixel.x / e._api.cellSize.x ∧
    e._api.cellCount.y = e._api.sizeInPixel.y / e._api.cellSize.y

/-! ## Exception handling and resource rebuilds -/

namespace Exception

/-- The failed code an exception carries. -/
def code : Exception → ErrorCode
  | .ResultException c => c
  | .other c => c

end Exception

namespace Outcome

/-- Sequencing of two blocks: the second runs only when the first completes. -/
def bind {σ : Type} (o : Outcome σ) (f : σ → Outcome σ) : Outcome σ :=
  match o with
  | .ok s => f s
  | .thrown ex s => .thrown ex s
  | .failFast => .failFast

end Outcome

/-- The test of `_handleException` for a lost device. -/
def isDeviceLoss (hr : HRESULT) : Prop :=
  hr = DXGI_ERROR_DEVICE_REMOVED ∨ hr = DXGI_ERROR_DEVICE_RESET ∨ hr = D2DERR_RECREATE_TARGET

instance (hr : HRESULT) : Decidable (isDeviceLoss hr) := by
  unfold isDeviceLoss
  infer_instance

/-- The method `AtlasEngine::_handleException`, applied to the error code of
the caught `wil::ResultException`. -/
def _handleException (hr : HRESULT) (e : Engine) : HRESULT × Engine :=
  if isDeviceLoss hr then
    (E_PENDING, { e with _r := {}, _invalidations := WI_SetFlag e._invalidations .device })
  else
    (hr, e)

/-- The `catch` clauses shared by `StartPaint` and `Present`:
`catch (const wil::ResultException&)` calls `_handleException`, and
`CATCH_RETURN()` returns the code of any other exception. -/
def catchReturn (o : Outcome Engine) : Option (HRESULT × Engine) :=
  match o with
  | .ok s => some (S_OK, s)
  | .thrown (.ResultException c) s => some (_handleException c.hr s)
  | .thrown (.other c) s => some (c.hr, s)
  | .failFast => none

/-- Results of the backend calls of `_createResources` (release build);
`none` is success. `beforeSwapChain` covers the calls between the creation of
the device and of the swap chain (the query for the device context, the DXGI
factory, the composition surface handle); `rest` covers the waitable object,
the constant buffer and the two shaders. An exception of the callback is
caught inside the method and is not part of the model. -/
structure CreateResourcesEnv where
  D3D11CreateDevice : Option Exception
  beforeSwapChain : Option Exception
  CreateSwapChain : Option Exception
  rest : Option Exception

/-- The method `AtlasEngine::_createResources`. -/
def _createResources (env : CreateResourcesEnv) (e : Engine) : Outcome Engine :=
  let e0 : Engine := { e with calls := e.calls ++ [.createResources] }
  match env.D3D11CreateDevice with
  | some ex => .thrown ex { e0 with _r := { e0._r with device := false } }
  | none =>
    let e1 : Engine := { e0 with _r := { e0._r with device := true } }
    match env.beforeSwapChain with
    | some ex => .thrown ex e1
    | none =>
      match env.CreateSwapChain with
      | some ex => .thrown ex { e1 with _r := { e1._r with swapChain := false } }
      | none =>
        let e2 : Engine := { e1 with _r := { e1._r with swapChain := true } }
        match env.rest with
        | some ex => .thrown ex e2
        | none =>
          .ok { e2 with
                _invalidations :=
                  WI_SetFlag (WI_SetFlag (WI_SetFlag e2._invalidations .size) .font) .cbuffer }

/-- Results of the backend calls of `_recreateSizeDependentResources`.
`garbage` is the content of the freshly allocated, uninitialised cell buffer. -/
structure SizeEnv where
  ResizeBuffers : Option Exception
  CreateRenderTargetView : Option Exception
  allocCells : Option Exception
  garbage : Nat → cell
  CreateCellBuffer : Option Exception

/-- The method `AtlasEngine::_recreateSizeDependentResources`. -/
def _recreateSizeDependentResources (env : SizeEnv) (e : Engine) : Outcome Engine :=
  let e0 : Engine :=
    { e with
      calls := e.calls ++ [.recreateSizeDependentResources]
      _r := { e._r with renderTargetView := false } }
  if e0._r.device = false ∨ e0._r.swapChain = false then .failFast
  else
    match env.ResizeBuffers with
    | some ex => .thrown ex e0
    | none =>
      match env.CreateRenderTargetView with
      | some ex => .thrown ex e0
      | none =>
        let e1 : Engine := { e0 with _r := { e0._r with renderTargetView := true } }
        let totalCellCount := e1._api.cellCount.area
        let resized : Outcome Engine :=
          if totalCellCount ≠ e1._r.cells.length then
            match env.allocCells with
            | some ex => .thrown ex { e1 with _r := { e1._r with cells := [] } }
            | none =>
              let e2 : Engine :=
                { e1 with _r := { e1._r with cells := (List.range totalCellCount).map env.garbage } }
              match env.CreateCellBuffer with
              | some ex => .thrown ex { e2 with _r := { e2._r with cellBuffer := false } }
              | none => .ok { e2 with _r := { e2._r with cellBuffer := true } }
          else .ok e1
        resized.bind fun e3 =>
          .ok { e3 with _invalidations := WI_SetFlag e3._invalidations .cbuffer }

/-- Value of `D3D11_REQ_TEXTURE2D_U_OR_V_DIMENSION` in the Direct3D SDK. -/
def D3D11_REQ_TEXTURE2D_U_OR_V_DIMENSION : Nat := 16384

/-- Value of `D3D10_REQ_TEXTURE2D_U_OR_V_DIMENSION` in the Direct3D SDK. -/
def D3D10_REQ_TEXTURE2D_U_OR_V_DIMENSION : Nat := 8192

/-- Results of the backend calls of `_recreateFontDependentResources`.
`featureLevel11` is `GetFeatureLevel() >= D3D_FEATURE_LEVEL_11_0`;
`CreateTexture2D width height` is the creation of the atlas texture;
`rest` covers the scratchpad, the Direct2D target, the brush, the text
formats and `_drawCursor`. -/
structure FontEnv where
  featureLevel11 : Bool
  CreateTexture2D : Nat → Nat → Option Exception
  rest : Option Exception

/-- The first block of `_recreateFontDependentResources`: the atlas geometry.
`none` is a division by zero or a failed `yolo_narrow`. -/
def atlasGeometry (maxSize : Nat) (cellSize : u16x2) : Option (u16x2 × u16x2) :=
  let wantCells := 64 * 1024
  let csx := cellSize.x
  if csx = 0 then none
  else
    let xFit := min wantCells (maxSize / csx)
    if xFit = 0 then none
    else
      let yFit := (wantCells + xFit - 1) / xFit
      match yolo_narrow xFit, yolo_narrow yFit with
      | some xFit16, some yFit16 =>
        some (cellSize.mul { x := xFit16, y := yFit16 }, cellSize.mul { x := 1, y := 0 })
      | _, _ => none

/-- The method `AtlasEngine::_recreateFontDependentResources`. -/
def _recreateFontDependentResources (env : FontEnv) (e : Engine) : Outcome Engine :=
  let e0 : Engine := { e with calls := e.calls ++ [.recreateFontDependentResources] }
  if e0._r.device = false then .failFast
  else
    let maxSize :=
      if env.featureLevel11 then D3D11_REQ_TEXTURE2D_U_OR_V_DIMENSION
      else D3D10_REQ_TEXTURE2D_U_OR_V_DIMENSION
    match atlasGeometry maxSize e0._api.cellSize with
    | none => .failFast
    | some (atlasSizeInPixel, atlasPosition) =>
      let e1 : Engine :=
        { e0 with
          _r := { e0._r with
                  glyphs := []
                  glyphQueue := []
                  atlasSizeInPixel := atlasSizeInPixel
                  atlasPosition := atlasPosition } }
      match env.CreateTexture2D e1._r.atlasSizeInPixel.x e1._r.atlasSizeInPixel.y with
      | some ex => .thrown ex { e1 with _r := { e1._r with glyphBuffer := false } }
      | none =>
        let e2 : Engine := { e1 with _r := { e1._r with glyphBuffer := true } }
        match env.rest with
        | some ex => .thrown ex e2
        | none =>
          .ok { e2 with
                _r := { e2._r with d2dRenderTarget := true, textFormats := true }
                _invalidations := WI_SetFlag e2._invalidations .cbuffer }

/-! ## StartPaint -/

/-- Everything `StartPaint` reads from outside the engine: the client
rectangle of the window (as the `SIZE` passed on to `SetWindowSize`) and the
backend results of the three rebuild steps. -/
structure StartPaintEnv where
  clientRect : SIZE
  create : CreateResourcesEnv
  size : SizeEnv
  font : FontEnv

/-- The block `if (_api.hwnd) ...` of `StartPaint`; `none` when the nested
`SetWindowSize` terminates the process. -/
def StartPaint_hwnd (clientRect : SIZE) (e : Engine) : Option Engine :=
  if e._api.hwnd then
    match SetWindowSize clientRect e with
    | none => none
    | some (_, e1) =>
      if WI_IsFlagSet e1._invalidations .title then
        some { e1 with _invalidations := WI_ClearFlag e1._invalidations .title }
      else some e1
  else some e

/-- The block `if (WI_IsFlagSet(_invalidations, invalidation_flags::device))`
of `StartPaint`. -/
def StartPaint_device (env : StartPaintEnv) (e : Engine) : Outcome Engine :=
  if WI_IsFlagSet e._invalidations .device then
    (_createResources env.create e).bind fun s =>
      .ok { s with _invalidations := WI_ClearFlag s._invalidations .device }
  else .ok e

/-- The block `if (WI_IsFlagSet(_invalidations, invalidation_flags::size))`
of `StartPaint`. -/
def StartPaint_size (env : StartPaintEnv) (e : Engine) : Outcome Engine :=
  if WI_IsFlagSet e._invalidations .size then
    (_recreateSizeDependentResources env.size e).bind fun s =>
      .ok { s with _invalidations := WI_ClearFlag s._invalidations .size }
  else .ok e

/-- The block `if (WI_IsFlagSet(_invalidations, invalidation_flags::font))`
of `StartPaint`. -/
def StartPaint_font (env : StartPaintEnv) (e : Engine) : Outcome Engine :=
  if WI_IsFlagSet e._invalidations .font then
    (_recreateFontDependentResources env.font e).bind fun s =>
      .ok { s with _invalidations := WI_ClearFlag s._invalidations .font }
  else .ok e

/-- The three rebuild blocks of `StartPaint`, in source order. -/
def StartPaint_rebuild (env : StartPaintEnv) (e : Engine) : Outcome Engine :=
  (StartPaint_device env e).bind fun e1 =>
    (StartPaint_size env e1).bind fun e2 =>
      StartPaint_font env e2

/-- The `try` block of `AtlasEngine::StartPaint`. -/
def StartPaint_try (env : StartPaintEnv) (e : Engine) : Outcome Engine :=
  match StartPaint_hwnd env.clientRect e with
  | none => .failFast
  | some e1 =>
    let rebuilt : Outcome Engine :=
      if e1._invalidations ≠ invalidation_flags.none then
        if e1._api.sizeInPixel = {} ∨ e1._api.cellSize = {} ∨ e1._api.cellCount = {} then
          .failFast
        else StartPaint_rebuild env e1
      else .ok e1
    rebuilt.bind fun e2 =>
      .ok { e2 with
            _rapi := { e2._rapi with
                       dirtyArea := { left := 0, top := 0,
                                      right := e2._api.cellCount.x,
                                      bottom := e2._api.cellCount.y } } }

/-- The method `AtlasEngine::StartPaint`: the returned code and the state
left behind, or `none` when the process is terminated. -/
def StartPaint (env : StartPaintEnv) (e : Engine) : Option (HRESULT × Engine) :=
  catchReturn (StartPaint_try env e)

/-! ## Glyph atlas cache -/

/-- The method `AtlasEngine::_allocateAtlasCell`: the returned slot and the
engine with the advanced allocator position. The two `+=` are `u16` additions. -/
def _allocateAtlasCell (e : Engine) : u16x2 × Engine :=
  let ret := e._r.atlasPosition
  let x1 := (ret.x + e._api.cellSize.x) % 65536
  let pos : u16x2 :=
    if x1 ≥ e._r.atlasSizeInPixel.x then
      let y1 := (ret.y + e._api.cellSize.y) % 65536
      if y1 ≥ e._r.atlasSizeInPixel.y then
        { x := e._api.cellSize.x, y := 0 }
      else
        { x := 0, y := y1 }
    else
      { x := x1, y := ret.y }
  (ret, { e with _r := { e._r with atlasPosition := pos } })

/-- The loop `for (u16 i = 0; i < cells; ++i) coords[i] = _allocateAtlasCell();`
started at index `i` with `n` iterations left. -/
def allocateCoords : Nat → Nat → List u16x2 → Engine → List u16x2 × Engine
  | 0, _, coords, e => (coords, e)
  | n + 1, i, coords, e =>
    let r := _allocateAtlasCell e
    allocateCoords n (i + 1) (coords.set i r.1) r.2

/-- The loop that writes `data[i]` for `i < cells` in `_emplaceGlyph`, started
at index `i` with `n` iterations left; `base` is the index of `_getCell(x1, y)`.
A write past the end of the buffer is undefined behaviour (`none`). -/
def writeCells (base : Nat) (coords : List u16x2) (color : u32x2) :
    Nat → Nat → List cell → Option (List cell)
  | 0, _, cells => some cells
  | n + 1, i, cells =>
    if base + i < cells.length then
      writeCells base coords color n (i + 1)
        (cells.set (base + i) { glyphIndex16 := coords.getD i {}, flags := 0, color := color })
    else none

/-- The key that `_emplaceGlyph` builds: the zero-initialised `glyph_entry`
with the first `min keyLen 15` code units copied in, the current attributes,
and the 4-bit field `cells` set to `cells - 1`. -/
def makeEntry (key : List Nat) (attributes : glyph_entry_attributes) (cells : Nat) : glyph_entry :=
  let keyLen := if key.length > 15 then 15 else key.length
  { chars := key.take keyLen ++ List.replicate (15 - keyLen) 0
    attributes := { attributes with cells := (cells + 15) % 16 } }

/-- Assignment through the reference returned by `_r.glyphs[entry]`. -/
def glyphsStore (glyphs : List (glyph_entry × List u16x2)) (entry : glyph_entry)
    (coords : List u16x2) : List (glyph_entry × List u16x2) :=
  (entry, coords) :: glyphs.filter fun p => p.1 ≠ entry

/-- The number of cells of a run in `_emplaceGlyph`: `u16 cells = x2 - x1`,
clamped to 16. -/
def glyphCells (x1 x2 : Nat) : Nat :=
  let cells := (x2 + 65536 - x1) % 65536
  if cells > 16 then 16 else cells

/-- The cache lookup of `_emplaceGlyph` (from `auto& coords = _r.glyphs[entry]`
to the end of the `if (coords[0] == u16x2{})` block): the coordinates of the
entry and the engine after a possible allocation. -/
def resolveGlyph (entry : glyph_entry) (cells : Nat) (e : Engine) : List u16x2 × Engine :=
  let coords0 := (e._r.glyphs.lookup entry).getD emptyCoords
  if coords0.getD 0 {} = ({} : u16x2) then
    let allocated := allocateCoords cells 0 coords0 e
    (allocated.1,
      { allocated.2 with
        _r := { allocated.2._r with
                glyphs := glyphsStore allocated.2._r.glyphs entry allocated.1
                glyphQueue := allocated.2._r.glyphQueue ++ [(entry, allocated.1)] } })
  else (coords0, e)

/-- The method `AtlasEngine::_emplaceGlyph`. `key` holds the `keyLen` code
units the pointer refers to. The `assert`s of the source are not compiled into
release builds and are not part of the model. -/
def _emplaceGlyph (key : List Nat) (y x1 x2 : Nat) (e : Engine) : Option Engine :=
  let cells := glyphCells x1 x2
  let entry := makeEntry key e._rapi.attributes cells
  let resolved := resolveGlyph entry cells e
  match writeCells (e._api.cellCount.x * y + x1) resolved.1 resolved.2._rapi.currentColor
      cells 0 resolved.2._r.cells with
  | none => none
  | some newCells => some { resolved.2 with _r := { resolved.2._r with cells := newCells } }

/-! ## Present -/

/-- Results of the backend calls of `Present` and `_drawGlyph`. -/
structure PresentEnv where
  CreateTextLayout : glyph_entry → Option Exception
  EndDraw : glyph_entry → Option Exception
  Map : Option Exception
  Present : Option Exception

/-- The method `AtlasEngine::_drawGlyph`. -/
def _drawGlyph (env : PresentEnv) (pair : glyph_entry × List u16x2) (e : Engine) : Outcome Engine :=
  let e0 : Engine := { e with calls := e.calls ++ [.drawGlyph pair.1 pair.2] }
  match env.CreateTextLayout pair.1 with
  | some ex => .thrown ex e0
  | none =>
    if e0._r.d2dRenderTarget = false then .failFast
    else
      match env.EndDraw pair.1 with
      | some ex => .thrown ex e0
      | none => if e0._r.device = false then .failFast else .ok e0

/-- The loop `for (const auto& pair : _r.glyphQueue) _drawGlyph(pair);`. -/
def drawQueue (env : PresentEnv) : List (glyph_entry × List u16x2) → Engine → Outcome Engine
  | [], e => .ok e
  | pair :: rest, e => (_drawGlyph env pair e).bind (drawQueue env rest)

/-- The `try` block of `AtlasEngine::Present`. -/
def Present_try (env : PresentEnv) (e : Engine) : Outcome Engine :=
  let drained : Outcome Engine :=
    if e._r.glyphQueue ≠ [] then
      (drawQueue env e._r.glyphQueue e).bind fun s =>
        .ok { s with _r := { s._r with glyphQueue := [] } }
    else .ok e
  drained.bind fun e1 =>
    let uploaded : Outcome Engine :=
      if WI_IsFlagSet e1._invalidations .cbuffer then
        if e1._r.device = false then .failFast
        else
          .ok { e1 with
                calls := e1.calls ++ [.updateConstantBuffer]
                _invalidations := WI_ClearFlag e1._invalidations .cbuffer }
      else .ok e1
    uploaded.bind fun e2 =>
      if e2._r.device = false then .failFast
      else
        match env.Map with
        | some ex => .thrown ex e2
        | none =>
          if e2._r.swapChain = false then .failFast
          else
            match env.Present with
            | some ex => .thrown ex e2
            | none => .ok e2

/-- The method `AtlasEngine::Present`. -/
def Present (env : PresentEnv) (e : Engine) : Option (HRESULT × Engine) :=
  catchReturn (Present_try env e)

/-! ## Remaining state-changing entry points -/

/-- The method `AtlasEngine::InvalidateTitle`. -/
def InvalidateTitle (e : Engine) : HRESULT × Engine :=
  (S_OK, { e with _invalidations := WI_SetFlag e._invalidations .title })

/-- The method `AtlasEngine::UpdateDpi`. -/
def UpdateDpi (dpi : Int) (e : Engine) : Option (HRESULT × Engine) :=
  match yolo_narrow dpi with
  | none => none
  | some newDPI =>
    if e._api.dpi ≠ newDPI then
      some (S_OK,
        { e with
          _api := { e._api with dpi := newDPI }
          _invalidations := WI_SetFlag e._invalidations .font })
    else some (S_OK, e)

/-- The method `AtlasEngine::SetAntialiasingMode`. -/
def SetAntialiasingMode (antialiasingMode : Int) (e : Engine) : Option Engine :=
  match yolo_narrow antialiasingMode with
  | none => none
  | some mode =>
    some { e with
           _api := { e._api with antialiasingMode := mode }
           _invalidations := WI_SetFlag e._invalidations .font }

/-- The method `AtlasEngine::SetHwnd`. -/
def SetHwnd (hwnd : Bool) (e : Engine) : HRESULT × Engine :=
  (S_OK, { e with _api := { e._api with hwnd := hwnd } })

/-- The method `AtlasEngine::SetSelectionBackground`; `selectionColor` is the
32-bit value the method computes from its arguments. -/
def SetSelectionBackground (selectionColor : Nat) (e : Engine) : Engine :=
  if e._rapi.selectionColor ≠ selectionColor then
    { e with
      _rapi := { e._rapi with selectionColor := selectionColor }
      _invalidations := WI_SetFlag e._invalidations .cbuffer }
  else e

/-- The method `AtlasEngine::UpdateDrawingBrushes`; `fg` and `bg` are the
colors `pData->GetAttributeColors` returns. -/
def UpdateDrawingBrushes (fg bg : Nat) (isBold isItalic backgroundIsDefault : Bool)
    (isSettingDefaultBrushes : Bool) (e : Engine) : HRESULT × Engine :=
  if ¬ isSettingDefaultBrushes then
    (S_OK,
      { e with
        _rapi := { e._rapi with
                   currentColor := { x := fg, y := bg }
                   attributes := { e._rapi.attributes with bold := isBold, italic := isItalic } } })
  else if backgroundIsDefault ∧ bg ≠ e._rapi.backgroundColor then
    (S_OK,
      { e with
        _rapi := { e._rapi with backgroundColor := bg }
        _invalidations := WI_SetFlag e._invalidations .cbuffer })
  else (S_OK, e)

/-- The method `AtlasEngine::GetSwapChainHandle`, which has no `catch`: an
exception of `_createResources` leaves the method. Only the state is kept. -/
def GetSwapChainHandle (env : CreateResourcesEnv) (e : Engine) : Outcome Engine :=
  if e._r.device = false then _createResources env e else .ok e

/-- The Windows type `SMALL_RECT` (four `SHORT`). -/
structure SMALL_RECT where
  Left : Int
  Top : Int
  Right : Int
  Bottom : Int

/-- The statement `data->flags |= bit` at cell index `idx`; an index outside
the buffer is undefined behaviour (`none`). -/
def orFlag (bit : Nat) (cells : List cell) (idx : Int) : Option (List cell) :=
  if 0 ≤ idx ∧ idx < cells.length then
    some (cells.modify (fun c => { c with flags := c.flags ||| bit }) idx.toNat)
  else none

/-- Apply `orFlag` to a list of indices in order. -/
def orFlags (bit : Nat) : List Int → List cell → Option (List cell)
  | [], cells => some cells
  | idx :: rest, cells =>
    match orFlag bit cells idx with
    | none => none
    | some cells1 => orFlags bit rest cells1

/-- The method `AtlasEngine::PaintSelection`. The inner loop runs from `row`
to `row + width` and never stops for a negative `width` (`none`). -/
def PaintSelection (rect : SMALL_RECT) (e : Engine) : Option (HRESULT × Engine) :=
  let width := rect.Right - rect.Left
  let rows : List Int :=
    (List.range (rect.Bottom - rect.Top).toNat).map fun (i : Nat) => rect.Top + (i : Int)
  if rows ≠ [] ∧ width < 0 then none
  else
    let indices : List Int :=
      rows.flatMap fun (y : Int) =>
        (List.range width.toNat).map fun (i : Nat) =>
          (e._api.cellCount.x : Int) * y + rect.Left + (i : Int)
    match orFlags 2 indices e._r.cells with
    | none => none
    | some cells => some (S_OK, { e with _r := { e._r with cells := cells } })

/-- The argument `CursorOptions` of `PaintCursor`, restricted to the fields
the method reads. -/
structure CursorOptions where
  coordCursor : COORD
  fIsDoubleWidth : Bool
  isOn : Bool

/-- The method `AtlasEngine::PaintCursor`. The loop runs from the cursor cell
to `min(data + fIsDoubleWidth + 1, end of the buffer)` and never stops when
it starts behind that (`none`). -/
def PaintCursor (options : CursorOptions) (e : Engine) : Option (HRESULT × Engine) :=
  if options.isOn then
    let data : Int := (e._api.cellCount.x : Int) * options.coordCursor.Y + options.coordCursor.X
    let stop : Int :=
      min (data + (options.fIsDoubleWidth.toNat : Int) + 1) (e._r.cells.length : Int)
    if data < 0 ∨ stop < data then none
    else
      let indices : List Int :=
        (List.range (stop - data).toNat).map fun (i : Nat) => data + (i : Int)
      match orFlags 1 indices e._r.cells with
      | none => none
      | some cells => some (S_OK, { e with _r := { e._r with cells := cells } })
  else some (S_OK, e)

/-- One call of a state-changing entry point of the engine, with what the
call reads from outside the engine. `emplaceGlyph` stands for the calls that
`PaintBufferLine` makes through `_processBufferLine`. -/
inductive Call where
  | SetWindowSize (pixels : SIZE)
  | UpdateFont (proposed : Except ErrorCode FontInfo)
  | UpdateDpi (dpi : Int)
  | SetAntialiasingMode (antialiasingMode : Int)
  | SetHwnd (hwnd : Bool)
  | InvalidateTitle
  | SetSelectionBackground (selectionColor : Nat)
  | UpdateDrawingBrushes (fg bg : Nat) (isBold isItalic backgroundIsDefault : Bool)
      (isSettingDefaultBrushes : Bool)
  | GetSwapChainHandle (env : CreateResourcesEnv)
  | StartPaint (env : StartPaintEnv)
  | emplaceGlyph (key : List Nat) (y x1 x2 : Nat)
  | PaintSelection (rect : SMALL_RECT)
  | PaintCursor (options : CursorOptions)
  | Present (env : PresentEnv)

/-- The state after one call, or `none` when the call terminates the process. -/
def Call.run (c : Call) (e : Engine) : Option Engine :=
  match c with
  | .SetWindowSize pixels => (AtlasEngine.SetWindowSize pixels e).map Prod.snd
  | .UpdateFont proposed => (AtlasEngine.UpdateFont proposed e).map Prod.snd
  | .UpdateDpi dpi => (AtlasEngine.UpdateDpi dpi e).map Prod.snd
  | .SetAntialiasingMode mode => AtlasEngine.SetAntialiasingMode mode e
  | .SetHwnd hwnd => some (AtlasEngine.SetHwnd hwnd e).2
  | .InvalidateTitle => some (AtlasEngine.InvalidateTitle e).2
  | .SetSelectionBackground c => some (AtlasEngine.SetSelectionBackground c e)
  | .UpdateDrawingBrushes fg bg b i d s =>
    some (AtlasEngine.UpdateDrawingBrushes fg bg b i d s e).2
  | .GetSwapChainHandle env =>
    match AtlasEngine.GetSwapChainHandle env e with
    | .ok s => some s
    | .thrown _ s => some s
    | .failFast => none
  | .StartPaint env => (AtlasEngine.StartPaint env e).map Prod.snd
  | .emplaceGlyph key y x1 x2 => _emplaceGlyph key y x1 x2 e
  | .PaintSelection rect => (AtlasEngine.PaintSelection rect e).map Prod.snd
  | .PaintCursor options => (AtlasEngine.PaintCursor options e).map Prod.snd
  | .Present env => (AtlasEngine.Present env e).map Prod.snd

/-- Run a sequence of calls, oldest first. -/
def runCalls (e : Engine) : List Call → Option Engine
  | [] => some e
  | c :: cs =>
    match c.run e with
    | none => none
    | some e1 => runCalls e1 cs

/-- The engine states that a sequence of calls reaches from a new engine. -/
def Reachable (e : Engine) : Prop :=
  ∃ calls : List Call, runCalls Engine.new calls = some e

/-! ## PaintBufferLine and the shaping pipeline -/

/-- A `Cluster` of the renderer: its text (`GetText()`, UTF-16 code units)
and the number of columns it occupies (`GetColumns()`, a `size_t`). -/
structure Cluster where
  text : List Nat
  columns : Nat

/-- The flattening loop of `PaintBufferLine` from the `u16` counter `column`
on: the code units appended to `bufferLine`, and the entries appended to
`bufferLinePos` with the trailing entry that follows the loop. -/
def flattenClusters (column : Nat) : List Cluster → List Nat × List Nat
  | [] => ([], [column])
  | cluster :: rest =>
    let r := flattenClusters ((column + cluster.columns % 65536) % 65536) rest
    (cluster.text ++ r.1, List.replicate cluster.text.length column ++ r.2)

/-- The line that `PaintBufferLine` leaves in `_rapi` for a list of clusters. -/
def withLine (clusters : List Cluster) (e : Engine) : Engine :=
  { e with
    _rapi := { e._rapi with
               bufferLine := (flattenClusters 0 clusters).1
               bufferLinePos := (flattenClusters 0 clusters).2 } }

/-- Truncation of an arithmetic result to `UINT32`. -/
def u32 (n : Nat) : Nat := n % 4294967296

/-- The code `HRESULT_FROM_WIN32(ERROR_INSUFFICIENT_BUFFER)` (0x8007007A). -/
def E_NOT_SUFFICIENT_BUFFER : HRESULT := -2147024774

/-- The struct `TextAnalyzerResult`. -/
structure TextAnalyzerResult where
  textPosition : Nat
  textLength : Nat
  script : Nat := 0
  shapes : Nat := 0
  bidiLevel : Nat := 0

/-- One callback `SetScriptAnalysis(textPosition, textLength, scriptAnalysis)`
that `AnalyzeScript` makes on the sink. -/
structure ScriptAnalysisCall where
  textPosition : Nat
  textLength : Nat
  script : Nat := 0
  shapes : Nat := 0

/-- The DirectWrite services `_processBufferLine` calls, as functions of the
arguments that vary between the calls on one line. A failed `HRESULT` of a
call under `THROW_IF_FAILED` is the `ErrorCode`.
* `MapCharacters textPosition textLength` gives `mappedLength` and whether
  `mappedFont` is non-null.
* `CreateFontFace idx` is the call on the font mapped for the span at `idx`.
* `GetTextComplexity idx textLength` gives `isTextSimple` and `complexityLength`.
* `AnalyzeScript textPosition textLength` gives the callbacks made on the sink
  (the returned `HRESULT` is not looked at by the engine).
* `GetGlyphs a retry maxGlyphCount` gives the `HRESULT` of the attempt number
  `retry` (from 0) for the segment `a`, and for each text position of the segment
  the bit `canBreakShapingAfter` that the call leaves in `textProps`. -/
structure ShapingEnv where
  GetFontFamilyName : Option ErrorCode
  GetFontCollection : Option ErrorCode
  MapCharacters : Nat → Nat → Except ErrorCode (Nat × Bool)
  CreateFontFace : Nat → Option ErrorCode
  GetTextComplexity : Nat → Nat → Except ErrorCode (Bool × Nat)
  AnalyzeScript : Nat → Nat → List ScriptAnalysisCall
  GetGlyphs : TextAnalyzerResult → Nat → Nat → HRESULT × (Nat → Bool)

/-- The method `TextAnalyzer::Analyze`: the results are cleared and every
`SetScriptAnalysis` callback appends one result with bidi level 0. -/
def Analyze (env : ShapingEnv) (textPosition textLength : Nat) : List TextAnalyzerResult :=
  (env.AnalyzeScript textPosition textLength).map fun c =>
    { textPosition := c.textPosition, textLength := c.textLength, script := c.script,
      shapes := c.shapes, bidiLevel := 0 }

/-- The arguments of one `_emplaceGlyph` call of `_processBufferLine` other
than the row: the `keyLen` code units at `key`, and the columns `x1`, `x2`. -/
structure GlyphRun where
  key : List Nat
  x1 : Nat
  x2 : Nat
deriving DecidableEq

/-- Why a block of `_processBufferLine` did not run to its end: an exception
left it, it read or wrote outside a buffer or through a null pointer
(undefined behaviour), or the fuel of the model ran out. -/
inductive Stop where
  | thrown (ex : Exception)
  | failFast
  | outOfFuel

/-- What a block of `_processBufferLine` does. The loops of the function do
not look at the cell grid or the glyph cache, so the `_emplaceGlyph` calls of
a block are collected in call order (`runs`) and applied to the engine
afterwards; `glyphProps` is the length of the `glyphProps` buffer after the
block, `stop` says whether and why the block was left early. -/
structure Emission where
  runs : List GlyphRun := []
  glyphProps : Nat
  stop : Option Stop := none

/-- Sequential composition: `f` runs after `a` unless `a` was left early. -/
def Emission.andThen (a : Emission) (f : Nat → Emission) : Emission :=
  match a.stop with
  | some _ => a
  | none => { f a.glyphProps with runs := a.runs ++ (f a.glyphProps).runs }

/-- The `len` code units read through `&_rapi.bufferLine[start]`. The string
is followed by its terminating U+0000, which may be read; a read past it is
undefined (`none`). -/
def keyAt (bufferLine : List Nat) (start len : Nat) : Option (List Nat) :=
  if start + len ≤ bufferLine.length + 1 then
    some (((bufferLine ++ [0]).drop start).take len)
  else none

/-- The code unit U+FFFD. -/
def replacement : Nat := 65533

/-- The loop `for (; idx <= mappedEnd; ++idx)` of the branch
`if (!mappedFont)`, with `n` iterations left. -/
def replacementLoop (bufferLinePos : List Nat) (size : Nat) : Nat → Nat → Nat → Emission
  | 0, _, _ => { glyphProps := size }
  | n + 1, idx, beg =>
    match bufferLinePos[idx]? with
    | none => { glyphProps := size, stop := some .failFast }
    | some cur =>
      if beg ≠ cur then
        let rest := replacementLoop bufferLinePos size n (idx + 1) cur
        { rest with runs := { key := [replacement], x1 := beg, x2 := cur } :: rest.runs }
      else replacementLoop bufferLinePos size n (idx + 1) beg

/-- The branch `if (!mappedFont)` of `_processBufferLine` for the span from
`idx` to `mappedEnd`: one replacement glyph for every change of column. -/
def replacementRuns (bufferLinePos : List Nat) (size idx mappedEnd : Nat) : Emission :=
  match bufferLinePos[idx]? with
  | none => { glyphProps := size, stop := some .failFast }
  | some beg => replacementLoop bufferLinePos size (mappedEnd - idx) (idx + 1) beg

/-- The loop `for (UINT32 i = 0; i < complexityLength; ++i)` of the branch
`if (isTextSimple)`, at index `i` with `n` iterations left. -/
def simpleRuns (bufferLine bufferLinePos : List Nat) (size idx : Nat) : Nat → Nat → Emission
  | 0, _ => { glyphProps := size }
  | n + 1, i =>
    match keyAt bufferLine (u32 (idx + i)) 1, bufferLinePos[u32 (idx + i)]?,
        bufferLinePos[u32 (idx + i + 1)]? with
    | some key, some x1, some x2 =>
      let rest := simpleRuns bufferLine bufferLinePos size idx n (i + 1)
      { rest with runs := { key := key, x1 := x1, x2 := x2 } :: rest.runs }
    | _, _, _ => { glyphProps := size, stop := some .failFast }

/-- What the retry loop around `GetGlyphs` leaves: `offered` is a ghost list
of the length of `glyphProps` at each attempt, oldest first; `glyphProps` is
its length after the loop; `result` is the exception of `THROW_IF_FAILED`, or
the `canBreakShapingAfter` bits of the successful attempt. -/
structure GlyphsOutcome where
  offered : List Nat
  glyphProps : Nat
  result : Except ErrorCode (Nat → Bool)

/-- The statements `THROW_IF_FAILED(hr); break;` after the attempt number
`retry` of `GetGlyphs`. -/
def getGlyphsLast (env : ShapingEnv) (a : TextAnalyzerResult) (retry size : Nat) : GlyphsOutcome :=
  let r := env.GetGlyphs a retry (u32 size)
  if h : r.1 < 0 then
    { offered := [size], glyphProps := size, result := .error { hr := r.1, failed := h } }
  else { offered := [size], glyphProps := size, result := .ok r.2 }

/-- The loop `for (auto retry = 0;;)` around `GetGlyphs`, at the attempt
number `retry` with `glyphProps.size() = size`. The first argument is
`7 - retry`: the test `++retry < 8` holds exactly when it is not zero. -/
def getGlyphsLoop (env : ShapingEnv) (a : TextAnalyzerResult) : Nat → Nat → Nat → GlyphsOutcome
  | 0, retry, size => getGlyphsLast env a retry size
  | n + 1, retry, size =>
    if (env.GetGlyphs a retry (u32 size)).1 = E_NOT_SUFFICIENT_BUFFER then
      let rest := getGlyphsLoop env a n (retry + 1) (size + size / 2)
      { rest with offered := size :: rest.offered }
    else getGlyphsLast env a retry size

/-- The loop `for (UINT32 i = 0; i < a.textLength; ++i)` that cuts a shaped
segment after every position with `canBreakShapingAfter`, at index `i` with
`n` iterations left and the current run starting at `beg`. -/
def splitLoop (bufferLine bufferLinePos : List Nat) (size : Nat) (a : TextAnalyzerResult)
    (canBreakShapingAfter : Nat → Bool) : Nat → Nat → Nat → Emission
  | 0, _, _ => { glyphProps := size }
  | n + 1, i, beg =>
    if canBreakShapingAfter i then
      match keyAt bufferLine (u32 (a.textPosition + beg)) (i + 1 - beg),
          bufferLinePos[u32 (a.textPosition + beg)]?,
          bufferLinePos[u32 (a.textPosition + i + 1)]? with
      | some key, some x1, some x2 =>
        let rest := splitLoop bufferLine bufferLinePos size a canBreakShapingAfter n (i + 1) (i + 1)
        { rest with runs := { key := key, x1 := x1, x2 := x2 } :: rest.runs }
      | _, _, _ => { glyphProps := size, stop := some .failFast }
    else splitLoop bufferLine bufferLinePos size a canBreakShapingAfter n (i + 1) beg

/-- The body of `for (const auto& a : _rapi.analysisResults)`: the `GetGlyphs`
retries, the forced break after the last position of the segment (a write
into `textProps`, undefined when the index `a.textLength - 1` is outside the
buffer), and the split into runs. -/
def shapeSegment (env : ShapingEnv) (bufferLine bufferLinePos : List Nat) (textProps : Nat)
    (a : TextAnalyzerResult) (size : Nat) : Emission :=
  let shaped := getGlyphsLoop env a 7 0 size
  match shaped.result with
  | .error code => { glyphProps := shaped.glyphProps, stop := some (.thrown (.ResultException code)) }
  | .ok flags =>
    if u32 (a.textLength + 4294967295) < textProps then
      splitLoop bufferLine bufferLinePos shaped.glyphProps a
        (fun i => flags i || i == u32 (a.textLength + 4294967295)) a.textLength 0 0
    else { glyphProps := shaped.glyphProps, stop := some .failFast }

/-- The loop `for (const auto& a : _rapi.analysisResults)`. -/
def complexRuns (env : ShapingEnv) (bufferLine bufferLinePos : List Nat) (textProps : Nat) :
    List TextAnalyzerResult → Nat → Emission
  | [], size => { glyphProps := size }
  | a :: rest, size =>
    (shapeSegment env bufferLine bufferLinePos textProps a size).andThen
      (complexRuns env bufferLine bufferLinePos textProps rest)

/-- The loop `for (UINT32 complexityLength; idx < mappedEnd; idx += complexityLength)`. -/
def complexityLoop (env : ShapingEnv) (bufferLine bufferLinePos : List Nat) (textProps : Nat)
    (mappedEnd : Nat) : Nat → Nat → Nat → Emission
  | 0, _, size => { glyphProps := size, stop := some .outOfFuel }
  | fuel + 1, idx, size =>
    if idx < mappedEnd then
      match env.GetTextComplexity idx (mappedEnd - idx) with
      | .error code => { glyphProps := size, stop := some (.thrown (.ResultException code)) }
      | .ok (isTextSimple, complexityLength) =>
        let block :=
          if isTextSimple then simpleRuns bufferLine bufferLinePos size idx complexityLength 0
          else complexRuns env bufferLine bufferLinePos textProps (Analyze env idx complexityLength) size
        block.andThen
          (complexityLoop env bufferLine bufferLinePos textProps mappedEnd fuel
            (u32 (idx + complexityLength)))
    else { glyphProps := size }

/-- The loop `for (UINT32 idx = 0, mappedEnd; idx < textSize; idx = mappedEnd)`
of `_processBufferLine`. `textFormat` says whether `_getTextFormat` returned a
format (the first statement of the body calls through the pointer). -/
def mappingLoop (env : ShapingEnv) (bufferLine bufferLinePos : List Nat) (textProps : Nat)
    (textFormat : Bool) : Nat → Nat → Nat → Emission
  | 0, _, size => { glyphProps := size, stop := some .outOfFuel }
  | fuel + 1, idx, size =>
    if idx < bufferLine.length then
      if textFormat = false then { glyphProps := size, stop := some .failFast }
      else
        match env.GetFontFamilyName, env.GetFontCollection with
        | some code, _ => { glyphProps := size, stop := some (.thrown (.ResultException code)) }
        | none, some code => { glyphProps := size, stop := some (.thrown (.ResultException code)) }
        | none, none =>
          match env.MapCharacters idx (u32 (u32 bufferLine.length + 4294967296 - idx)) with
          | .error code => { glyphProps := size, stop := some (.thrown (.ResultException code)) }
          | .ok (mappedLength, mappedFont) =>
            let mappedEnd := u32 (idx + mappedLength)
            let span :=
              if mappedFont = false then replacementRuns bufferLinePos size idx mappedEnd
              else
                match env.CreateFontFace idx with
                | some code => { glyphProps := size, stop := some (.thrown (.ResultException code)) }
                | none =>
                  complexityLoop env bufferLine bufferLinePos textProps mappedEnd (fuel + 1) idx size
            span.andThen (mappingLoop env bufferLine bufferLinePos textProps textFormat fuel mappedEnd)
    else { glyphProps := size }

/-- The `_emplaceGlyph` calls of a block, applied in order on row `y`;
`none` when one of them writes outside the cell buffer. -/
def emplaceRuns (y : Nat) : List GlyphRun → Engine → Option Engine
  | [], e => some e
  | r :: rest, e =>
    match _emplaceGlyph r.key y r.x1 r.x2 e with
    | none => none
    | some e1 => emplaceRuns y rest e1

/-- A result of a function whose model takes fuel. -/
inductive Fueled (α : Type) where
  | result (a : α)
  | outOfFuel

/-- The length of `textProps` after the resize at the start of
`_processBufferLine`. -/
def textPropsResized (e : Engine) : Nat :=
  if e._rapi.textPropsSize < e._rapi.bufferLine.length then e._rapi.bufferLine.length
  else e._rapi.textPropsSize

/-- The length of `glyphProps` after the resize at the start of
`_processBufferLine`, where `projectedGlyphSize = 3 * textSize / 2 + 16`. -/
def glyphPropsResized (e : Engine) : Nat :=
  if e._rapi.glyphPropsSize < 3 * e._rapi.bufferLine.length / 2 + 16 then
    3 * e._rapi.bufferLine.length / 2 + 16
  else e._rapi.glyphPropsSize

/-- The loops of `_processBufferLine` on the line held in `_rapi`: the
`_emplaceGlyph` calls they make, in order, and how they end. The loops over
the text get `fuel` iterations each. -/
def shapeLine (env : ShapingEnv) (fuel : Nat) (e : Engine) : Emission :=
  mappingLoop env e._rapi.bufferLine e._rapi.bufferLinePos (textPropsResized e) e._r.textFormats
    fuel 0 (glyphPropsResized e)

/-- The method `AtlasEngine::_processBufferLine`: the scratch buffers are
resized, then the calls of `shapeLine` are made on row `y`. -/
def _processBufferLine (env : ShapingEnv) (fuel : Nat) (y : Nat) (e : Engine) :
    Fueled (Outcome Engine) :=
  let e1 : Engine :=
    { e with
      _rapi := { e._rapi with
                 textPropsSize := textPropsResized e, glyphPropsSize := glyphPropsResized e } }
  let emitted := shapeLine env fuel e
  match emplaceRuns y emitted.runs e1 with
  | none => .result .failFast
  | some e2 =>
    let e3 : Engine := { e2 with _rapi := { e2._rapi with glyphPropsSize := emitted.glyphProps } }
    match emitted.stop with
    | none => .result (.ok e3)
    | some (.thrown ex) => .result (.thrown ex e3)
    | some .failFast => .result .failFast
    | some .outOfFuel => .outOfFuel

/-- The method `AtlasEngine::PaintBufferLine` (`fTrimLeft` and `lineWrapped`
are not used by it). `CATCH_RETURN()` returns the code of any exception;
`none` is a run without a return. -/
def PaintBufferLine (env : ShapingEnv) (fuel : Nat) (clusters : List Cluster) (coord : COORD)
    (e : Engine) : Fueled (Option (HRESULT × Engine)) :=
  match _processBufferLine env fuel (coord.Y % 65536).toNat (withLine clusters e) with
  | .outOfFuel => .outOfFuel
  | .result (.ok s) => .result (some (S_OK, s))
  | .result (.thrown ex s) => .result (some (ex.code.hr, s))
  | .result .failFast => .result none

/-- The number of code units of the first `k` clusters of a line. -/
def unitsBefore (clusters : List Cluster) (k : Nat) : Nat :=
  ((clusters.take k).map fun c => c.text.length).sum

/-- The number of columns of the first `k` clusters of a line. -/
def columnsBefore (clusters : List Cluster) (k : Nat) : Nat :=
  ((clusters.take k).map fun c => c.columns).sum

/-- The intervals `(beg, i)` of segment positions that the split loop cuts
for the break bits `b`, at index `i` with `n` iterations left and the current
run starting at `beg`. -/
def cutsFrom (b : Nat → Bool) : Nat → Nat → Nat → List (Nat × Nat)
  | 0, _, _ => []
  | n + 1, i, beg =>
    if b i then (beg, i) :: cutsFrom b n (i + 1) (i + 1) else cutsFrom b n (i + 1) beg

/-- The run of the segment at text position `p` for the interval `(beg, i)`:
the text `bufferLine[p+beg .. p+i]` and the columns from
`bufferLinePos[p+beg]` to `bufferLinePos[p+i+1]`. -/
def runOf (bufferLine bufferLinePos : List Nat) (p : Nat) (r : Nat × Nat) : GlyphRun :=
  { key := (bufferLine.drop (p + r.1)).take (r.2 + 1 - r.1)
    x1 := bufferLinePos.getD (p + r.1) 0
    x2 := bufferLinePos.getD (p + r.2 + 1) 0 }

/-- The positions of a segment of length `L` after which a run ends: those
with the break bit `b`, and the last one. -/
def segmentBreaks (L : Nat) (b : Nat → Bool) : List Nat :=
  (List.range L).filter fun i => b i || i == L - 1

/-- The intervals `(beg, i)` of a segment of length `L` with the break bits
`b`: each ends at a break position and starts at 0 or right after the break
position before it. -/
def segmentIntervals (L : Nat) (b : Nat → Bool) : List (Nat × Nat) :=
  List.zip (0 :: (segmentBreaks L b).map (· + 1)) (segmentBreaks L b)

/-- The slots returned by `n` successive calls of `_allocateAtlasCell`, oldest first. -/
def allocatedSlots : Nat → Engine → List u16x2
  | 0, _ => []
  | n + 1, e => (_allocateAtlasCell e).1 :: allocatedSlots n (_allocateAtlasCell e).2

/-- What holds of the allocator throughout a font-resource generation: the
atlas is at least two cells wide and its width does not wrap, the position is
inside the row and is not the cursor slot, and the row offset was reached from
row zero in steps of the cell height without passing the (possibly truncated)
atlas height `(cellSize.y * yFit) % 65536`. -/
def AtlasInv (e : Engine) : Prop :=
  0 < e._api.cellSize.x ∧
  e._api.cellSize.x < e._r.atlasSizeInPixel.x ∧
  e._r.atlasSizeInPixel.x + e._api.cellSize.x < 65536 ∧
  e._r.atlasPosition.x < e._r.atlasSizeInPixel.x ∧
  (e._r.atlasPosition.x ≠ 0 ∨ e._r.atlasPosition.y ≠ 0) ∧
  ∃ yFit j : Nat,
    e._r.atlasSizeInPixel.y = (e._api.cellSize.y * yFit) % 65536 ∧
    e._r.atlasPosition.y = (j * e._api.cellSize.y) % 65536 ∧
    ∀ i : Nat, 1 ≤ i → i ≤ j → (i * e._api.cellSize.y) % 65536 < e._r.atlasSizeInPixel.y

/-- The cell grid buffer has one cell per grid position, unless a device or
size rebuild is pending. -/
def CellsSized (e : Engine) : Prop :=
  e._invalidations.device = false → e._invalidations.size = false →
    e._r.cells.length = e._api.cellCount.x * e._api.cellCount.y

/-- All that `Present` may change before an exception is handled: the draw
queue, the cbuffer bit and the ghost call trace. -/
def PresentFrame (e s : Engine) : Prop :=
  ∃ (calls : List BackendCall) (queue : List (glyph_entry × List u16x2)) (cb : Bool),
    s = { e with
          calls := calls
          _r := { e._r with glyphQueue := queue }
          _invalidations := { e._invalidations with cbuffer := cb } }

/-- The states of one font-resource generation: the state a completed
`_recreateFontDependentResources` leaves, and every state reached from it by
`_emplaceGlyph` calls and by steps that leave the cell size, the glyph cache,
the atlas size and the allocator position alone (so: no font or size change,
no device loss, no further font rebuild). -/
inductive Generation : Engine → Prop where
  | start {env : FontEnv} {e g : Engine} :
      _recreateFontDependentResources env e = .ok g → Generation g
  | emplace {e e1 : Engine} (key : List Nat) (y x1 x2 : Nat) :
      Generation e → _emplaceGlyph key y x1 x2 e = some e1 → Generation e1
  | other {e e1 : Engine} :
      Generation e → e1._api.cellSize = e._api.cellSize → e1._r.glyphs = e._r.glyphs →
      e1._r.atlasSizeInPixel = e._r.atlasSizeInPixel →
      e1._r.atlasPosition = e._r.atlasPosition → Generation e1

/-- What holds throughout a generation: the allocator invariant, and every
cache entry has its 16 coordinates. -/
def GenerationInv (e : Engine) : Prop :=
  AtlasInv e ∧ ∀ p ∈ e._r.glyphs, p.2.length = 16

/-- The atlas slots that the `n` cells of row `y` from column `x` on refer to. -/
def glyphSlots (e : Engine) (y x n : Nat) : List u16x2 :=
  (List.range n).map fun (i : Nat) =>
    (e._r.cells.getD (e._api.cellCount.x * y + x + i) {}).glyphIndex16

/-- The states of the font-resource generation that starts in `g`: as
`Generation`, with every `_emplaceGlyph` call made as the assertions of the
function demand, with `x1 < x2` (both `u16`). -/
inductive GenerationFrom (g : Engine) : Engine → Prop where
  | start {env : FontEnv} {e : Engine} :
      _recreateFontDependentResources env e = .ok g → GenerationFrom g g
  | emplace {e e1 : Engine} (key : List Nat) (y x1 x2 : Nat) :
      GenerationFrom g e → x1 < x2 → x2 < 65536 →
      _emplaceGlyph key y x1 x2 e = some e1 → GenerationFrom g e1
  | other {e e1 : Engine} :
      GenerationFrom g e → e1._api.cellSize = e._api.cellSize → e1._r.glyphs = e._r.glyphs →
      e1._r.atlasSizeInPixel = e._r.atlasSizeInPixel →
      e1._r.atlasPosition = e._r.atlasPosition → GenerationFrom g e1

/-- Every cache entry has a first slot other than `(0, 0)`, the value by which
`_emplaceGlyph` recognises a key it has not seen. -/
def CacheLive (e : Engine) : Prop :=
  ∀ p ∈ e._r.glyphs, p.2.getD 0 {} ≠ ({} : u16x2)

/-- The engine after `n` successive calls of `_allocateAtlasCell`. -/
def allocateN : Nat → Engine → Engine
  | 0, e => e
  | n + 1, e => allocateN n (_allocateAtlasCell e).2

/-- Whether the next call of `_allocateAtlasCell` wraps around: both tests of
the function hold and the position is reset to the first slot after the
cursor slot. -/
def allocatorWraps (e : Engine) : Bool :=
  decide ((e._r.atlasPosition.x + e._api.cellSize.x) % 65536 ≥ e._r.atlasSizeInPixel.x ∧
    (e._r.atlasPosition.y + e._api.cellSize.y) % 65536 ≥ e._r.atlasSizeInPixel.y)

/-- Whether one of the next `n` calls of `_allocateAtlasCell` wraps around. -/
def wrapsWithin : Nat → Engine → Bool
  | 0, _ => false
  | n + 1, e => allocatorWraps e || wrapsWithin n (_allocateAtlasCell e).2

/-- The atlas slots a cache entry holds: the first `attributes.cells + 1` of
its coordinates (the decoding of the cell count that `_drawGlyph` uses). -/
def heldSlots (p : glyph_entry × List u16x2) : List u16x2 :=
  p.2.take (p.1.attributes.cells + 1)

/-- The number of atlas slots the entries of the cache hold. -/
def slotsHeld (e : Engine) : Nat :=
  (e._r.glyphs.map fun p => p.1.attributes.cells + 1).sum

/-- The allocator invariant `AtlasInv` with the row number `j` of the position
made explicit, and the fact that no row offset passed so far is 0. -/
def AtlasRow (e : Engine) (j : Nat) : Prop :=
  0 < e._api.cellSize.x ∧
  e._api.cellSize.x < e._r.atlasSizeInPixel.x ∧
  e._r.atlasSizeInPixel.x + e._api.cellSize.x < 65536 ∧
  e._r.atlasPosition.x < e._r.atlasSizeInPixel.x ∧
  (∃ yFit : Nat, e._r.atlasSizeInPixel.y = (e._api.cellSize.y * yFit) % 65536) ∧
  e._r.atlasPosition.y = (j * e._api.cellSize.y) % 65536 ∧
  (∀ i : Nat, 1 ≤ i → i ≤ j → (i * e._api.cellSize.y) % 65536 < e._r.atlasSizeInPixel.y) ∧
  (∀ i : Nat, 1 ≤ i → i ≤ j → (i * e._api.cellSize.y) % 65536 ≠ 0)

/-- The cache of `e` holds exactly the slots handed out since the generation
started in `g`: the cell size and the atlas size are those of `g`, the
allocator stands where `slotsHeld e` allocations take it from `g`, and the
slots of the entries, oldest entry first, are the slots of these allocations
in order. -/
def SlotsTracked (g e : Engine) : Prop :=
  e._api.cellSize = g._api.cellSize ∧ e._r.atlasSizeInPixel = g._r.atlasSizeInPixel ∧
  e._r.atlasPosition = (allocateN (slotsHeld e) g)._r.atlasPosition ∧
  (e._r.glyphs.reverse.map heldSlots).flatten = allocatedSlots (slotsHeld e) g

/-- The column spans of the runs are consecutive from column `a` to column
`b`: the first run starts at `a`, every run starts where the one before it
ends, no run ends before it starts, and the last run ends at `b`. -/
def ChainFrom : Nat → Nat → List GlyphRun → Prop
  | a, b, [] => a = b
  | a, b, r :: rest => r.x1 = a ∧ r.x1 ≤ r.x2 ∧ ChainFrom r.x2 b rest

/-- The entries of `bufferLinePos` do not decrease. -/
def MonoPos (bufferLinePos : List Nat) : Prop :=
  ∀ i k : Nat, i ≤ k → k < bufferLinePos.length →
    bufferLinePos.getD i 0 ≤ bufferLinePos.getD k 0

/-- The script segments reported for a span partition it: the first starts at
`start`, each one is at least one code unit long and is followed by the next,
and the last ends at `stop`. -/
def SegmentsCover : Nat → Nat → List ScriptAnalysisCall → Prop
  | start, stop, [] => start = stop
  | start, stop, c :: rest =>
    c.textPosition = start ∧ 1 ≤ c.textLength ∧ SegmentsCover (start + c.textLength) stop rest

/-- The shaping services behave as DirectWrite documents them when they are
given at least one code unit: font fallback maps at least one and at most the
offered number of code units, the complexity test looks at at least one and
at most the offered number of code units, and script analysis partitions the
span it is given. -/
def ServicesCover (env : ShapingEnv) : Prop :=
  (∀ idx len mappedLength mappedFont, 1 ≤ len →
    env.MapCharacters idx len = .ok (mappedLength, mappedFont) →
      1 ≤ mappedLength ∧ mappedLength ≤ len) ∧
  (∀ idx len isTextSimple complexityLength, 1 ≤ len →
    env.GetTextComplexity idx len = .ok (isTextSimple, complexityLength) →
      1 ≤ complexityLength ∧ complexityLength ≤ len) ∧
  (∀ idx len, 1 ≤ len → SegmentsCover idx (idx + len) (env.AnalyzeScript idx len))

/-! ## Atlas capacity and the key hash -/

/-- The constant `wantCells` of `_recreateFontDependentResources`. -/
def wantCells : Nat := 64 * 1024

/-- The local `maxSize` of `_recreateFontDependentResources`. -/
def atlasMaxSize (featureLevel11 : Bool) : Nat :=
  if featureLevel11 then D3D11_REQ_TEXTURE2D_U_OR_V_DIMENSION
  else D3D10_REQ_TEXTURE2D_U_OR_V_DIMENSION

/-- The local `xFit` of `_recreateFontDependentResources` for the cell width
`csx` (`size_t` arithmetic; the division is undefined for `csx = 0`). -/
def xFit (maxSize csx : Nat) : Nat := min wantCells (maxSize / csx)

/-- The local `yFit` of `_recreateFontDependentResources`. -/
def yFit (maxSize csx : Nat) : Nat := (wantCells + xFit maxSize csx - 1) / xFit maxSize csx

/-- Truncation of an arithmetic result to `uint64_t`. -/
def u64 (n : Nat) : Nat := n % 18446744073709551616

/-- The compiler intrinsic `__emulu(unsigned int, unsigned int)`: the 64-bit
product of its arguments, which are converted to 32 bits. -/
def __emulu (a b : Nat) : Nat := (a % 4294967296) * (b % 4294967296)

/-- The compiler intrinsic `_umul128`: the low and the high 64 bits of the
128-bit product. -/
def _umul128 (a b : Nat) : Nat × Nat :=
  ((a * b) % 18446744073709551616, (a * b) / 18446744073709551616)

/-- The compiler intrinsic `__umulh`: the high 64 bits of the 128-bit product. -/
def __umulh (a b : Nat) : Nat := (a * b) / 18446744073709551616

/-- The branches of the lambda `XXH3_mul128_fold64`. -/
inductive Platform where
  | amd64
  | arm64
  | portable
deriving DecidableEq

/-- The lambda `XXH3_mul128_fold64` of `XXH3_len_32_64b` as compiled on each
platform (`_M_AMD64`, `_M_ARM64`, any other). -/
def XXH3_mul128_fold64 (p : Platform) (lhs rhs : Nat) : Nat :=
  match p with
  | .amd64 =>
    let r := _umul128 lhs rhs
    r.1 ^^^ r.2
  | .arm64 =>
    let lo := u64 (lhs * rhs)
    let hi := __umulh lhs rhs
    lo ^^^ hi
  | .portable =>
    let lo_lo := __emulu lhs rhs
    let hi_lo := __emulu (lhs >>> 32) rhs
    let lo_hi := __emulu lhs (rhs >>> 32)
    let hi_hi := __emulu (lhs >>> 32) (rhs >>> 32)
    let cross := u64 ((lo_lo >>> 32) + (hi_lo &&& 0xFFFFFFFF) + lo_hi)
    let hi := u64 ((hi_lo >>> 32) + (cross >>> 32) + hi_hi)
    let lo := u64 (cross <<< 32) ||| (lo_lo &&& 0xFFFFFFFF)
    lo ^^^ hi

/-- The 128-bit multiply and fold in the words of the specification: the low
64 bits of the product xor its high 64 bits. -/
def mul128_fold64_spec (lhs rhs : Nat) : Nat :=
  (lhs * rhs % 2 ^ 64) ^^^ (lhs * rhs / 2 ^ 64)

/-- The table `XXH3_kSecret`. -/
def XXH3_kSecret : List Nat :=
  [0xbe4ba423396cfeb8, 0x1cad21f72c81017c, 0xdb979083e96dd4de, 0x1f67b3b7a4a44072]

/-- The function `XXH3_len_32_64b` on the four 64-bit words `inputs` that
`memcpy` reads from the 32 bytes of the key. -/
def XXH3_len_32_64b (p : Platform) (inputs : List Nat) : Nat :=
  let dataSize := 32
  let acc0 := u64 (dataSize * 0x9E3779B185EBCA87)
  let acc1 := u64 (acc0 + XXH3_mul128_fold64 p (inputs.getD 0 0 ^^^ XXH3_kSecret.getD 0 0)
    (inputs.getD 1 0 ^^^ XXH3_kSecret.getD 1 0))
  let acc2 := u64 (acc1 + XXH3_mul128_fold64 p (inputs.getD 2 0 ^^^ XXH3_kSecret.getD 2 0)
    (inputs.getD 3 0 ^^^ XXH3_kSecret.getD 3 0))
  let acc3 := acc2 ^^^ (acc2 >>> 37)
  let acc4 := u64 (acc3 * 0x165667919E3779F9)
  acc4 ^^^ (acc4 >>> 32)

/-! ## What `_drawGlyph` reads from a key -/

/-- The function `wcsnlen_s(str, n)`: the number of code units before the
first U+0000 among the first `n` code units, or `n` when there is none. -/
def wcsnlen_s (str : List Nat) (n : Nat) : Nat :=
  ((str.take n).takeWhile fun u => u ≠ 0).length

/-- The local `charsLength` of `_drawGlyph`. -/
def drawGlyph_charsLength (entry : glyph_entry) : Nat := wcsnlen_s entry.chars 15

/-- The text `_drawGlyph` passes to `CreateTextLayout`: the first
`charsLength` code units of `entry.chars`. -/
def drawGlyph_text (entry : glyph_entry) : List Nat :=
  entry.chars.take (drawGlyph_charsLength entry)

/-- The local `cells` of `_drawGlyph`: `entry.attributes.cells + UINT32_C(1)`. -/
def drawGlyph_cells (entry : glyph_entry) : Nat := entry.attributes.cells + 1

/-- The text format `_drawGlyph` selects: the arguments `(bold, italic)` it
passes to `_getTextFormat`. -/
def drawGlyph_format (entry : glyph_entry) : Bool × Bool :=
  (entry.attributes.bold, entry.attributes.italic)

/-- The run of the simple fast path for the code unit at text position `p`:
the one code unit `bufferLine[p]` and the columns from `bufferLinePos[p]` to
`bufferLinePos[p + 1]`. -/
def simpleRun (bufferLine bufferLinePos : List Nat) (p : Nat) : GlyphRun :=
  { key := [bufferLine.getD p 0]
    x1 := bufferLinePos.getD p 0
    x2 := bufferLinePos.getD (p + 1) 0 }

/-! ## The text index of the two loops of `_processBufferLine` -/

/-- The consistency of the invalidation bits with the resources: while the
device bit is clear the device and the swap chain exist, and while the device
and the size bit are clear the render target view exists. -/
def ResourcesConsistent (e : Engine) : Prop :=
  (e._invalidations.device = false → e._r.device = true ∧ e._r.swapChain = true) ∧
  (e._invalidations.device = false → e._invalidations.size = false →
    e._r.renderTargetView = true)

/-! ## Concrete scenarios -/

/-- The calls of the scenario: an 8x16 pixel cell, then an 800x400 pixel viewport. -/
def scenarioGeometry : List GeometryCall :=
  [ .UpdateFont (.ok { faceName := "Consolas", weight := 400, engineSizeY := 16,
                       size := { X := 8, Y := 16 } }),
    .SetWindowSize { cx := 800, cy := 400 } ]

/-- The engine the scenario calls leave behind. -/
def scenarioGeometryEngine : Engine :=
  { _api := { cellSize := { x := 8, y := 16 }, cellCount := { x := 100, y := 25 },
              sizeInPixel := { x := 800, y := 400 }, fontName := "Consolas",
              fontSize := 16, fontWeight := 400 }
    _invalidations := { device := true, size := true, font := true } }

/-- The code `E_FAIL` (0x80004005) of the Windows SDK, as a failed code. -/
def E_FAIL : ErrorCode := { hr := -2147467259, failed := by decide }

/-- The code `DXGI_ERROR_DEVICE_REMOVED`, as a failed code. -/
def deviceRemoved : ErrorCode := { hr := DXGI_ERROR_DEVICE_REMOVED, failed := by decide }

/-- A backend in which every call of `_createResources` succeeds. -/
def okCreateResourcesEnv : CreateResourcesEnv :=
  { D3D11CreateDevice := none, beforeSwapChain := none, CreateSwapChain := none, rest := none }

/-- A backend in which every call of `_recreateSizeDependentResources` succeeds. -/
def okSizeEnv : SizeEnv :=
  { ResizeBuffers := none, CreateRenderTargetView := none, allocCells := none,
    garbage := fun _ => {}, CreateCellBuffer := none }

/-- A feature level 11 backend that creates every texture except an empty one. -/
def okFontEnv : FontEnv :=
  { featureLevel11 := true
    CreateTexture2D := fun width height =>
      if width = 0 ∨ height = 0 then some (.ResultException E_FAIL) else none
    rest := none }

/-- A frame start in which every backend call succeeds; the window is 16x16 pixels. -/
def okStartPaintEnv : StartPaintEnv :=
  { clientRect := { cx := 16, cy := 16 }, create := okCreateResourcesEnv,
    size := okSizeEnv, font := okFontEnv }

/-- A new engine after `UpdateFont` with an 8x16 pixel cell. -/
def fontSetEngine : Engine :=
  { _api := { cellSize := { x := 8, y := 16 }, fontName := "Consolas",
              fontSize := 16, fontWeight := 400 }
    _invalidations := { device := true, size := true, font := true } }

/-- The engine `fontSetEngine` after `SetWindowSize` with 16x16 pixels. -/
def smallEngine : Engine :=
  { _api := { cellSize := { x := 8, y := 16 }, cellCount := { x := 2, y := 1 },
              sizeInPixel := { x := 16, y := 16 }, fontName := "Consolas",
              fontSize := 16, fontWeight := 400 }
    _invalidations := { device := true, size := true, font := true } }

/-- The resources of `smallEngine` after a first successful `StartPaint`. -/
def paintedResources : resources :=
  { device := true, swapChain := true, renderTargetView := true, cellBuffer := true,
    glyphBuffer := true, d2dRenderTarget := true, textFormats := true,
    cells := [{}, {}]
    atlasSizeInPixel := { x := 16384, y := 512 }
    atlasPosition := { x := 8, y := 0 } }

/-- The engine `smallEngine` after a first successful `StartPaint`. -/
def paintedEngine : Engine :=
  { smallEngine with
    _r := paintedResources
    _rapi := { dirtyArea := { left := 0, top := 0, right := 2, bottom := 1 } }
    _invalidations := { cbuffer := true }
    calls := [.createResources, .recreateSizeDependentResources,
              .recreateFontDependentResources] }

/-- A frame start in which `ResizeBuffers` fails with `E_FAIL`. -/
def sizeFailEnv : StartPaintEnv :=
  { okStartPaintEnv with
    size := { okSizeEnv with ResizeBuffers := some (.ResultException E_FAIL) } }

/-- The state of `smallEngine` at the throw of `ResizeBuffers`. -/
def sizeFailedEngine : Engine :=
  { smallEngine with
    _r := { device := true, swapChain := true }
    _invalidations := { size := true, font := true, cbuffer := true }
    calls := [.createResources, .recreateSizeDependentResources] }

/-- A `Present` in which the swap chain reports a removed device. -/
def lossPresentEnv : PresentEnv :=
  { CreateTextLayout := fun _ => none, EndDraw := fun _ => none, Map := none,
    Present := some (.ResultException deviceRemoved) }

/-- The state of `paintedEngine` at the throw of the swap chain. -/
def uploadedEngine : Engine :=
  { paintedEngine with
    _invalidations := {}
    calls := [.createResources, .recreateSizeDependentResources,
              .recreateFontDependentResources, .updateConstantBuffer] }

/-- The state `paintedEngine` is left in by the failed `Present`. -/
def lostEngine : Engine :=
  { uploadedEngine with _r := {}, _invalidations := { device := true } }

/-- The engine `paintedEngine` after one more font-dependent rebuild. -/
def regeneratedEngine : Engine :=
  { paintedEngine with
    calls := [.createResources, .recreateSizeDependentResources,
              .recreateFontDependentResources, .recreateFontDependentResources] }

/-- The call that takes a new engine to `fontSetEngine`. -/
def fontSetCalls : List Call :=
  [.UpdateFont (.ok { faceName := "Consolas", weight := 400, engineSizeY := 16,
                      size := { X := 8, Y := 16 } })]

/-- The engine `regeneratedEngine` after `_emplaceGlyph` for the text "A" in
the first cell of row 0. -/
def paintedA : Engine :=
  { regeneratedEngine with
    _r := { paintedResources with
            cells := [{ glyphIndex16 := { x := 8, y := 0 } }, {}]
            glyphs := [(makeEntry [65] {} 1, emptyCoords.set 0 { x := 8, y := 0 })]
            glyphQueue := [(makeEntry [65] {} 1, emptyCoords.set 0 { x := 8, y := 0 })]
            atlasPosition := { x := 16, y := 0 } } }

/-- The calls that take a new engine to `narrowEngine`: an 8x16 pixel cell,
then a viewport of 5x16 pixels, narrower than one cell. -/
def narrowCalls : List Call :=
  [.UpdateFont (.ok { faceName := "Consolas", weight := 400, engineSizeY := 16,
                      size := { X := 8, Y := 16 } }),
   .SetWindowSize { cx := 5, cy := 16 }]

/-- The engine with an 8x16 pixel cell in a 5x16 pixel viewport: the cell
count is `(0, 1)`. -/
def narrowEngine : Engine :=
  { _api := { cellSize := { x := 8, y := 16 }, cellCount := { x := 0, y := 1 },
              sizeInPixel := { x := 5, y := 16 }, fontName := "Consolas",
              fontSize := 16, fontWeight := 400 }
    _invalidations := { device := true, size := true, font := true } }

/-- The engine `narrowEngine` after a `StartPaint` in which every backend
call succeeds: all three rebuilds ran, the cell buffer is empty (and, its
length being unchanged, no GPU cell buffer was created). -/
def narrowPainted : Engine :=
  { narrowEngine with
    _r := { paintedResources with cells := [], cellBuffer := false }
    _rapi := { dirtyArea := { left := 0, top := 0, right := 0, bottom := 1 } }
    _invalidations := { cbuffer := true }
    calls := [.createResources, .recreateSizeDependentResources,
              .recreateFontDependentResources] }

/-- Shaping services for plain text: every code unit is mapped to a font and
is simple, script analysis reports one segment for the span it is asked
about, and `GetGlyphs` succeeds without a break inside a segment. -/
def plainShapingEnv : ShapingEnv :=
  { GetFontFamilyName := none
    GetFontCollection := none
    MapCharacters := fun _ textLength => .ok (textLength, true)
    CreateFontFace := fun _ => none
    GetTextComplexity := fun _ textLength => .ok (true, textLength)
    AnalyzeScript := fun textPosition textLength =>
      [{ textPosition := textPosition, textLength := textLength }]
    GetGlyphs := fun _ _ _ => (S_OK, fun _ => false) }

/-- The line "AB": two clusters of one code unit and one column each. -/
def lineAB : List Cluster := [{ text := [65], columns := 1 }, { text := [66], columns := 1 }]

/-- The engine `paintedEngine` after `PaintBufferLine` for `lineAB` on row 0
with `plainShapingEnv`. -/
def paintedAB : Engine :=
  { paintedEngine with
    _r := { paintedResources with
            cells := [{ glyphIndex16 := { x := 8, y := 0 } }, { glyphIndex16 := { x := 16, y := 0 } }]
            glyphs := [(makeEntry [66] {} 1, emptyCoords.set 0 { x := 16, y := 0 }),
                       (makeEntry [65] {} 1, emptyCoords.set 0 { x := 8, y := 0 })]
            glyphQueue := [(makeEntry [65] {} 1, emptyCoords.set 0 { x := 8, y := 0 }),
                           (makeEntry [66] {} 1, emptyCoords.set 0 { x := 16, y := 0 })]
            atlasPosition := { x := 24, y := 0 } }
    _rapi := { bufferLine := [65, 66], bufferLinePos := [0, 1, 2], textPropsSize := 2,
               glyphPropsSize := 19,
               dirtyArea := { left := 0, top := 0, right := 2, bottom := 1 } } }

/-- Shaping services for complex text: as `plainShapingEnv`, but no text is
simple. -/
def complexShapingEnv : ShapingEnv :=
  { plainShapingEnv with GetTextComplexity := fun _ textLength => .ok (false, textLength) }

/-- A `GetGlyphs` that answers buffer-too-small on the first `k` attempts and
succeeds afterwards. -/
def retryShapingEnv (k : Nat) : ShapingEnv :=
  { complexShapingEnv with
    GetGlyphs := fun _ retry _ =>
      if retry < k then (E_NOT_SUFFICIENT_BUFFER, fun _ => false) else (S_OK, fun _ => false) }

/-- The conjunct "kṣa" (U+0915 U+094D U+0937): one cluster of three code
units that occupies two columns. -/
def lineKsha : List Cluster := [{ text := [2325, 2381, 2359], columns := 2 }]

/-- Font fallback that finds no font for any text: the whole remaining text is
one unmapped span. -/
def unmappedShapingEnv : ShapingEnv :=
  { plainShapingEnv with MapCharacters := fun _ textLength => .ok (textLength, false) }

/-- The engine `paintedA` after `_emplaceGlyph` for the text "B" in the second
cell of row 0. -/
def regeneratedAB : Engine :=
  { regeneratedEngine with
    _r := { paintedResources with
            cells := [{ glyphIndex16 := { x := 8, y := 0 } }, { glyphIndex16 := { x := 16, y := 0 } }]
            glyphs := [(makeEntry [66] {} 1, emptyCoords.set 0 { x := 16, y := 0 }),
                       (makeEntry [65] {} 1, emptyCoords.set 0 { x := 8, y := 0 })]
            glyphQueue := [(makeEntry [65] {} 1, emptyCoords.set 0 { x := 8, y := 0 }),
                           (makeEntry [66] {} 1, emptyCoords.set 0 { x := 16, y := 0 })]
            atlasPosition := { x := 24, y := 0 } } }

/-- A `Present` in which every backend call succeeds. -/
def okPresentEnv : PresentEnv :=
  { CreateTextLayout := fun _ => none, EndDraw := fun _ => none, Map := none, Present := none }

/-- The engine `regeneratedAB` after a successful `Present`: the two glyphs
were drawn in queue order and the constant buffer was uploaded. -/
def presentedAB : Engine :=
  { regeneratedAB with
    _r := { regeneratedAB._r with glyphQueue := [] }
    _invalidations := {}
    calls := [.createResources, .recreateSizeDependentResources,
              .recreateFontDependentResources, .recreateFontDependentResources,
              .drawGlyph (makeEntry [65] {} 1) (emptyCoords.set 0 { x := 8, y := 0 }),
              .drawGlyph (makeEntry [66] {} 1) (emptyCoords.set 0 { x := 16, y := 0 }),
              .updateConstantBuffer] }

/-- The calls that take a new engine to `tinyEngine`: a cell of 4096x16385
pixels, then a viewport of 16384x16385 pixels. -/
def tinyCalls : List Call :=
  [.UpdateFont (.ok { faceName := "Consolas", weight := 400, engineSizeY := 16385,
                      size := { X := 4096, Y := 16385 } }),
   .SetWindowSize { cx := 16384, cy := 16385 }]

/-- The engine with a cell of 4096x16385 pixels and a grid of 4x1 cells. -/
def tinyEngine : Engine :=
  { _api := { cellSize := { x := 4096, y := 16385 }, cellCount := { x := 4, y := 1 },
              sizeInPixel := { x := 16384, y := 16385 }, fontName := "Consolas",
              fontSize := 16385, fontWeight := 400 }
    _invalidations := { device := true, size := true, font := true } }

/-- The engine `tinyEngine` after a first successful `StartPaint`. The atlas is
16384 pixels wide (4 cells) and `(16385 * 16384) % 65536 = 16384` pixels high
(one row): it has room for the cursor slot and three glyph slots. -/
def tinyStart : Engine :=
  { tinyEngine with
    _r := { device := true, swapChain := true, renderTargetView := true, cellBuffer := true,
            glyphBuffer := true, d2dRenderTarget := true, textFormats := true,
            cells := [{}, {}, {}, {}]
            atlasSizeInPixel := { x := 16384, y := 16384 }
            atlasPosition := { x := 4096, y := 0 } }
    _rapi := { dirtyArea := { left := 0, top := 0, right := 4, bottom := 1 } }
    _invalidations := { cbuffer := true }
    calls := [.createResources, .recreateSizeDependentResources,
              .recreateFontDependentResources] }

/-- The `_emplaceGlyph` calls for the line "ABCD" of one-column clusters. -/
def runsABCD : List GlyphRun :=
  [{ key := [65], x1 := 0, x2 := 1 }, { key := [66], x1 := 1, x2 := 2 },
   { key := [67], x1 := 2, x2 := 3 }, { key := [68], x1 := 3, x2 := 4 }]

/-- The engine `regeneratedEngine` after `PaintBufferLine` for `lineAB` on row
0 with `plainShapingEnv`. -/
def regeneratedLineAB : Engine :=
  { regeneratedAB with _rapi := paintedAB._rapi }

/-- The calls that take a new engine to `wideStart`: an 8x16 pixel cell, a
viewport of 136x16 pixels (17 columns, one row), a first `StartPaint`, and
white on black as the current colors. -/
def wideCalls : List Call :=
  [.UpdateFont (.ok { faceName := "Consolas", weight := 400, engineSizeY := 16,
                      size := { X := 8, Y := 16 } }),
   .SetWindowSize { cx := 136, cy := 16 },
   .StartPaint okStartPaintEnv,
   .UpdateDrawingBrushes 16777215 0 false false false false]

/-- The engine after `wideCalls`. -/
def wideStart : Engine :=
  { _api := { cellSize := { x := 8, y := 16 }, cellCount := { x := 17, y := 1 },
              sizeInPixel := { x := 136, y := 16 }, fontName := "Consolas",
              fontSize := 16, fontWeight := 400 }
    _r := { paintedResources with cells := List.replicate 17 {} }
    _rapi := { dirtyArea := { left := 0, top := 0, right := 17, bottom := 1 },
               currentColor := { x := 16777215, y := 0 } }
    _invalidations := { cbuffer := true }
    calls := [.createResources, .recreateSizeDependentResources,
              .recreateFontDependentResources] }

/-- A line of 17 clusters, each the one code unit U+0628 in one column. -/
def line17 : List Cluster := List.replicate 17 { text := [1576], columns := 1 }

/-- The engine `wideStart` after `PaintBufferLine` for `line17` on row 0 with
`complexShapingEnv`: one run of 17 columns, of which `_emplaceGlyph` keeps 16;
the cells 0 to 15 refer to the 16 slots of the run, the cell 16 is untouched. -/
def widePainted : Engine :=
  { wideStart with
    _r := { paintedResources with
            cells :=
              ((List.range 16).map fun (i : Nat) =>
                ({ glyphIndex16 := { x := 8 * (i + 1), y := 0 }, flags := 0,
                   color := { x := 16777215, y := 0 } } : cell)) ++ [{}]
            glyphs := [(makeEntry (List.replicate 17 1576) {} 16,
                        (List.range 16).map fun (i : Nat) => ({ x := 8 * (i + 1), y := 0 } : u16x2))]
            glyphQueue := [(makeEntry (List.replicate 17 1576) {} 16,
                            (List.range 16).map fun (i : Nat) => ({ x := 8 * (i + 1), y := 0 } : u16x2))]
            atlasPosition := { x := 136, y := 0 } }
    _rapi := { wideStart._rapi with
               bufferLine := List.replicate 17 1576, bufferLinePos := List.range 18,
               textPropsSize := 17, glyphPropsSize := 41 } }

/-- The calls of the scenario with a large cell: a cell of 100x200 pixels, a
viewport of 200x200 pixels, and a first `StartPaint`. -/
def largeCellCalls : List Call :=
  [.UpdateFont (.ok { faceName := "Consolas", weight := 400, engineSizeY := 200,
                      size := { X := 100, Y := 200 } }),
   .SetWindowSize { cx := 200, cy := 200 },
   .StartPaint okStartPaintEnv]

/-- The engine after `largeCellCalls`: 163 cells fit the atlas width, 403
rows are wanted, and the atlas height 200 * 403 = 80600 is stored as
80600 - 65536 = 15064. -/
def largeCellStart : Engine :=
  { _api := { cellSize := { x := 100, y := 200 }, cellCount := { x := 2, y := 1 },
              sizeInPixel := { x := 200, y := 200 }, fontName := "Consolas",
              fontSize := 200, fontWeight := 400 }
    _r := { device := true, swapChain := true, renderTargetView := true, cellBuffer := true,
            glyphBuffer := true, d2dRenderTarget := true, textFormats := true,
            cells := [{}, {}]
            atlasSizeInPixel := { x := 16300, y := 15064 }
            atlasPosition := { x := 100, y := 0 } }
    _rapi := { dirtyArea := { left := 0, top := 0, right := 2, bottom := 1 } }
    _invalidations := { cbuffer := true }
    calls := [.createResources, .recreateSizeDependentResources,
              .recreateFontDependentResources] }

/-- A frame start in which the creation of the GPU cell buffer fails with
`E_FAIL`. -/
def cellBufferFailEnv : StartPaintEnv :=
  { okStartPaintEnv with
    size := { okSizeEnv with CreateCellBuffer := some (.ResultException E_FAIL) } }

/-- The calls of the retry scenario: an 8x16 pixel cell, a viewport of 16x16
pixels, a `StartPaint` in which the creation of the cell buffer fails, and a
second `StartPaint` in which every backend call succeeds. -/
def retryCalls : List Call :=
  [.UpdateFont (.ok { faceName := "Consolas", weight := 400, engineSizeY := 16,
                      size := { X := 8, Y := 16 } }),
   .SetWindowSize { cx := 16, cy := 16 },
   .StartPaint cellBufferFailEnv,
   .StartPaint okStartPaintEnv]

/-- The state of `smallEngine` after the `StartPaint` with `cellBufferFailEnv`:
the cell array was allocated, the GPU cell buffer was not created, and the
size and font bits are still set. -/
def bufferFailedEngine : Engine :=
  { smallEngine with
    _r := { device := true, swapChain := true, renderTargetView := true, cells := [{}, {}] }
    _invalidations := { size := true, font := true, cbuffer := true }
    calls := [.createResources, .recreateSizeDependentResources] }

/-- The state of `bufferFailedEngine` after the second `StartPaint`: the size
rebuild found the cell array at the right length and did not create the GPU
cell buffer; the font rebuild ran after it. -/
def retriedEngine : Engine :=
  { smallEngine with
    _r := { paintedResources with cellBuffer := false }
    _rapi := { dirtyArea := { left := 0, top := 0, right := 2, bottom := 1 } }
    _invalidations := { cbuffer := true }
    calls := [.createResources, .recreateSizeDependentResources,
              .recreateSizeDependentResources, .recreateFontDependentResources] }

/-- The calls that take a new engine to `paintedEngine`: an 8x16 pixel cell, a
viewport of 16x16 pixels, and a first `StartPaint`. -/
def paintedCalls : List Call :=
  [.UpdateFont (.ok { faceName := "Consolas", weight := 400, engineSizeY := 16,
                      size := { X := 8, Y := 16 } }),
   .SetWindowSize { cx := 16, cy := 16 },
   .StartPaint okStartPaintEnv]

/-- The calls of the scenario with a cell as wide as the texture limit: a cell
of 16384x16 pixels and a viewport of 16384x16 pixels. -/
def maxCellCalls : List Call :=
  [.UpdateFont (.ok { faceName := "Consolas", weight := 400, engineSizeY := 16,
                      size := { X := 16384, Y := 16 } }),
   .SetWindowSize { cx := 16384, cy := 16 }]

/-- The engine after `maxCellCalls`: one cell of 16384x16 pixels. -/
def maxCellEngine : Engine :=
  { _api := { cellSize := { x := 16384, y := 16 }, cellCount := { x := 1, y := 1 },
              sizeInPixel := { x := 16384, y := 16 }, fontName := "Consolas",
              fontSize := 16, fontWeight := 400 }
    _invalidations := { device := true, size := true, font := true } }

/-! ## Theorems -/

theorem u16x2_div_eq {a b c : u16x2} (h : u16x2.div a b = some c) :
    b.x ≠ 0 ∧ b.y ≠ 0 ∧ c.x = a.x / b.x ∧ c.y = a.y / b.y := by
  unfold u16x2.div at h
  split at h
  · exact absurd h (by simp)
  · rename_i hb
    have hc : c = { x := a.x / b.x, y := a.y / b.y } := by
      simpa using h.symm
    subst hc
    exact ⟨fun h0 => hb (Or.inl h0), fun h0 => hb (Or.inr h0), rfl, rfl⟩

theorem SetWindowSize_cellCount {pixels : SIZE} {e e1 : Engine} {hr : HRESULT}
    (h : SetWindowSize pixels e = some (hr, e1)) (inv : CellCountCached e) :
    CellCountCached e1 := by
  unfold SetWindowSize at h
  split at h
  · exact absurd h (by simp)
  · split at h
    · split at h
      · exact absurd h (by simp)
      · rename_i cc hdiv
        have he : e1 = _ := (Prod.mk.inj (Option.some.inj h)).2.symm
        subst he
        obtain ⟨_, _, hx, hy⟩ := u16x2_div_eq hdiv
        intro _ _
        exact ⟨hx, hy⟩
    · have he : e1 = e := (Prod.mk.inj (Option.some.inj h)).2.symm
      subst he
      exact inv

theorem UpdateFont_cellCount {proposed : Except ErrorCode FontInfo} {e e1 : Engine}
    {hr : HRESULT} (h : UpdateFont proposed e = some (hr, e1)) (inv : CellCountCached e) :
    CellCountCached e1 := by
  unfold UpdateFont at h
  split at h
  · have he : e1 = e := (Prod.mk.inj (Option.some.inj h)).2.symm
    subst he
    exact inv
  · split at h
    · exact absurd h (by simp)
    · simp only at h
      split at h
      · exact absurd h (by simp)
      · split at h
        · split at h
          · exact absurd h (by simp)
          · rename_i cc hdiv
            have he : e1 = _ := (Prod.mk.inj (Option.some.inj h)).2.symm
            subst he
            obtain ⟨_, _, hx, hy⟩ := u16x2_div_eq hdiv
            intro _ _
            exact ⟨hx, hy⟩
        · have he : e1 = _ := (Prod.mk.inj (Option.some.inj h)).2.symm
          subst he
          exact inv

theorem runGeometry_cellCount (calls : List GeometryCall) :
    ∀ e e1 : Engine, CellCountCached e → runGeometry e calls = some e1 → CellCountCached e1 := by
  induction calls with
  | nil =>
    intro e e1 inv h
    have he : e1 = e := (Option.some.inj h).symm
    subst he
    exact inv
  | cons c cs ih =>
    intro e e1 inv h
    unfold runGeometry at h
    split at h
    · exact absurd h (by simp)
    · rename_i hr e2 hstep
      refine ih e2 e1 ?_ h
      cases c with
      | SetWindowSize pixels => exact SetWindowSize_cellCount hstep inv
      | UpdateFont proposed => exact UpdateFont_cellCount hstep inv

/-- C1: in every state reached from a new engine by a sequence of
`SetWindowSize` and `UpdateFont` calls, a cell size with two non-zero
components gives `cellCount = sizeInPixel / cellSize` (integer division,
componentwise). -/
theorem C1_cellCount_is_quotient (calls : List GeometryCall) (e : Engine)
    (hrun : runGeometry Engine.new calls = some e)
    (hx : e._api.cellSize.x ≠ 0) (hy : e._api.cellSize.y ≠ 0) :
    e._api.cellCount.x = e._api.sizeInPixel.x / e._api.cellSize.x ∧
    e._api.cellCount.y = e._api.sizeInPixel.y / e._api.cellSize.y :=
  runGeometry_cellCount calls Engine.new e (fun h _ => absurd rfl h) hrun hx hy

/-- C1, scenario: a viewport of 800x400 pixels with a cell size of 8x16 pixels
gives `cellCount = (100, 25)`. -/
theorem C1_cellCount_is_quotient_witness :
    runGeometry Engine.new scenarioGeometry = some scenarioGeometryEngine ∧
    scenarioGeometryEngine._api.cellCount = { x := 100, y := 25 } ∧
    (scenarioGeometryEngine._api.cellCount.x = 800 / 8 ∧
     scenarioGeometryEngine._api.cellCount.y = 400 / 16) :=
  ⟨rfl, rfl,
    C1_cellCount_is_quotient scenarioGeometry scenarioGeometryEngine rfl
      (by decide) (by decide)⟩

/-! ### Effects of the three rebuild functions -/

theorem createResources_ok {env : CreateResourcesEnv} {e s : Engine}
    (h : _createResources env e = .ok s) :
    s._api = e._api ∧ s._rapi = e._rapi ∧ s.calls = e.calls ++ [.createResources] ∧
    s._invalidations =
      WI_SetFlag (WI_SetFlag (WI_SetFlag e._invalidations .size) .font) .cbuffer ∧
    s._r = { e._r with device := true, swapChain := true } := by
  unfold _createResources at h
  cases h1 : env.D3D11CreateDevice <;> cases h0 : env.beforeSwapChain <;>
    cases h2 : env.CreateSwapChain <;> cases h3 : env.rest <;> simp [h1, h0, h2, h3] at h
  subst h
  simp

theorem createResources_thrown {env : CreateResourcesEnv} {e s : Engine} {ex : Exception}
    (h : _createResources env e = .thrown ex s) :
    s._api = e._api ∧ s._rapi = e._rapi ∧ s.calls = e.calls ++ [.createResources] ∧
    s._invalidations = e._invalidations ∧ s._r.cells = e._r.cells := by
  unfold _createResources at h
  cases h1 : env.D3D11CreateDevice <;> cases h0 : env.beforeSwapChain <;>
    cases h2 : env.CreateSwapChain <;> cases h3 : env.rest <;>
    simp [h1, h0, h2, h3] at h <;>
    (obtain ⟨_, h⟩ := h; subst h; simp)

theorem recreateSize_ok {env : SizeEnv} {e s : Engine}
    (h : _recreateSizeDependentResources env e = .ok s) :
    s._api = e._api ∧ s._rapi = e._rapi ∧
    s.calls = e.calls ++ [.recreateSizeDependentResources] ∧
    s._invalidations = WI_SetFlag e._invalidations .cbuffer ∧
    s._r.cells.length = e._api.cellCount.area ∧
    s._r.device = true ∧ e._r.device = true ∧
    s._r.glyphs = e._r.glyphs ∧ s._r.glyphQueue = e._r.glyphQueue ∧
    s._r.atlasSizeInPixel = e._r.atlasSizeInPixel ∧ s._r.atlasPosition = e._r.atlasPosition := by
  unfold _recreateSizeDependentResources at h
  simp only at h
  split at h
  · exact absurd h (by simp)
  · rename_i hdev
    have hdev1 : e._r.device = true := by
      cases hd : e._r.device
      · exact absurd (Or.inl hd) hdev
      · rfl
    cases h1 : env.ResizeBuffers with
    | some ex1 => simp [h1] at h
    | none =>
      cases h2 : env.CreateRenderTargetView with
      | some ex2 => simp [h1, h2] at h
      | none =>
        simp only [h1, h2] at h
        by_cases hlen : e._api.cellCount.area ≠ e._r.cells.length
        · rw [if_pos hlen] at h
          cases h3 : env.allocCells <;> cases h4 : env.CreateCellBuffer <;>
            simp [h3, h4, Outcome.bind] at h
          subst h
          simp [hdev1]
        · rw [if_neg hlen] at h
          simp [Outcome.bind] at h
          subst h
          simp only [not_not] at hlen
          simp [hdev1, hlen]

theorem recreateSize_thrown {env : SizeEnv} {e s : Engine} {ex : Exception}
    (h : _recreateSizeDependentResources env e = .thrown ex s) :
    s._api = e._api ∧ s._rapi = e._rapi ∧
    s.calls = e.calls ++ [.recreateSizeDependentResources] ∧
    s._invalidations = e._invalidations := by
  unfold _recreateSizeDependentResources at h
  simp only at h
  split at h
  · exact absurd h (by simp)
  · cases h1 : env.ResizeBuffers with
    | some ex1 =>
      simp [h1] at h
      obtain ⟨_, h⟩ := h
      subst h
      simp
    | none =>
      cases h2 : env.CreateRenderTargetView with
      | some ex2 =>
        simp [h1, h2] at h
        obtain ⟨_, h⟩ := h
        subst h
        simp
      | none =>
        simp only [h1, h2] at h
        by_cases hlen : e._api.cellCount.area ≠ e._r.cells.length
        · rw [if_pos hlen] at h
          cases h3 : env.allocCells <;> cases h4 : env.CreateCellBuffer <;>
            simp [h3, h4, Outcome.bind] at h <;>
            (obtain ⟨_, h⟩ := h; subst h; simp)
        · rw [if_neg hlen] at h
          simp [Outcome.bind] at h

theorem recreateFont_ok {env : FontEnv} {e s : Engine}
    (h : _recreateFontDependentResources env e = .ok s) :
    s._api = e._api ∧ s._rapi = e._rapi ∧
    s.calls = e.calls ++ [.recreateFontDependentResources] ∧
    s._invalidations = WI_SetFlag e._invalidations .cbuffer ∧
    s._r.cells = e._r.cells ∧ s._r.device = true ∧ e._r.device = true ∧
    s._r.glyphs = [] ∧ s._r.glyphQueue = [] ∧
    atlasGeometry
      (if env.featureLevel11 then D3D11_REQ_TEXTURE2D_U_OR_V_DIMENSION
       else D3D10_REQ_TEXTURE2D_U_OR_V_DIMENSION) e._api.cellSize
      = some (s._r.atlasSizeInPixel, s._r.atlasPosition) ∧
    env.CreateTexture2D s._r.atlasSizeInPixel.x s._r.atlasSizeInPixel.y = none := by
  unfold _recreateFontDependentResources at h
  simp only at h
  split at h
  · exact absurd h (by simp)
  · rename_i hdev
    have hdev1 : e._r.device = true := by
      cases hd : e._r.device
      · exact absurd hd hdev
      · rfl
    split at h
    · exact absurd h (by simp)
    · rename_i asz apos hgeo
      cases h1 : env.CreateTexture2D asz.x asz.y <;> cases h2 : env.rest <;>
        simp [h1, h2] at h
      subst h
      simp [hdev1, hgeo, h1]

theorem recreateFont_thrown {env : FontEnv} {e s : Engine} {ex : Exception}
    (h : _recreateFontDependentResources env e = .thrown ex s) :
    s._api = e._api ∧ s._rapi = e._rapi ∧
    s.calls = e.calls ++ [.recreateFontDependentResources] ∧
    s._invalidations = e._invalidations ∧ s._r.cells = e._r.cells := by
  unfold _recreateFontDependentResources at h
  simp only at h
  split at h
  · exact absurd h (by simp)
  · split at h
    · exact absurd h (by simp)
    · rename_i asz apos hgeo
      cases h1 : env.CreateTexture2D asz.x asz.y <;> cases h2 : env.rest <;>
        simp [h1, h2] at h <;>
        (obtain ⟨_, h⟩ := h; subst h; simp)

/-! ### The three rebuild blocks of `StartPaint` -/

theorem StartPaint_device_ok {env : StartPaintEnv} {e s : Engine}
    (h : StartPaint_device env e = .ok s) :
    s._invalidations.device = false ∧ s._api = e._api ∧ s._r.cells = e._r.cells ∧
    (e._invalidations.device = false → s = e) ∧
    (e._invalidations.device = true →
      s._invalidations.size = true ∧ s._invalidations.font = true ∧
      s.calls = e.calls ++ [.createResources] ∧ s._r.device = true) := by
  unfold StartPaint_device at h
  by_cases hd : e._invalidations.device = true
  · simp only [WI_IsFlagSet, hd, if_true] at h
    cases hc : _createResources env.create e with
    | ok s1 =>
      simp only [hc, Outcome.bind] at h
      obtain ⟨h1, _, h3, h4, h5⟩ := createResources_ok hc
      have hs : s = _ := (Outcome.ok.inj h).symm
      subst hs
      simp [WI_ClearFlag, WI_SetFlag, h1, h3, h4, h5, hd]
    | thrown ex s1 => simp [hc, Outcome.bind] at h
    | failFast => simp [hc, Outcome.bind] at h
  · have hd0 : e._invalidations.device = false := by simpa using hd
    simp only [WI_IsFlagSet, hd0] at h
    have hs : s = e := by simpa using h.symm
    subst hs
    simp [hd0]

theorem StartPaint_device_thrown {env : StartPaintEnv} {e s : Engine} {ex : Exception}
    (h : StartPaint_device env e = .thrown ex s) :
    e._invalidations.device = true ∧ s._invalidations = e._invalidations ∧
    s._api = e._api ∧ s._r.cells = e._r.cells ∧ s.calls = e.calls ++ [.createResources] := by
  unfold StartPaint_device at h
  by_cases hd : e._invalidations.device = true
  · simp only [WI_IsFlagSet, hd, if_true] at h
    cases hc : _createResources env.create e with
    | ok s1 => simp [hc, Outcome.bind] at h
    | thrown ex1 s1 =>
      simp only [hc, Outcome.bind] at h
      obtain ⟨h1, _, h3, h4, h5⟩ := createResources_thrown hc
      have hs : s = s1 := by
        injection h with _ h2
        exact h2.symm
      subst hs
      exact ⟨hd, h4, h1, h5, h3⟩
    | failFast => simp [hc, Outcome.bind] at h
  · have hd0 : e._invalidations.device = false := by simpa using hd
    simp [WI_IsFlagSet, hd0] at h

theorem StartPaint_size_ok {env : StartPaintEnv} {e s : Engine}
    (h : StartPaint_size env e = .ok s) :
    s._invalidations.size = false ∧ s._invalidations.device = e._invalidations.device ∧
    s._invalidations.font = e._invalidations.font ∧ s._api = e._api ∧
    (e._invalidations.size = false → s = e) ∧
    (e._invalidations.size = true →
      s._r.cells.length = e._api.cellCount.area ∧
      s.calls = e.calls ++ [.recreateSizeDependentResources] ∧ s._r.device = true) := by
  unfold StartPaint_size at h
  by_cases hd : e._invalidations.size = true
  · simp only [WI_IsFlagSet, hd, if_true] at h
    cases hc : _recreateSizeDependentResources env.size e with
    | ok s1 =>
      simp only [hc, Outcome.bind] at h
      obtain ⟨h1, _, h3, h4, h5, h6, _⟩ := recreateSize_ok hc
      have hs : s = _ := (Outcome.ok.inj h).symm
      subst hs
      simp [WI_ClearFlag, WI_SetFlag, h1, h3, h4, h5, h6, hd]
    | thrown ex s1 => simp [hc, Outcome.bind] at h
    | failFast => simp [hc, Outcome.bind] at h
  · have hd0 : e._invalidations.size = false := by simpa using hd
    simp only [WI_IsFlagSet, hd0] at h
    have hs : s = e := by simpa using h.symm
    subst hs
    simp [hd0]

theorem StartPaint_size_thrown {env : StartPaintEnv} {e s : Engine} {ex : Exception}
    (h : StartPaint_size env e = .thrown ex s) :
    e._invalidations.size = true ∧ s._invalidations = e._invalidations ∧
    s._api = e._api ∧ s.calls = e.calls ++ [.recreateSizeDependentResources] := by
  unfold StartPaint_size at h
  by_cases hd : e._invalidations.size = true
  · simp only [WI_IsFlagSet, hd, if_true] at h
    cases hc : _recreateSizeDependentResources env.size e with
    | ok s1 => simp [hc, Outcome.bind] at h
    | thrown ex1 s1 =>
      simp only [hc, Outcome.bind] at h
      obtain ⟨h1, _, h3, h4⟩ := recreateSize_thrown hc
      have hs : s = s1 := by
        injection h with _ h2
        exact h2.symm
      subst hs
      exact ⟨hd, h4, h1, h3⟩
    | failFast => simp [hc, Outcome.bind] at h
  · have hd0 : e._invalidations.size = false := by simpa using hd
    simp [WI_IsFlagSet, hd0] at h

theorem StartPaint_font_ok {env : StartPaintEnv} {e s : Engine}
    (h : StartPaint_font env e = .ok s) :
    s._invalidations.font = false ∧ s._invalidations.device = e._invalidations.device ∧
    s._invalidations.size = e._invalidations.size ∧ s._api = e._api ∧
    s._r.cells = e._r.cells ∧
    (e._invalidations.font = false → s = e) ∧
    (e._invalidations.font = true →
      s.calls = e.calls ++ [.recreateFontDependentResources] ∧ s._r.device = true) := by
  unfold StartPaint_font at h
  by_cases hd : e._invalidations.font = true
  · simp only [WI_IsFlagSet, hd, if_true] at h
    cases hc : _recreateFontDependentResources env.font e with
    | ok s1 =>
      simp only [hc, Outcome.bind] at h
      obtain ⟨h1, _, h3, h4, h5, h6, _⟩ := recreateFont_ok hc
      have hs : s = _ := (Outcome.ok.inj h).symm
      subst hs
      simp [WI_ClearFlag, WI_SetFlag, h1, h3, h4, h5, h6, hd]
    | thrown ex s1 => simp [hc, Outcome.bind] at h
    | failFast => simp [hc, Outcome.bind] at h
  · have hd0 : e._invalidations.font = false := by simpa using hd
    simp only [WI_IsFlagSet, hd0] at h
    have hs : s = e := by simpa using h.symm
    subst hs
    simp [hd0]

theorem StartPaint_font_thrown {env : StartPaintEnv} {e s : Engine} {ex : Exception}
    (h : StartPaint_font env e = .thrown ex s) :
    e._invalidations.font = true ∧ s._invalidations = e._invalidations ∧
    s._api = e._api ∧ s._r.cells = e._r.cells ∧
    s.calls = e.calls ++ [.recreateFontDependentResources] := by
  unfold StartPaint_font at h
  by_cases hd : e._invalidations.font = true
  · simp only [WI_IsFlagSet, hd, if_true] at h
    cases hc : _recreateFontDependentResources env.font e with
    | ok s1 => simp [hc, Outcome.bind] at h
    | thrown ex1 s1 =>
      simp only [hc, Outcome.bind] at h
      obtain ⟨h1, _, h3, h4, h5⟩ := recreateFont_thrown hc
      have hs : s = s1 := by
        injection h with _ h2
        exact h2.symm
      subst hs
      exact ⟨hd, h4, h1, h5, h3⟩
    | failFast => simp [hc, Outcome.bind] at h
  · have hd0 : e._invalidations.font = false := by simpa using hd
    simp [WI_IsFlagSet, hd0] at h

theorem StartPaint_rebuild_ok {env : StartPaintEnv} {e s : Engine}
    (h : StartPaint_rebuild env e = .ok s) :
    ∃ e1 e2, StartPaint_device env e = .ok e1 ∧ StartPaint_size env e1 = .ok e2 ∧
      StartPaint_font env e2 = .ok s := by
  unfold StartPaint_rebuild at h
  cases h1 : StartPaint_device env e with
  | ok e1 =>
    simp only [h1, Outcome.bind] at h
    cases h2 : StartPaint_size env e1 with
    | ok e2 =>
      simp only [h2] at h
      exact ⟨e1, e2, rfl, h2, h⟩
    | thrown ex s1 => simp [h2] at h
    | failFast => simp [h2] at h
  | thrown ex s1 => simp [h1, Outcome.bind] at h
  | failFast => simp [h1, Outcome.bind] at h

theorem StartPaint_rebuild_thrown {env : StartPaintEnv} {e s : Engine} {ex : Exception}
    (h : StartPaint_rebuild env e = .thrown ex s) :
    StartPaint_device env e = .thrown ex s ∨
    (∃ e1, StartPaint_device env e = .ok e1 ∧ StartPaint_size env e1 = .thrown ex s) ∨
    (∃ e1 e2, StartPaint_device env e = .ok e1 ∧ StartPaint_size env e1 = .ok e2 ∧
      StartPaint_font env e2 = .thrown ex s) := by
  unfold StartPaint_rebuild at h
  cases h1 : StartPaint_device env e with
  | ok e1 =>
    simp only [h1, Outcome.bind] at h
    cases h2 : StartPaint_size env e1 with
    | ok e2 =>
      simp only [h2] at h
      exact Or.inr (Or.inr ⟨e1, e2, rfl, h2, h⟩)
    | thrown ex1 s1 =>
      simp only [h2] at h
      exact Or.inr (Or.inl ⟨e1, rfl, h2.trans h⟩)
    | failFast => simp [h2] at h
  | thrown ex1 s1 =>
    simp only [h1, Outcome.bind] at h
    exact Or.inl h
  | failFast => simp [h1, Outcome.bind] at h

/-! ### `StartPaint` as a whole -/

theorem SetWindowSize_effect {pixels : SIZE} {e e1 : Engine} {hr : HRESULT}
    (h : SetWindowSize pixels e = some (hr, e1)) :
    hr = S_OK ∧
    (e1 = e ∨
      (e1._invalidations = WI_SetFlag e._invalidations .size ∧ e1._r = e._r ∧
        e1.calls = e.calls ∧ e1._rapi = e._rapi ∧ e1._api.cellSize = e._api.cellSize)) := by
  unfold SetWindowSize at h
  split at h
  · exact absurd h (by simp)
  · split at h
    · split at h
      · exact absurd h (by simp)
      · obtain ⟨h1, h2⟩ := Prod.mk.inj (Option.some.inj h)
        subst h2
        exact ⟨h1.symm, Or.inr ⟨rfl, rfl, rfl, rfl, rfl⟩⟩
    · obtain ⟨h1, h2⟩ := Prod.mk.inj (Option.some.inj h)
      exact ⟨h1.symm, Or.inl h2.symm⟩

theorem StartPaint_hwnd_effect {clientRect : SIZE} {e e1 : Engine}
    (h : StartPaint_hwnd clientRect e = some e1) :
    e1._invalidations.device = e._invalidations.device ∧
    e1._invalidations.font = e._invalidations.font ∧
    (e._invalidations.size = true → e1._invalidations.size = true) ∧
    (e1._invalidations.size = false → e1._api = e._api) ∧
    e1._r = e._r ∧ e1.calls = e.calls ∧ e1._api.cellSize = e._api.cellSize := by
  unfold StartPaint_hwnd at h
  split at h
  · split at h
    · exact absurd h (by simp)
    · rename_i hr e2 hsw
      obtain ⟨_, hcase⟩ := SetWindowSize_effect hsw
      have key : e2._invalidations.device = e._invalidations.device ∧
          e2._invalidations.font = e._invalidations.font ∧
          (e._invalidations.size = true → e2._invalidations.size = true) ∧
          (e2._invalidations.size = false → e2._api = e._api) ∧
          e2._r = e._r ∧ e2.calls = e.calls ∧ e2._api.cellSize = e._api.cellSize := by
        rcases hcase with h0 | ⟨h1, h2, h3, _, h5⟩
        · subst h0
          simp
        · simp [h1, h2, h3, h5, WI_SetFlag]
      split at h
      · have he : e1 = _ := (Option.some.inj h).symm
        subst he
        simpa [WI_ClearFlag] using key
      · have he : e1 = e2 := (Option.some.inj h).symm
        subst he
        exact key
  · have he : e1 = e := (Option.some.inj h).symm
    subst he
    simp

theorem StartPaint_try_ok {env : StartPaintEnv} {e s : Engine}
    (h : StartPaint_try env e = .ok s) :
    ∃ e1 e2, StartPaint_hwnd env.clientRect e = some e1 ∧
      ((e1._invalidations = invalidation_flags.none ∧ e2 = e1) ∨
        (e1._invalidations ≠ invalidation_flags.none ∧ StartPaint_rebuild env e1 = .ok e2)) ∧
      s._invalidations = e2._invalidations ∧ s._api = e2._api ∧ s._r = e2._r ∧
      s.calls = e2.calls := by
  unfold StartPaint_try at h
  split at h
  · exact absurd h (by simp)
  · rename_i e1 hh
    simp only at h
    by_cases hn : e1._invalidations ≠ invalidation_flags.none
    · rw [if_pos hn] at h
      split at h
      · simp [Outcome.bind] at h
      · cases hr : StartPaint_rebuild env e1 with
        | ok e2 =>
          simp only [hr, Outcome.bind] at h
          have hs : s = _ := (Outcome.ok.inj h).symm
          subst hs
          exact ⟨e1, e2, hh, Or.inr ⟨hn, hr⟩, rfl, rfl, rfl, rfl⟩
        | thrown ex s1 => simp [hr, Outcome.bind] at h
        | failFast => simp [hr, Outcome.bind] at h
    · rw [if_neg hn] at h
      simp only [Outcome.bind] at h
      have hs : s = _ := (Outcome.ok.inj h).symm
      subst hs
      exact ⟨e1, e1, hh, Or.inl ⟨by simpa using hn, rfl⟩, rfl, rfl, rfl, rfl⟩

theorem StartPaint_try_thrown {env : StartPaintEnv} {e s : Engine} {ex : Exception}
    (h : StartPaint_try env e = .thrown ex s) :
    ∃ e1, StartPaint_hwnd env.clientRect e = some e1 ∧
      StartPaint_rebuild env e1 = .thrown ex s := by
  unfold StartPaint_try at h
  split at h
  · exact absurd h (by simp)
  · rename_i e1 hh
    simp only at h
    by_cases hn : e1._invalidations ≠ invalidation_flags.none
    · rw [if_pos hn] at h
      split at h
      · simp [Outcome.bind] at h
      · cases hr : StartPaint_rebuild env e1 with
        | ok e2 => simp [hr, Outcome.bind] at h
        | thrown ex1 s1 =>
          simp only [hr, Outcome.bind] at h
          exact ⟨e1, hh, hr.trans h⟩
        | failFast => simp [hr, Outcome.bind] at h
    · rw [if_neg hn] at h
      simp [Outcome.bind] at h

theorem handleException_failed (hr : HRESULT) (hneg : hr < 0) (e : Engine) :
    (_handleException hr e).1 < 0 := by
  unfold _handleException
  split
  · simp [E_PENDING]
  · exact hneg

theorem catchReturn_succeeded {o : Outcome Engine} {hr : HRESULT} {s : Engine}
    (h : catchReturn o = some (hr, s)) (hs : SUCCEEDED hr) : o = .ok s ∧ hr = S_OK := by
  unfold SUCCEEDED at hs
  unfold catchReturn at h
  split at h
  · obtain ⟨h1, h2⟩ := Prod.mk.inj (Option.some.inj h)
    subst h2
    exact ⟨rfl, h1.symm⟩
  · rename_i c s1
    have hneg := handleException_failed c.hr c.failed s1
    have h1 : _handleException c.hr s1 = (hr, s) := Option.some.inj h
    rw [h1] at hneg
    exact absurd hs (by simpa using hneg)
  · rename_i c s1
    obtain ⟨h1, _⟩ := Prod.mk.inj (Option.some.inj h)
    have hneg := c.failed
    rw [h1] at hneg
    exact absurd hs (not_le.mpr hneg)
  · exact absurd h (by simp)

theorem StartPaint_rebuild_clears {env : StartPaintEnv} {e s : Engine}
    (h : StartPaint_rebuild env e = .ok s) :
    s._invalidations.device = false ∧ s._invalidations.size = false ∧
    s._invalidations.font = false := by
  obtain ⟨e1, e2, hd, hsz, hf⟩ := StartPaint_rebuild_ok h
  obtain ⟨d1, _⟩ := StartPaint_device_ok hd
  obtain ⟨s1, s2, _⟩ := StartPaint_size_ok hsz
  obtain ⟨f1, f2, f3, _⟩ := StartPaint_font_ok hf
  refine ⟨?_, ?_, f1⟩
  · rw [f2, s2, d1]
  · rw [f3, s1]

/-- C8: after every `StartPaint` that returns success, none of the device,
size and font invalidation bits is set, whatever bits were set before. -/
theorem C8_StartPaint_success_clears_bits (env : StartPaintEnv) (e s : Engine) (hr : HRESULT)
    (hrun : StartPaint env e = some (hr, s)) (hok : SUCCEEDED hr) :
    s._invalidations.device = false ∧ s._invalidations.size = false ∧
    s._invalidations.font = false := by
  obtain ⟨htry, _⟩ := catchReturn_succeeded hrun hok
  obtain ⟨e1, e2, _, hcase, hinv, _⟩ := StartPaint_try_ok htry
  rw [hinv]
  rcases hcase with ⟨hnone, he⟩ | ⟨_, hreb⟩
  · subst he
    rw [hnone]
    exact ⟨rfl, rfl, rfl⟩
  · exact StartPaint_rebuild_clears hreb

theorem scenario_fontSet :
    UpdateFont (.ok { faceName := "Consolas", weight := 400, engineSizeY := 16,
                      size := { X := 8, Y := 16 } }) Engine.new = some (S_OK, fontSetEngine) :=
  rfl

theorem scenario_small :
    SetWindowSize { cx := 16, cy := 16 } fontSetEngine = some (S_OK, smallEngine) :=
  rfl

theorem scenario_painted : StartPaint okStartPaintEnv smallEngine = some (S_OK, paintedEngine) :=
  rfl

theorem scenario_regenerated :
    _recreateFontDependentResources okFontEnv paintedEngine = .ok regeneratedEngine :=
  rfl

/-- C8, scenario: the first `StartPaint` of an engine with all three bits set
returns `S_OK` and leaves none of them set. -/
theorem C8_StartPaint_success_clears_bits_witness :
    StartPaint okStartPaintEnv smallEngine = some (S_OK, paintedEngine) ∧
    (smallEngine._invalidations.device = true ∧ smallEngine._invalidations.size = true ∧
      smallEngine._invalidations.font = true) ∧
    (paintedEngine._invalidations.device = false ∧ paintedEngine._invalidations.size = false ∧
      paintedEngine._invalidations.font = false) :=
  ⟨rfl, ⟨rfl, rfl, rfl⟩,
    C8_StartPaint_success_clears_bits okStartPaintEnv smallEngine paintedEngine S_OK rfl
      (Int.le_refl 0)⟩

/-! ### Order of the rebuild steps -/

theorem StartPaint_rebuild_calls_ok {env : StartPaintEnv} {e s : Engine}
    (hdev : e._invalidations.device = true) (h : StartPaint_rebuild env e = .ok s) :
    s.calls = e.calls ++ [.createResources, .recreateSizeDependentResources,
      .recreateFontDependentResources] := by
  obtain ⟨e1, e2, hd, hsz, hf⟩ := StartPaint_rebuild_ok h
  obtain ⟨_, _, _, _, d5⟩ := StartPaint_device_ok hd
  obtain ⟨dsize, dfont, dcalls, _⟩ := d5 hdev
  obtain ⟨_, _, s3, _, _, s6⟩ := StartPaint_size_ok hsz
  obtain ⟨_, scalls, _⟩ := s6 dsize
  obtain ⟨_, _, _, _, _, _, f7⟩ := StartPaint_font_ok hf
  obtain ⟨fcalls, _⟩ := f7 (s3.trans dfont)
  rw [fcalls, scalls, dcalls]
  simp

theorem StartPaint_rebuild_calls_thrown {env : StartPaintEnv} {e s : Engine} {ex : Exception}
    (hdev : e._invalidations.device = true) (h : StartPaint_rebuild env e = .thrown ex s) :
    s.calls = e.calls ++ [.createResources] ∨
    s.calls = e.calls ++ [.createResources, .recreateSizeDependentResources] ∨
    s.calls = e.calls ++ [.createResources, .recreateSizeDependentResources,
      .recreateFontDependentResources] := by
  rcases StartPaint_rebuild_thrown h with hd | ⟨e1, hd, hsz⟩ | ⟨e1, e2, hd, hsz, hf⟩
  · obtain ⟨_, _, _, _, c⟩ := StartPaint_device_thrown hd
    exact Or.inl c
  · obtain ⟨_, _, _, _, d5⟩ := StartPaint_device_ok hd
    obtain ⟨_, _, dcalls, _⟩ := d5 hdev
    obtain ⟨_, _, _, scalls⟩ := StartPaint_size_thrown hsz
    refine Or.inr (Or.inl ?_)
    rw [scalls, dcalls]
    simp
  · obtain ⟨_, _, _, _, d5⟩ := StartPaint_device_ok hd
    obtain ⟨dsize, _, dcalls, _⟩ := d5 hdev
    obtain ⟨_, _, _, _, _, s6⟩ := StartPaint_size_ok hsz
    obtain ⟨_, scalls, _⟩ := s6 dsize
    obtain ⟨_, _, _, _, fcalls⟩ := StartPaint_font_thrown hf
    refine Or.inr (Or.inr ?_)
    rw [fcalls, scalls, dcalls]
    simp

theorem handleException_calls (hr : HRESULT) (e : Engine) :
    (_handleException hr e).2.calls = e.calls := by
  unfold _handleException
  split <;> rfl

theorem catchReturn_cases {o : Outcome Engine} {hr : HRESULT} {s : Engine}
    (h : catchReturn o = some (hr, s)) :
    (o = .ok s ∧ hr = S_OK) ∨
    (∃ ex s1, o = .thrown ex s1 ∧ s.calls = s1.calls ∧ hr < 0) := by
  unfold catchReturn at h
  split at h
  · obtain ⟨h1, h2⟩ := Prod.mk.inj (Option.some.inj h)
    subst h2
    exact Or.inl ⟨rfl, h1.symm⟩
  · rename_i c s1
    have h1 : _handleException c.hr s1 = (hr, s) := Option.some.inj h
    have hneg := handleException_failed c.hr c.failed s1
    have hcalls := handleException_calls c.hr s1
    rw [h1] at hneg hcalls
    exact Or.inr ⟨_, s1, rfl, hcalls, hneg⟩
  · rename_i c s1
    obtain ⟨h1, h2⟩ := Prod.mk.inj (Option.some.inj h)
    have hneg := c.failed
    rw [h1] at hneg
    subst h2
    exact Or.inr ⟨_, _, rfl, rfl, hneg⟩
  · exact absurd h (by simp)

theorem StartPaint_device_completes {env : StartPaintEnv} {e c : Engine}
    (hdev : e._invalidations.device = true) (hc : _createResources env.create e = .ok c) :
    StartPaint_device env e =
      .ok { c with _invalidations := WI_ClearFlag c._invalidations .device } := by
  unfold StartPaint_device
  simp only [WI_IsFlagSet, hdev, if_true, hc, Outcome.bind]

theorem StartPaint_size_completes {env : StartPaintEnv} {e c : Engine}
    (hsize : e._invalidations.size = true)
    (hc : _recreateSizeDependentResources env.size e = .ok c) :
    StartPaint_size env e =
      .ok { c with _invalidations := WI_ClearFlag c._invalidations .size } := by
  unfold StartPaint_size
  simp only [WI_IsFlagSet, hsize, if_true, hc, Outcome.bind]

/-- C6: a completed `_createResources` leaves the size, font and cbuffer bits
set; a `StartPaint` that finds the device bit set starts the rebuild functions
in the order device, size, font: when `_createResources` completes,
`_recreateSizeDependentResources` is started in the same call, when that
completes, `_recreateFontDependentResources` is started in the same call, and
when `StartPaint` returns success it has run exactly these three, in this
order. Only a throwing step cuts the sequence short. -/
theorem C6_device_rebuild_cascades (env : StartPaintEnv) (e s : Engine) (hr : HRESULT)
    (hdev : e._invalidations.device = true) (hrun : StartPaint env e = some (hr, s)) :
    (∀ (cenv : CreateResourcesEnv) (e0 c : Engine), _createResources cenv e0 = .ok c →
      c._invalidations.size = true ∧ c._invalidations.font = true ∧
      c._invalidations.cbuffer = true) ∧
    (s.calls = e.calls ++ [.createResources] ∨
      s.calls = e.calls ++ [.createResources, .recreateSizeDependentResources] ∨
      s.calls = e.calls ++ [.createResources, .recreateSizeDependentResources,
        .recreateFontDependentResources]) ∧
    (∀ e1 c : Engine, StartPaint_hwnd env.clientRect e = some e1 →
      _createResources env.create e1 = .ok c →
      (s.calls = e.calls ++ [.createResources, .recreateSizeDependentResources] ∨
        s.calls = e.calls ++ [.createResources, .recreateSizeDependentResources,
          .recreateFontDependentResources]) ∧
      ∀ c2 : Engine,
        _recreateSizeDependentResources env.size
          { c with _invalidations := WI_ClearFlag c._invalidations .device } = .ok c2 →
        s.calls = e.calls ++ [.createResources, .recreateSizeDependentResources,
          .recreateFontDependentResources]) ∧
    (SUCCEEDED hr →
      s.calls = e.calls ++ [.createResources, .recreateSizeDependentResources,
        .recreateFontDependentResources]) := by
  refine ⟨?_, ?_⟩
  · intro cenv e0 c hc
    obtain ⟨_, _, _, hinv, _⟩ := createResources_ok hc
    rw [hinv]
    simp [WI_SetFlag]
  · have hfull : ∀ s1, StartPaint_try env e = .ok s1 →
        s1.calls = e.calls ++ [.createResources, .recreateSizeDependentResources,
          .recreateFontDependentResources] := by
      intro s1 htry
      obtain ⟨e1, e2, hh, hcase, _, _, _, hcalls⟩ := StartPaint_try_ok htry
      obtain ⟨w1, _, _, _, _, w6, _⟩ := StartPaint_hwnd_effect hh
      rcases hcase with ⟨hnone, _⟩ | ⟨_, hreb⟩
      · rw [hnone, hdev] at w1
        exact absurd w1 (by simp [invalidation_flags.none])
      · rw [hcalls, StartPaint_rebuild_calls_ok (w1.trans hdev) hreb, w6]
    rcases catchReturn_cases hrun with ⟨hok, _⟩ | ⟨ex, s1, hth, hcalls, hneg⟩
    · exact ⟨Or.inr (Or.inr (hfull s hok)),
        fun _ _ _ _ => ⟨Or.inr (hfull s hok), fun _ _ => hfull s hok⟩, fun _ => hfull s hok⟩
    · obtain ⟨e1, hh, hreb⟩ := StartPaint_try_thrown hth
      obtain ⟨w1, _, _, _, _, w6, _⟩ := StartPaint_hwnd_effect hh
      have hdev1 : e1._invalidations.device = true := w1.trans hdev
      refine ⟨?_, ?_, fun hs => absurd hs (not_le.mpr hneg)⟩
      · rw [hcalls, ← w6]
        exact StartPaint_rebuild_calls_thrown hdev1 hreb
      · intro e1b c hhb hc
        have he : e1b = e1 := Option.some.inj (hhb.symm.trans hh)
        subst he
        have hdok := StartPaint_device_completes hdev1 hc
        obtain ⟨_, _, _, cinv, _⟩ := createResources_ok hc
        obtain ⟨_, _, _, _, d5⟩ := StartPaint_device_ok hdok
        obtain ⟨dsize, _, dcalls, _⟩ := d5 hdev1
        rcases StartPaint_rebuild_thrown hreb with hd | ⟨e2, hd, hsz⟩ | ⟨e2, e3, hd, hsz, hf⟩
        · rw [hdok] at hd
          exact absurd hd (by simp)
        · have he2 : e2 = _ := (Outcome.ok.inj (hdok.symm.trans hd)).symm
          obtain ⟨_, _, _, scalls⟩ := StartPaint_size_thrown hsz
          refine ⟨Or.inl ?_, ?_⟩
          · rw [hcalls, scalls, he2, dcalls, w6]
            simp
          · intro c2 hc2
            rw [he2] at hsz
            rw [StartPaint_size_completes dsize hc2] at hsz
            exact absurd hsz (by simp)
        · have he2 : e2 = _ := (Outcome.ok.inj (hdok.symm.trans hd)).symm
          obtain ⟨_, _, _, _, _, s6⟩ := StartPaint_size_ok hsz
          obtain ⟨_, _, _, _, fcalls⟩ := StartPaint_font_thrown hf
          have hsize2 : e2._invalidations.size = true := by
            rw [he2]
            exact dsize
          have hfullc : s.calls = e.calls ++ [.createResources, .recreateSizeDependentResources,
              .recreateFontDependentResources] := by
            rw [hcalls, fcalls, (s6 hsize2).2.1, he2, dcalls, w6]
            simp
          exact ⟨Or.inr hfullc, fun _ _ => hfullc⟩

/-- C6, scenario: the first `StartPaint` finds the device bit set and runs the
device, size and font rebuild, in this order. -/
theorem C6_device_rebuild_cascades_witness :
    smallEngine._invalidations.device = true ∧
    StartPaint okStartPaintEnv smallEngine = some (S_OK, paintedEngine) ∧
    paintedEngine.calls = smallEngine.calls ++ [.createResources,
      .recreateSizeDependentResources, .recreateFontDependentResources] :=
  ⟨rfl, rfl,
    (C6_device_rebuild_cascades okStartPaintEnv smallEngine paintedEngine S_OK rfl rfl).2.2.2
      (Int.le_refl 0)⟩

/-! ### Failures -/

theorem handleException_other {hr : HRESULT} (h : ¬ isDeviceLoss hr) (e : Engine) :
    _handleException hr e = (hr, e) := by
  unfold _handleException
  rw [if_neg h]

theorem handleException_loss {hr : HRESULT} (h : isDeviceLoss hr) (e : Engine) :
    _handleException hr e =
      (E_PENDING, { e with _r := {}, _invalidations := { e._invalidations with device := true } }) := by
  unfold _handleException
  rw [if_pos h]
  rfl

/-- C7: when a rebuild step of `StartPaint` throws an error that is not a
device loss, `StartPaint` returns that error code, and on return the bit of the
failed step is still set, as is the bit of every later step that was set. The
last entry of `calls` names the step that failed. -/
theorem C7_failed_step_keeps_bit (env : StartPaintEnv) (e s : Engine) (ex : Exception)
    (hthrow : StartPaint_try env e = .thrown ex s) (hother : ¬ isDeviceLoss ex.code.hr) :
    StartPaint env e = some (ex.code.hr, s) ∧
    ((∃ pre, s.calls = pre ++ [.createResources] ∧ s._invalidations.device = true ∧
        (e._invalidations.size = true → s._invalidations.size = true) ∧
        (e._invalidations.font = true → s._invalidations.font = true)) ∨
     (∃ pre, s.calls = pre ++ [.recreateSizeDependentResources] ∧
        s._invalidations.size = true ∧
        (e._invalidations.font = true ∨ e._invalidations.device = true →
          s._invalidations.font = true)) ∨
     (∃ pre, s.calls = pre ++ [.recreateFontDependentResources] ∧
        s._invalidations.font = true)) := by
  constructor
  · unfold StartPaint
    rw [hthrow]
    cases ex with
    | ResultException c =>
      simp only [catchReturn]
      have hc : ¬ isDeviceLoss c.hr := hother
      rw [handleException_other hc]
      rfl
    | other c => rfl
  · obtain ⟨e1, hh, hreb⟩ := StartPaint_try_thrown hthrow
    obtain ⟨w1, w2, w3, _⟩ := StartPaint_hwnd_effect hh
    rcases StartPaint_rebuild_thrown hreb with hd | ⟨e2, hd, hsz⟩ | ⟨e2, e3, hd, hsz, hf⟩
    · obtain ⟨t1, t2, _, _, t5⟩ := StartPaint_device_thrown hd
      refine Or.inl ⟨e1.calls, t5, ?_, ?_, ?_⟩
      · rw [t2, t1]
      · intro hs
        rw [t2]
        exact w3 hs
      · intro hs
        rw [t2, w2]
        exact hs
    · obtain ⟨_, _, _, d4, d5⟩ := StartPaint_device_ok hd
      obtain ⟨t1, t2, _, t4⟩ := StartPaint_size_thrown hsz
      refine Or.inr (Or.inl ⟨e2.calls, t4, ?_, ?_⟩)
      · rw [t2, t1]
      · intro hs
        rw [t2]
        cases hdev : e1._invalidations.device
        · rw [d4 hdev, w2]
          rcases hs with hs | hs
          · exact hs
          · rw [w1.symm.trans hdev] at hs
            exact absurd hs (by simp)
        · exact (d5 hdev).2.1
    · obtain ⟨t1, t2, _, _, t5⟩ := StartPaint_font_thrown hf
      exact Or.inr (Or.inr ⟨e3.calls, t5, by rw [t2, t1]⟩)

/-- C7, scenario: `ResizeBuffers` fails with `E_FAIL` in the first frame;
`StartPaint` returns `E_FAIL` and the size and font bits are still set. -/
theorem C7_failed_step_keeps_bit_witness :
    StartPaint sizeFailEnv smallEngine = some (E_FAIL.hr, sizeFailedEngine) ∧
    sizeFailedEngine._invalidations.size = true ∧
    sizeFailedEngine._invalidations.font = true :=
  ⟨(C7_failed_step_keeps_bit sizeFailEnv smallEngine sizeFailedEngine
      (.ResultException E_FAIL) rfl (by decide)).1, rfl, rfl⟩

/-- C10, as stated, fails: `E_PENDING` is an error code that is none of the
three device-loss codes, and `_handleException` returns `E_PENDING` for it. -/
theorem C10_counterexample :
    E_PENDING < 0 ∧ ¬ isDeviceLoss E_PENDING ∧
    (_handleException E_PENDING Engine.new).1 = E_PENDING :=
  ⟨by decide, by decide, rfl⟩

/-- C10, amended: for every code that is none of the three device-loss codes,
`_handleException` returns exactly that code and leaves the engine (resources
and invalidation bits) unchanged; the returned code is `E_PENDING` only when
the code passed in is `E_PENDING`. -/
theorem C10_other_failure_surfaced (hr : HRESULT) (e : Engine) (hother : ¬ isDeviceLoss hr) :
    _handleException hr e = (hr, e) ∧
    (_handleException hr e).2._r = e._r ∧
    (_handleException hr e).2._invalidations = e._invalidations ∧
    (hr ≠ E_PENDING → (_handleException hr e).1 ≠ E_PENDING) := by
  rw [handleException_other hother]
  exact ⟨rfl, rfl, rfl, fun h => h⟩

/-- C10, scenario: `E_FAIL` is returned as it is. -/
theorem C10_other_failure_surfaced_witness :
    _handleException E_FAIL.hr paintedEngine = (E_FAIL.hr, paintedEngine) :=
  (C10_other_failure_surfaced E_FAIL.hr paintedEngine (by decide)).1

/-! ### The atlas allocator -/

theorem yolo_narrow_nat {n m : Nat} (h : yolo_narrow (n : Int) = some m) :
    m = n ∧ n ≤ 65535 := by
  unfold yolo_narrow at h
  split at h
  · rename_i hb
    have hm : (n : Int).toNat = m := Option.some.inj h
    rw [Int.toNat_natCast] at hm
    exact ⟨hm.symm, by omega⟩
  · exact absurd h (by simp)

theorem atlasGeometry_spec {maxSize : Nat} {cellSize asz apos : u16x2}
    (hmax : maxSize ≤ 16384) (h : atlasGeometry maxSize cellSize = some (asz, apos)) :
    0 < cellSize.x ∧ cellSize.x < asz.x ∧ asz.x + cellSize.x < 65536 ∧ asz.x ≤ maxSize ∧
    apos = { x := cellSize.x, y := 0 } ∧
    ∃ yFit : Nat, asz.y = (cellSize.y * yFit) % 65536 := by
  unfold atlasGeometry at h
  simp only at h
  split at h
  · exact absurd h (by simp)
  · rename_i hcsx
    split at h
    · exact absurd h (by simp)
    · rename_i hxfit
      split at h
      · rename_i xFit16 yFit16 hx hy
        obtain ⟨hx1, _⟩ := yolo_narrow_nat hx
        obtain ⟨hy1, hy2⟩ := yolo_narrow_nat hy
        obtain ⟨ha, hp⟩ := Prod.mk.inj (Option.some.inj h)
        have hpos : 0 < cellSize.x := Nat.pos_of_ne_zero hcsx
        have hxle : min (64 * 1024) (maxSize / cellSize.x) ≤ maxSize / cellSize.x :=
          Nat.min_le_right _ _
        have hmul : cellSize.x * (maxSize / cellSize.x) ≤ maxSize := Nat.mul_div_le _ _
        have hprod : cellSize.x * min (64 * 1024) (maxSize / cellSize.x) ≤ maxSize :=
          le_trans (Nat.mul_le_mul_left _ hxle) hmul
        have hxfit2 : 2 ≤ min (64 * 1024) (maxSize / cellSize.x) := by
          by_contra hlt
          have h1 : min (64 * 1024) (maxSize / cellSize.x) = 1 := by omega
          rw [h1] at hy2
          norm_num at hy2
        have h2cs : 2 * cellSize.x ≤ cellSize.x * min (64 * 1024) (maxSize / cellSize.x) := by
          calc 2 * cellSize.x = cellSize.x * 2 := Nat.mul_comm _ _
            _ ≤ cellSize.x * min (64 * 1024) (maxSize / cellSize.x) :=
              Nat.mul_le_mul_left _ hxfit2
        have hax : asz.x = cellSize.x * min (64 * 1024) (maxSize / cellSize.x) := by
          rw [← ha, hx1]
          simp only [u16x2.mul]
          exact Nat.mod_eq_of_lt (by omega)
        have hay : asz.y = (cellSize.y * ((64 * 1024 + min (64 * 1024) (maxSize / cellSize.x) - 1) /
            min (64 * 1024) (maxSize / cellSize.x))) % 65536 := by
          rw [← ha, hy1]
          simp only [u16x2.mul]
        have hapos : apos = { x := cellSize.x, y := 0 } := by
          rw [← hp]
          simp only [u16x2.mul, Nat.mul_one, Nat.mul_zero, Nat.zero_mod]
          rw [Nat.mod_eq_of_lt (by omega)]
        exact ⟨hpos, by omega, by omega, by omega, hapos, _, hay⟩
      · exact absurd h (by simp)

theorem recreateFont_AtlasInv {env : FontEnv} {e g : Engine}
    (h : _recreateFontDependentResources env e = .ok g) : AtlasInv g := by
  obtain ⟨hapi, _, _, _, _, _, _, _, _, hgeo, _⟩ := recreateFont_ok h
  have hmax : (if env.featureLevel11 then D3D11_REQ_TEXTURE2D_U_OR_V_DIMENSION
      else D3D10_REQ_TEXTURE2D_U_OR_V_DIMENSION) ≤ 16384 := by
    split <;> decide
  obtain ⟨h1, h2, h3, _, h5, yFit, h6⟩ := atlasGeometry_spec hmax hgeo
  unfold AtlasInv
  rw [hapi, h5]
  refine ⟨h1, h2, h3, h2, Or.inl (Nat.pos_iff_ne_zero.mp h1), yFit, 0, h6, by simp, ?_⟩
  intro i hi1 hi0
  omega

theorem wrap_before_zero {csy yFit j ay : Nat} (hay : ay = (csy * yFit) % 65536)
    (hwalk : ∀ i : Nat, 1 ≤ i → i ≤ j → (i * csy) % 65536 < ay)
    (hlt : ((j + 1) * csy) % 65536 < ay) : ((j + 1) * csy) % 65536 ≠ 0 := by
  intro hzero
  obtain ⟨k, hk⟩ := Nat.dvd_of_mod_eq_zero hzero
  have hsplit : csy * yFit = (yFit % (j + 1)) * csy + 65536 * (k * (yFit / (j + 1))) := by
    have hdm : (j + 1) * (yFit / (j + 1)) + yFit % (j + 1) = yFit := Nat.div_add_mod yFit (j + 1)
    calc csy * yFit = csy * ((j + 1) * (yFit / (j + 1)) + yFit % (j + 1)) := by rw [hdm]
      _ = (yFit % (j + 1)) * csy + ((j + 1) * csy) * (yFit / (j + 1)) := by ring
      _ = (yFit % (j + 1)) * csy + 65536 * (k * (yFit / (j + 1))) := by rw [hk]; ring
  have hay2 : ay = ((yFit % (j + 1)) * csy) % 65536 := by
    rw [hay, hsplit, Nat.add_mul_mod_self_left]
  have hrlt : yFit % (j + 1) < j + 1 := Nat.mod_lt _ (Nat.succ_pos j)
  by_cases hr : yFit % (j + 1) = 0
  · rw [hr, Nat.zero_mul, Nat.zero_mod] at hay2
    omega
  · have := hwalk (yFit % (j + 1)) (Nat.one_le_iff_ne_zero.mpr hr) (by omega)
    omega

theorem allocate_AtlasInv {e : Engine} (inv : AtlasInv e) :
    AtlasInv (_allocateAtlasCell e).2 := by
  obtain ⟨h1, h2, h3, h4, h5, yFit, j, h6, h7, h8⟩ := inv
  unfold AtlasInv _allocateAtlasCell
  simp only
  have hx1 : (e._r.atlasPosition.x + e._api.cellSize.x) % 65536 =
      e._r.atlasPosition.x + e._api.cellSize.x := Nat.mod_eq_of_lt (by omega)
  have hy1 : (e._r.atlasPosition.y + e._api.cellSize.y) % 65536 =
      ((j + 1) * e._api.cellSize.y) % 65536 := by
    rw [h7, Nat.mod_add_mod]
    congr 1
    ring
  rw [hx1, hy1]
  refine ⟨h1, h2, h3, ?_⟩
  by_cases hx : e._r.atlasPosition.x + e._api.cellSize.x ≥ e._r.atlasSizeInPixel.x
  · rw [if_pos hx]
    by_cases hy : ((j + 1) * e._api.cellSize.y) % 65536 ≥ e._r.atlasSizeInPixel.y
    · rw [if_pos hy]
      refine ⟨h2, Or.inl (Nat.pos_iff_ne_zero.mp h1), yFit, 0, h6, by simp, ?_⟩
      intro i hi1 hi0
      omega
    · rw [if_neg hy]
      have hlt : ((j + 1) * e._api.cellSize.y) % 65536 < e._r.atlasSizeInPixel.y := by omega
      dsimp only
      refine ⟨by omega, Or.inr (wrap_before_zero h6 h8 hlt), yFit, j + 1, h6, rfl, ?_⟩
      intro i hi1 hi2
      by_cases hij : i ≤ j
      · exact h8 i hi1 hij
      · have hi : i = j + 1 := by omega
        rw [hi]
        exact hlt
  · rw [if_neg hx]
    dsimp only
    refine ⟨by omega, Or.inl (by omega), yFit, j, h6, h7, h8⟩

theorem allocate_fst (e : Engine) : (_allocateAtlasCell e).1 = e._r.atlasPosition := rfl

theorem AtlasInv_position_ne {e : Engine} (inv : AtlasInv e) :
    e._r.atlasPosition ≠ ({} : u16x2) := by
  obtain ⟨_, _, _, _, h5, _⟩ := inv
  intro h0
  rw [h0] at h5
  rcases h5 with h | h <;> exact h rfl

theorem allocatedSlots_ne (n : Nat) :
    ∀ e : Engine, AtlasInv e → ∀ slot ∈ allocatedSlots n e, slot ≠ ({} : u16x2) := by
  induction n with
  | zero =>
    intro e _ slot hmem
    simp [allocatedSlots] at hmem
  | succ n ih =>
    intro e inv slot hmem
    simp only [allocatedSlots, List.mem_cons] at hmem
    rcases hmem with h | h
    · rw [h, allocate_fst]
      exact AtlasInv_position_ne inv
    · exact ih _ (allocate_AtlasInv inv) slot h

/-- C4: after every completed `_recreateFontDependentResources`, however many
calls of `_allocateAtlasCell` follow, none of them returns the slot (0,0). -/
theorem C4_allocator_skips_cursor_slot (env : FontEnv) (e g : Engine)
    (hgen : _recreateFontDependentResources env e = .ok g) (n : Nat) :
    ∀ slot ∈ allocatedSlots n g, slot ≠ { x := 0, y := 0 } :=
  allocatedSlots_ne n g (recreateFont_AtlasInv hgen)

/-- C4, scenario: the first three slots of a generation with 8x16 pixel cells. -/
theorem C4_allocator_skips_cursor_slot_witness :
    _recreateFontDependentResources okFontEnv paintedEngine = .ok regeneratedEngine ∧
    allocatedSlots 3 regeneratedEngine =
      [{ x := 8, y := 0 }, { x := 16, y := 0 }, { x := 24, y := 0 }] ∧
    ({ x := 24, y := 0 } : u16x2) ≠ { x := 0, y := 0 } :=
  ⟨rfl, rfl,
    C4_allocator_skips_cursor_slot okFontEnv paintedEngine regeneratedEngine rfl 3
      { x := 24, y := 0 } (by decide)⟩

theorem allocatedSlots_bound (n : Nat) :
    ∀ e : Engine, AtlasInv e → e._r.atlasPosition.y < e._r.atlasSizeInPixel.y →
      ∀ slot ∈ allocatedSlots n e,
        slot.x < e._r.atlasSizeInPixel.x ∧ slot.y < e._r.atlasSizeInPixel.y := by
  induction n with
  | zero =>
    intro e _ _ slot hmem
    simp [allocatedSlots] at hmem
  | succ n ih =>
    intro e inv hy slot hmem
    simp only [allocatedSlots, List.mem_cons] at hmem
    rcases hmem with h | h
    · rw [h, allocate_fst]
      exact ⟨inv.2.2.2.1, hy⟩
    · have hnext : (_allocateAtlasCell e).2._r.atlasPosition.y <
          (_allocateAtlasCell e).2._r.atlasSizeInPixel.y := by
        unfold _allocateAtlasCell
        dsimp only
        split
        · split
          · dsimp only
            omega
          · dsimp only
            omega
        · exact hy
      exact ih _ (allocate_AtlasInv inv) hnext slot h

/-- C5: after every completed `_recreateFontDependentResources`, however many
calls of `_allocateAtlasCell` follow, every returned slot has
`x < atlasSizeInPixel.x` and `y < atlasSizeInPixel.y`. The backend is assumed
to refuse an atlas texture without height (the height is computed in 16 bits
and a texture needs at least one row). -/
theorem C5_allocator_stays_inside_atlas (env : FontEnv)
    (htexture : ∀ width height : Nat, env.CreateTexture2D width height = none → 0 < height)
    (e g : Engine) (hgen : _recreateFontDependentResources env e = .ok g) (n : Nat) :
    ∀ slot ∈ allocatedSlots n g,
      slot.x < g._r.atlasSizeInPixel.x ∧ slot.y < g._r.atlasSizeInPixel.y := by
  have inv := recreateFont_AtlasInv hgen
  obtain ⟨_, _, _, _, _, _, _, _, _, hgeo, htex⟩ := recreateFont_ok hgen
  have hmax : (if env.featureLevel11 then D3D11_REQ_TEXTURE2D_U_OR_V_DIMENSION
      else D3D10_REQ_TEXTURE2D_U_OR_V_DIMENSION) ≤ 16384 := by
    split <;> decide
  obtain ⟨_, _, _, _, h5, _⟩ := atlasGeometry_spec hmax hgeo
  have hy : g._r.atlasPosition.y < g._r.atlasSizeInPixel.y := by
    rw [h5]
    exact htexture _ _ htex
  exact allocatedSlots_bound n g inv hy

/-- C5, scenario: the third slot of a generation with 8x16 pixel cells lies
inside the 16384x512 pixel atlas. -/
theorem C5_allocator_stays_inside_atlas_witness :
    regeneratedEngine._r.atlasSizeInPixel = { x := 16384, y := 512 } ∧
    ((24 : Nat) < 16384 ∧ (0 : Nat) < 512) :=
  ⟨rfl,
    C5_allocator_stays_inside_atlas okFontEnv
      (fun width height h => by
        by_cases hz : width = 0 ∨ height = 0
        · simp [okFontEnv, hz] at h
        · omega)
      paintedEngine regeneratedEngine rfl 3 { x := 24, y := 0 } (by decide)⟩

/-! ### The length of the cell grid buffer -/

theorem CellsSized_of_frame {e s : Engine} (inv : CellsSized e)
    (hlen : s._r.cells.length = e._r.cells.length)
    (hcc : s._api.cellCount = e._api.cellCount)
    (hdev : s._invalidations.device = e._invalidations.device)
    (hsize : s._invalidations.size = e._invalidations.size) : CellsSized s := by
  intro h1 h2
  rw [hlen, hcc]
  exact inv (hdev ▸ h1) (hsize ▸ h2)

theorem UpdateFont_effect {proposed : Except ErrorCode FontInfo} {e e1 : Engine} {hr : HRESULT}
    (h : UpdateFont proposed e = some (hr, e1)) :
    e1 = e ∨ e1._invalidations.size = true ∨
    (e1._r = e._r ∧ e1._api.cellCount = e._api.cellCount ∧
      e1._invalidations.device = e._invalidations.device ∧
      e1._invalidations.size = e._invalidations.size) := by
  unfold UpdateFont at h
  split at h
  · exact Or.inl (Prod.mk.inj (Option.some.inj h)).2.symm
  · split at h
    · exact absurd h (by simp)
    · simp only at h
      split at h
      · exact absurd h (by simp)
      · split at h
        · split at h
          · exact absurd h (by simp)
          · have he : e1 = _ := (Prod.mk.inj (Option.some.inj h)).2.symm
            subst he
            exact Or.inr (Or.inl (by simp [WI_SetFlag]))
        · have he : e1 = _ := (Prod.mk.inj (Option.some.inj h)).2.symm
          subst he
          exact Or.inr (Or.inr (by simp [WI_SetFlag]))

theorem SetWindowSize_CellsSized {pixels : SIZE} {e e1 : Engine} {hr : HRESULT}
    (h : SetWindowSize pixels e = some (hr, e1)) (inv : CellsSized e) : CellsSized e1 := by
  rcases (SetWindowSize_effect h).2 with h0 | ⟨h1, _⟩
  · rw [h0]
    exact inv
  · intro _ hs
    rw [h1] at hs
    simp [WI_SetFlag] at hs

theorem UpdateFont_CellsSized {proposed : Except ErrorCode FontInfo} {e e1 : Engine}
    {hr : HRESULT} (h : UpdateFont proposed e = some (hr, e1)) (inv : CellsSized e) :
    CellsSized e1 := by
  rcases UpdateFont_effect h with h0 | h1 | ⟨h1, h2, h3, h4⟩
  · rw [h0]
    exact inv
  · intro _ hs
    rw [h1] at hs
    exact absurd hs (by simp)
  · exact CellsSized_of_frame inv (by rw [h1]) h2 h3 h4

theorem handleException_CellsSized {hr : HRESULT} {e : Engine} (inv : CellsSized e) :
    CellsSized (_handleException hr e).2 := by
  unfold _handleException
  split
  · intro hd _
    simp [WI_SetFlag] at hd
  · exact inv

theorem catchReturn_CellsSized {o : Outcome Engine} {hr : HRESULT} {s : Engine}
    (h : catchReturn o = some (hr, s))
    (hok : ∀ s1, o = .ok s1 → CellsSized s1)
    (hth : ∀ ex s1, o = .thrown ex s1 → CellsSized s1) : CellsSized s := by
  unfold catchReturn at h
  split at h
  · rename_i s1
    have hs : s = s1 := (Prod.mk.inj (Option.some.inj h)).2.symm
    rw [hs]
    exact hok s1 rfl
  · rename_i c s1
    have h1 : _handleException c.hr s1 = (hr, s) := Option.some.inj h
    have := @handleException_CellsSized c.hr s1 (hth _ s1 rfl)
    rw [h1] at this
    exact this
  · rename_i c s1
    have hs : s = s1 := (Prod.mk.inj (Option.some.inj h)).2.symm
    rw [hs]
    exact hth _ s1 rfl
  · exact absurd h (by simp)

theorem StartPaint_sized_after_size {env : StartPaintEnv} {e e1 e2 : Engine}
    (inv : CellsSized e) (hd : StartPaint_device env e = .ok e1)
    (hsz : StartPaint_size env e1 = .ok e2) :
    e2._invalidations.device = false ∧ e2._invalidations.size = false ∧
    e2._r.cells.length = e2._api.cellCount.x * e2._api.cellCount.y := by
  obtain ⟨d1, d2, d3, d4, d5⟩ := StartPaint_device_ok hd
  obtain ⟨s1, s2, _, s4, s5, s6⟩ := StartPaint_size_ok hsz
  refine ⟨s2.trans d1, s1, ?_⟩
  cases hsize : e1._invalidations.size
  · have he2 : e2 = e1 := s5 hsize
    cases hdev : e._invalidations.device
    · have he1 : e1 = e := d4 hdev
      rw [he2, he1]
      rw [he1] at hsize
      exact inv hdev hsize
    · rw [(d5 hdev).1] at hsize
      exact absurd hsize (by simp)
  · rw [(s6 hsize).1, s4]
    rfl

theorem StartPaint_rebuild_CellsSized {env : StartPaintEnv} {e : Engine} (inv : CellsSized e) :
    (∀ s, StartPaint_rebuild env e = .ok s → CellsSized s) ∧
    (∀ ex s, StartPaint_rebuild env e = .thrown ex s → CellsSized s) := by
  constructor
  · intro s h
    obtain ⟨e1, e2, hd, hsz, hf⟩ := StartPaint_rebuild_ok h
    obtain ⟨_, _, hlen⟩ := StartPaint_sized_after_size inv hd hsz
    obtain ⟨_, _, _, f4, f5, _⟩ := StartPaint_font_ok hf
    intro _ _
    rw [f5, f4]
    exact hlen
  · intro ex s h
    rcases StartPaint_rebuild_thrown h with hd | ⟨e1, hd, hsz⟩ | ⟨e1, e2, hd, hsz, hf⟩
    · obtain ⟨t1, t2, _⟩ := StartPaint_device_thrown hd
      intro hdev _
      rw [t2, t1] at hdev
      exact absurd hdev (by simp)
    · obtain ⟨t1, t2, _⟩ := StartPaint_size_thrown hsz
      intro _ hsize
      rw [t2, t1] at hsize
      exact absurd hsize (by simp)
    · obtain ⟨_, _, hlen⟩ := StartPaint_sized_after_size inv hd hsz
      obtain ⟨_, _, t3, t4, _⟩ := StartPaint_font_thrown hf
      intro _ _
      rw [t4, t3]
      exact hlen

theorem StartPaint_hwnd_CellsSized {clientRect : SIZE} {e e1 : Engine}
    (h : StartPaint_hwnd clientRect e = some e1) (inv : CellsSized e) : CellsSized e1 := by
  obtain ⟨w1, _, w3, w4, w5, _⟩ := StartPaint_hwnd_effect h
  intro hdev hsize
  rw [w5, w4 hsize]
  refine inv (w1 ▸ hdev) ?_
  cases hs : e._invalidations.size
  · rfl
  · rw [w3 hs] at hsize
    exact absurd hsize (by simp)

theorem StartPaint_try_CellsSized {env : StartPaintEnv} {e : Engine} (inv : CellsSized e) :
    (∀ s, StartPaint_try env e = .ok s → CellsSized s) ∧
    (∀ ex s, StartPaint_try env e = .thrown ex s → CellsSized s) := by
  constructor
  · intro s h
    obtain ⟨e1, e2, hh, hcase, h1, h2, h3, _⟩ := StartPaint_try_ok h
    have inv1 := StartPaint_hwnd_CellsSized hh inv
    have inv2 : CellsSized e2 := by
      rcases hcase with ⟨_, he⟩ | ⟨_, hreb⟩
      · rw [he]
        exact inv1
      · exact (StartPaint_rebuild_CellsSized inv1).1 e2 hreb
    exact CellsSized_of_frame inv2 (by rw [h3]) (by rw [h2]) (by rw [h1]) (by rw [h1])
  · intro ex s h
    obtain ⟨e1, hh, hreb⟩ := StartPaint_try_thrown h
    exact (StartPaint_rebuild_CellsSized (StartPaint_hwnd_CellsSized hh inv)).2 ex s hreb

theorem StartPaint_CellsSized {env : StartPaintEnv} {e s : Engine} {hr : HRESULT}
    (h : StartPaint env e = some (hr, s)) (inv : CellsSized e) : CellsSized s :=
  catchReturn_CellsSized h (StartPaint_try_CellsSized inv).1 (StartPaint_try_CellsSized inv).2

theorem allocateCoords_frame (n : Nat) :
    ∀ (i : Nat) (coords : List u16x2) (e : Engine),
      ∃ pos, (allocateCoords n i coords e).2 = { e with _r := { e._r with atlasPosition := pos } } := by
  induction n with
  | zero =>
    intro i coords e
    exact ⟨e._r.atlasPosition, rfl⟩
  | succ n ih =>
    intro i coords e
    obtain ⟨pos, hpos⟩ := ih (i + 1) (coords.set i (_allocateAtlasCell e).1) (_allocateAtlasCell e).2
    refine ⟨pos, ?_⟩
    simp only [allocateCoords]
    rw [hpos]
    rfl

theorem writeCells_length (base : Nat) (coords : List u16x2) (color : u32x2) (n : Nat) :
    ∀ (i : Nat) (cells out : List cell),
      writeCells base coords color n i cells = some out → out.length = cells.length := by
  induction n with
  | zero =>
    intro i cells out h
    simp only [writeCells] at h
    rw [← Option.some.inj h]
  | succ n ih =>
    intro i cells out h
    simp only [writeCells] at h
    split at h
    · rw [ih _ _ _ h, List.length_set]
    · exact absurd h (by simp)

theorem resolveGlyph_frame (entry : glyph_entry) (cells : Nat) (e : Engine) :
    ∃ pos glyphs queue,
      (resolveGlyph entry cells e).2 =
        { e with _r := { e._r with atlasPosition := pos, glyphs := glyphs, glyphQueue := queue } } := by
  unfold resolveGlyph
  simp only
  split
  · obtain ⟨pos, hpos⟩ := allocateCoords_frame cells 0
      ((List.lookup entry e._r.glyphs).getD emptyCoords) e
    rw [hpos]
    exact ⟨_, _, _, rfl⟩
  · exact ⟨_, _, _, rfl⟩

theorem emplaceGlyph_frame {key : List Nat} {y x1 x2 : Nat} {e e1 : Engine}
    (h : _emplaceGlyph key y x1 x2 e = some e1) :
    e1._api = e._api ∧ e1._rapi = e._rapi ∧ e1._invalidations = e._invalidations ∧
    e1.calls = e.calls ∧ e1._r.cells.length = e._r.cells.length ∧
    e1._r.atlasSizeInPixel = e._r.atlasSizeInPixel := by
  unfold _emplaceGlyph at h
  simp only at h
  obtain ⟨pos, glyphs, queue, hres⟩ :=
    resolveGlyph_frame (makeEntry key e._rapi.attributes (glyphCells x1 x2)) (glyphCells x1 x2) e
  split at h
  · exact absurd h (by simp)
  · rename_i newCells hw
    have he : e1 = _ := (Option.some.inj h).symm
    have hlen := writeCells_length _ _ _ _ _ _ _ hw
    subst he
    rw [hres] at hlen ⊢
    exact ⟨rfl, rfl, rfl, rfl, hlen, rfl⟩

theorem orFlags_length (bit : Nat) (indices : List Int) :
    ∀ cells out : List cell, orFlags bit indices cells = some out → out.length = cells.length := by
  induction indices with
  | nil =>
    intro cells out h
    simp only [orFlags] at h
    rw [← Option.some.inj h]
  | cons idx rest ih =>
    intro cells out h
    simp only [orFlags] at h
    split at h
    · exact absurd h (by simp)
    · rename_i cells1 h1
      rw [ih _ _ h]
      unfold orFlag at h1
      split at h1
      · rw [← Option.some.inj h1, List.length_modify]
      · exact absurd h1 (by simp)

theorem PaintSelection_frame {rect : SMALL_RECT} {e e1 : Engine} {hr : HRESULT}
    (h : PaintSelection rect e = some (hr, e1)) :
    e1._api = e._api ∧ e1._invalidations = e._invalidations ∧
    e1._r.cells.length = e._r.cells.length := by
  unfold PaintSelection at h
  simp only at h
  split at h
  · exact absurd h (by simp)
  · split at h
    · exact absurd h (by simp)
    · rename_i cells hc
      have he : e1 = _ := (Prod.mk.inj (Option.some.inj h)).2.symm
      subst he
      exact ⟨rfl, rfl, orFlags_length _ _ _ _ hc⟩

theorem PaintCursor_frame {options : CursorOptions} {e e1 : Engine} {hr : HRESULT}
    (h : PaintCursor options e = some (hr, e1)) :
    e1._api = e._api ∧ e1._invalidations = e._invalidations ∧
    e1._r.cells.length = e._r.cells.length := by
  unfold PaintCursor at h
  split at h
  · simp only at h
    split at h
    · exact absurd h (by simp)
    · split at h
      · exact absurd h (by simp)
      · rename_i cells hc
        have he : e1 = _ := (Prod.mk.inj (Option.some.inj h)).2.symm
        subst he
        exact ⟨rfl, rfl, orFlags_length _ _ _ _ hc⟩
  · have he : e1 = e := (Prod.mk.inj (Option.some.inj h)).2.symm
    subst he
    exact ⟨rfl, rfl, rfl⟩

theorem drawGlyph_frame (env : PresentEnv) (pair : glyph_entry × List u16x2) (e : Engine) :
    (∀ s, _drawGlyph env pair e = .ok s → s = { e with calls := e.calls ++ [.drawGlyph pair.1 pair.2] }) ∧
    (∀ ex s, _drawGlyph env pair e = .thrown ex s →
      s = { e with calls := e.calls ++ [.drawGlyph pair.1 pair.2] }) := by
  unfold _drawGlyph
  simp only
  constructor
  · intro s h
    split at h
    · exact absurd h (by simp)
    · split at h
      · exact absurd h (by simp)
      · split at h
        · exact absurd h (by simp)
        · split at h
          · exact absurd h (by simp)
          · exact (Outcome.ok.inj h).symm
  · intro ex s h
    split at h
    · injection h with _ h2
      exact h2.symm
    · split at h
      · exact absurd h (by simp)
      · split at h
        · injection h with _ h2
          exact h2.symm
        · split at h <;> exact absurd h (by simp)

theorem drawQueue_frame (env : PresentEnv) (queue : List (glyph_entry × List u16x2)) :
    ∀ e : Engine,
      (∀ s, drawQueue env queue e = .ok s →
        s = { e with calls := e.calls ++ queue.map fun p => .drawGlyph p.1 p.2 }) ∧
      (∀ ex s, drawQueue env queue e = .thrown ex s → ∃ calls, s = { e with calls := calls }) := by
  induction queue with
  | nil =>
    intro e
    constructor
    · intro s h
      simp only [drawQueue] at h
      rw [← Outcome.ok.inj h]
      simp
    · intro ex s h
      simp [drawQueue] at h
  | cons pair rest ih =>
    intro e
    obtain ⟨hok, hth⟩ := drawGlyph_frame env pair e
    constructor
    · intro s h
      simp only [drawQueue] at h
      cases hd : _drawGlyph env pair e with
      | ok s1 =>
        simp only [hd, Outcome.bind] at h
        rw [(ih s1).1 s h, hok s1 hd]
        simp
      | thrown ex s1 => simp [hd, Outcome.bind] at h
      | failFast => simp [hd, Outcome.bind] at h
    · intro ex s h
      simp only [drawQueue] at h
      cases hd : _drawGlyph env pair e with
      | ok s1 =>
        simp only [hd, Outcome.bind] at h
        obtain ⟨calls, hc⟩ := (ih s1).2 ex s h
        rw [hc, hok s1 hd]
        exact ⟨calls, rfl⟩
      | thrown ex1 s1 =>
        simp only [hd, Outcome.bind] at h
        injection h with _ h2
        rw [← h2, hth ex1 s1 hd]
        exact ⟨_, rfl⟩
      | failFast => simp [hd, Outcome.bind] at h

theorem PresentFrame_refl (e : Engine) : PresentFrame e e :=
  ⟨e.calls, e._r.glyphQueue, e._invalidations.cbuffer, rfl⟩

theorem PresentFrame_trans {a b c : Engine} (h1 : PresentFrame a b) (h2 : PresentFrame b c) :
    PresentFrame a c := by
  obtain ⟨c1, q1, b1, rfl⟩ := h1
  obtain ⟨c2, q2, b2, rfl⟩ := h2
  exact ⟨c2, q2, b2, rfl⟩

theorem Present_try_frame (env : PresentEnv) (e : Engine) :
    (∀ s, Present_try env e = .ok s → PresentFrame e s) ∧
    (∀ ex s, Present_try env e = .thrown ex s → PresentFrame e s) := by
  have hdrain : ∀ o : Outcome Engine,
      o = (if e._r.glyphQueue ≠ [] then
            (drawQueue env e._r.glyphQueue e).bind fun s =>
              .ok { s with _r := { s._r with glyphQueue := [] } }
          else .ok e) →
      (∀ s, o = .ok s → PresentFrame e s) ∧ (∀ ex s, o = .thrown ex s → PresentFrame e s) := by
    intro o ho
    obtain ⟨qok, qth⟩ := drawQueue_frame env e._r.glyphQueue e
    by_cases hq : e._r.glyphQueue ≠ []
    · rw [if_pos hq] at ho
      cases hd : drawQueue env e._r.glyphQueue e with
      | ok s1 =>
        rw [hd] at ho
        simp only [Outcome.bind] at ho
        constructor
        · intro s hs
          rw [ho] at hs
          rw [← Outcome.ok.inj hs, qok s1 hd]
          exact ⟨_, [], e._invalidations.cbuffer, rfl⟩
        · intro ex s hs
          rw [ho] at hs
          exact absurd hs (by simp)
      | thrown ex1 s1 =>
        rw [hd] at ho
        simp only [Outcome.bind] at ho
        constructor
        · intro s hs
          rw [ho] at hs
          exact absurd hs (by simp)
        · intro ex s hs
          rw [ho] at hs
          injection hs with _ h2
          obtain ⟨calls, hc⟩ := qth ex1 s1 hd
          rw [← h2, hc]
          exact ⟨calls, e._r.glyphQueue, e._invalidations.cbuffer, rfl⟩
      | failFast =>
        rw [hd] at ho
        simp only [Outcome.bind] at ho
        constructor
        · intro s hs
          rw [ho] at hs
          exact absurd hs (by simp)
        · intro ex s hs
          rw [ho] at hs
          exact absurd hs (by simp)
    · rw [if_neg hq] at ho
      constructor
      · intro s hs
        rw [ho] at hs
        rw [← Outcome.ok.inj hs]
        exact PresentFrame_refl e
      · intro ex s hs
        rw [ho] at hs
        exact absurd hs (by simp)
  have hupload : ∀ e1 : Engine, ∀ o : Outcome Engine,
      o = (if WI_IsFlagSet e1._invalidations .cbuffer then
            if e1._r.device = false then .failFast
            else
              .ok { e1 with
                    calls := e1.calls ++ [.updateConstantBuffer]
                    _invalidations := WI_ClearFlag e1._invalidations .cbuffer }
          else .ok e1) →
      (∀ s, o = .ok s → PresentFrame e1 s) ∧ (∀ ex s, o = .thrown ex s → False) := by
    intro e1 o ho
    constructor
    · intro s hs
      rw [ho] at hs
      split at hs
      · split at hs
        · exact absurd hs (by simp)
        · rw [← Outcome.ok.inj hs]
          exact ⟨_, e1._r.glyphQueue, false, rfl⟩
      · rw [← Outcome.ok.inj hs]
        exact PresentFrame_refl e1
    · intro ex s hs
      rw [ho] at hs
      split at hs
      · split at hs <;> exact absurd hs (by simp)
      · exact absurd hs (by simp)
  have hfinal : ∀ e2 : Engine, ∀ o : Outcome Engine,
      o = (if e2._r.device = false then .failFast
          else
            match env.Map with
            | some ex => .thrown ex e2
            | none =>
              if e2._r.swapChain = false then .failFast
              else
                match env.Present with
                | some ex => .thrown ex e2
                | none => .ok e2) →
      (∀ s, o = .ok s → s = e2) ∧ (∀ ex s, o = .thrown ex s → s = e2) := by
    intro e2 o ho
    constructor
    · intro s hs
      rw [ho] at hs
      split at hs
      · exact absurd hs (by simp)
      · split at hs
        · exact absurd hs (by simp)
        · split at hs
          · exact absurd hs (by simp)
          · split at hs
            · exact absurd hs (by simp)
            · exact (Outcome.ok.inj hs).symm
    · intro ex s hs
      rw [ho] at hs
      split at hs
      · exact absurd hs (by simp)
      · split at hs
        · injection hs with _ h2
          exact h2.symm
        · split at hs
          · exact absurd hs (by simp)
          · split at hs
            · injection hs with _ h2
              exact h2.symm
            · exact absurd hs (by simp)
  unfold Present_try
  simp only
  obtain ⟨dok, dth⟩ := hdrain _ rfl
  constructor
  · intro s h
    cases hd : (if e._r.glyphQueue ≠ [] then
            (drawQueue env e._r.glyphQueue e).bind fun s =>
              .ok { s with _r := { s._r with glyphQueue := [] } }
          else Outcome.ok e) with
    | ok e1 =>
      rw [hd] at h
      simp only [Outcome.bind] at h
      obtain ⟨uok, uth⟩ := hupload e1 _ rfl
      cases hu : (if WI_IsFlagSet e1._invalidations .cbuffer then
            if e1._r.device = false then Outcome.failFast
            else
              Outcome.ok { e1 with
                    calls := e1.calls ++ [.updateConstantBuffer]
                    _invalidations := WI_ClearFlag e1._invalidations .cbuffer }
          else Outcome.ok e1) with
      | ok e2 =>
        rw [hu] at h
        simp only at h
        rw [(hfinal e2 _ rfl).1 s h]
        exact PresentFrame_trans (dok e1 hd) (uok e2 hu)
      | thrown ex1 s1 => exact absurd (uth ex1 s1 hu) id
      | failFast =>
        rw [hu] at h
        exact absurd h (by simp)
    | thrown ex1 s1 =>
      rw [hd] at h
      exact absurd h (by simp [Outcome.bind])
    | failFast =>
      rw [hd] at h
      exact absurd h (by simp [Outcome.bind])
  · intro ex s h
    cases hd : (if e._r.glyphQueue ≠ [] then
            (drawQueue env e._r.glyphQueue e).bind fun s =>
              .ok { s with _r := { s._r with glyphQueue := [] } }
          else Outcome.ok e) with
    | ok e1 =>
      rw [hd] at h
      simp only [Outcome.bind] at h
      obtain ⟨uok, uth⟩ := hupload e1 _ rfl
      cases hu : (if WI_IsFlagSet e1._invalidations .cbuffer then
            if e1._r.device = false then Outcome.failFast
            else
              Outcome.ok { e1 with
                    calls := e1.calls ++ [.updateConstantBuffer]
                    _invalidations := WI_ClearFlag e1._invalidations .cbuffer }
          else Outcome.ok e1) with
      | ok e2 =>
        rw [hu] at h
        simp only at h
        rw [(hfinal e2 _ rfl).2 ex s h]
        exact PresentFrame_trans (dok e1 hd) (uok e2 hu)
      | thrown ex1 s1 => exact absurd (uth ex1 s1 hu) id
      | failFast =>
        rw [hu] at h
        exact absurd h (by simp)
    | thrown ex1 s1 =>
      rw [hd] at h
      simp only [Outcome.bind] at h
      injection h with h1 h2
      rw [← h2]
      exact dth ex1 s1 hd
    | failFast =>
      rw [hd] at h
      exact absurd h (by simp [Outcome.bind])

theorem PresentFrame_CellsSized {e s : Engine} (h : PresentFrame e s) (inv : CellsSized e) :
    CellsSized s := by
  obtain ⟨calls, queue, cb, rfl⟩ := h
  exact inv

theorem Present_CellsSized {env : PresentEnv} {e s : Engine} {hr : HRESULT}
    (h : Present env e = some (hr, s)) (inv : CellsSized e) : CellsSized s :=
  catchReturn_CellsSized h
    (fun s1 h1 => PresentFrame_CellsSized ((Present_try_frame env e).1 s1 h1) inv)
    (fun ex s1 h1 => PresentFrame_CellsSized ((Present_try_frame env e).2 ex s1 h1) inv)

theorem UpdateDpi_CellsSized {dpi : Int} {e e1 : Engine} {hr : HRESULT}
    (h : UpdateDpi dpi e = some (hr, e1)) (inv : CellsSized e) : CellsSized e1 := by
  unfold UpdateDpi at h
  split at h
  · exact absurd h (by simp)
  · split at h
    · rw [← (Prod.mk.inj (Option.some.inj h)).2]
      exact inv
    · rw [← (Prod.mk.inj (Option.some.inj h)).2]
      exact inv

theorem SetAntialiasingMode_CellsSized {mode : Int} {e e1 : Engine}
    (h : SetAntialiasingMode mode e = some e1) (inv : CellsSized e) : CellsSized e1 := by
  unfold SetAntialiasingMode at h
  split at h
  · exact absurd h (by simp)
  · rw [← Option.some.inj h]
    exact inv

theorem SetSelectionBackground_CellsSized (c : Nat) {e : Engine} (inv : CellsSized e) :
    CellsSized (SetSelectionBackground c e) := by
  unfold SetSelectionBackground
  split
  · exact inv
  · exact inv

theorem UpdateDrawingBrushes_CellsSized (fg bg : Nat) (b i d sd : Bool) {e : Engine}
    (inv : CellsSized e) : CellsSized (UpdateDrawingBrushes fg bg b i d sd e).2 := by
  unfold UpdateDrawingBrushes
  split
  · exact inv
  · split
    · exact inv
    · exact inv

theorem GetSwapChainHandle_CellsSized {env : CreateResourcesEnv} {e : Engine}
    (inv : CellsSized e) :
    (∀ s, GetSwapChainHandle env e = .ok s → CellsSized s) ∧
    (∀ ex s, GetSwapChainHandle env e = .thrown ex s → CellsSized s) := by
  unfold GetSwapChainHandle
  constructor
  · intro s h
    split at h
    · obtain ⟨_, _, _, hinv, _⟩ := createResources_ok h
      intro _ hs
      rw [hinv] at hs
      simp [WI_SetFlag] at hs
    · rw [← Outcome.ok.inj h]
      exact inv
  · intro ex s h
    split at h
    · obtain ⟨h1, _, _, h4, h5⟩ := createResources_thrown h
      exact CellsSized_of_frame inv (by rw [h5]) (by rw [h1]) (by rw [h4]) (by rw [h4])
    · exact absurd h (by simp)

theorem Call_run_CellsSized {c : Call} {e e1 : Engine} (h : c.run e = some e1)
    (inv : CellsSized e) : CellsSized e1 := by
  cases c with
  | SetWindowSize pixels =>
    simp only [Call.run, Option.map_eq_some'] at h
    obtain ⟨⟨hr, e2⟩, h1, h2⟩ := h
    simp only at h2
    subst h2
    exact SetWindowSize_CellsSized h1 inv
  | UpdateFont proposed =>
    simp only [Call.run, Option.map_eq_some'] at h
    obtain ⟨⟨hr, e2⟩, h1, h2⟩ := h
    simp only at h2
    subst h2
    exact UpdateFont_CellsSized h1 inv
  | UpdateDpi dpi =>
    simp only [Call.run, Option.map_eq_some'] at h
    obtain ⟨⟨hr, e2⟩, h1, h2⟩ := h
    simp only at h2
    subst h2
    exact UpdateDpi_CellsSized h1 inv
  | SetAntialiasingMode mode => exact SetAntialiasingMode_CellsSized h inv
  | SetHwnd hwnd =>
    simp only [Call.run] at h
    rw [← Option.some.inj h]
    exact inv
  | InvalidateTitle =>
    simp only [Call.run] at h
    rw [← Option.some.inj h]
    exact inv
  | SetSelectionBackground color =>
    simp only [Call.run] at h
    rw [← Option.some.inj h]
    exact SetSelectionBackground_CellsSized color inv
  | UpdateDrawingBrushes fg bg b i d sd =>
    simp only [Call.run] at h
    rw [← Option.some.inj h]
    exact UpdateDrawingBrushes_CellsSized fg bg b i d sd inv
  | GetSwapChainHandle env =>
    simp only [Call.run] at h
    split at h
    · rename_i s hs
      rw [← Option.some.inj h]
      exact (GetSwapChainHandle_CellsSized inv).1 s hs
    · rename_i ex s hs
      rw [← Option.some.inj h]
      exact (GetSwapChainHandle_CellsSized inv).2 ex s hs
    · exact absurd h (by simp)
  | StartPaint env =>
    simp only [Call.run, Option.map_eq_some'] at h
    obtain ⟨⟨hr, e2⟩, h1, h2⟩ := h
    simp only at h2
    subst h2
    exact StartPaint_CellsSized h1 inv
  | emplaceGlyph key y x1 x2 =>
    simp only [Call.run] at h
    obtain ⟨h1, _, h3, _, h5, _⟩ := emplaceGlyph_frame h
    exact CellsSized_of_frame inv h5 (by rw [h1]) (by rw [h3]) (by rw [h3])
  | PaintSelection rect =>
    simp only [Call.run, Option.map_eq_some'] at h
    obtain ⟨⟨hr, e2⟩, h1, h2⟩ := h
    simp only at h2
    subst h2
    obtain ⟨f1, f2, f3⟩ := PaintSelection_frame h1
    exact CellsSized_of_frame inv f3 (by rw [f1]) (by rw [f2]) (by rw [f2])
  | PaintCursor options =>
    simp only [Call.run, Option.map_eq_some'] at h
    obtain ⟨⟨hr, e2⟩, h1, h2⟩ := h
    simp only at h2
    subst h2
    obtain ⟨f1, f2, f3⟩ := PaintCursor_frame h1
    exact CellsSized_of_frame inv f3 (by rw [f1]) (by rw [f2]) (by rw [f2])
  | Present env =>
    simp only [Call.run, Option.map_eq_some'] at h
    obtain ⟨⟨hr, e2⟩, h1, h2⟩ := h
    simp only at h2
    subst h2
    exact Present_CellsSized h1 inv

theorem runCalls_CellsSized (calls : List Call) :
    ∀ e e1 : Engine, CellsSized e → runCalls e calls = some e1 → CellsSized e1 := by
  induction calls with
  | nil =>
    intro e e1 inv h
    rw [← Option.some.inj h]
    exact inv
  | cons c cs ih =>
    intro e e1 inv h
    simp only [runCalls] at h
    split at h
    · exact absurd h (by simp)
    · rename_i e2 hstep
      exact ih e2 e1 (Call_run_CellsSized hstep inv) h

theorem Reachable_CellsSized {e : Engine} (h : Reachable e) : CellsSized e := by
  obtain ⟨calls, hrun⟩ := h
  refine runCalls_CellsSized calls Engine.new e ?_ hrun
  intro hdev _
  exact absurd hdev (by decide)

/-- C2: in every state reachable from a new engine in which the device and
the size invalidation bit are both clear, the cell grid buffer has exactly
`cellCount.x * cellCount.y` cells; in particular this holds after a
`SetWindowSize` or `UpdateFont` followed by a `StartPaint` that returns
success. -/
theorem C2_cell_buffer_length (e : Engine) (hreach : Reachable e) :
    (e._invalidations.device = false → e._invalidations.size = false →
      e._r.cells.length = e._api.cellCount.x * e._api.cellCount.y) ∧
    (∀ (change : GeometryCall) (hr0 : HRESULT) (e1 : Engine) (env : StartPaintEnv)
        (hr : HRESULT) (e2 : Engine),
      change.run e = some (hr0, e1) → StartPaint env e1 = some (hr, e2) → SUCCEEDED hr →
      e2._r.cells.length = e2._api.cellCount.x * e2._api.cellCount.y) := by
  have inv := Reachable_CellsSized hreach
  refine ⟨inv, ?_⟩
  intro change hr0 e1 env hr e2 hchange hpaint hok
  have inv1 : CellsSized e1 := by
    cases change with
    | SetWindowSize pixels => exact SetWindowSize_CellsSized hchange inv
    | UpdateFont proposed => exact UpdateFont_CellsSized hchange inv
  have inv2 := StartPaint_CellsSized hpaint inv1
  obtain ⟨htry, _⟩ := catchReturn_succeeded hpaint hok
  obtain ⟨e3, e4, _, hcase, hinv, _⟩ := StartPaint_try_ok htry
  have hclear : e4._invalidations.device = false ∧ e4._invalidations.size = false := by
    rcases hcase with ⟨hnone, he⟩ | ⟨_, hreb⟩
    · rw [he, hnone]
      exact ⟨rfl, rfl⟩
    · exact ⟨(StartPaint_rebuild_clears hreb).1, (StartPaint_rebuild_clears hreb).2.1⟩
  exact inv2 (by rw [hinv]; exact hclear.1) (by rw [hinv]; exact hclear.2)

/-- C2, scenario: `UpdateFont` (8x16), `SetWindowSize` (16x16) and a first
`StartPaint` leave a buffer of `2 * 1` cells. -/
theorem C2_cell_buffer_length_witness :
    runCalls Engine.new fontSetCalls = some fontSetEngine ∧
    GeometryCall.run (.SetWindowSize { cx := 16, cy := 16 }) fontSetEngine
      = some (S_OK, smallEngine) ∧
    StartPaint okStartPaintEnv smallEngine = some (S_OK, paintedEngine) ∧
    paintedEngine._r.cells.length = 2 * 1 :=
  ⟨rfl, rfl, rfl,
    (C2_cell_buffer_length fontSetEngine ⟨fontSetCalls, rfl⟩).2 (.SetWindowSize { cx := 16, cy := 16 })
      S_OK smallEngine okStartPaintEnv S_OK paintedEngine rfl rfl (Int.le_refl 0)⟩

/-! ### The glyph cache -/

theorem allocateCoords_fst (n : Nat) :
    ∀ (i : Nat) (coords : List u16x2) (e : Engine),
      (allocateCoords n i coords e).1.length = coords.length ∧
      ∀ k, k < i → (allocateCoords n i coords e).1[k]? = coords[k]? := by
  induction n with
  | zero =>
    intro i coords e
    exact ⟨rfl, fun _ _ => rfl⟩
  | succ n ih =>
    intro i coords e
    obtain ⟨h1, h2⟩ := ih (i + 1) (coords.set i (_allocateAtlasCell e).1) (_allocateAtlasCell e).2
    simp only [allocateCoords]
    refine ⟨by rw [h1, List.length_set], ?_⟩
    intro k hk
    rw [h2 k (by omega), List.getElem?_set_ne (by omega)]

theorem allocateCoords_first {n : Nat} (hn : 0 < n) (coords : List u16x2) (e : Engine)
    (hlen : 0 < coords.length) :
    (allocateCoords n 0 coords e).1[0]? = some e._r.atlasPosition := by
  obtain ⟨m, rfl⟩ : ∃ m, n = m + 1 := ⟨n - 1, by omega⟩
  simp only [allocateCoords]
  rw [(allocateCoords_fst m 1 _ _).2 0 (by omega), List.getElem?_set_self hlen]
  rfl

theorem allocateCoords_AtlasInv (n : Nat) :
    ∀ (i : Nat) (coords : List u16x2) (e : Engine),
      AtlasInv e → AtlasInv (allocateCoords n i coords e).2 := by
  induction n with
  | zero =>
    intro i coords e inv
    exact inv
  | succ n ih =>
    intro i coords e inv
    simp only [allocateCoords]
    exact ih _ _ _ (allocate_AtlasInv inv)

theorem AtlasInv_congr {e s : Engine} (inv : AtlasInv e)
    (h1 : s._api.cellSize = e._api.cellSize)
    (h2 : s._r.atlasSizeInPixel = e._r.atlasSizeInPixel)
    (h3 : s._r.atlasPosition = e._r.atlasPosition) : AtlasInv s := by
  unfold AtlasInv at inv ⊢
  rw [h1, h2, h3]
  exact inv

theorem resolveGlyph_hit {entry : glyph_entry} {cells : Nat} {e : Engine} {coords : List u16x2}
    (hfind : e._r.glyphs.lookup entry = some coords) (hne : coords[0]? ≠ some ({} : u16x2))
    (hlen : coords.length = 16) :
    resolveGlyph entry cells e = (coords, e) := by
  unfold resolveGlyph
  simp only [hfind, Option.getD_some]
  have h0 : coords.getD 0 {} ≠ ({} : u16x2) := by
    rw [List.getD_eq_getElem?_getD]
    have hl : 0 < coords.length := by omega
    rw [List.getElem?_eq_getElem hl] at hne ⊢
    simpa using hne
  rw [if_neg h0]

theorem glyphsStore_lookup (glyphs : List (glyph_entry × List u16x2)) (entry : glyph_entry)
    (coords : List u16x2) : (glyphsStore glyphs entry coords).lookup entry = some coords := by
  unfold glyphsStore
  exact List.lookup_cons_self

theorem glyphsStore_mem {glyphs : List (glyph_entry × List u16x2)} {entry : glyph_entry}
    {coords : List u16x2} {p : glyph_entry × List u16x2}
    (h : p ∈ glyphsStore glyphs entry coords) : p = (entry, coords) ∨ p ∈ glyphs := by
  unfold glyphsStore at h
  rcases List.mem_cons.mp h with h | h
  · exact Or.inl h
  · exact Or.inr (List.mem_filter.mp h).1

theorem lookup_mem {glyphs : List (glyph_entry × List u16x2)} {entry : glyph_entry}
    {coords : List u16x2} (h : glyphs.lookup entry = some coords) : (entry, coords) ∈ glyphs := by
  induction glyphs with
  | nil => simp at h
  | cons p rest ih =>
    obtain ⟨k, v⟩ := p
    rw [List.lookup_cons] at h
    by_cases hk : entry = k
    · subst hk
      simp at h
      subst h
      exact List.mem_cons_self _ _
    · have hb : (entry == k) = false := by simpa using hk
      rw [hb] at h
      exact List.mem_cons_of_mem _ (ih h)

theorem cachedCoords_length {e : Engine} (inv : GenerationInv e) (entry : glyph_entry) :
    ((e._r.glyphs.lookup entry).getD emptyCoords).length = 16 := by
  cases h : e._r.glyphs.lookup entry with
  | none => rfl
  | some coords => exact inv.2 _ (lookup_mem h)

/-- What the cache lookup of `_emplaceGlyph` guarantees inside a generation. -/
theorem resolveGlyph_spec {entry : glyph_entry} {cells : Nat} {e : Engine}
    (inv : GenerationInv e) (hcells : 0 < cells) :
    GenerationInv (resolveGlyph entry cells e).2 ∧
    (resolveGlyph entry cells e).2._r.glyphs.lookup entry = some (resolveGlyph entry cells e).1 ∧
    (resolveGlyph entry cells e).1[0]? ≠ some ({} : u16x2) ∧
    (resolveGlyph entry cells e).1.length = 16 := by
  have hlen := cachedCoords_length inv entry
  by_cases hmiss : ((e._r.glyphs.lookup entry).getD emptyCoords).getD 0 {} = ({} : u16x2)
  · have hres : resolveGlyph entry cells e =
        ((allocateCoords cells 0 ((e._r.glyphs.lookup entry).getD emptyCoords) e).1,
          { (allocateCoords cells 0 ((e._r.glyphs.lookup entry).getD emptyCoords) e).2 with
            _r := { (allocateCoords cells 0 ((e._r.glyphs.lookup entry).getD emptyCoords) e).2._r with
                    glyphs := glyphsStore
                      (allocateCoords cells 0 ((e._r.glyphs.lookup entry).getD emptyCoords) e).2._r.glyphs
                      entry (allocateCoords cells 0 ((e._r.glyphs.lookup entry).getD emptyCoords) e).1
                    glyphQueue :=
                      (allocateCoords cells 0 ((e._r.glyphs.lookup entry).getD emptyCoords) e).2._r.glyphQueue
                        ++ [(entry,
                          (allocateCoords cells 0 ((e._r.glyphs.lookup entry).getD emptyCoords) e).1)] } }) := by
      unfold resolveGlyph
      simp only
      rw [if_pos hmiss]
    rw [hres]
    dsimp only
    have hfirst := allocateCoords_first hcells ((e._r.glyphs.lookup entry).getD emptyCoords) e
      (by omega)
    have hl := (allocateCoords_fst cells 0 ((e._r.glyphs.lookup entry).getD emptyCoords) e).1
    have hinv2 := allocateCoords_AtlasInv cells 0 ((e._r.glyphs.lookup entry).getD emptyCoords) e inv.1
    obtain ⟨pos, hpos⟩ := allocateCoords_frame cells 0
      ((e._r.glyphs.lookup entry).getD emptyCoords) e
    refine ⟨⟨AtlasInv_congr hinv2 rfl rfl rfl, ?_⟩, glyphsStore_lookup _ _ _, ?_, by rw [hl, hlen]⟩
    · intro p hp
      rcases glyphsStore_mem hp with h | h
      · rw [h]
        dsimp only
        rw [hl, hlen]
      · rw [hpos] at h
        exact inv.2 p h
    · rw [hfirst]
      intro h0
      exact AtlasInv_position_ne inv.1 (Option.some.inj h0)
  · cases hfind : e._r.glyphs.lookup entry with
    | none =>
      rw [hfind] at hmiss
      exact absurd rfl hmiss
    | some coords =>
      rw [hfind] at hmiss hlen
      simp only [Option.getD_some] at hmiss hlen
      have hne : coords[0]? ≠ some ({} : u16x2) := by
        intro h0
        apply hmiss
        rw [List.getD_eq_getElem?_getD, h0]
        rfl
      rw [resolveGlyph_hit hfind hne hlen]
      exact ⟨inv, hfind, hne, hlen⟩

theorem resolveGlyph_inv (entry : glyph_entry) (cells : Nat) {e : Engine}
    (inv : GenerationInv e) : GenerationInv (resolveGlyph entry cells e).2 := by
  have hlen := cachedCoords_length inv entry
  unfold resolveGlyph
  simp only
  split
  · have hl := (allocateCoords_fst cells 0 ((e._r.glyphs.lookup entry).getD emptyCoords) e).1
    have hinv2 := allocateCoords_AtlasInv cells 0 ((e._r.glyphs.lookup entry).getD emptyCoords) e inv.1
    obtain ⟨pos, hpos⟩ := allocateCoords_frame cells 0
      ((e._r.glyphs.lookup entry).getD emptyCoords) e
    refine ⟨AtlasInv_congr hinv2 rfl rfl rfl, ?_⟩
    intro p hp
    rcases glyphsStore_mem hp with h | h
    · rw [h]
      dsimp only
      rw [hl, hlen]
    · rw [hpos] at h
      exact inv.2 p h
  · exact inv

theorem emplaceGlyph_unfold {key : List Nat} {y x1 x2 : Nat} {e e1 : Engine}
    (h : _emplaceGlyph key y x1 x2 e = some e1) :
    ∃ out,
      writeCells (e._api.cellCount.x * y + x1)
        (resolveGlyph (makeEntry key e._rapi.attributes (glyphCells x1 x2)) (glyphCells x1 x2) e).1
        (resolveGlyph (makeEntry key e._rapi.attributes (glyphCells x1 x2)) (glyphCells x1 x2) e).2._rapi.currentColor
        (glyphCells x1 x2) 0
        (resolveGlyph (makeEntry key e._rapi.attributes (glyphCells x1 x2)) (glyphCells x1 x2) e).2._r.cells
        = some out ∧
      e1 = { (resolveGlyph (makeEntry key e._rapi.attributes (glyphCells x1 x2)) (glyphCells x1 x2) e).2 with
             _r := { (resolveGlyph (makeEntry key e._rapi.attributes (glyphCells x1 x2))
                       (glyphCells x1 x2) e).2._r with cells := out } } := by
  unfold _emplaceGlyph at h
  simp only at h
  split at h
  · exact absurd h (by simp)
  · rename_i out hw
    exact ⟨out, hw, (Option.some.inj h).symm⟩

theorem emplaceGlyph_GenerationInv {key : List Nat} {y x1 x2 : Nat} {e e1 : Engine}
    (h : _emplaceGlyph key y x1 x2 e = some e1) (inv : GenerationInv e) : GenerationInv e1 := by
  obtain ⟨out, _, he⟩ := emplaceGlyph_unfold h
  have hinv := resolveGlyph_inv (makeEntry key e._rapi.attributes (glyphCells x1 x2))
    (glyphCells x1 x2) inv
  rw [he]
  exact ⟨AtlasInv_congr hinv.1 rfl rfl rfl, hinv.2⟩

theorem Generation_inv {e : Engine} (h : Generation e) : GenerationInv e := by
  induction h with
  | start hgen =>
    obtain ⟨_, _, _, _, _, _, _, hg, _⟩ := recreateFont_ok hgen
    refine ⟨recreateFont_AtlasInv hgen, ?_⟩
    intro p hp
    rw [hg] at hp
    simp at hp
  | emplace key y x1 x2 _ hstep ih => exact emplaceGlyph_GenerationInv hstep ih
  | other _ h1 h2 h3 h4 ih =>
    refine ⟨AtlasInv_congr ih.1 h1 h3 h4, ?_⟩
    rw [h2]
    exact ih.2

theorem set_eq_self_of_getElem? {l : List cell} {i : Nat} {v : cell} (h : l[i]? = some v) :
    l.set i v = l := by
  apply List.ext_getElem?
  intro j
  rw [List.getElem?_set]
  by_cases hij : i = j
  · subst hij
    rw [if_pos rfl, h]
    have hlt : i < l.length := by
      by_contra hge
      rw [List.getElem?_eq_none (by omega)] at h
      exact absurd h (by simp)
    rw [if_pos hlt]
  · rw [if_neg hij]

theorem writeCells_get (base : Nat) (coords : List u16x2) (color : u32x2) (n : Nat) :
    ∀ (i : Nat) (cells out : List cell),
      writeCells base coords color n i cells = some out →
      (∀ k, i ≤ k → k < i + n →
        out[base + k]? = some { glyphIndex16 := coords.getD k {}, flags := 0, color := color }) ∧
      (∀ idx, idx < base + i ∨ base + i + n ≤ idx → out[idx]? = cells[idx]?) := by
  induction n with
  | zero =>
    intro i cells out h
    simp only [writeCells] at h
    rw [← Option.some.inj h]
    exact ⟨fun k h1 h2 => absurd h2 (by omega), fun _ _ => rfl⟩
  | succ n ih =>
    intro i cells out h
    simp only [writeCells] at h
    split at h
    · rename_i hlt
      obtain ⟨h1, h2⟩ := ih _ _ _ h
      constructor
      · intro k hk1 hk2
        by_cases hki : k = i
        · subst hki
          rw [h2 (base + k) (Or.inl (by omega)), List.getElem?_set_self hlt]
        · exact h1 k (by omega) (by omega)
      · intro idx hidx
        rw [h2 idx (by omega), List.getElem?_set_ne (by omega)]
    · exact absurd h (by simp)

theorem writeCells_idem (base : Nat) (coords : List u16x2) (color : u32x2) (n : Nat) :
    ∀ (i : Nat) (cells out : List cell),
      writeCells base coords color n i cells = some out →
      writeCells base coords color n i out = some out := by
  induction n with
  | zero =>
    intro i cells out _
    rfl
  | succ n ih =>
    intro i cells out h
    have hlen := writeCells_length _ _ _ _ _ _ _ h
    simp only [writeCells] at h ⊢
    split at h
    · rename_i hlt
      rw [if_pos (by omega)]
      obtain ⟨_, h2⟩ := writeCells_get _ _ _ _ _ _ _ h
      have hget := h2 (base + i) (Or.inl (by omega))
      rw [List.getElem?_set_self hlt] at hget
      rw [set_eq_self_of_getElem? hget]
      exact ih _ _ _ h
    · exact absurd h (by simp)

theorem writeCells_total (base : Nat) (coords : List u16x2) (color : u32x2) (n : Nat) :
    ∀ (i : Nat) (cells : List cell), base + i + n ≤ cells.length →
      ∃ out, writeCells base coords color n i cells = some out := by
  induction n with
  | zero =>
    intro i cells _
    exact ⟨cells, rfl⟩
  | succ n ih =>
    intro i cells hb
    simp only [writeCells]
    rw [if_pos (by omega)]
    exact ih _ _ (by rw [List.length_set]; omega)

theorem glyphCells_pos {x1 x2 : Nat} (hx : x1 < x2) (hu : x2 < 65536) :
    0 < glyphCells x1 x2 ∧ glyphCells x1 x2 ≤ x2 - x1 := by
  unfold glyphCells
  simp only
  have h : (x2 + 65536 - x1) % 65536 = x2 - x1 := by omega
  rw [h]
  split <;> omega

theorem run_in_bounds {ccx ccy y x1 x2 n len : Nat} (hy : y < ccy) (hx2 : x2 ≤ ccx)
    (hn : n ≤ x2 - x1) (hx : x1 < x2) (hlen : len = ccx * ccy) : ccx * y + x1 + 0 + n ≤ len := by
  have h1 : ccx * (y + 1) ≤ ccx * ccy := Nat.mul_le_mul_left _ hy
  rw [Nat.mul_succ] at h1
  omega

theorem emplaceGlyph_hit {key : List Nat} {y x1 x2 : Nat} {e : Engine} {coords : List u16x2}
    {out : List cell}
    (hfind : e._r.glyphs.lookup (makeEntry key e._rapi.attributes (glyphCells x1 x2)) = some coords)
    (hne : coords[0]? ≠ some ({} : u16x2)) (hlen : coords.length = 16)
    (hw : writeCells (e._api.cellCount.x * y + x1) coords e._rapi.currentColor
      (glyphCells x1 x2) 0 e._r.cells = some out) :
    _emplaceGlyph key y x1 x2 e = some { e with _r := { e._r with cells := out } } := by
  unfold _emplaceGlyph
  simp only
  rw [resolveGlyph_hit hfind hne hlen]
  simp only
  rw [hw]

theorem emplaceGlyph_total {key : List Nat} {y x1 x2 : Nat} {e : Engine}
    (hy : y < e._api.cellCount.y) (hx : x1 < x2) (hx2 : x2 ≤ e._api.cellCount.x)
    (hu : x2 < 65536) (hlen : e._r.cells.length = e._api.cellCount.x * e._api.cellCount.y) :
    ∃ e1, _emplaceGlyph key y x1 x2 e = some e1 := by
  obtain ⟨pos, glyphs, queue, hres⟩ :=
    resolveGlyph_frame (makeEntry key e._rapi.attributes (glyphCells x1 x2)) (glyphCells x1 x2) e
  have hb := run_in_bounds hy hx2 (glyphCells_pos hx hu).2 hx hlen
  obtain ⟨out, hw⟩ := writeCells_total (e._api.cellCount.x * y + x1)
    (resolveGlyph (makeEntry key e._rapi.attributes (glyphCells x1 x2)) (glyphCells x1 x2) e).1
    (resolveGlyph (makeEntry key e._rapi.attributes (glyphCells x1 x2)) (glyphCells x1 x2) e).2._rapi.currentColor
    (glyphCells x1 x2) 0
    (resolveGlyph (makeEntry key e._rapi.attributes (glyphCells x1 x2)) (glyphCells x1 x2) e).2._r.cells
    (by rw [hres]; exact hb)
  unfold _emplaceGlyph
  simp only
  rw [hw]
  exact ⟨_, rfl⟩

/-- After a call of `_emplaceGlyph` inside a generation the key is cached with
a first slot other than (0,0), and the cells of the run hold the cached slots. -/
theorem emplaceGlyph_cached {key : List Nat} {y x1 x2 : Nat} {e e1 : Engine}
    (inv : GenerationInv e) (hn : 0 < glyphCells x1 x2)
    (h : _emplaceGlyph key y x1 x2 e = some e1) :
    ∃ coords,
      e1._r.glyphs.lookup (makeEntry key e1._rapi.attributes (glyphCells x1 x2)) = some coords ∧
      coords[0]? ≠ some ({} : u16x2) ∧ coords.length = 16 ∧
      writeCells (e1._api.cellCount.x * y + x1) coords e1._rapi.currentColor
        (glyphCells x1 x2) 0 e1._r.cells = some e1._r.cells ∧
      ∀ i, i < glyphCells x1 x2 →
        e1._r.cells[e1._api.cellCount.x * y + x1 + i]? =
          some { glyphIndex16 := coords.getD i {}, flags := 0, color := e1._rapi.currentColor } := by
  obtain ⟨out, hw, he⟩ := emplaceGlyph_unfold h
  obtain ⟨_, h2, h3, h4⟩ := @resolveGlyph_spec
    (makeEntry key e._rapi.attributes (glyphCells x1 x2)) (glyphCells x1 x2) e inv hn
  obtain ⟨pos, glyphs, queue, hres⟩ :=
    resolveGlyph_frame (makeEntry key e._rapi.attributes (glyphCells x1 x2)) (glyphCells x1 x2) e
  have hrapi : (resolveGlyph (makeEntry key e._rapi.attributes (glyphCells x1 x2))
      (glyphCells x1 x2) e).2._rapi = e._rapi := by rw [hres]
  have hapi : (resolveGlyph (makeEntry key e._rapi.attributes (glyphCells x1 x2))
      (glyphCells x1 x2) e).2._api = e._api := by rw [hres]
  have hidem := writeCells_idem _ _ _ _ _ _ _ hw
  obtain ⟨hget, _⟩ := writeCells_get _ _ _ _ _ _ _ hw
  refine ⟨_, ?_, h3, h4, ?_, ?_⟩
  · rw [he]
    dsimp only
    rw [hrapi]
    exact h2
  · rw [he]
    dsimp only
    rw [hapi]
    exact hidem
  · intro i hi
    rw [he]
    dsimp only
    rw [hapi]
    have := hget i (Nat.zero_le i) (by omega)
    rw [hrapi] at this
    rw [hrapi]
    exact this

theorem glyphSlots_of_cells {e : Engine} {y x n : Nat} {coords : List u16x2} {color : u32x2}
    (h : ∀ i, i < n →
      e._r.cells[e._api.cellCount.x * y + x + i]? =
        some { glyphIndex16 := coords.getD i {}, flags := 0, color := color }) :
    glyphSlots e y x n = (List.range n).map fun (i : Nat) => coords.getD i {} := by
  unfold glyphSlots
  apply List.map_congr_left
  intro i hi
  rw [List.getD_eq_getElem?_getD, h i (List.mem_range.mp hi)]
  rfl

/-- C3: inside a font-resource generation, a call of `_emplaceGlyph` for a run
of at least one cell inside the grid (the grid width being a `u16`) returns,
and a second call with the same key is a pure cache hit. At the same place the
second call leaves the engine unchanged; at any place with the same span it
leaves the glyph cache, the draw queue and the allocator position unchanged
and writes the same slots into the cells of its run. -/
theorem C3_emplaceGlyph_idempotent (e : Engine) (hgen : Generation e) (key : List Nat)
    (y x1 x2 : Nat) (hy : y < e._api.cellCount.y) (hx : x1 < x2)
    (hx2 : x2 ≤ e._api.cellCount.x) (hu16 : e._api.cellCount.x < 65536)
    (hlen : e._r.cells.length = e._api.cellCount.x * e._api.cellCount.y) :
    ∃ e1, _emplaceGlyph key y x1 x2 e = some e1 ∧
      _emplaceGlyph key y x1 x2 e1 = some e1 ∧
      ∀ y2 x3 x4 : Nat, y2 < e._api.cellCount.y → x3 < x4 → x4 ≤ e._api.cellCount.x →
        x4 - x3 = x2 - x1 →
        ∃ e2, _emplaceGlyph key y2 x3 x4 e1 = some e2 ∧
          e2._r.glyphs = e1._r.glyphs ∧ e2._r.glyphQueue = e1._r.glyphQueue ∧
          e2._r.atlasPosition = e1._r.atlasPosition ∧
          glyphSlots e2 y2 x3 (glyphCells x3 x4) = glyphSlots e1 y x1 (glyphCells x1 x2) := by
  have inv := Generation_inv hgen
  have hu : x2 < 65536 := by omega
  obtain ⟨hn, hnle⟩ := glyphCells_pos hx hu
  obtain ⟨e1, h1⟩ := @emplaceGlyph_total key y x1 x2 e hy hx hx2 hu hlen
  obtain ⟨f1, f2, _, _, f5, _⟩ := emplaceGlyph_frame h1
  obtain ⟨coords, c1, c2, c3, c4, c5⟩ := emplaceGlyph_cached inv hn h1
  refine ⟨e1, h1, ?_, ?_⟩
  · rw [emplaceGlyph_hit c1 c2 c3 c4]
  · intro y2 x3 x4 hy2 hx34 hx4 hspan
    have hu4 : x4 < 65536 := by omega
    have hcells : glyphCells x3 x4 = glyphCells x1 x2 := by
      unfold glyphCells
      simp only
      have ha : (x4 + 65536 - x3) % 65536 = x4 - x3 := by omega
      have hb : (x2 + 65536 - x1) % 65536 = x2 - x1 := by omega
      rw [ha, hb, hspan]
    have hb2 : e1._api.cellCount.x * y2 + x3 + 0 + glyphCells x3 x4 ≤ e1._r.cells.length := by
      rw [f1, f5]
      exact run_in_bounds hy2 hx4 (glyphCells_pos hx34 hu4).2 hx34 hlen
    obtain ⟨out, hw⟩ := writeCells_total (e1._api.cellCount.x * y2 + x3) coords
      e1._rapi.currentColor (glyphCells x3 x4) 0 e1._r.cells hb2
    have c1b : e1._r.glyphs.lookup (makeEntry key e1._rapi.attributes (glyphCells x3 x4))
        = some coords := by
      rw [hcells]
      exact c1
    refine ⟨_, emplaceGlyph_hit c1b c2 c3 hw, rfl, rfl, rfl, ?_⟩
    obtain ⟨hget, _⟩ := writeCells_get _ _ _ _ _ _ _ hw
    rw [@glyphSlots_of_cells e1 y x1 (glyphCells x1 x2) coords e1._rapi.currentColor c5]
    rw [@glyphSlots_of_cells _ y2 x3 (glyphCells x3 x4) coords e1._rapi.currentColor
      (fun i hi => hget i (Nat.zero_le i) (by omega))]
    rw [hcells]

theorem scenario_paintedA : _emplaceGlyph [65] 0 0 1 regeneratedEngine = some paintedA := rfl

/-- C3, scenario: in a 2x1 grid the line "A" is painted twice. The first call
takes one slot, (8,0), and queues one draw; the second call changes nothing. -/
theorem C3_emplaceGlyph_idempotent_witness :
    _emplaceGlyph [65] 0 0 1 regeneratedEngine = some paintedA ∧
    (regeneratedEngine._r.atlasPosition = { x := 8, y := 0 } ∧
      paintedA._r.atlasPosition = { x := 16, y := 0 } ∧ paintedA._r.glyphQueue.length = 1) ∧
    _emplaceGlyph [65] 0 0 1 paintedA = some paintedA :=
  ⟨rfl, ⟨rfl, rfl, rfl⟩,
    (C3_emplaceGlyph_idempotent regeneratedEngine (Generation.start scenario_regenerated) [65] 0 0 1
      (by decide) (by decide) (by decide) (by decide) rfl).elim
      fun e1 h => (Option.some.inj (h.1.symm.trans scenario_paintedA)) ▸ h.2.1⟩

/-! ### Device loss -/

/-- C9: when the `try` block of `Present` or of `StartPaint` throws a
`wil::ResultException` whose code is `DXGI_ERROR_DEVICE_REMOVED`,
`DXGI_ERROR_DEVICE_RESET` or `D2DERR_RECREATE_TARGET`, the call returns
`E_PENDING`, the resource set `_r` is the empty one (no cells, no cached
glyphs, no queued draws), the device bit is set and every other bit is as it
was at the throw. For `Present` the bits at the throw are those at the start
of the call, except that a completed constant buffer upload has cleared
cbuffer. -/
theorem C9_device_loss_is_retry (c : ErrorCode) (hloss : isDeviceLoss c.hr) :
    (∀ e : Engine, _handleException c.hr e =
      (E_PENDING, { e with _r := {}, _invalidations := { e._invalidations with device := true } })) ∧
    (∀ (env : PresentEnv) (e s : Engine),
      Present_try env e = .thrown (.ResultException c) s →
      Present env e =
        some (E_PENDING,
          { s with _r := {}, _invalidations := { s._invalidations with device := true } }) ∧
      s._invalidations.device = e._invalidations.device ∧
      s._invalidations.size = e._invalidations.size ∧
      s._invalidations.font = e._invalidations.font ∧
      s._invalidations.title = e._invalidations.title) ∧
    (∀ (env : StartPaintEnv) (e s : Engine),
      StartPaint_try env e = .thrown (.ResultException c) s →
      StartPaint env e =
        some (E_PENDING,
          { s with _r := {}, _invalidations := { s._invalidations with device := true } })) ∧
    (({} : resources).cells = [] ∧ ({} : resources).glyphs = [] ∧
      ({} : resources).glyphQueue = [] ∧ ({} : resources).device = false) := by
  refine ⟨fun e => handleException_loss hloss e, ?_, ?_, rfl, rfl, rfl, rfl⟩
  · intro env e s h
    obtain ⟨calls, queue, cb, hs⟩ := (Present_try_frame env e).2 _ s h
    refine ⟨?_, by rw [hs], by rw [hs], by rw [hs], by rw [hs]⟩
    unfold Present
    rw [h]
    simp only [catchReturn]
    rw [handleException_loss hloss]
  · intro env e s h
    unfold StartPaint
    rw [h]
    simp only [catchReturn]
    rw [handleException_loss hloss]

/-- C9, scenario: the swap chain reports `DXGI_ERROR_DEVICE_REMOVED` during
`Present`; the call returns `E_PENDING` and leaves an engine without
resources whose device bit is set. -/
theorem C9_device_loss_is_retry_witness :
    Present lossPresentEnv paintedEngine = some (E_PENDING, lostEngine) ∧
    lostEngine._r.cells = [] ∧ lostEngine._invalidations.device = true :=
  ⟨((C9_device_loss_is_retry deviceRemoved (Or.inl rfl)).2.1 lossPresentEnv paintedEngine
      uploadedEngine rfl).1, rfl, rfl⟩

/-! ### The fatal precondition of `StartPaint` -/

theorem UpdateFont_cellSize {proposed : Except ErrorCode FontInfo} {e e1 : Engine} {hr : HRESULT}
    (h : UpdateFont proposed e = some (hr, e1)) :
    e1._api.cellSize = e._api.cellSize ∨
    (e1._api.cellSize.x ≠ 0 ∧ e1._api.cellSize.y ≠ 0) := by
  unfold UpdateFont at h
  split at h
  · rw [← (Prod.mk.inj (Option.some.inj h)).2]
    exact Or.inl rfl
  · split at h
    · exact absurd h (by simp)
    · simp only at h
      split at h
      · exact absurd h (by simp)
      · split at h
        · split at h
          · exact absurd h (by simp)
          · rename_i newSize _ _ cellCount hdiv
            have he : e1 = _ := (Prod.mk.inj (Option.some.inj h)).2.symm
            subst he
            obtain ⟨hx, hy, _⟩ := u16x2_div_eq hdiv
            exact Or.inr ⟨hx, hy⟩
        · have he : e1 = _ := (Prod.mk.inj (Option.some.inj h)).2.symm
          subst he
          exact Or.inl rfl

theorem handleException_api (hr : HRESULT) (e : Engine) :
    (_handleException hr e).2._api = e._api := by
  unfold _handleException
  split <;> rfl

theorem catchReturn_api {o : Outcome Engine} {hr : HRESULT} {s : Engine} {api : api_state}
    (h : catchReturn o = some (hr, s))
    (hok : ∀ s1, o = .ok s1 → s1._api = api)
    (hth : ∀ ex s1, o = .thrown ex s1 → s1._api = api) : s._api = api := by
  unfold catchReturn at h
  split at h
  · rename_i s1
    rw [← (Prod.mk.inj (Option.some.inj h)).2]
    exact hok s1 rfl
  · rename_i c s1
    have h1 : _handleException c.hr s1 = (hr, s) := Option.some.inj h
    have := handleException_api c.hr s1
    rw [h1] at this
    rw [this]
    exact hth _ s1 rfl
  · rename_i c s1
    rw [← (Prod.mk.inj (Option.some.inj h)).2]
    exact hth _ s1 rfl
  · exact absurd h (by simp)

theorem StartPaint_rebuild_api {env : StartPaintEnv} {e : Engine} :
    (∀ s, StartPaint_rebuild env e = .ok s → s._api = e._api) ∧
    (∀ ex s, StartPaint_rebuild env e = .thrown ex s → s._api = e._api) := by
  constructor
  · intro s h
    obtain ⟨e1, e2, hd, hsz, hf⟩ := StartPaint_rebuild_ok h
    obtain ⟨_, d2, _⟩ := StartPaint_device_ok hd
    obtain ⟨_, _, _, s4, _⟩ := StartPaint_size_ok hsz
    obtain ⟨_, _, _, f4, _⟩ := StartPaint_font_ok hf
    rw [f4, s4, d2]
  · intro ex s h
    rcases StartPaint_rebuild_thrown h with hd | ⟨e1, hd, hsz⟩ | ⟨e1, e2, hd, hsz, hf⟩
    · exact (StartPaint_device_thrown hd).2.2.1
    · rw [(StartPaint_size_thrown hsz).2.2.1, (StartPaint_device_ok hd).2.1]
    · rw [(StartPaint_font_thrown hf).2.2.1, (StartPaint_size_ok hsz).2.2.2.1,
        (StartPaint_device_ok hd).2.1]

theorem StartPaint_cellSize {env : StartPaintEnv} {e s : Engine} {hr : HRESULT}
    (h : StartPaint env e = some (hr, s)) : s._api.cellSize = e._api.cellSize := by
  unfold StartPaint at h
  cases hh : StartPaint_hwnd env.clientRect e with
  | none =>
    unfold StartPaint_try at h
    rw [hh] at h
    exact absurd h (by simp [catchReturn])
  | some e1 =>
    have hcs : e1._api.cellSize = e._api.cellSize := (StartPaint_hwnd_effect hh).2.2.2.2.2.2
    have hapi : s._api = e1._api := by
      refine catchReturn_api h ?_ ?_
      · intro s1 h1
        obtain ⟨e1a, e2, hh1, hcase, _, h2, _⟩ := StartPaint_try_ok h1
        have he : e1a = e1 := Option.some.inj (hh1.symm.trans hh)
        subst he
        rcases hcase with ⟨_, he2⟩ | ⟨_, hreb⟩
        · rw [h2, he2]
        · rw [h2, StartPaint_rebuild_api.1 e2 hreb]
      · intro ex s1 h1
        obtain ⟨e1a, hh1, hreb⟩ := StartPaint_try_thrown h1
        have he : e1a = e1 := Option.some.inj (hh1.symm.trans hh)
        subst he
        exact StartPaint_rebuild_api.2 ex s1 hreb
    rw [hapi, hcs]

theorem Present_api {env : PresentEnv} {e s : Engine} {hr : HRESULT}
    (h : Present env e = some (hr, s)) : s._api = e._api := by
  refine catchReturn_api h ?_ ?_
  · intro s1 h1
    obtain ⟨calls, queue, cb, rfl⟩ := (Present_try_frame env e).1 s1 h1
    rfl
  · intro ex s1 h1
    obtain ⟨calls, queue, cb, rfl⟩ := (Present_try_frame env e).2 ex s1 h1
    rfl

theorem Call_run_cellSize {c : Call} {e e1 : Engine} (h : c.run e = some e1) :
    e1._api.cellSize = e._api.cellSize ∨
    (e1._api.cellSize.x ≠ 0 ∧ e1._api.cellSize.y ≠ 0) := by
  cases c with
  | SetWindowSize pixels =>
    simp only [Call.run, Option.map_eq_some'] at h
    obtain ⟨⟨hr, e2⟩, h1, h2⟩ := h
    simp only at h2
    subst h2
    rcases (SetWindowSize_effect h1).2 with h0 | ⟨_, _, _, _, h5⟩
    · rw [h0]
      exact Or.inl rfl
    · exact Or.inl h5
  | UpdateFont proposed =>
    simp only [Call.run, Option.map_eq_some'] at h
    obtain ⟨⟨hr, e2⟩, h1, h2⟩ := h
    simp only at h2
    subst h2
    exact UpdateFont_cellSize h1
  | UpdateDpi dpi =>
    simp only [Call.run, Option.map_eq_some'] at h
    obtain ⟨⟨hr, e2⟩, h1, h2⟩ := h
    simp only at h2
    subst h2
    unfold UpdateDpi at h1
    split at h1
    · exact absurd h1 (by simp)
    · split at h1
      · rw [← (Prod.mk.inj (Option.some.inj h1)).2]
        exact Or.inl rfl
      · rw [← (Prod.mk.inj (Option.some.inj h1)).2]
        exact Or.inl rfl
  | SetAntialiasingMode mode =>
    simp only [Call.run] at h
    unfold SetAntialiasingMode at h
    split at h
    · exact absurd h (by simp)
    · rw [← Option.some.inj h]
      exact Or.inl rfl
  | SetHwnd hwnd =>
    simp only [Call.run] at h
    rw [← Option.some.inj h]
    exact Or.inl rfl
  | InvalidateTitle =>
    simp only [Call.run] at h
    rw [← Option.some.inj h]
    exact Or.inl rfl
  | SetSelectionBackground color =>
    simp only [Call.run] at h
    rw [← Option.some.inj h]
    unfold SetSelectionBackground
    split
    · exact Or.inl rfl
    · exact Or.inl rfl
  | UpdateDrawingBrushes fg bg b i d sd =>
    simp only [Call.run] at h
    rw [← Option.some.inj h]
    unfold UpdateDrawingBrushes
    split
    · exact Or.inl rfl
    · split
      · exact Or.inl rfl
      · exact Or.inl rfl
  | GetSwapChainHandle env =>
    simp only [Call.run] at h
    unfold GetSwapChainHandle at h
    split at h
    · rename_i s hs
      rw [← Option.some.inj h]
      split at hs
      · rw [(createResources_ok hs).1]
        exact Or.inl rfl
      · rw [← Outcome.ok.inj hs]
        exact Or.inl rfl
    · rename_i ex s hs
      rw [← Option.some.inj h]
      split at hs
      · rw [(createResources_thrown hs).1]
        exact Or.inl rfl
      · exact absurd hs (by simp)
    · exact absurd h (by simp)
  | StartPaint env =>
    simp only [Call.run, Option.map_eq_some'] at h
    obtain ⟨⟨hr, e2⟩, h1, h2⟩ := h
    simp only at h2
    subst h2
    exact Or.inl (StartPaint_cellSize h1)
  | emplaceGlyph key y x1 x2 =>
    simp only [Call.run] at h
    rw [(emplaceGlyph_frame h).1]
    exact Or.inl rfl
  | PaintSelection rect =>
    simp only [Call.run, Option.map_eq_some'] at h
    obtain ⟨⟨hr, e2⟩, h1, h2⟩ := h
    simp only at h2
    subst h2
    rw [(PaintSelection_frame h1).1]
    exact Or.inl rfl
  | PaintCursor options =>
    simp only [Call.run, Option.map_eq_some'] at h
    obtain ⟨⟨hr, e2⟩, h1, h2⟩ := h
    simp only at h2
    subst h2
    rw [(PaintCursor_frame h1).1]
    exact Or.inl rfl
  | Present env =>
    simp only [Call.run, Option.map_eq_some'] at h
    obtain ⟨⟨hr, e2⟩, h1, h2⟩ := h
    simp only at h2
    subst h2
    rw [Present_api h1]
    exact Or.inl rfl

theorem runCalls_cellSize (calls : List Call) :
    ∀ e e1 : Engine,
      (e._api.cellSize = {} ∨ (e._api.cellSize.x ≠ 0 ∧ e._api.cellSize.y ≠ 0)) →
      runCalls e calls = some e1 →
      (e1._api.cellSize = {} ∨ (e1._api.cellSize.x ≠ 0 ∧ e1._api.cellSize.y ≠ 0)) := by
  induction calls with
  | nil =>
    intro e e1 inv h
    rw [← Option.some.inj h]
    exact inv
  | cons c cs ih =>
    intro e e1 inv h
    simp only [runCalls] at h
    split at h
    · exact absurd h (by simp)
    · rename_i e2 hstep
      refine ih e2 e1 ?_ h
      rcases Call_run_cellSize hstep with hsame | hnz
      · rw [hsame]
        exact inv
      · exact Or.inr hnz

theorem Reachable_cellSize {e : Engine} (h : Reachable e) :
    e._api.cellSize = {} ∨ (e._api.cellSize.x ≠ 0 ∧ e._api.cellSize.y ≠ 0) := by
  obtain ⟨calls, hrun⟩ := h
  exact runCalls_cellSize calls Engine.new e (Or.inl rfl) hrun

/-- C11, counterexample: an 8x16 pixel cell in a 5x16 pixel viewport gives the
cell count `(0, 1)`, which has a zero component; with all three rebuilds
pending `StartPaint` does not abort but rebuilds the resources and returns
`S_OK`, and the cell grid it leaves has width zero. -/
theorem C11_counterexample :
    runCalls Engine.new narrowCalls = some narrowEngine ∧
    narrowEngine._invalidations ≠ invalidation_flags.none ∧
    narrowEngine._api.cellCount.x = 0 ∧
    StartPaint okStartPaintEnv narrowEngine = some (S_OK, narrowPainted) ∧
    narrowPainted._api.cellCount.x = 0 :=
  ⟨rfl, by decide, rfl, rfl, rfl⟩

/-- C11 (amended): a `StartPaint` that has an invalidation pending after its
window block aborts whenever the viewport size, the cell size or the cell
count is the zero vector `(0, 0)`; so every such `StartPaint` that returns
had a viewport, a cell size and a cell count different from `(0, 0)`, and in
a reachable state its cell size has non-zero width and non-zero height. -/
theorem C11_zero_vector_aborts (env : StartPaintEnv) (e e1 : Engine)
    (hh : StartPaint_hwnd env.clientRect e = some e1)
    (hp : e1._invalidations ≠ invalidation_flags.none) :
    ((e1._api.sizeInPixel = {} ∨ e1._api.cellSize = {} ∨ e1._api.cellCount = {}) →
      StartPaint env e = none) ∧
    (∀ (hr : HRESULT) (s : Engine), StartPaint env e = some (hr, s) →
      e1._api.sizeInPixel ≠ {} ∧ e1._api.cellSize ≠ {} ∧ e1._api.cellCount ≠ {} ∧
      (Reachable e → e1._api.cellSize.x ≠ 0 ∧ e1._api.cellSize.y ≠ 0)) := by
  have habort : (e1._api.sizeInPixel = {} ∨ e1._api.cellSize = {} ∨ e1._api.cellCount = {}) →
      StartPaint env e = none := by
    intro hz
    unfold StartPaint StartPaint_try
    rw [hh]
    simp only [if_pos hp, if_pos hz, Outcome.bind, catchReturn]
  refine ⟨habort, ?_⟩
  intro hr s hrun
  have hnz : ¬ (e1._api.sizeInPixel = {} ∨ e1._api.cellSize = {} ∨ e1._api.cellCount = {}) := by
    intro hz
    rw [habort hz] at hrun
    exact absurd hrun (by simp)
  have h1 : e1._api.sizeInPixel ≠ {} := fun h => hnz (Or.inl h)
  have h2 : e1._api.cellSize ≠ {} := fun h => hnz (Or.inr (Or.inl h))
  have h3 : e1._api.cellCount ≠ {} := fun h => hnz (Or.inr (Or.inr h))
  refine ⟨h1, h2, h3, ?_⟩
  intro hreach
  have hcs : e1._api.cellSize = e._api.cellSize := (StartPaint_hwnd_effect hh).2.2.2.2.2.2
  rcases Reachable_cellSize hreach with hz | hnz2
  · exact absurd (hcs.trans hz) h2
  · rw [hcs]
    exact hnz2

/-- C11, scenario: the 8x16 pixel cell in a 16x16 pixel viewport passes the
check and is rebuilt; had the cell count been `(0, 0)` the call would have
aborted. -/
theorem C11_zero_vector_aborts_witness :
    StartPaint okStartPaintEnv smallEngine = some (S_OK, paintedEngine) ∧
    smallEngine._api.sizeInPixel ≠ {} ∧ smallEngine._api.cellSize ≠ {} ∧
    smallEngine._api.cellCount ≠ {} ∧
    (Reachable smallEngine → smallEngine._api.cellSize.x ≠ 0 ∧ smallEngine._api.cellSize.y ≠ 0) :=
  ⟨rfl, (C11_zero_vector_aborts okStartPaintEnv smallEngine smallEngine rfl (by decide)).2
    S_OK paintedEngine rfl⟩

/-! ### Glyph keys -/

theorem padded_injective {k1 k2 : List Nat} {m1 m2 : Nat}
    (h1 : k1.getLast? ≠ some 0) (h2 : k2.getLast? ≠ some 0)
    (h : k1 ++ List.replicate m1 0 = k2 ++ List.replicate m2 0) : k1 = k2 := by
  have key : ∀ (a b t d : List Nat) (m : Nat), b = a ++ t → t ++ d = List.replicate m 0 →
      b.getLast? ≠ some 0 → a = b := by
    intro a b t d m hb ht hlast
    cases t with
    | nil => simpa using hb.symm
    | cons x xs =>
      exfalso
      apply hlast
      have hz : ∀ z ∈ x :: xs, z = 0 := by
        intro z hz
        have : z ∈ List.replicate m 0 := by
          rw [← ht]
          exact List.mem_append_left _ hz
        exact List.eq_of_mem_replicate this
      rw [hb, List.getLast?_append_of_ne_nil _ (List.cons_ne_nil x xs)]
      rw [List.getLast?_eq_getLast _ (List.cons_ne_nil x xs)]
      exact congrArg some (hz _ (List.getLast_mem _))
  rcases List.append_eq_append_iff.mp h with ⟨t, hk, ht⟩ | ⟨t, hk, ht⟩
  · exact key k1 k2 t _ m1 hk ht.symm h2
  · exact (key k2 k1 t _ m2 hk ht.symm h1).symm

theorem makeEntry_chars {key : List Nat} (attributes : glyph_entry_attributes) (cells : Nat)
    (h : key.length ≤ 15) :
    (makeEntry key attributes cells).chars = key ++ List.replicate (15 - key.length) 0 := by
  unfold makeEntry
  simp only
  rw [if_neg (by omega), List.take_length]

theorem glyphCells_exact {x1 x2 : Nat} (h1 : x1 < x2) (h2 : x2 - x1 ≤ 16) :
    glyphCells x1 x2 = x2 - x1 := by
  unfold glyphCells
  simp only
  have : (x2 + 65536 - x1) % 65536 = x2 - x1 := by omega
  rw [this, if_neg (by omega)]

/-- C12, counterexample: the one-unit text "A" and the two-unit text "A" followed
by U+0000 are different texts of 1..15 code units, and with the same
attributes and the same one-cell span they form the same key. -/
theorem C12_counterexample :
    ([65] : List Nat) ≠ [65, 0] ∧
    makeEntry [65] {} (glyphCells 0 1) = makeEntry [65, 0] {} (glyphCells 0 1) :=
  ⟨by decide, by decide⟩

/-- C12 (amended): for texts of 1..15 code units whose last code unit is not
U+0000 and spans of 1..16 cells, two requests to `_emplaceGlyph` form equal
keys if and only if they have the same text, the same bold flag, the same
italic flag and the same cell span; key equality is reflexive, symmetric and
transitive. -/
theorem C12_keys_collision_free (k1 k2 : List Nat) (a1 a2 : glyph_entry_attributes)
    (x1 x2 x3 x4 : Nat)
    (hk1 : 1 ≤ k1.length ∧ k1.length ≤ 15) (hk2 : 1 ≤ k2.length ∧ k2.length ≤ 15)
    (hn1 : k1.getLast? ≠ some 0) (hn2 : k2.getLast? ≠ some 0)
    (hs1 : x1 < x2 ∧ x2 - x1 ≤ 16) (hs2 : x3 < x4 ∧ x4 - x3 ≤ 16) :
    (makeEntry k1 a1 (glyphCells x1 x2) = makeEntry k2 a2 (glyphCells x3 x4) ↔
      k1 = k2 ∧ a1.bold = a2.bold ∧ a1.italic = a2.italic ∧ x2 - x1 = x4 - x3) ∧
    (∀ a : glyph_entry, (a == a) = true) ∧
    (∀ a b : glyph_entry, (a == b) = true → (b == a) = true) ∧
    (∀ a b c : glyph_entry, (a == b) = true → (b == c) = true → (a == c) = true) := by
  refine ⟨?_, ?_, ?_, ?_⟩
  · rw [glyphCells_exact hs1.1 hs1.2, glyphCells_exact hs2.1 hs2.2]
    constructor
    · intro h
      have hc := congrArg glyph_entry.chars h
      rw [makeEntry_chars a1 _ hk1.2, makeEntry_chars a2 _ hk2.2] at hc
      have ha := congrArg glyph_entry.attributes h
      unfold makeEntry at ha
      simp only at ha
      have hb := congrArg glyph_entry_attributes.bold ha
      have hi := congrArg glyph_entry_attributes.italic ha
      have hcells := congrArg glyph_entry_attributes.cells ha
      simp only at hb hi hcells
      refine ⟨padded_injective hn1 hn2 hc, hb, hi, ?_⟩
      omega
    · rintro ⟨hk, hb, hi, hc⟩
      subst hk
      unfold makeEntry
      simp only [hb, hi, hc]
  · intro a
    simp
  · intro a b h
    have := eq_of_beq h
    subst this
    simp
  · intro a b c h1 h2
    have := eq_of_beq h1
    subst this
    exact h2

/-- C12, witness: "A" and "B" in a one-cell span form different keys, and so do
"A" in a one-cell and "A" in a two-cell span. -/
theorem C12_keys_collision_free_witness :
    (makeEntry [65] {} (glyphCells 0 1) = makeEntry [66] {} (glyphCells 0 1) ↔
      ([65] : List Nat) = [66] ∧ (false = false) ∧ (false = false) ∧ 1 - 0 = 1 - 0) ∧
    (makeEntry [65] {} (glyphCells 0 1) = makeEntry [65] {} (glyphCells 0 2) ↔
      ([65] : List Nat) = [65] ∧ (false = false) ∧ (false = false) ∧ 1 - 0 = 2 - 0) :=
  ⟨(C12_keys_collision_free [65] [66] {} {} 0 1 0 1 (by decide) (by decide) (by decide)
      (by decide) (by decide) (by decide)).1,
   (C12_keys_collision_free [65] [65] {} {} 0 1 0 2 (by decide) (by decide) (by decide)
      (by decide) (by decide) (by decide)).1⟩

/-! ### Flattening of the clusters -/

theorem flattenClusters_text (clusters : List Cluster) :
    ∀ column : Nat, (flattenClusters column clusters).1 = (clusters.map Cluster.text).flatten := by
  induction clusters with
  | nil => intro column; rfl
  | cons c cs ih =>
    intro column
    simp only [flattenClusters, List.map_cons, List.flatten_cons]
    rw [ih]

theorem flattenClusters_length (clusters : List Cluster) :
    ∀ column : Nat,
      (flattenClusters column clusters).2.length = (flattenClusters column clusters).1.length + 1 := by
  induction clusters with
  | nil => intro column; rfl
  | cons c cs ih =>
    intro column
    simp only [flattenClusters, List.length_append, List.length_replicate]
    rw [ih]
    omega

theorem flattenClusters_units (clusters : List Cluster) (column : Nat) :
    (flattenClusters column clusters).1.length = unitsBefore clusters clusters.length := by
  rw [flattenClusters_text]
  unfold unitsBefore
  rw [List.take_length, List.length_flatten, List.map_map]
  rfl

theorem flattenClusters_entry (clusters : List Cluster) :
    ∀ (column k : Nat) (c : Cluster), column < 65536 → clusters[k]? = some c →
      ∀ i : Nat, i < c.text.length →
        (flattenClusters column clusters).2[unitsBefore clusters k + i]?
          = some ((column + columnsBefore clusters k) % 65536) := by
  induction clusters with
  | nil => intro column k c _ hk; simp at hk
  | cons c0 cs ih =>
    intro column k c hcol hk i hi
    simp only [flattenClusters]
    cases k with
    | zero =>
      simp only [List.getElem?_cons_zero, Option.some.injEq] at hk
      subst hk
      simp only [unitsBefore, columnsBefore, List.take_zero, List.map_nil, List.sum_nil,
        Nat.zero_add, Nat.add_zero]
      rw [List.getElem?_append_left (by simpa using hi)]
      rw [List.getElem?_replicate, if_pos hi, Nat.mod_eq_of_lt hcol]
    | succ k =>
      simp only [List.getElem?_cons_succ] at hk
      have hu : unitsBefore (c0 :: cs) (k + 1) = c0.text.length + unitsBefore cs k := by
        simp [unitsBefore]
      have hc : columnsBefore (c0 :: cs) (k + 1) = c0.columns + columnsBefore cs k := by
        simp [columnsBefore]
      rw [hu, hc]
      rw [List.getElem?_append_right (by simp; omega)]
      have hidx : c0.text.length + unitsBefore cs k + i - (List.replicate c0.text.length column).length
          = unitsBefore cs k + i := by
        simp only [List.length_replicate]
        omega
      rw [hidx, ih _ k c (Nat.mod_lt _ (by decide)) hk i hi]
      congr 1
      omega

theorem flattenClusters_last (clusters : List Cluster) :
    ∀ column : Nat, column < 65536 →
      (flattenClusters column clusters).2[(flattenClusters column clusters).1.length]?
        = some ((column + columnsBefore clusters clusters.length) % 65536) := by
  induction clusters with
  | nil =>
    intro column hcol
    simp [flattenClusters, columnsBefore, Nat.mod_eq_of_lt hcol]
  | cons c0 cs ih =>
    intro column hcol
    simp only [flattenClusters, List.length_append]
    have hc : columnsBefore (c0 :: cs) (c0 :: cs).length = c0.columns + columnsBefore cs cs.length := by
      simp [columnsBefore]
    rw [hc, List.getElem?_append_right (by simp)]
    have hidx : c0.text.length
          + (flattenClusters ((column + c0.columns % 65536) % 65536) cs).1.length
          - (List.replicate c0.text.length column).length
        = (flattenClusters ((column + c0.columns % 65536) % 65536) cs).1.length := by
      simp only [List.length_replicate]
      omega
    rw [hidx, ih _ (Nat.mod_lt _ (by decide))]
    congr 1
    omega

theorem flattenClusters_sorted (clusters : List Cluster) :
    ∀ column : Nat, column + columnsBefore clusters clusters.length < 65536 →
      List.Pairwise (fun a b => a ≤ b) (flattenClusters column clusters).2 ∧
      ∀ v ∈ (flattenClusters column clusters).2,
        column ≤ v ∧ v ≤ column + columnsBefore clusters clusters.length := by
  induction clusters with
  | nil =>
    intro column _
    simp [flattenClusters, columnsBefore]
  | cons c0 cs ih =>
    intro column hfit
    have hc : columnsBefore (c0 :: cs) (c0 :: cs).length = c0.columns + columnsBefore cs cs.length := by
      simp [columnsBefore]
    rw [hc] at hfit ⊢
    have hnext : (column + c0.columns % 65536) % 65536 = column + c0.columns := by omega
    simp only [flattenClusters]
    rw [hnext]
    obtain ⟨hs, hb⟩ := ih (column + c0.columns) (by omega)
    constructor
    · rw [List.pairwise_append]
      refine ⟨?_, hs, ?_⟩
      · rw [List.pairwise_replicate]
        exact Or.inr (Nat.le_refl _)
      · intro a ha b hb1
        have := List.eq_of_mem_replicate ha
        have := (hb b hb1).1
        omega
    · intro v hv
      rcases List.mem_append.mp hv with h1 | h1
      · have := List.eq_of_mem_replicate h1
        omega
      · have := hb v h1
        omega

theorem emplaceRuns_frame (y : Nat) (runs : List GlyphRun) :
    ∀ e e1 : Engine, emplaceRuns y runs e = some e1 →
      e1._api = e._api ∧ e1._rapi = e._rapi ∧ e1._invalidations = e._invalidations ∧
      e1.calls = e.calls ∧ e1._r.cells.length = e._r.cells.length ∧
      e1._r.atlasSizeInPixel = e._r.atlasSizeInPixel := by
  induction runs with
  | nil =>
    intro e e1 h
    rw [← Option.some.inj h]
    exact ⟨rfl, rfl, rfl, rfl, rfl, rfl⟩
  | cons r rest ih =>
    intro e e1 h
    simp only [emplaceRuns] at h
    split at h
    · exact absurd h (by simp)
    · rename_i e2 hstep
      obtain ⟨a1, a2, a3, a4, a5, a6⟩ := emplaceGlyph_frame hstep
      obtain ⟨b1, b2, b3, b4, b5, b6⟩ := ih e2 e1 h
      exact ⟨b1.trans a1, b2.trans a2, b3.trans a3, b4.trans a4, b5.trans a5, b6.trans a6⟩

theorem processBufferLine_line {env : ShapingEnv} {fuel y : Nat} {e : Engine}
    {o : Outcome Engine} (h : _processBufferLine env fuel y e = .result o) :
    (∀ s, o = .ok s → s._rapi.bufferLine = e._rapi.bufferLine ∧
      s._rapi.bufferLinePos = e._rapi.bufferLinePos) ∧
    (∀ ex s, o = .thrown ex s → s._rapi.bufferLine = e._rapi.bufferLine ∧
      s._rapi.bufferLinePos = e._rapi.bufferLinePos) := by
  unfold _processBufferLine at h
  simp only at h
  split at h
  · have ho : o = .failFast := (Fueled.result.inj h).symm
    subst ho
    exact ⟨fun s hs => by simp at hs, fun ex s hs => by simp at hs⟩
  · rename_i e2 hrun
    have hf := (emplaceRuns_frame y _ _ e2 hrun).2.1
    split at h
    · have ho : o = _ := (Fueled.result.inj h).symm
      subst ho
      refine ⟨?_, fun ex s hs => by simp at hs⟩
      intro s hs
      rw [← Outcome.ok.inj hs]
      simp [hf]
    · have ho : o = _ := (Fueled.result.inj h).symm
      subst ho
      refine ⟨fun s hs => by simp at hs, ?_⟩
      intro ex s hs
      injection hs with _ hs2
      rw [← hs2]
      simp [hf]
    · have ho : o = .failFast := (Fueled.result.inj h).symm
      subst ho
      exact ⟨fun s hs => by simp at hs, fun ex s hs => by simp at hs⟩
    · exact absurd h (by simp)

theorem PaintBufferLine_line {env : ShapingEnv} {fuel : Nat} {clusters : List Cluster}
    {coord : COORD} {e s : Engine} {hr : HRESULT}
    (h : PaintBufferLine env fuel clusters coord e = .result (some (hr, s))) :
    s._rapi.bufferLine = (flattenClusters 0 clusters).1 ∧
    s._rapi.bufferLinePos = (flattenClusters 0 clusters).2 := by
  unfold PaintBufferLine at h
  split at h
  · exact absurd h (by simp)
  · rename_i s1 hp
    have hs : s = s1 := (Prod.mk.inj (Option.some.inj (Fueled.result.inj h))).2.symm
    subst hs
    exact (processBufferLine_line hp).1 s rfl
  · rename_i ex s1 hp
    have hs : s = s1 := (Prod.mk.inj (Option.some.inj (Fueled.result.inj h))).2.symm
    subst hs
    exact (processBufferLine_line hp).2 ex s rfl
  · exact absurd h (by simp)

theorem scenario_paintedAB :
    PaintBufferLine plainShapingEnv 3 lineAB { X := 0, Y := 0 } paintedEngine
      = .result (some (S_OK, paintedAB)) := rfl

/-- C14: the flattening of `PaintBufferLine`. For every list of clusters
`bufferLine` is the concatenation of the cluster texts in order,
`bufferLinePos` has one entry more than `bufferLine` has code units, the
entry of each code unit of cluster `k` is the sum of the column counts of the
clusters before `k` modulo 2^16, and the trailing entry is the sum of all
column counts modulo 2^16; when that total is below 2^16 the trailing entry is
the total itself and `bufferLinePos` is non-decreasing. These are the two
buffers every `PaintBufferLine` that returns leaves in `_rapi`. -/
theorem C14_flattening (clusters : List Cluster) :
    (flattenClusters 0 clusters).1 = (clusters.map Cluster.text).flatten ∧
    (flattenClusters 0 clusters).2.length = (flattenClusters 0 clusters).1.length + 1 ∧
    (∀ (k : Nat) (c : Cluster), clusters[k]? = some c → ∀ i : Nat, i < c.text.length →
      (flattenClusters 0 clusters).2[unitsBefore clusters k + i]?
        = some (columnsBefore clusters k % 65536)) ∧
    (flattenClusters 0 clusters).2[(flattenClusters 0 clusters).1.length]?
      = some (columnsBefore clusters clusters.length % 65536) ∧
    (columnsBefore clusters clusters.length < 65536 →
      (flattenClusters 0 clusters).2[(flattenClusters 0 clusters).1.length]?
        = some (columnsBefore clusters clusters.length) ∧
      List.Pairwise (fun a b => a ≤ b) (flattenClusters 0 clusters).2) ∧
    (∀ (env : ShapingEnv) (fuel : Nat) (coord : COORD) (e s : Engine) (hr : HRESULT),
      PaintBufferLine env fuel clusters coord e = .result (some (hr, s)) →
      s._rapi.bufferLine = (flattenClusters 0 clusters).1 ∧
      s._rapi.bufferLinePos = (flattenClusters 0 clusters).2) := by
  refine ⟨flattenClusters_text clusters 0, flattenClusters_length clusters 0, ?_, ?_, ?_, ?_⟩
  · intro k c hk i hi
    have := flattenClusters_entry clusters 0 k c (by decide) hk i hi
    rw [Nat.zero_add] at this
    exact this
  · have := flattenClusters_last clusters 0 (by decide)
    rw [Nat.zero_add] at this
    exact this
  · intro hfit
    have h1 := flattenClusters_last clusters 0 (by decide)
    rw [Nat.zero_add, Nat.mod_eq_of_lt hfit] at h1
    exact ⟨h1, (flattenClusters_sorted clusters 0 (by omega)).1⟩
  · intro env fuel coord e s hr h
    exact PaintBufferLine_line h

/-- C14, scenario: the line "AB" of two one-column clusters is flattened to the
text `[65, 66]` with the positions `[0, 1, 2]`. -/
theorem C14_flattening_witness :
    columnsBefore lineAB lineAB.length < 65536 ∧
    PaintBufferLine plainShapingEnv 3 lineAB { X := 0, Y := 0 } paintedEngine
      = .result (some (S_OK, paintedAB)) ∧
    (flattenClusters 0 lineAB).2[(flattenClusters 0 lineAB).1.length]? = some 2 ∧
    List.Pairwise (fun a b => a ≤ b) (flattenClusters 0 lineAB).2 ∧
    paintedAB._rapi.bufferLine = (flattenClusters 0 lineAB).1 ∧
    paintedAB._rapi.bufferLinePos = (flattenClusters 0 lineAB).2 :=
  ⟨by decide, rfl, ((C14_flattening lineAB).2.2.2.2.1 (by decide)).1,
    ((C14_flattening lineAB).2.2.2.2.1 (by decide)).2,
    (C14_flattening lineAB).2.2.2.2.2 plainShapingEnv 3 { X := 0, Y := 0 } paintedEngine
      paintedAB S_OK rfl⟩

/-! ### Runs of a shaped segment -/

theorem u32_of_lt {n : Nat} (h : n < 4294967296) : u32 n = n := Nat.mod_eq_of_lt h

theorem getElem?_eq_getD {α : Type} (l : List α) (i : Nat) (d : α) (h : i < l.length) :
    l[i]? = some (l.getD i d) := by
  rw [List.getD_eq_getElem?_getD, List.getElem?_eq_getElem h]
  rfl

theorem keyAt_inside {bufferLine : List Nat} {start len : Nat}
    (h : start + len ≤ bufferLine.length) :
    keyAt bufferLine start len = some ((bufferLine.drop start).take len) := by
  unfold keyAt
  rw [if_pos (by omega), List.drop_append_of_le_length (by omega),
    List.take_append_of_le_length (by rw [List.length_drop]; omega)]

theorem cutsFrom_zip (b : Nat → Bool) (n : Nat) :
    ∀ i beg : Nat,
      cutsFrom b n i beg
        = List.zip (beg :: ((List.range' i n).filter b).map (· + 1)) ((List.range' i n).filter b) := by
  induction n with
  | zero => intro i beg; rfl
  | succ n ih =>
    intro i beg
    simp only [cutsFrom, List.range'_succ]
    cases hb : b i
    · simp only [Bool.false_eq_true, if_false]
      rw [ih, List.filter_cons_of_neg (by simp [hb])]
    · simp only [if_true]
      rw [ih, List.filter_cons_of_pos (by simp [hb])]
      rfl

theorem range'_split (a b c : Nat) (h : a ≤ b) :
    List.range' a (b - a) ++ List.range' b c = List.range' a (b - a + c) := by
  obtain ⟨d, rfl⟩ := Nat.exists_eq_add_of_le h
  rw [Nat.add_sub_cancel_left, List.range'_append_1, Nat.add_comm]

theorem cutsFrom_partition (b : Nat → Bool) (n : Nat) :
    ∀ i beg : Nat, beg ≤ i → (n = 0 → beg = i) → (0 < n → b (i + n - 1) = true) →
      ((cutsFrom b n i beg).map fun r => List.range' r.1 (r.2 + 1 - r.1)).flatten
        = List.range' beg (i + n - beg) ∧
      ∀ r ∈ cutsFrom b n i beg, r.1 ≤ r.2 ∧ b r.2 = true := by
  induction n with
  | zero =>
    intro i beg _ h0 _
    rw [h0 rfl]
    simp [cutsFrom]
  | succ n ih =>
    intro i beg hle _ hlast
    simp only [cutsFrom]
    cases hb : b i
    · simp only [Bool.false_eq_true, if_false]
      have hn : n ≠ 0 := by
        intro hn
        subst hn
        have := hlast (by omega)
        simp only [Nat.zero_add, Nat.add_sub_cancel] at this
        rw [hb] at this
        exact absurd this (by simp)
      obtain ⟨h1, h2⟩ := ih (i + 1) beg (by omega) (fun h => absurd h hn)
        (fun hpos => by
          have := hlast (by omega)
          have he : i + 1 + n - 1 = i + (n + 1) - 1 := by omega
          rw [he]
          exact this)
      refine ⟨?_, h2⟩
      rw [h1]
      congr 1
      omega
    · simp only [if_true]
      obtain ⟨h1, h2⟩ := ih (i + 1) (i + 1) (Nat.le_refl _) (fun _ => rfl)
        (fun hpos => by
          have := hlast (by omega)
          have he : i + 1 + n - 1 = i + (n + 1) - 1 := by omega
          rw [he]
          exact this)
      constructor
      · simp only [List.map_cons, List.flatten_cons]
        rw [h1]
        have e1 : i + (n + 1) - beg = (i + 1 - beg) + (i + 1 + n - (i + 1)) := by omega
        rw [e1]
        exact range'_split beg (i + 1) _ (by omega)
      · intro r hr
        rcases List.mem_cons.mp hr with h | h
        · subst h
          exact ⟨hle, hb⟩
        · exact h2 r h

theorem splitLoop_eq (bufferLine bufferLinePos : List Nat) (size : Nat) (a : TextAnalyzerResult)
    (b : Nat → Bool) (hpos : bufferLinePos.length = bufferLine.length + 1)
    (hsize : bufferLine.length < 4294967296) (n : Nat) :
    ∀ i beg : Nat, beg ≤ i → a.textPosition + i + n ≤ bufferLine.length →
      splitLoop bufferLine bufferLinePos size a b n i beg
        = { runs := (cutsFrom b n i beg).map (runOf bufferLine bufferLinePos a.textPosition)
            glyphProps := size, stop := none } := by
  induction n with
  | zero => intro i beg _ _; rfl
  | succ n ih =>
    intro i beg hle hin
    simp only [splitLoop, cutsFrom]
    cases hb : b i
    · simp only [Bool.false_eq_true, if_false]
      exact ih (i + 1) beg (by omega) (by omega)
    · simp only [if_true]
      rw [u32_of_lt (by omega), u32_of_lt (by omega), keyAt_inside (by omega),
        getElem?_eq_getD bufferLinePos _ 0 (by omega),
        getElem?_eq_getD bufferLinePos _ 0 (by omega)]
      simp only
      rw [ih (i + 1) (i + 1) (Nat.le_refl _) (by omega)]
      rfl

/-! ### The retry loop around `GetGlyphs` -/

theorem getGlyphsLast_spec (env : ShapingEnv) (a : TextAnalyzerResult) (retry size : Nat) :
    (getGlyphsLast env a retry size).offered = [size] ∧
    (getGlyphsLast env a retry size).glyphProps = size ∧
    (0 ≤ (env.GetGlyphs a retry (u32 size)).1 →
      (getGlyphsLast env a retry size).result = .ok (env.GetGlyphs a retry (u32 size)).2) ∧
    ((env.GetGlyphs a retry (u32 size)).1 < 0 →
      ∃ code : ErrorCode, (getGlyphsLast env a retry size).result = .error code ∧
        code.hr = (env.GetGlyphs a retry (u32 size)).1) := by
  unfold getGlyphsLast
  simp only
  by_cases h : (env.GetGlyphs a retry (u32 size)).1 < 0
  · rw [dif_pos h]
    exact ⟨rfl, rfl, fun h0 => absurd h (not_lt.mpr h0), fun _ => ⟨_, rfl, rfl⟩⟩
  · rw [dif_neg h]
    exact ⟨rfl, rfl, fun _ => rfl, fun h1 => absurd h1 h⟩

theorem getGlyphsLoop_stops (env : ShapingEnv) (a : TextAnalyzerResult) (k : Nat) :
    ∀ remaining retry size : Nat, k ≤ remaining →
      (∀ j, j < k →
        (env.GetGlyphs a (retry + j) (u32 ((fun n => n + n / 2)^[j] size))).1
          = E_NOT_SUFFICIENT_BUFFER) →
      (env.GetGlyphs a (retry + k) (u32 ((fun n => n + n / 2)^[k] size))).1
        ≠ E_NOT_SUFFICIENT_BUFFER →
      (getGlyphsLoop env a remaining retry size).offered
        = (List.range (k + 1)).map (fun j => (fun n => n + n / 2)^[j] size) ∧
      (getGlyphsLoop env a remaining retry size).glyphProps = (fun n => n + n / 2)^[k] size ∧
      (getGlyphsLoop env a remaining retry size).result
        = (getGlyphsLast env a (retry + k) ((fun n => n + n / 2)^[k] size)).result := by
  induction k with
  | zero =>
    intro remaining retry size _ _ hlast
    simp only [Nat.add_zero, Function.iterate_zero, id_eq] at hlast
    cases remaining with
    | zero =>
      simp only [getGlyphsLoop, Nat.add_zero, Function.iterate_zero, id_eq]
      exact ⟨(getGlyphsLast_spec env a retry size).1, (getGlyphsLast_spec env a retry size).2.1,
        trivial⟩
    | succ n =>
      simp only [getGlyphsLoop, if_neg hlast, Nat.add_zero, Function.iterate_zero, id_eq]
      exact ⟨(getGlyphsLast_spec env a retry size).1, (getGlyphsLast_spec env a retry size).2.1,
        trivial⟩
  | succ k ih =>
    intro remaining retry size hle hfail hlast
    cases remaining with
    | zero => omega
    | succ n =>
      have h0 := hfail 0 (by omega)
      simp only [Nat.add_zero, Function.iterate_zero, id_eq] at h0
      simp only [getGlyphsLoop, if_pos h0]
      obtain ⟨i1, i2, i3⟩ := ih n (retry + 1) (size + size / 2) (by omega)
        (fun j hj => by
          have := hfail (j + 1) (by omega)
          rw [Function.iterate_succ_apply] at this
          rw [show retry + 1 + j = retry + (j + 1) by omega]
          exact this)
        (by
          rw [Function.iterate_succ_apply] at hlast
          rw [show retry + 1 + k = retry + (k + 1) by omega]
          exact hlast)
      refine ⟨?_, ?_, ?_⟩
      · rw [i1, List.range_succ_eq_map (k + 1), List.map_cons, List.map_map]
        rfl
      · rw [i2, Function.iterate_succ_apply]
      · rw [i3, Function.iterate_succ_apply, show retry + 1 + k = retry + (k + 1) by omega]

theorem getGlyphsLoop_exhausted (env : ShapingEnv) (a : TextAnalyzerResult) (remaining : Nat) :
    ∀ retry size : Nat,
      (∀ j, j ≤ remaining →
        (env.GetGlyphs a (retry + j) (u32 ((fun n => n + n / 2)^[j] size))).1
          = E_NOT_SUFFICIENT_BUFFER) →
      (getGlyphsLoop env a remaining retry size).offered
        = (List.range (remaining + 1)).map (fun j => (fun n => n + n / 2)^[j] size) ∧
      (getGlyphsLoop env a remaining retry size).glyphProps
        = (fun n => n + n / 2)^[remaining] size ∧
      ∃ code : ErrorCode, (getGlyphsLoop env a remaining retry size).result = .error code ∧
        code.hr = E_NOT_SUFFICIENT_BUFFER := by
  induction remaining with
  | zero =>
    intro retry size hfail
    have h0 := hfail 0 (Nat.le_refl 0)
    simp only [Nat.add_zero, Function.iterate_zero, id_eq] at h0
    obtain ⟨s1, s2, _, s4⟩ := getGlyphsLast_spec env a retry size
    obtain ⟨code, hc1, hc2⟩ := s4 (by rw [h0]; decide)
    simp only [getGlyphsLoop]
    exact ⟨s1, s2, code, hc1, hc2.trans h0⟩
  | succ n ih =>
    intro retry size hfail
    have h0 := hfail 0 (by omega)
    simp only [Nat.add_zero, Function.iterate_zero, id_eq] at h0
    simp only [getGlyphsLoop, if_pos h0]
    obtain ⟨i1, i2, i3⟩ := ih (retry + 1) (size + size / 2)
      (fun j hj => by
        have := hfail (j + 1) (by omega)
        rw [Function.iterate_succ_apply] at this
        rw [show retry + 1 + j = retry + (j + 1) by omega]
        exact this)
    refine ⟨?_, ?_, i3⟩
    · rw [i1, List.range_succ_eq_map (n + 1), List.map_cons, List.map_map]
      rfl
    · rw [i2, Function.iterate_succ_apply]

/-- C15: the runs of a shaped segment. For a segment of length `L ≥ 1` at
text position `p` inside the line whose `GetGlyphs` succeeded with the break
bits `b`, `_processBufferLine` emits, in order, exactly one run for every
interval `[beg, i]` that ends at a position `i` with `b i` set or `i = L - 1`
and starts right after the previous such position; the intervals partition
`[0, L)`; the run of `[beg, i]` has the text `bufferLine[p+beg .. p+i]` and
the columns from `bufferLinePos[p+beg]` to `bufferLinePos[p+i+1]`. -/
theorem C15_segment_runs (env : ShapingEnv) (bufferLine bufferLinePos : List Nat)
    (textProps : Nat) (a : TextAnalyzerResult) (size : Nat) (b : Nat → Bool)
    (hL : 1 ≤ a.textLength) (hin : a.textPosition + a.textLength ≤ bufferLine.length)
    (hpos : bufferLinePos.length = bufferLine.length + 1)
    (hsize : bufferLine.length < 4294967296) (htp : a.textLength ≤ textProps)
    (hshaped : (getGlyphsLoop env a 7 0 size).result = .ok b) :
    (shapeSegment env bufferLine bufferLinePos textProps a size).runs
      = (segmentIntervals a.textLength b).map (runOf bufferLine bufferLinePos a.textPosition) ∧
    (shapeSegment env bufferLine bufferLinePos textProps a size).stop = none ∧
    (segmentIntervals a.textLength b).map Prod.snd = segmentBreaks a.textLength b ∧
    ((segmentIntervals a.textLength b).map fun r => List.range' r.1 (r.2 + 1 - r.1)).flatten
      = List.range a.textLength ∧
    (∀ r ∈ segmentIntervals a.textLength b, r.1 ≤ r.2) := by
  have hu : u32 (a.textLength + 4294967295) = a.textLength - 1 := by
    unfold u32
    omega
  have hcuts : cutsFrom (fun i => b i || i == a.textLength - 1) a.textLength 0 0
      = segmentIntervals a.textLength b := by
    rw [cutsFrom_zip, ← List.range_eq_range']
    rfl
  have hpart := cutsFrom_partition (fun i => b i || i == a.textLength - 1) a.textLength 0 0
    (Nat.le_refl 0) (fun h => by omega) (fun _ => by simp)
  rw [hcuts] at hpart
  have hsplit := splitLoop_eq bufferLine bufferLinePos (getGlyphsLoop env a 7 0 size).glyphProps a
    (fun i => b i || i == a.textLength - 1) hpos hsize a.textLength 0 0 (Nat.le_refl 0)
    (by omega)
  rw [hcuts] at hsplit
  have hseg : shapeSegment env bufferLine bufferLinePos textProps a size
      = splitLoop bufferLine bufferLinePos (getGlyphsLoop env a 7 0 size).glyphProps a
          (fun i => b i || i == a.textLength - 1) a.textLength 0 0 := by
    unfold shapeSegment
    simp only [hshaped, hu]
    rw [if_pos (by omega)]
  rw [hseg, hsplit]
  refine ⟨rfl, rfl, ?_, ?_, ?_⟩
  · unfold segmentIntervals
    rw [List.map_snd_zip]
    simp
  · rw [hpart.1, List.range_eq_range', Nat.zero_add, Nat.sub_zero]
  · intro r hr
    exact (hpart.2 r hr).1

/-- C15, scenario: the three code units of "kṣa" occupy two columns and have
no break inside; the segment yields one run with the three code units that
spans the columns 0 to 2. -/
theorem C15_segment_runs_witness :
    (getGlyphsLoop complexShapingEnv { textPosition := 0, textLength := 3 } 7 0 20).result
      = .ok (fun _ => false) ∧
    (flattenClusters 0 lineKsha) = ([2325, 2381, 2359], [0, 0, 0, 2]) ∧
    (shapeSegment complexShapingEnv [2325, 2381, 2359] [0, 0, 0, 2] 3
        { textPosition := 0, textLength := 3 } 20).runs
      = [{ key := [2325, 2381, 2359], x1 := 0, x2 := 2 }] :=
  ⟨rfl, rfl,
    (C15_segment_runs complexShapingEnv [2325, 2381, 2359] [0, 0, 0, 2] 3
      { textPosition := 0, textLength := 3 } 20 (fun _ => false) (by decide) (by decide)
      (by decide) (by decide) (by decide) rfl).1⟩

/-- C16: the retry loop around `GetGlyphs`. With `g n = n + n / 2` and the
initial length `N` of `glyphProps`: when the service answers buffer-too-small
on the attempts 1 to `k` and not on attempt `k + 1`, with `k ≤ 7`, there are
`k + 1` attempts, attempt `j` is made with a buffer of length `g^(j-1) N` (the
count passed is this length as a `UINT32`), and the loop ends with the answer
of attempt `k + 1`: its break bits on success, its code as an exception
otherwise. When the service answers buffer-too-small on the first 8 attempts
there are 8 attempts and the loop throws the insufficient-buffer code, which
ends the segment. -/
theorem C16_shaping_retry (env : ShapingEnv) (a : TextAnalyzerResult) (N k : Nat)
    (hfail : ∀ j, j < k → j < 8 →
      (env.GetGlyphs a j (u32 ((fun n => n + n / 2)^[j] N))).1 = E_NOT_SUFFICIENT_BUFFER) :
    (k ≤ 7 →
      (env.GetGlyphs a k (u32 ((fun n => n + n / 2)^[k] N))).1 ≠ E_NOT_SUFFICIENT_BUFFER →
      (getGlyphsLoop env a 7 0 N).offered
        = (List.range (k + 1)).map (fun j => (fun n => n + n / 2)^[j] N) ∧
      (getGlyphsLoop env a 7 0 N).offered.length = min (k + 1) 8 ∧
      (getGlyphsLoop env a 7 0 N).glyphProps = (fun n => n + n / 2)^[k] N ∧
      (0 ≤ (env.GetGlyphs a k (u32 ((fun n => n + n / 2)^[k] N))).1 →
        (getGlyphsLoop env a 7 0 N).result
          = .ok (env.GetGlyphs a k (u32 ((fun n => n + n / 2)^[k] N))).2) ∧
      ((env.GetGlyphs a k (u32 ((fun n => n + n / 2)^[k] N))).1 < 0 →
        ∃ code : ErrorCode, (getGlyphsLoop env a 7 0 N).result = .error code ∧
          code.hr = (env.GetGlyphs a k (u32 ((fun n => n + n / 2)^[k] N))).1)) ∧
    (8 ≤ k →
      (getGlyphsLoop env a 7 0 N).offered
        = (List.range 8).map (fun j => (fun n => n + n / 2)^[j] N) ∧
      (getGlyphsLoop env a 7 0 N).offered.length = min (k + 1) 8 ∧
      ∃ code : ErrorCode, (getGlyphsLoop env a 7 0 N).result = .error code ∧
        code.hr = E_NOT_SUFFICIENT_BUFFER ∧
        ∀ (bufferLine bufferLinePos : List Nat) (textProps : Nat),
          (shapeSegment env bufferLine bufferLinePos textProps a N).stop
            = some (.thrown (.ResultException code)) ∧
          (shapeSegment env bufferLine bufferLinePos textProps a N).runs = []) := by
  constructor
  · intro hk hlast
    obtain ⟨h1, h2, h3⟩ := getGlyphsLoop_stops env a k 7 0 N hk
      (fun j hj => by
        rw [Nat.zero_add]
        exact hfail j hj (by omega))
      (by rw [Nat.zero_add]; exact hlast)
    rw [Nat.zero_add] at h3
    obtain ⟨_, _, s3, s4⟩ := getGlyphsLast_spec env a k ((fun n => n + n / 2)^[k] N)
    refine ⟨h1, ?_, h2, ?_, ?_⟩
    · rw [h1, List.length_map, List.length_range]
      omega
    · intro h0
      rw [h3]
      exact s3 h0
    · intro hneg
      rw [h3]
      exact s4 hneg
  · intro hk
    obtain ⟨h1, _, code, hc1, hc2⟩ := getGlyphsLoop_exhausted env a 7 0 N
      (fun j hj => by
        rw [Nat.zero_add]
        exact hfail j (by omega) (by omega))
    refine ⟨h1, ?_, code, hc1, hc2, ?_⟩
    · rw [h1, List.length_map, List.length_range]
      omega
    · intro bufferLine bufferLinePos textProps
      unfold shapeSegment
      simp only [hc1]
      exact ⟨trivial, trivial⟩

/-- C16, scenario: three buffer-too-small answers, then success on the fourth
attempt, starting from a buffer of 16 entries: the four attempts are made with
16, 24, 36 and 54 entries. With eight buffer-too-small answers the loop gives
up after the eighth attempt. -/
theorem C16_shaping_retry_witness :
    ((getGlyphsLoop (retryShapingEnv 3) { textPosition := 0, textLength := 3 } 7 0 16).offered
        = [16, 24, 36, 54] ∧
      (getGlyphsLoop (retryShapingEnv 3) { textPosition := 0, textLength := 3 } 7 0 16).result
        = .ok (fun _ => false)) ∧
    (getGlyphsLoop (retryShapingEnv 8) { textPosition := 0, textLength := 3 } 7 0 16).offered
      = [16, 24, 36, 54, 81, 121, 181, 271] :=
  ⟨⟨((C16_shaping_retry (retryShapingEnv 3) { textPosition := 0, textLength := 3 } 16 3
        (by decide)).1 (by decide) (by decide)).1,
     ((C16_shaping_retry (retryShapingEnv 3) { textPosition := 0, textLength := 3 } 16 3
        (by decide)).1 (by decide) (by decide)).2.2.2.1 (by decide)⟩,
   ((C16_shaping_retry (retryShapingEnv 8) { textPosition := 0, textLength := 3 } 16 8
        (by decide)).2 (by decide)).1⟩

/-! ### Replacement glyphs for unmapped text -/

theorem flattenClusters_head (clusters : List Cluster) (column : Nat)
    (htext : ∀ c ∈ clusters, c.text ≠ []) :
    ∃ tl, (flattenClusters column clusters).2 = column :: tl := by
  cases clusters with
  | nil => exact ⟨[], rfl⟩
  | cons c cs =>
    have h := htext c (List.mem_cons_self _ _)
    obtain ⟨n, hn⟩ : ∃ n, c.text.length = n + 1 :=
      ⟨c.text.length - 1, by have := List.length_pos.mpr h; omega⟩
    simp only [flattenClusters]
    rw [hn, List.replicate_succ, List.cons_append]
    exact ⟨_, rfl⟩

theorem unitsBefore_cons (c : Cluster) (cs : List Cluster) :
    unitsBefore (c :: cs) (c :: cs).length = c.text.length + unitsBefore cs cs.length := by
  simp [unitsBefore]

theorem columnsBefore_cons (c : Cluster) (cs : List Cluster) :
    columnsBefore (c :: cs) (c :: cs).length = c.columns + columnsBefore cs cs.length := by
  simp [columnsBefore]

theorem unitsBefore_append (l1 l2 : List Cluster) :
    unitsBefore (l1 ++ l2) (l1 ++ l2).length
      = unitsBefore l1 l1.length + unitsBefore l2 l2.length := by
  simp only [unitsBefore, List.take_length, List.map_append, List.sum_append]

theorem columnsBefore_append (l1 l2 : List Cluster) :
    columnsBefore (l1 ++ l2) (l1 ++ l2).length
      = columnsBefore l1 l1.length + columnsBefore l2 l2.length := by
  simp only [columnsBefore, List.take_length, List.map_append, List.sum_append]

theorem flattenClusters_drop (pre : List Cluster) :
    ∀ (column : Nat) (rest : List Cluster),
      column + columnsBefore pre pre.length < 65536 →
      (flattenClusters column (pre ++ rest)).2.drop (unitsBefore pre pre.length)
        = (flattenClusters (column + columnsBefore pre pre.length) rest).2 := by
  induction pre with
  | nil =>
    intro column rest _
    simp [unitsBefore, columnsBefore]
  | cons c cs ih =>
    intro column rest hfit
    rw [columnsBefore_cons] at hfit ⊢
    rw [unitsBefore_cons]
    have hnext : (column + c.columns % 65536) % 65536 = column + c.columns := by omega
    rw [List.cons_append]
    simp only [flattenClusters]
    rw [hnext]
    have hd : ∀ (l1 l2 : List Nat) (k : Nat), (l1 ++ l2).drop (l1.length + k) = l2.drop k := by
      intro l1 l2 k
      rw [List.drop_append_eq_append_drop, List.drop_of_length_le (by omega)]
      simp
    have := hd (List.replicate c.text.length column)
      (flattenClusters (column + c.columns) (cs ++ rest)).2 (unitsBefore cs cs.length)
    rw [List.length_replicate] at this
    rw [this, ih _ _ (by omega)]
    congr 2
    omega

theorem getElem?_of_drop_eq_cons {l tl : List Nat} {i v : Nat} (h : l.drop i = v :: tl) :
    l[i]? = some v := by
  have := List.getElem?_drop l i 0
  rw [h] at this
  simpa using this.symm

theorem allocateN_frame (n : Nat) :
    ∀ e : Engine,
      allocateN n e = { e with _r := { e._r with atlasPosition := (allocateN n e)._r.atlasPosition } } := by
  induction n with
  | zero => intro e; rfl
  | succ n ih =>
    intro e
    simp only [allocateN]
    rw [ih]
    rfl

theorem allocateCoords_snd (n : Nat) :
    ∀ (i : Nat) (coords : List u16x2) (e : Engine),
      (allocateCoords n i coords e).2 = allocateN n e := by
  induction n with
  | zero => intro i coords e; rfl
  | succ n ih =>
    intro i coords e
    simp only [allocateCoords, allocateN]
    exact ih _ _ _

theorem lookup_none_filter {glyphs : List (glyph_entry × List u16x2)} {entry : glyph_entry}
    (h : glyphs.lookup entry = none) : (glyphs.filter fun p => p.1 ≠ entry) = glyphs := by
  induction glyphs with
  | nil => rfl
  | cons p rest ih =>
    obtain ⟨k, v⟩ := p
    rw [List.lookup_cons] at h
    by_cases hk : entry = k
    · subst hk
      simp at h
    · have hb : (entry == k) = false := by simpa using hk
      rw [hb] at h
      rw [List.filter_cons_of_pos (by simpa using fun h1 => hk h1.symm), ih h]

theorem resolveGlyph_absent {entry : glyph_entry} {cells : Nat} {e : Engine}
    (h : e._r.glyphs.lookup entry = none) :
    resolveGlyph entry cells e =
      ((allocateCoords cells 0 emptyCoords e).1,
        { e with
          _r := { e._r with
                  atlasPosition := (allocateN cells e)._r.atlasPosition
                  glyphs := (entry, (allocateCoords cells 0 emptyCoords e).1) :: e._r.glyphs
                  glyphQueue :=
                    e._r.glyphQueue ++ [(entry, (allocateCoords cells 0 emptyCoords e).1)] } }) := by
  unfold resolveGlyph
  simp only [h, Option.getD_none]
  rw [if_pos (by decide), allocateCoords_snd, allocateN_frame cells e]
  simp only [glyphsStore, lookup_none_filter h]

theorem resolveGlyph_present {entry : glyph_entry} {cells : Nat} {e : Engine}
    {coords : List u16x2} (hlive : CacheLive e) (h : e._r.glyphs.lookup entry = some coords) :
    resolveGlyph entry cells e = (coords, e) := by
  unfold resolveGlyph
  simp only [h, Option.getD_some]
  rw [if_neg (hlive _ (lookup_mem h))]

/-- What one call of `_emplaceGlyph` does to the cache, the draw queue and the
allocator when every cache entry has a first slot other than `(0, 0)`. -/
theorem emplaceGlyph_step {key : List Nat} {y x1 x2 : Nat} {e e1 : Engine}
    (hlive : CacheLive e) (h : _emplaceGlyph key y x1 x2 e = some e1) :
    (∃ coords,
      e._r.glyphs.lookup (makeEntry key e._rapi.attributes (glyphCells x1 x2)) = some coords ∧
      e1._r.glyphs = e._r.glyphs ∧ e1._r.glyphQueue = e._r.glyphQueue ∧
      e1._r.atlasPosition = e._r.atlasPosition) ∨
    (e._r.glyphs.lookup (makeEntry key e._rapi.attributes (glyphCells x1 x2)) = none ∧
      e1._r.glyphs =
        (makeEntry key e._rapi.attributes (glyphCells x1 x2),
          (allocateCoords (glyphCells x1 x2) 0 emptyCoords e).1) :: e._r.glyphs ∧
      e1._r.glyphQueue =
        e._r.glyphQueue ++ [(makeEntry key e._rapi.attributes (glyphCells x1 x2),
          (allocateCoords (glyphCells x1 x2) 0 emptyCoords e).1)] ∧
      e1._r.atlasPosition = (allocateN (glyphCells x1 x2) e)._r.atlasPosition) := by
  obtain ⟨out, _, he⟩ := emplaceGlyph_unfold h
  cases hfind : e._r.glyphs.lookup (makeEntry key e._rapi.attributes (glyphCells x1 x2)) with
  | none =>
    right
    rw [resolveGlyph_absent hfind] at he
    rw [he]
    exact ⟨rfl, rfl, rfl, rfl⟩
  | some coords =>
    left
    rw [resolveGlyph_present hlive hfind] at he
    rw [he]
    exact ⟨coords, rfl, rfl, rfl, rfl⟩

theorem emptyCoords_length : emptyCoords.length = 16 := rfl

theorem emplaceGlyph_CacheLive {key : List Nat} {y x1 x2 : Nat} {e e1 : Engine}
    (inv : AtlasInv e) (hlive : CacheLive e) (hx : x1 < x2) (hu : x2 < 65536)
    (h : _emplaceGlyph key y x1 x2 e = some e1) : CacheLive e1 := by
  rcases emplaceGlyph_step hlive h with ⟨_, _, hg, _⟩ | ⟨_, hg, _⟩
  · intro p hp
    rw [hg] at hp
    exact hlive p hp
  · intro p hp
    rw [hg] at hp
    rcases List.mem_cons.mp hp with hp1 | hp1
    · rw [hp1]
      simp only
      have hfirst := allocateCoords_first (glyphCells_pos hx hu).1 emptyCoords e (by decide)
      rw [List.getD_eq_getElem?_getD, hfirst]
      exact AtlasInv_position_ne inv
    · exact hlive p hp1

theorem GenerationFrom_Generation {g e : Engine} (h : GenerationFrom g e) : Generation e := by
  induction h with
  | start hgen => exact Generation.start hgen
  | emplace key y x1 x2 _ _ _ hstep ih => exact Generation.emplace key y x1 x2 ih hstep
  | other _ h1 h2 h3 h4 ih => exact Generation.other ih h1 h2 h3 h4

theorem GenerationFrom_CacheLive {g e : Engine} (h : GenerationFrom g e) : CacheLive e := by
  induction h with
  | start hgen =>
    obtain ⟨_, _, _, _, _, _, _, hg, _⟩ := recreateFont_ok hgen
    intro p hp
    rw [hg] at hp
    simp at hp
  | emplace key y x1 x2 hprev hx hu hstep ih =>
    exact emplaceGlyph_CacheLive (Generation_inv (GenerationFrom_Generation hprev)).1 ih hx hu hstep
  | other _ _ h2 _ _ ih =>
    intro p hp
    rw [h2] at hp
    exact ih p hp

theorem recreateFont_start {env : FontEnv} {e g : Engine}
    (h : _recreateFontDependentResources env e = .ok g) :
    g._r.glyphs = [] ∧ g._r.glyphQueue = [] ∧
    g._r.atlasPosition = { x := g._api.cellSize.x, y := 0 } := by
  obtain ⟨hapi, _, _, _, _, _, _, hg, hq, hgeo, _⟩ := recreateFont_ok h
  have hmax : (if env.featureLevel11 then D3D11_REQ_TEXTURE2D_U_OR_V_DIMENSION
      else D3D10_REQ_TEXTURE2D_U_OR_V_DIMENSION) ≤ 16384 := by
    split <;> decide
  obtain ⟨_, _, _, _, hpos, _⟩ := atlasGeometry_spec hmax hgeo
  rw [hapi]
  exact ⟨hg, hq, hpos⟩

theorem scenario_regeneratedAB : _emplaceGlyph [66] 0 1 2 paintedA = some regeneratedAB := rfl

theorem scenario_presentedAB : Present okPresentEnv regeneratedAB = some (S_OK, presentedAB) := rfl

theorem AtlasRow_step {e : Engine} {j : Nat} (inv : AtlasRow e j)
    (hw : allocatorWraps e = false) :
    (AtlasRow (_allocateAtlasCell e).2 j ∧
      (_allocateAtlasCell e).2._r.atlasPosition.x
        = e._r.atlasPosition.x + e._api.cellSize.x) ∨
    AtlasRow (_allocateAtlasCell e).2 (j + 1) := by
  obtain ⟨h1, h2, h3, h4, ⟨yFit, h6⟩, h7, h8, h9⟩ := inv
  have hx1 : (e._r.atlasPosition.x + e._api.cellSize.x) % 65536 =
      e._r.atlasPosition.x + e._api.cellSize.x := Nat.mod_eq_of_lt (by omega)
  have hy1 : (e._r.atlasPosition.y + e._api.cellSize.y) % 65536 =
      ((j + 1) * e._api.cellSize.y) % 65536 := by
    rw [h7, Nat.mod_add_mod]
    congr 1
    ring
  unfold allocatorWraps at hw
  rw [hx1, hy1] at hw
  have hw1 : ¬ (e._r.atlasPosition.x + e._api.cellSize.x ≥ e._r.atlasSizeInPixel.x ∧
      ((j + 1) * e._api.cellSize.y) % 65536 ≥ e._r.atlasSizeInPixel.y) := by
    simpa using hw
  unfold AtlasRow _allocateAtlasCell
  simp only
  rw [hx1, hy1]
  by_cases hx : e._r.atlasPosition.x + e._api.cellSize.x ≥ e._r.atlasSizeInPixel.x
  · right
    have hlt : ((j + 1) * e._api.cellSize.y) % 65536 < e._r.atlasSizeInPixel.y := by
      by_contra hge
      exact hw1 ⟨hx, by omega⟩
    rw [if_pos hx, if_neg (by omega)]
    dsimp only
    refine ⟨h1, h2, h3, by omega, ⟨yFit, h6⟩, rfl, ?_, ?_⟩
    · intro i hi1 hi2
      by_cases hij : i ≤ j
      · exact h8 i hi1 hij
      · have hi : i = j + 1 := by omega
        rw [hi]
        exact hlt
    · intro i hi1 hi2
      by_cases hij : i ≤ j
      · exact h9 i hi1 hij
      · have hi : i = j + 1 := by omega
        rw [hi]
        exact wrap_before_zero h6 h8 hlt
  · left
    rw [if_neg hx]
    dsimp only
    exact ⟨⟨h1, h2, h3, by omega, ⟨yFit, h6⟩, h7, h8, h9⟩, rfl⟩

theorem row_offsets_differ {csy j j' : Nat} (hlt : j < j')
    (hnz : ∀ i : Nat, 1 ≤ i → i ≤ j' → (i * csy) % 65536 ≠ 0) :
    (j' * csy) % 65536 ≠ (j * csy) % 65536 := by
  intro heq
  have h0 := Nat.sub_mod_eq_zero_of_mod_eq heq
  rw [← Nat.sub_mul] at h0
  exact hnz (j' - j) (by omega) (by omega) h0

theorem allocatedSlots_nodup (n : Nat) :
    ∀ (e : Engine) (j : Nat), AtlasRow e j → wrapsWithin n e = false →
      (allocatedSlots n e).Nodup ∧
      ∀ s ∈ allocatedSlots n e, ∃ j', j ≤ j' ∧
        s.y = (j' * e._api.cellSize.y) % 65536 ∧
        (∀ i : Nat, 1 ≤ i → i ≤ j' → (i * e._api.cellSize.y) % 65536 ≠ 0) ∧
        (j' = j → e._r.atlasPosition.x ≤ s.x) := by
  induction n with
  | zero =>
    intro e j _ _
    simp [allocatedSlots]
  | succ n ih =>
    intro e j inv hw
    simp only [wrapsWithin, Bool.or_eq_false_iff] at hw
    obtain ⟨hw1, hw2⟩ := hw
    have hapi : (_allocateAtlasCell e).2._api = e._api := rfl
    have hhead : ∃ j', j ≤ j' ∧
        e._r.atlasPosition.y = (j' * e._api.cellSize.y) % 65536 ∧
        (∀ i : Nat, 1 ≤ i → i ≤ j' → (i * e._api.cellSize.y) % 65536 ≠ 0) ∧
        (j' = j → e._r.atlasPosition.x ≤ e._r.atlasPosition.x) :=
      ⟨j, Nat.le_refl j, inv.2.2.2.2.2.1, inv.2.2.2.2.2.2.2, fun _ => Nat.le_refl _⟩
    simp only [allocatedSlots, allocate_fst]
    rcases AtlasRow_step inv hw1 with ⟨inv1, hx1⟩ | inv1
    · obtain ⟨hnd, hlater⟩ := ih _ j inv1 hw2
      rw [hapi] at hlater
      refine ⟨List.nodup_cons.mpr ⟨?_, hnd⟩, ?_⟩
      · intro hmem
        obtain ⟨j', hj', hy, hnz, hxx⟩ := hlater _ hmem
        by_cases hjj : j' = j
        · have := hxx hjj
          have := inv.1
          omega
        · exact row_offsets_differ (by omega) hnz (hy.symm.trans inv.2.2.2.2.2.1)
      · intro s hs
        rcases List.mem_cons.mp hs with h | h
        · rw [h]
          exact hhead
        · obtain ⟨j', hj', hy, hnz, hxx⟩ := hlater s h
          exact ⟨j', hj', hy, hnz, fun hjj => by have := hxx hjj; omega⟩
    · obtain ⟨hnd, hlater⟩ := ih _ (j + 1) inv1 hw2
      rw [hapi] at hlater
      refine ⟨List.nodup_cons.mpr ⟨?_, hnd⟩, ?_⟩
      · intro hmem
        obtain ⟨j', hj', hy, hnz, _⟩ := hlater _ hmem
        exact row_offsets_differ (by omega) hnz (hy.symm.trans inv.2.2.2.2.2.1)
      · intro s hs
        rcases List.mem_cons.mp hs with h | h
        · rw [h]
          exact hhead
        · obtain ⟨j', hj', hy, hnz, _⟩ := hlater s h
          exact ⟨j', by omega, hy, hnz, fun hjj => by omega⟩

theorem recreateFont_AtlasRow {env : FontEnv} {e g : Engine}
    (h : _recreateFontDependentResources env e = .ok g) : AtlasRow g 0 := by
  obtain ⟨hapi, _, _, _, _, _, _, _, _, hgeo, _⟩ := recreateFont_ok h
  have hmax : (if env.featureLevel11 then D3D11_REQ_TEXTURE2D_U_OR_V_DIMENSION
      else D3D10_REQ_TEXTURE2D_U_OR_V_DIMENSION) ≤ 16384 := by
    split <;> decide
  obtain ⟨h1, h2, h3, _, h5, yFit, h6⟩ := atlasGeometry_spec hmax hgeo
  unfold AtlasRow
  rw [hapi, h5]
  refine ⟨h1, h2, h3, h2, ⟨yFit, h6⟩, by simp, ?_, ?_⟩
  · intro i hi1 hi0
    omega
  · intro i hi1 hi0
    omega

theorem allocate_congr {e s : Engine} (h1 : s._api.cellSize = e._api.cellSize)
    (h2 : s._r.atlasSizeInPixel = e._r.atlasSizeInPixel)
    (h3 : s._r.atlasPosition = e._r.atlasPosition) :
    (_allocateAtlasCell s).1 = (_allocateAtlasCell e).1 ∧
    (_allocateAtlasCell s).2._api.cellSize = (_allocateAtlasCell e).2._api.cellSize ∧
    (_allocateAtlasCell s).2._r.atlasSizeInPixel = (_allocateAtlasCell e).2._r.atlasSizeInPixel ∧
    (_allocateAtlasCell s).2._r.atlasPosition = (_allocateAtlasCell e).2._r.atlasPosition := by
  unfold _allocateAtlasCell
  simp only [h1, h2, h3]
  exact ⟨trivial, trivial, trivial, trivial⟩

theorem allocatedSlots_congr (n : Nat) :
    ∀ e s : Engine, s._api.cellSize = e._api.cellSize →
      s._r.atlasSizeInPixel = e._r.atlasSizeInPixel →
      s._r.atlasPosition = e._r.atlasPosition →
      allocatedSlots n s = allocatedSlots n e ∧
      (allocateN n s)._r.atlasPosition = (allocateN n e)._r.atlasPosition := by
  induction n with
  | zero =>
    intro e s _ _ h3
    exact ⟨rfl, h3⟩
  | succ n ih =>
    intro e s h1 h2 h3
    obtain ⟨c1, c2, c3, c4⟩ := allocate_congr h1 h2 h3
    obtain ⟨i1, i2⟩ := ih _ _ c2 c3 c4
    simp only [allocatedSlots, allocateN]
    rw [c1, i1]
    exact ⟨rfl, i2⟩

theorem allocatedSlots_add (m n : Nat) :
    ∀ e : Engine,
      allocatedSlots (m + n) e = allocatedSlots m e ++ allocatedSlots n (allocateN m e) ∧
      allocateN (m + n) e = allocateN n (allocateN m e) := by
  induction m with
  | zero =>
    intro e
    simp [allocatedSlots, allocateN]
  | succ m ih =>
    intro e
    obtain ⟨i1, i2⟩ := ih (_allocateAtlasCell e).2
    rw [show m + 1 + n = (m + n) + 1 by omega]
    simp only [allocatedSlots, allocateN]
    rw [i1, i2]
    exact ⟨rfl, rfl⟩

theorem allocatedSlots_length (n : Nat) : ∀ e : Engine, (allocatedSlots n e).length = n := by
  induction n with
  | zero => intro e; rfl
  | succ n ih =>
    intro e
    simp only [allocatedSlots, List.length_cons]
    rw [ih]

theorem allocateCoords_get (n : Nat) :
    ∀ (i : Nat) (coords : List u16x2) (e : Engine) (k : Nat), i + n ≤ coords.length →
      (allocateCoords n i coords e).1[k]?
        = if i ≤ k ∧ k < i + n then (allocatedSlots n e)[k - i]? else coords[k]? := by
  induction n with
  | zero =>
    intro i coords e k _
    rw [if_neg (by omega)]
    rfl
  | succ n ih =>
    intro i coords e k hlen
    simp only [allocateCoords, allocatedSlots]
    rw [ih (i + 1) _ _ k (by rw [List.length_set]; omega)]
    by_cases hk : i + 1 ≤ k ∧ k < i + 1 + n
    · rw [if_pos hk, if_pos (by omega)]
      obtain ⟨d, hd⟩ : ∃ d, k - i = d + 1 := ⟨k - i - 1, by omega⟩
      rw [hd, List.getElem?_cons_succ]
      congr 1
      omega
    · rw [if_neg hk]
      by_cases hki : k = i
      · subst hki
        rw [if_pos (by omega), List.getElem?_set_self (by omega), Nat.sub_self,
          List.getElem?_cons_zero]
      · rw [if_neg (by omega), List.getElem?_set_ne (by omega)]

theorem allocateCoords_take {n : Nat} (coords : List u16x2) (e : Engine)
    (hlen : n ≤ coords.length) :
    (allocateCoords n 0 coords e).1.take n = allocatedSlots n e := by
  apply List.ext_getElem?
  intro k
  rw [List.getElem?_take]
  by_cases hk : k < n
  · rw [if_pos hk, allocateCoords_get n 0 coords e k (by omega), if_pos (by omega), Nat.sub_zero]
  · rw [if_neg hk]
    exact (List.getElem?_eq_none (by rw [allocatedSlots_length]; omega)).symm

theorem glyphCells_le (x1 x2 : Nat) : glyphCells x1 x2 ≤ 16 := by
  unfold glyphCells
  simp only
  split <;> omega

theorem GenerationFrom_tracked {g e : Engine} (h : GenerationFrom g e) : SlotsTracked g e := by
  induction h with
  | start hgen =>
    obtain ⟨hg, _, _⟩ := recreateFont_start hgen
    unfold SlotsTracked slotsHeld
    rw [hg]
    exact ⟨rfl, rfl, rfl, rfl⟩
  | @emplace e e1 key y x1 x2 hprev hx hu hstep ih =>
    obtain ⟨t1, t2, t3, t4⟩ := ih
    obtain ⟨f1, _, _, _, _, f6⟩ := emplaceGlyph_frame hstep
    have hcs : e1._api.cellSize = g._api.cellSize := by rw [f1, t1]
    have has : e1._r.atlasSizeInPixel = g._r.atlasSizeInPixel := by rw [f6, t2]
    rcases emplaceGlyph_step (GenerationFrom_CacheLive hprev) hstep with
      ⟨_, _, hg, _, hp⟩ | ⟨_, hg, _, hp⟩
    · have hk : slotsHeld e1 = slotsHeld e := by
        unfold slotsHeld
        rw [hg]
      unfold SlotsTracked
      rw [hk, hg, hp]
      exact ⟨hcs, has, t3, t4⟩
    · have hc := glyphCells_pos hx hu
      have hc16 := glyphCells_le x1 x2
      have hcells : (makeEntry key e._rapi.attributes (glyphCells x1 x2)).attributes.cells + 1
          = glyphCells x1 x2 := by
        unfold makeEntry
        simp only
        omega
      have hk : slotsHeld e1 = slotsHeld e + glyphCells x1 x2 := by
        unfold slotsHeld
        rw [hg, List.map_cons, List.sum_cons, hcells]
        omega
      have hframe := allocateN_frame (slotsHeld e) g
      have hsame := allocatedSlots_congr (glyphCells x1 x2) (allocateN (slotsHeld e) g) e
        (by rw [hframe]; exact t1) (by rw [hframe]; exact t2) t3
      obtain ⟨a1, a2⟩ := allocatedSlots_add (slotsHeld e) (glyphCells x1 x2) g
      unfold SlotsTracked
      rw [hk, hg, hp]
      refine ⟨hcs, has, ?_, ?_⟩
      · rw [a2]
        exact hsame.2
      · rw [List.reverse_cons, List.map_append, List.flatten_append, t4, a1]
        congr 1
        simp only [List.map_cons, List.map_nil, List.flatten_cons, List.flatten_nil,
          List.append_nil]
        unfold heldSlots
        simp only
        rw [hcells, allocateCoords_take emptyCoords e (by rw [emptyCoords_length]; exact hc16)]
        exact hsame.1
  | @other e e1 _ h1 h2 h3 h4 ih =>
    obtain ⟨t1, t2, t3, t4⟩ := ih
    have hk : slotsHeld e1 = slotsHeld e := by
      unfold slotsHeld
      rw [h2]
    unfold SlotsTracked
    rw [hk, h2, h1, h3, h4]
    exact ⟨t1, t2, t3, t4⟩

theorem GenerationFrom_start {g e : Engine} (h : GenerationFrom g e) :
    ∃ (env : FontEnv) (e0 : Engine), _recreateFontDependentResources env e0 = .ok g := by
  induction h with
  | start hgen => exact ⟨_, _, hgen⟩
  | emplace key y x1 x2 _ _ _ _ ih => exact ih
  | other _ _ _ _ _ ih => exact ih

/-- C13, counterexample: with a cell of 4096x16385 pixels the atlas has three
glyph slots. After the `StartPaint` that rebuilds the font resources, the
four `_emplaceGlyph` calls for "A", "B", "C", "D" leave the distinct keys of
"A" and of "D" in the cache with the same slot (4096, 0): the allocator wrapped
around and handed the slot of "A" out again. -/
theorem C13_counterexample :
    runCalls Engine.new tinyCalls = some tinyEngine ∧
    StartPaint okStartPaintEnv tinyEngine = some (S_OK, tinyStart) ∧
    makeEntry [65] {} 1 ≠ makeEntry [68] {} 1 ∧
    (emplaceRuns 0 runsABCD tinyStart).map (fun e =>
        (e._r.glyphs.lookup (makeEntry [65] {} 1), e._r.glyphs.lookup (makeEntry [68] {} 1)))
      = some (some (emptyCoords.set 0 { x := 4096, y := 0 }),
              some (emptyCoords.set 0 { x := 4096, y := 0 })) :=
  ⟨rfl, rfl, by decide, rfl⟩

/-- C13 (amended): as long as the allocator has not wrapped around since the
font-resource rebuild (none of the allocations made for the cached keys reset
the position), the slots held by the cache entries, oldest entry first, are
exactly the slots handed out since the rebuild, in order and without
repetition; so the atlas slots held by two distinct keys are disjoint. The
states are those of a generation in which `_emplaceGlyph` is called with
`x1 < x2`. -/
theorem C13_slots_disjoint_until_wrap (g e : Engine) (hgen : GenerationFrom g e)
    (hnowrap : wrapsWithin (slotsHeld e) g = false) :
    (e._r.glyphs.reverse.map heldSlots).flatten = allocatedSlots (slotsHeld e) g ∧
    ((e._r.glyphs.reverse.map heldSlots).flatten).Nodup ∧
    ∀ p ∈ e._r.glyphs, ∀ q ∈ e._r.glyphs, p.1 ≠ q.1 →
      ∀ s ∈ heldSlots p, s ∉ heldSlots q := by
  obtain ⟨env, e0, hstart⟩ := GenerationFrom_start hgen
  obtain ⟨_, _, _, htrack⟩ := GenerationFrom_tracked hgen
  have hnd : ((e._r.glyphs.reverse.map heldSlots).flatten).Nodup := by
    rw [htrack]
    exact (allocatedSlots_nodup _ g 0 (recreateFont_AtlasRow hstart) hnowrap).1
  refine ⟨htrack, hnd, ?_⟩
  have hpw := (List.nodup_flatten.mp hnd).2
  rw [List.pairwise_map, List.pairwise_reverse] at hpw
  intro p hp q hq hne s hs1 hs2
  have hsym : Symmetric fun a b : glyph_entry × List u16x2 =>
      List.Disjoint (heldSlots b) (heldSlots a) := by
    intro a b hab
    exact hab.symm
  have hpq : p ≠ q := fun h => hne (by rw [h])
  exact hpw.forall hsym hp hq hpq hs2 hs1

/-- C13, scenario: in the generation of `regeneratedEngine` (8x16 pixel cell)
the keys of "A" and "B" were given the slots (8, 0) and (16, 0); the allocator
has not wrapped, and the slot of "A" is not a slot of "B". -/
theorem C13_slots_disjoint_until_wrap_witness :
    wrapsWithin (slotsHeld regeneratedAB) regeneratedEngine = false ∧
    ({ x := 8, y := 0 } : u16x2) ∈
      heldSlots (makeEntry [65] {} 1, emptyCoords.set 0 { x := 8, y := 0 }) ∧
    ({ x := 8, y := 0 } : u16x2) ∉
      heldSlots (makeEntry [66] {} 1, emptyCoords.set 0 { x := 16, y := 0 }) :=
  ⟨rfl, by decide,
    (C13_slots_disjoint_until_wrap regeneratedEngine regeneratedAB
      (GenerationFrom.emplace [66] 0 1 2
        (GenerationFrom.emplace [65] 0 0 1 (GenerationFrom.start scenario_regenerated)
          (by decide) (by decide) scenario_paintedA)
        (by decide) (by decide) scenario_regeneratedAB) rfl).2.2
      (makeEntry [65] {} 1, emptyCoords.set 0 { x := 8, y := 0 }) (by decide)
      (makeEntry [66] {} 1, emptyCoords.set 0 { x := 16, y := 0 }) (by decide)
      (by decide) { x := 8, y := 0 } (by decide)⟩

/-! ### The runs of a line cover its columns -/

theorem ChainFrom_append {l1 l2 : List GlyphRun} {b c : Nat} :
    ∀ {a : Nat}, ChainFrom a b l1 → ChainFrom b c l2 → ChainFrom a c (l1 ++ l2) := by
  induction l1 with
  | nil =>
    intro a h1 h2
    simp only [ChainFrom] at h1
    rw [h1]
    exact h2
  | cons r rest ih =>
    intro a h1 h2
    exact ⟨h1.1, h1.2.1, ih h1.2.2 h2⟩

theorem ChainFrom_le {l : List GlyphRun} {b : Nat} : ∀ {a : Nat}, ChainFrom a b l → a ≤ b := by
  induction l with
  | nil =>
    intro a h
    simp only [ChainFrom] at h
    omega
  | cons r rest ih =>
    intro a h
    have := ih h.2.2
    have := h.1
    have := h.2.1
    omega

theorem andThen_none {a : Emission} {f : Nat → Emission} (h : (a.andThen f).stop = none) :
    a.stop = none ∧ (f a.glyphProps).stop = none ∧
    (a.andThen f).runs = a.runs ++ (f a.glyphProps).runs := by
  unfold Emission.andThen at h ⊢
  cases ha : a.stop with
  | some st =>
    rw [ha] at h
    simp only at h
    rw [ha] at h
    exact absurd h (by simp)
  | none =>
    rw [ha] at h
    simp only at h ⊢
    exact ⟨trivial, h, trivial⟩

theorem replacementLoop_chain (bufferLinePos : List Nat) (size : Nat)
    (hmono : MonoPos bufferLinePos) (n : Nat) :
    ∀ idx beg : Nat, 1 ≤ idx → idx - 1 + n < bufferLinePos.length →
      bufferLinePos.getD (idx - 1) 0 = beg →
      (replacementLoop bufferLinePos size n idx beg).stop = none ∧
      ChainFrom beg (bufferLinePos.getD (idx - 1 + n) 0)
        (replacementLoop bufferLinePos size n idx beg).runs := by
  induction n with
  | zero =>
    intro idx beg _ _ hbeg
    simp only [replacementLoop, ChainFrom, Nat.add_zero]
    exact ⟨trivial, hbeg.symm⟩
  | succ n ih =>
    intro idx beg h1 hin hbeg
    have hlt : idx < bufferLinePos.length := by omega
    simp only [replacementLoop]
    rw [getElem?_eq_getD bufferLinePos idx 0 hlt]
    simp only
    have hend : idx - 1 + (n + 1) = idx + 1 - 1 + n := by omega
    rw [hend]
    by_cases hne : beg ≠ bufferLinePos.getD idx 0
    · rw [if_pos hne]
      obtain ⟨i1, i2⟩ := ih (idx + 1) (bufferLinePos.getD idx 0) (by omega) (by omega) rfl
      refine ⟨i1, rfl, ?_, i2⟩
      simp only
      rw [← hbeg]
      exact hmono (idx - 1) idx (by omega) hlt
    · rw [if_neg hne]
      have heq : beg = bufferLinePos.getD idx 0 := by
        by_contra h
        exact hne h
      exact ih (idx + 1) beg (by omega) (by omega) heq.symm

theorem replacementRuns_chain (bufferLinePos : List Nat) (size idx mappedEnd : Nat)
    (hmono : MonoPos bufferLinePos) (hle : idx ≤ mappedEnd)
    (hin : mappedEnd < bufferLinePos.length) :
    (replacementRuns bufferLinePos size idx mappedEnd).stop = none ∧
    ChainFrom (bufferLinePos.getD idx 0) (bufferLinePos.getD mappedEnd 0)
      (replacementRuns bufferLinePos size idx mappedEnd).runs := by
  unfold replacementRuns
  rw [getElem?_eq_getD bufferLinePos idx 0 (by omega)]
  simp only
  have := replacementLoop_chain bufferLinePos size hmono (mappedEnd - idx) (idx + 1)
    (bufferLinePos.getD idx 0) (by omega) (by omega) rfl
  rw [show idx + 1 - 1 + (mappedEnd - idx) = mappedEnd by omega] at this
  exact this

theorem simpleRuns_chain (bufferLine bufferLinePos : List Nat) (size idx : Nat)
    (hpos : bufferLinePos.length = bufferLine.length + 1)
    (hsize : bufferLine.length < 4294967296) (hmono : MonoPos bufferLinePos) (n : Nat) :
    ∀ i : Nat, idx + i + n ≤ bufferLine.length →
      (simpleRuns bufferLine bufferLinePos size idx n i).stop = none ∧
      ChainFrom (bufferLinePos.getD (idx + i) 0) (bufferLinePos.getD (idx + i + n) 0)
        (simpleRuns bufferLine bufferLinePos size idx n i).runs := by
  induction n with
  | zero =>
    intro i _
    simp only [simpleRuns, ChainFrom, Nat.add_zero]
    exact ⟨trivial, trivial⟩
  | succ n ih =>
    intro i hin
    simp only [simpleRuns]
    rw [u32_of_lt (by omega), u32_of_lt (by omega), keyAt_inside (by omega),
      getElem?_eq_getD bufferLinePos _ 0 (by omega),
      getElem?_eq_getD bufferLinePos _ 0 (by omega)]
    simp only
    obtain ⟨i1, i2⟩ := ih (i + 1) (by omega)
    refine ⟨i1, rfl, ?_, ?_⟩
    · exact hmono _ _ (by omega) (by omega)
    · rw [show idx + i + (n + 1) = idx + (i + 1) + n by omega]
      exact i2

theorem cutsFrom_chain (bufferLine bufferLinePos : List Nat) (p : Nat) (b : Nat → Bool)
    (hpos : bufferLinePos.length = bufferLine.length + 1) (hmono : MonoPos bufferLinePos)
    (n : Nat) :
    ∀ i beg : Nat, beg ≤ i → (n = 0 → beg = i) → (0 < n → b (i + n - 1) = true) →
      p + i + n ≤ bufferLine.length →
      ChainFrom (bufferLinePos.getD (p + beg) 0) (bufferLinePos.getD (p + i + n) 0)
        ((cutsFrom b n i beg).map (runOf bufferLine bufferLinePos p)) := by
  induction n with
  | zero =>
    intro i beg _ h0 _ _
    rw [h0 rfl]
    simp [cutsFrom, ChainFrom]
  | succ n ih =>
    intro i beg hle _ hlast hin
    simp only [cutsFrom]
    have hlast2 : 0 < n → b (i + 1 + n - 1) = true := by
      intro _
      have := hlast (by omega)
      rw [show i + 1 + n - 1 = i + (n + 1) - 1 by omega]
      exact this
    cases hb : b i
    · simp only [Bool.false_eq_true, if_false]
      have hn : n ≠ 0 := by
        intro hn
        subst hn
        have := hlast (by omega)
        simp only [Nat.zero_add, Nat.add_sub_cancel] at this
        rw [hb] at this
        exact absurd this (by simp)
      have := ih (i + 1) beg (by omega) (fun h => absurd h hn) hlast2 (by omega)
      rw [show p + (i + 1) + n = p + i + (n + 1) by omega] at this
      exact this
    · simp only [if_true, List.map_cons]
      have := ih (i + 1) (i + 1) (Nat.le_refl _) (fun _ => rfl) hlast2 (by omega)
      rw [show p + (i + 1) + n = p + i + (n + 1) by omega] at this
      refine ⟨rfl, ?_, this⟩
      simp only [runOf]
      exact hmono _ _ (by omega) (by omega)

theorem shapeSegment_chain (env : ShapingEnv) (bufferLine bufferLinePos : List Nat)
    (textProps : Nat) (a : TextAnalyzerResult) (size : Nat)
    (hpos : bufferLinePos.length = bufferLine.length + 1)
    (hsize : bufferLine.length < 4294967296) (hmono : MonoPos bufferLinePos)
    (hL : 1 ≤ a.textLength) (hin : a.textPosition + a.textLength ≤ bufferLine.length)
    (htp : bufferLine.length ≤ textProps)
    (hstop : (shapeSegment env bufferLine bufferLinePos textProps a size).stop = none) :
    ChainFrom (bufferLinePos.getD a.textPosition 0)
      (bufferLinePos.getD (a.textPosition + a.textLength) 0)
      (shapeSegment env bufferLine bufferLinePos textProps a size).runs := by
  have hu : u32 (a.textLength + 4294967295) = a.textLength - 1 := by
    unfold u32
    omega
  unfold shapeSegment at hstop ⊢
  simp only at hstop ⊢
  cases hres : (getGlyphsLoop env a 7 0 size).result with
  | error code =>
    rw [hres] at hstop
    exact absurd hstop (by simp)
  | ok flags =>
    simp only [hu]
    rw [if_pos (by omega),
      splitLoop_eq bufferLine bufferLinePos _ a _ hpos hsize a.textLength 0 0 (Nat.le_refl 0)
        (by omega)]
    simp only
    have := cutsFrom_chain bufferLine bufferLinePos a.textPosition
      (fun i => flags i || i == a.textLength - 1) hpos hmono a.textLength 0 0 (Nat.le_refl 0)
      (fun h => by omega) (fun _ => by simp) (by omega)
    rw [Nat.add_zero] at this
    exact this

theorem SegmentsCover_le {calls : List ScriptAnalysisCall} {stop : Nat} :
    ∀ {start : Nat}, SegmentsCover start stop calls → start ≤ stop := by
  induction calls with
  | nil =>
    intro start h
    simp only [SegmentsCover] at h
    omega
  | cons c rest ih =>
    intro start h
    have := ih h.2.2
    omega

theorem complexRuns_chain (env : ShapingEnv) (bufferLine bufferLinePos : List Nat)
    (textProps : Nat) (hpos : bufferLinePos.length = bufferLine.length + 1)
    (hsize : bufferLine.length < 4294967296) (hmono : MonoPos bufferLinePos)
    (htp : bufferLine.length ≤ textProps) (stop : Nat) (hstopin : stop ≤ bufferLine.length)
    (calls : List ScriptAnalysisCall) :
    ∀ start size : Nat, SegmentsCover start stop calls →
      (complexRuns env bufferLine bufferLinePos textProps
        (calls.map fun c =>
          { textPosition := c.textPosition, textLength := c.textLength, script := c.script,
            shapes := c.shapes, bidiLevel := 0 }) size).stop = none →
      ChainFrom (bufferLinePos.getD start 0) (bufferLinePos.getD stop 0)
        (complexRuns env bufferLine bufferLinePos textProps
          (calls.map fun c =>
            { textPosition := c.textPosition, textLength := c.textLength, script := c.script,
              shapes := c.shapes, bidiLevel := 0 }) size).runs := by
  induction calls with
  | nil =>
    intro start size hcover _
    simp only [SegmentsCover] at hcover
    simp only [List.map_nil, complexRuns, ChainFrom]
    rw [hcover]
  | cons c rest ih =>
    intro start size hcover hstop
    obtain ⟨hc1, hc2, hc3⟩ := hcover
    subst hc1
    have hle := SegmentsCover_le hc3
    simp only [List.map_cons, complexRuns] at hstop ⊢
    obtain ⟨h1, h2, h3⟩ := andThen_none hstop
    rw [h3]
    have hseg := shapeSegment_chain env bufferLine bufferLinePos textProps
      { textPosition := c.textPosition, textLength := c.textLength, script := c.script,
        shapes := c.shapes, bidiLevel := 0 } size hpos hsize hmono hc2
      (by simp only; omega) htp h1
    exact ChainFrom_append hseg (ih _ _ hc3 h2)

theorem complexityLoop_chain (env : ShapingEnv) (hserv : ServicesCover env)
    (bufferLine bufferLinePos : List Nat) (textProps : Nat)
    (hpos : bufferLinePos.length = bufferLine.length + 1)
    (hsize : bufferLine.length < 4294967296) (hmono : MonoPos bufferLinePos)
    (htp : bufferLine.length ≤ textProps) (mappedEnd : Nat)
    (hend : mappedEnd ≤ bufferLine.length) (fuel : Nat) :
    ∀ idx size : Nat, idx ≤ mappedEnd →
      (complexityLoop env bufferLine bufferLinePos textProps mappedEnd fuel idx size).stop = none →
      ChainFrom (bufferLinePos.getD idx 0) (bufferLinePos.getD mappedEnd 0)
        (complexityLoop env bufferLine bufferLinePos textProps mappedEnd fuel idx size).runs := by
  induction fuel with
  | zero =>
    intro idx size _ hstop
    simp [complexityLoop] at hstop
  | succ fuel ih =>
    intro idx size hle hstop
    simp only [complexityLoop] at hstop ⊢
    by_cases hlt : idx < mappedEnd
    · rw [if_pos hlt] at hstop ⊢
      cases hcx : env.GetTextComplexity idx (mappedEnd - idx) with
      | error code =>
        rw [hcx] at hstop
        exact absurd hstop (by simp)
      | ok r =>
        obtain ⟨isTextSimple, complexityLength⟩ := r
        rw [hcx] at hstop
        simp only at hstop ⊢
        obtain ⟨hc1, hc2⟩ := hserv.2.1 _ _ _ _ (by omega) hcx
        obtain ⟨h1, h2, h3⟩ := andThen_none hstop
        rw [h3]
        have hnext : u32 (idx + complexityLength) = idx + complexityLength :=
          u32_of_lt (by omega)
        rw [hnext] at h2 ⊢
        refine ChainFrom_append ?_ (ih _ _ (by omega) h2)
        cases isTextSimple with
        | true =>
          simp only [if_true] at h1 ⊢
          have := (simpleRuns_chain bufferLine bufferLinePos size idx hpos hsize hmono
            complexityLength 0 (by omega)).2
          rw [Nat.add_zero] at this
          exact this
        | false =>
          simp only [Bool.false_eq_true, if_false] at h1 ⊢
          exact complexRuns_chain env bufferLine bufferLinePos textProps hpos hsize hmono htp
            (idx + complexityLength) (by omega) _ idx size (hserv.2.2 idx complexityLength hc1) h1
    · rw [if_neg hlt]
      have : idx = mappedEnd := by omega
      rw [this]
      simp only [ChainFrom]

theorem mappingLoop_chain (env : ShapingEnv) (hserv : ServicesCover env)
    (bufferLine bufferLinePos : List Nat) (textProps : Nat) (textFormat : Bool)
    (hpos : bufferLinePos.length = bufferLine.length + 1)
    (hsize : bufferLine.length < 4294967296) (hmono : MonoPos bufferLinePos)
    (htp : bufferLine.length ≤ textProps) (fuel : Nat) :
    ∀ idx size : Nat, idx ≤ bufferLine.length →
      (mappingLoop env bufferLine bufferLinePos textProps textFormat fuel idx size).stop = none →
      ChainFrom (bufferLinePos.getD idx 0) (bufferLinePos.getD bufferLine.length 0)
        (mappingLoop env bufferLine bufferLinePos textProps textFormat fuel idx size).runs := by
  induction fuel with
  | zero =>
    intro idx size _ hstop
    simp [mappingLoop] at hstop
  | succ fuel ih =>
    intro idx size hle hstop
    simp only [mappingLoop] at hstop ⊢
    by_cases hlt : idx < bufferLine.length
    · rw [if_pos hlt] at hstop ⊢
      cases textFormat with
      | false => simp at hstop
      | true =>
        simp only [Bool.true_eq_false, if_false] at hstop ⊢
        cases hname : env.GetFontFamilyName with
        | some code =>
          rw [hname] at hstop
          exact absurd hstop (by simp)
        | none =>
          cases hcoll : env.GetFontCollection with
          | some code =>
            rw [hname, hcoll] at hstop
            exact absurd hstop (by simp)
          | none =>
            rw [hname, hcoll] at hstop
            simp only at hstop ⊢
            have hlen : u32 (u32 bufferLine.length + 4294967296 - idx) = bufferLine.length - idx := by
              rw [u32_of_lt hsize]
              unfold u32
              omega
            rw [hlen] at hstop ⊢
            cases hmap : env.MapCharacters idx (bufferLine.length - idx) with
            | error code =>
              rw [hmap] at hstop
              exact absurd hstop (by simp)
            | ok r =>
              obtain ⟨mappedLength, mappedFont⟩ := r
              rw [hmap] at hstop
              simp only at hstop ⊢
              obtain ⟨hm1, hm2⟩ := hserv.1 _ _ _ _ (by omega) hmap
              have hnext : u32 (idx + mappedLength) = idx + mappedLength := u32_of_lt (by omega)
              rw [hnext] at hstop ⊢
              obtain ⟨h1, h2, h3⟩ := andThen_none hstop
              rw [h3]
              refine ChainFrom_append ?_ (ih _ _ (by omega) h2)
              cases mappedFont with
              | false =>
                simp only [if_true] at h1 ⊢
                exact (replacementRuns_chain bufferLinePos size idx (idx + mappedLength) hmono
                  (by omega) (by omega)).2
              | true =>
                simp only [Bool.true_eq_false, if_false] at h1 ⊢
                cases hface : env.CreateFontFace idx with
                | some code =>
                  rw [hface] at h1
                  exact absurd h1 (by simp)
                | none =>
                  rw [hface] at h1
                  simp only at h1 ⊢
                  exact complexityLoop_chain env hserv bufferLine bufferLinePos textProps hpos
                    hsize hmono htp (idx + mappedLength) (by omega) (fuel + 1) idx size
                    (by omega) h1
    · rw [if_neg hlt]
      have : idx = bufferLine.length := by omega
      rw [this]
      simp only [ChainFrom]

theorem MonoPos_of_pairwise {l : List Nat} (h : List.Pairwise (fun a b => a ≤ b) l) :
    MonoPos l := by
  intro i k hik hk
  rw [List.getD_eq_getElem?_getD, List.getD_eq_getElem?_getD,
    List.getElem?_eq_getElem (by omega : i < l.length), List.getElem?_eq_getElem hk]
  simp only [Option.getD_some]
  by_cases heq : i = k
  · subst heq
    exact Nat.le_refl _
  · exact List.pairwise_iff_getElem.mp h i k (by omega) hk (by omega)

theorem lookup_filter_ne {glyphs : List (glyph_entry × List u16x2)} {entry k : glyph_entry}
    (hne : k ≠ entry) :
    (glyphs.filter fun p => p.1 ≠ entry).lookup k = glyphs.lookup k := by
  induction glyphs with
  | nil => rfl
  | cons p rest ih =>
    obtain ⟨k1, v1⟩ := p
    by_cases h1 : k1 = entry
    · rw [List.filter_cons_of_neg (by simpa using h1), ih, List.lookup_cons]
      have hb : (k == k1) = false := by
        rw [beq_eq_false_iff_ne, h1]
        exact hne
      rw [hb]
    · rw [List.filter_cons_of_pos (by simpa using h1), List.lookup_cons, List.lookup_cons, ih]

theorem resolveGlyph_keeps {entry k : glyph_entry} {cells : Nat} {e : Engine}
    {v : List u16x2} (hk : e._r.glyphs.lookup k = some v) (hv : v.getD 0 {} ≠ ({} : u16x2)) :
    (resolveGlyph entry cells e).2._r.glyphs.lookup k = some v := by
  unfold resolveGlyph
  simp only
  split
  · rename_i hmiss
    have hne : k ≠ entry := by
      intro heq
      rw [heq] at hk
      rw [hk] at hmiss
      exact hv hmiss
    rw [allocateCoords_snd, allocateN_frame cells e]
    simp only [glyphsStore]
    rw [List.lookup_cons]
    have hb : (k == entry) = false := by
      rw [beq_eq_false_iff_ne]
      exact hne
    rw [hb]
    simp only
    rw [lookup_filter_ne hne]
    exact hk
  · exact hk

theorem emplaceGlyph_keeps {key : List Nat} {y x1 x2 : Nat} {e e1 : Engine} {k : glyph_entry}
    {v : List u16x2} (h : _emplaceGlyph key y x1 x2 e = some e1)
    (hk : e._r.glyphs.lookup k = some v) (hv : v.getD 0 {} ≠ ({} : u16x2)) :
    e1._r.glyphs.lookup k = some v := by
  obtain ⟨out, _, he⟩ := emplaceGlyph_unfold h
  rw [he]
  exact resolveGlyph_keeps hk hv

theorem emplaceRuns_keeps (y : Nat) (runs : List GlyphRun) :
    ∀ (e s : Engine) (k : glyph_entry) (v : List u16x2), emplaceRuns y runs e = some s →
      e._r.glyphs.lookup k = some v → v.getD 0 {} ≠ ({} : u16x2) →
      s._r.glyphs.lookup k = some v := by
  induction runs with
  | nil =>
    intro e s k v h hk _
    rw [← Option.some.inj h]
    exact hk
  | cons r rest ih =>
    intro e s k v h hk hv
    simp only [emplaceRuns] at h
    split at h
    · exact absurd h (by simp)
    · rename_i e1 hstep
      exact ih e1 s k v h (emplaceGlyph_keeps hstep hk hv) hv

theorem emplaceGlyph_outside {key : List Nat} {y x1 x2 : Nat} {e e1 : Engine}
    (h : _emplaceGlyph key y x1 x2 e = some e1) :
    ∀ idx, idx < e._api.cellCount.x * y + x1 ∨
        e._api.cellCount.x * y + x1 + glyphCells x1 x2 ≤ idx →
      e1._r.cells[idx]? = e._r.cells[idx]? := by
  obtain ⟨out, hw, he⟩ := emplaceGlyph_unfold h
  obtain ⟨pos, glyphs, queue, hres⟩ :=
    resolveGlyph_frame (makeEntry key e._rapi.attributes (glyphCells x1 x2)) (glyphCells x1 x2) e
  obtain ⟨_, hout⟩ := writeCells_get _ _ _ _ _ _ _ hw
  intro idx hidx
  rw [he]
  simp only
  rw [hout idx (by omega), hres]

theorem glyphCells_span {x1 x2 : Nat} (hle : x1 ≤ x2) (hu : x2 < 65536) :
    glyphCells x1 x2 = min (x2 - x1) 16 := by
  unfold glyphCells
  simp only
  have h : (x2 + 65536 - x1) % 65536 = x2 - x1 := by omega
  rw [h]
  split <;> omega

/-- What the calls of a chain of runs leave in row `y`: the cells outside the
columns of the chain are as before, and each column of the chain lies in a
run that has written its cell (when the column is among the first 16 of the
run) or has left it as it was (when it is not). -/
theorem emplaceRuns_cover (y : Nat) (runs : List GlyphRun) :
    ∀ (e s : Engine) (a b : Nat), ChainFrom a b runs → b < 65536 → GenerationInv e →
      emplaceRuns y runs e = some s →
      (∀ idx, idx < e._api.cellCount.x * y + a ∨ e._api.cellCount.x * y + b ≤ idx →
        s._r.cells[idx]? = e._r.cells[idx]?) ∧
      ∀ x, a ≤ x → x < b →
        ∃ r ∈ runs, r.x1 ≤ x ∧ x < r.x2 ∧
          (x - r.x1 < 16 →
            ∃ coords,
              s._r.glyphs.lookup (makeEntry r.key e._rapi.attributes (glyphCells r.x1 r.x2))
                = some coords ∧
              s._r.cells[e._api.cellCount.x * y + x]?
                = some { glyphIndex16 := coords.getD (x - r.x1) {}, flags := 0,
                         color := e._rapi.currentColor }) ∧
          (16 ≤ x - r.x1 →
            s._r.cells[e._api.cellCount.x * y + x]? = e._r.cells[e._api.cellCount.x * y + x]?) := by
  induction runs with
  | nil =>
    intro e s a b hchain _ _ h
    simp only [ChainFrom] at hchain
    rw [← Option.some.inj h]
    exact ⟨fun _ _ => rfl, fun x h1 h2 => absurd h2 (by omega)⟩
  | cons r rest ih =>
    intro e s a b hchain hb inv h
    obtain ⟨hx1, hle, hrest⟩ := hchain
    have hr2 := ChainFrom_le hrest
    simp only [emplaceRuns] at h
    split at h
    · exact absurd h (by simp)
    · rename_i e1 hstep
      obtain ⟨f1, f2, _⟩ := emplaceGlyph_frame hstep
      have inv1 := emplaceGlyph_GenerationInv hstep inv
      obtain ⟨iout, icover⟩ := ih e1 s r.x2 b hrest hb inv1 h
      rw [f1] at iout icover
      rw [f2] at icover
      have hspan := glyphCells_span hle (by omega : r.x2 < 65536)
      have hout := emplaceGlyph_outside hstep
      constructor
      · intro idx hidx
        rw [iout idx (by omega), hout idx (by omega)]
      · intro x hxa hxb
        by_cases hx : x < r.x2
        · refine ⟨r, List.mem_cons_self _ _, by omega, hx, ?_, ?_⟩
          · intro h16
            have hpos : 0 < glyphCells r.x1 r.x2 := by omega
            obtain ⟨coords, c1, c2, c3, _, c5⟩ := emplaceGlyph_cached inv hpos hstep
            rw [f2] at c1 c5
            rw [f1] at c5
            have hv : coords.getD 0 {} ≠ ({} : u16x2) := by
              rw [List.getD_eq_getElem?_getD]
              rw [List.getElem?_eq_getElem (by omega : 0 < coords.length)] at c2 ⊢
              simpa using c2
            refine ⟨coords, emplaceRuns_keeps y rest e1 s _ _ h c1 hv, ?_⟩
            rw [iout _ (Or.inl (by omega))]
            have := c5 (x - r.x1) (by omega)
            rw [show e._api.cellCount.x * y + r.x1 + (x - r.x1) = e._api.cellCount.x * y + x
              by omega] at this
            exact this
          · intro h16
            rw [iout _ (Or.inl (by omega)), hout _ (Or.inr (by omega))]
        · obtain ⟨r1, hr1, g1, g2, g3, g4⟩ := icover x (by omega) hxb
          refine ⟨r1, List.mem_cons_of_mem _ hr1, g1, g2, g3, ?_⟩
          intro h16
          rw [g4 h16, hout _ (Or.inr (by omega))]

theorem PaintBufferLine_success {env : ShapingEnv} {fuel : Nat} {clusters : List Cluster}
    {coord : COORD} {e s : Engine} {hr : HRESULT}
    (h : PaintBufferLine env fuel clusters coord e = .result (some (hr, s)))
    (hok : SUCCEEDED hr) :
    (shapeLine env fuel (withLine clusters e)).stop = none ∧
    ∃ e2,
      emplaceRuns (coord.Y % 65536).toNat (shapeLine env fuel (withLine clusters e)).runs
        { withLine clusters e with
          _rapi := { (withLine clusters e)._rapi with
                     textPropsSize := textPropsResized (withLine clusters e)
                     glyphPropsSize := glyphPropsResized (withLine clusters e) } } = some e2 ∧
      s._r = e2._r := by
  unfold PaintBufferLine at h
  split at h
  · exact absurd h (by simp)
  · rename_i s1 hp
    have hs : s = s1 := (Prod.mk.inj (Option.some.inj (Fueled.result.inj h))).2.symm
    subst hs
    unfold _processBufferLine at hp
    simp only at hp
    split at hp
    · exact absurd hp (by simp)
    · rename_i e2 hrun
      split at hp
      · rename_i hstop
        have he : s = _ := (Outcome.ok.inj (Fueled.result.inj hp)).symm
        exact ⟨hstop, e2, hrun, by rw [he]⟩
      · exact absurd hp (by simp)
      · exact absurd hp (by simp)
      · exact absurd hp (by simp)
  · rename_i ex s1 hp
    have hhr : ex.code.hr = hr := (Prod.mk.inj (Option.some.inj (Fueled.result.inj h))).1
    have hneg := ex.code.failed
    rw [hhr] at hneg
    exact absurd hok (not_le.mpr hneg)
  · exact absurd h (by simp)

theorem plainShapingEnv_covers : ServicesCover plainShapingEnv := by
  refine ⟨?_, ?_, ?_⟩
  · intro idx len ml f hlen h
    simp only [plainShapingEnv, Except.ok.injEq, Prod.mk.injEq] at h
    omega
  · intro idx len simple cl hlen h
    simp only [plainShapingEnv, Except.ok.injEq, Prod.mk.injEq] at h
    omega
  · intro idx len hlen
    exact ⟨rfl, hlen, rfl⟩

theorem complexShapingEnv_covers : ServicesCover complexShapingEnv := by
  refine ⟨?_, ?_, ?_⟩
  · intro idx len ml f hlen h
    simp only [complexShapingEnv, plainShapingEnv, Except.ok.injEq, Prod.mk.injEq] at h
    omega
  · intro idx len simple cl hlen h
    simp only [complexShapingEnv, Except.ok.injEq, Prod.mk.injEq] at h
    omega
  · intro idx len hlen
    exact ⟨rfl, hlen, rfl⟩

theorem scenario_regeneratedLineAB :
    PaintBufferLine plainShapingEnv 3 lineAB { X := 0, Y := 0 } regeneratedEngine
      = .result (some (S_OK, regeneratedLineAB)) := rfl

/-- C19, counterexample: in a grid of 17 columns the line of 17 one-column
clusters occupies the columns 0 to 16. The shaping service maps every code
unit, calls the text complex, reports one script segment and no break inside
it, so the line is one run of 17 columns. `PaintBufferLine` returns `S_OK`,
but `_emplaceGlyph` writes 16 cells only: the cell (16, 0) is still the
default cell, with the color pair (0, 0) and not the current pair
(16777215, 0). -/
theorem C19_counterexample :
    runCalls Engine.new wideCalls = some wideStart ∧
    columnsBefore line17 line17.length = wideStart._api.cellCount.x ∧
    PaintBufferLine complexShapingEnv 18 line17 { X := 0, Y := 0 } wideStart
      = .result (some (S_OK, widePainted)) ∧
    (shapeLine complexShapingEnv 18 (withLine line17 wideStart)).runs
      = [{ key := List.replicate 17 1576, x1 := 0, x2 := 17 }] ∧
    widePainted._r.cells[17 * 0 + 16]? = some { color := { x := 0, y := 0 } } ∧
    wideStart._rapi.currentColor = { x := 16777215, y := 0 } :=
  ⟨rfl, rfl, rfl, rfl, rfl, rfl⟩

/-- C19 (amended): the cell grid is overwritten by the shaping pipeline up to
16 columns per run. Let the engine be in a font-resource generation, the
clusters of the line have non-empty texts (fewer than 2^32 code units in all)
and occupy the columns `[0, n)` with `n ≤ cellCount.x`, and the shaping
services map at least one code unit per call and partition each complex span
into script segments. After a `PaintBufferLine` on row `y` that returns
success, every column `x < n` lies in a run `[x1, x2)` of the line; if `x`
is among the first 16 columns of that run, the cell `(x, y)` has `flags = 0`,
the current color pair, and the slot number `x - x1` of the run as cached for
its key; otherwise the cell is as it was before the call. -/
theorem C19_runs_overwrite_cells (env : ShapingEnv) (fuel : Nat) (clusters : List Cluster)
    (coord : COORD) (e s : Engine) (hr : HRESULT) (y : Nat)
    (hgen : Generation e) (hserv : ServicesCover env)
    (htext : ∀ c ∈ clusters, c.text ≠ [])
    (hunits : unitsBefore clusters clusters.length < 4294967296)
    (hn : columnsBefore clusters clusters.length ≤ e._api.cellCount.x)
    (hu16 : e._api.cellCount.x < 65536)
    (hy : coord.Y = (y : Int)) (hy16 : y < 65536)
    (hrun : PaintBufferLine env fuel clusters coord e = .result (some (hr, s)))
    (hok : SUCCEEDED hr) :
    ∀ x, x < columnsBefore clusters clusters.length →
      ∃ r ∈ (shapeLine env fuel (withLine clusters e)).runs, r.x1 ≤ x ∧ x < r.x2 ∧
        (x - r.x1 < 16 →
          ∃ coords,
            s._r.glyphs.lookup (makeEntry r.key e._rapi.attributes (glyphCells r.x1 r.x2))
              = some coords ∧
            s._r.cells[e._api.cellCount.x * y + x]?
              = some { glyphIndex16 := coords.getD (x - r.x1) {}, flags := 0,
                       color := e._rapi.currentColor }) ∧
        (16 ≤ x - r.x1 →
          s._r.cells[e._api.cellCount.x * y + x]? = e._r.cells[e._api.cellCount.x * y + x]?) := by
  obtain ⟨hstop, e2, hruns, hs⟩ := PaintBufferLine_success hrun hok
  have hyy : (coord.Y % 65536).toNat = y := by
    rw [hy]
    omega
  rw [hyy] at hruns
  have hlen : (flattenClusters 0 clusters).2.length = (flattenClusters 0 clusters).1.length + 1 :=
    flattenClusters_length clusters 0
  have hsize : (flattenClusters 0 clusters).1.length < 4294967296 := by
    rw [flattenClusters_units]
    exact hunits
  have hfit : 0 + columnsBefore clusters clusters.length < 65536 := by omega
  have hmono := MonoPos_of_pairwise (flattenClusters_sorted clusters 0 hfit).1
  have htp : (flattenClusters 0 clusters).1.length ≤ textPropsResized (withLine clusters e) := by
    unfold textPropsResized withLine
    simp only
    split <;> omega
  have hchain := mappingLoop_chain env hserv (flattenClusters 0 clusters).1
    (flattenClusters 0 clusters).2 (textPropsResized (withLine clusters e))
    (withLine clusters e)._r.textFormats hlen hsize hmono htp fuel 0
    (glyphPropsResized (withLine clusters e)) (Nat.zero_le _) hstop
  have hfirst : (flattenClusters 0 clusters).2.getD 0 0 = 0 := by
    obtain ⟨tl, htl⟩ := flattenClusters_head clusters 0 htext
    rw [htl]
    rfl
  have hlast : (flattenClusters 0 clusters).2.getD (flattenClusters 0 clusters).1.length 0
      = columnsBefore clusters clusters.length := by
    rw [List.getD_eq_getElem?_getD, flattenClusters_last clusters 0 (by decide), Nat.zero_add,
      Nat.mod_eq_of_lt (by omega)]
    rfl
  rw [hfirst, hlast] at hchain
  have inv : GenerationInv
      { withLine clusters e with
        _rapi := { (withLine clusters e)._rapi with
                   textPropsSize := textPropsResized (withLine clusters e)
                   glyphPropsSize := glyphPropsResized (withLine clusters e) } } :=
    ⟨AtlasInv_congr (Generation_inv hgen).1 rfl rfl rfl, (Generation_inv hgen).2⟩
  obtain ⟨_, hcover⟩ := emplaceRuns_cover y _ _ e2 0 _ hchain (by omega) inv hruns
  intro x hx
  obtain ⟨r, hr1, g1, g2, g3, g4⟩ := hcover x (Nat.zero_le _) hx
  rw [hs]
  exact ⟨r, hr1, g1, g2, g3, g4⟩

/-- C19, scenario: the line "AB" is painted on the 2x1 grid of
`regeneratedEngine`; the cell (1, 0) has `flags = 0` afterwards. -/
theorem C19_runs_overwrite_cells_witness :
    PaintBufferLine plainShapingEnv 3 lineAB { X := 0, Y := 0 } regeneratedEngine
      = .result (some (S_OK, regeneratedLineAB)) ∧
    columnsBefore lineAB lineAB.length ≤ regeneratedEngine._api.cellCount.x ∧
    (regeneratedLineAB._r.cells[regeneratedEngine._api.cellCount.x * 0 + 1]?).map cell.flags
      = some 0 :=
  ⟨rfl, by decide,
    (C19_runs_overwrite_cells plainShapingEnv 3 lineAB { X := 0, Y := 0 } regeneratedEngine
      regeneratedLineAB S_OK 0 (Generation.start scenario_regenerated) plainShapingEnv_covers
      (by decide) (by decide) (by decide) (by decide) rfl (by decide)
      scenario_regeneratedLineAB (Int.le_refl 0) 1 (by decide)).elim
      fun r h =>
        (h.2.2.2.1 (Nat.lt_of_le_of_lt (Nat.sub_le 1 r.x1) (by decide))).elim
          fun _ hc => (congrArg (Option.map cell.flags) hc.2)⟩

/-! ### Atlas capacity and size -/

theorem atlasGeometry_fit (maxSize : Nat) (cellSize : u16x2) :
    atlasGeometry maxSize cellSize =
      if cellSize.x = 0 then none
      else if xFit maxSize cellSize.x = 0 then none
      else
        match yolo_narrow (xFit maxSize cellSize.x), yolo_narrow (yFit maxSize cellSize.x) with
        | some xFit16, some yFit16 =>
          some (cellSize.mul { x := xFit16, y := yFit16 }, cellSize.mul { x := 1, y := 0 })
        | _, _ => none := rfl

theorem fit_capacity {maxSize csx : Nat} (h1 : 1 ≤ csx) (h2 : csx ≤ maxSize) :
    1 ≤ xFit maxSize csx ∧ 65536 ≤ xFit maxSize csx * yFit maxSize csx ∧
    csx * xFit maxSize csx ≤ maxSize := by
  have hq : 1 ≤ maxSize / csx := (Nat.one_le_div_iff (by omega)).mpr h2
  have hx : 1 ≤ xFit maxSize csx := by
    unfold xFit wantCells
    omega
  refine ⟨hx, ?_, ?_⟩
  · unfold yFit
    have h := Nat.div_add_mod (wantCells + xFit maxSize csx - 1) (xFit maxSize csx)
    have hm := Nat.mod_lt (wantCells + xFit maxSize csx - 1) (show 0 < xFit maxSize csx by omega)
    have hw : wantCells = 65536 := rfl
    generalize xFit maxSize csx * ((wantCells + xFit maxSize csx - 1) / xFit maxSize csx) = p at h ⊢
    omega
  · have hle : xFit maxSize csx ≤ maxSize / csx := by
      unfold xFit
      omega
    calc csx * xFit maxSize csx ≤ csx * (maxSize / csx) := Nat.mul_le_mul_left _ hle
      _ ≤ maxSize := Nat.mul_div_le _ _

theorem getD_lt_of_forall {l : List Nat} {n : Nat} (h : ∀ w ∈ l, w < n) (hn : 0 < n) (i : Nat) :
    l.getD i 0 < n := by
  rw [List.getD_eq_getElem?_getD]
  cases hi : l[i]? with
  | none => exact hn
  | some w => exact h w (List.mem_iff_getElem?.mpr ⟨i, hi⟩)

theorem atlasGeometry_mul {maxSize : Nat} {cellSize asz apos : u16x2} (h1 : 1 ≤ cellSize.x)
    (h2 : cellSize.x ≤ maxSize) (hgeo : atlasGeometry maxSize cellSize = some (asz, apos)) :
    asz = cellSize.mul { x := xFit maxSize cellSize.x, y := yFit maxSize cellSize.x } := by
  obtain ⟨hx, _, _⟩ := fit_capacity h1 h2
  rw [atlasGeometry_fit] at hgeo
  rw [if_neg (by omega), if_neg (by omega)] at hgeo
  split at hgeo
  · rename_i xFit16 yFit16 hx16 hy16
    obtain ⟨e1, _⟩ := yolo_narrow_nat hx16
    obtain ⟨e2, _⟩ := yolo_narrow_nat hy16
    rw [← e1, ← e2]
    exact (congrArg Prod.fst (Option.some.inj hgeo)).symm
  · exact absurd hgeo (by simp)

theorem yFit_narrow {maxSize csx : Nat} (h1 : 1 ≤ csx) (h2 : 2 * csx ≤ maxSize) :
    2 ≤ xFit maxSize csx ∧ yFit maxSize csx ≤ 65535 := by
  have hq : 2 ≤ maxSize / csx := (Nat.le_div_iff_mul_le (by omega)).mpr (by omega)
  have hx : 2 ≤ xFit maxSize csx := by
    unfold xFit wantCells
    omega
  refine ⟨hx, ?_⟩
  unfold yFit
  have hw : wantCells = 65536 := rfl
  rw [hw]
  apply Nat.le_of_lt_succ
  rw [Nat.div_lt_iff_lt_mul (by omega)]
  omega

theorem yFit_overflow {maxSize csx : Nat} (h1 : 1 ≤ csx) (h2 : csx ≤ maxSize)
    (h3 : maxSize < 2 * csx) : xFit maxSize csx = 1 ∧ yFit maxSize csx = 65536 := by
  have hq1 : 1 ≤ maxSize / csx := (Nat.one_le_div_iff (by omega)).mpr h2
  have hq2 : maxSize / csx < 2 := (Nat.div_lt_iff_lt_mul (by omega)).mpr (by omega)
  have hx : xFit maxSize csx = 1 := by
    unfold xFit wantCells
    omega
  refine ⟨hx, ?_⟩
  unfold yFit
  rw [hx]
  rfl

theorem atlasGeometry_overflow {maxSize : Nat} {cellSize : u16x2} (h1 : 1 ≤ cellSize.x)
    (h2 : cellSize.x ≤ maxSize) (h3 : maxSize < 2 * cellSize.x) :
    atlasGeometry maxSize cellSize = none := by
  obtain ⟨hx, hy⟩ := yFit_overflow h1 h2 h3
  rw [atlasGeometry_fit, hx, hy]
  rw [if_neg (by omega), if_neg (by omega)]
  rfl

theorem atlasGeometry_narrow {maxSize : Nat} {cellSize : u16x2} (h1 : 1 ≤ cellSize.x)
    (h2 : 2 * cellSize.x ≤ maxSize) (hmax : maxSize ≤ 16384) :
    atlasGeometry maxSize cellSize
      = some (cellSize.mul { x := xFit maxSize cellSize.x, y := yFit maxSize cellSize.x },
              cellSize.mul { x := 1, y := 0 }) := by
  obtain ⟨hx, hy⟩ := yFit_narrow h1 h2
  obtain ⟨_, _, hw⟩ := fit_capacity h1 (show cellSize.x ≤ maxSize by omega)
  have hx2 : xFit maxSize cellSize.x ≤ 65535 := by
    have : xFit maxSize cellSize.x ≤ cellSize.x * xFit maxSize cellSize.x :=
      Nat.le_mul_of_pos_left _ (by omega)
    omega
  rw [atlasGeometry_fit]
  rw [if_neg (by omega), if_neg (by omega)]
  have e1 : yolo_narrow (xFit maxSize cellSize.x : Int) = some (xFit maxSize cellSize.x) := by
    unfold yolo_narrow
    rw [if_pos (by omega), Int.toNat_natCast]
  have e2 : yolo_narrow (yFit maxSize cellSize.x : Int) = some (yFit maxSize cellSize.x) := by
    unfold yolo_narrow
    rw [if_pos (by omega), Int.toNat_natCast]
  rw [e1, e2]

theorem atlasMaxSize_le (b : Bool) : atlasMaxSize b ≤ 16384 := by
  cases b <;> decide


theorem recreateFont_geometry (env : FontEnv) (e : Engine) (hdev : e._r.device = true) :
    _recreateFontDependentResources env e =
      match atlasGeometry (atlasMaxSize env.featureLevel11) e._api.cellSize with
      | none => .failFast
      | some (asz, apos) =>
        match env.CreateTexture2D asz.x asz.y with
        | some ex =>
          .thrown ex
            { e with
              calls := e.calls ++ [.recreateFontDependentResources]
              _r := { e._r with glyphs := [], glyphQueue := [], atlasSizeInPixel := asz,
                                atlasPosition := apos, glyphBuffer := false } }
        | none =>
          match env.rest with
          | some ex =>
            .thrown ex
              { e with
                calls := e.calls ++ [.recreateFontDependentResources]
                _r := { e._r with glyphs := [], glyphQueue := [], atlasSizeInPixel := asz,
                                  atlasPosition := apos, glyphBuffer := true } }
          | none =>
            .ok
              { e with
                calls := e.calls ++ [.recreateFontDependentResources]
                _r := { e._r with glyphs := [], glyphQueue := [], atlasSizeInPixel := asz,
                                  atlasPosition := apos, glyphBuffer := true,
                                  d2dRenderTarget := true, textFormats := true }
                _invalidations := WI_SetFlag e._invalidations .cbuffer } := by
  unfold _recreateFontDependentResources atlasMaxSize
  simp only
  rw [if_neg (by simp [hdev])]

/-- C24, counterexample: a cell of 16384x16 pixels on a feature level 11
device (limit 16384) has a width in the range of the claim, `xFit = 1` and
`yFit = 65536`, which satisfy both inequalities; but `yFit` does not fit 16
bits, the atlas geometry is not computed and `StartPaint` ends the process: no
atlas is built. With a cell of 100x200 pixels, `xFit * yFit = 163 * 403 =
65689`, but the atlas that was built is 16300x15064 pixels and holds
`163 * 75 = 12225` cells. -/
theorem C24_counterexample :
    runCalls Engine.new maxCellCalls = some maxCellEngine ∧
    1 ≤ maxCellEngine._api.cellSize.x ∧
    maxCellEngine._api.cellSize.x ≤ atlasMaxSize okStartPaintEnv.font.featureLevel11 ∧
    xFit (atlasMaxSize true) 16384 = 1 ∧ yFit (atlasMaxSize true) 16384 = 65536 ∧
    65536 ≤ xFit (atlasMaxSize true) 16384 * yFit (atlasMaxSize true) 16384 ∧
    16384 * xFit (atlasMaxSize true) 16384 ≤ atlasMaxSize true ∧
    atlasGeometry (atlasMaxSize true) maxCellEngine._api.cellSize = none ∧
    StartPaint okStartPaintEnv maxCellEngine = none ∧
    runCalls Engine.new largeCellCalls = some largeCellStart ∧
    xFit (atlasMaxSize true) 100 * yFit (atlasMaxSize true) 100 = 65689 ∧
    largeCellStart._api.cellSize = { x := 100, y := 200 } ∧
    largeCellStart._r.atlasSizeInPixel = { x := 16300, y := 15064 } ∧
    (16300 / 100) * (15064 / 200) = 12225 :=
  ⟨rfl, by decide, by decide, rfl, rfl, by decide, by decide, rfl, rfl, rfl, rfl, rfl, rfl, rfl⟩


/-- C24 (amended): atlas capacity. For an engine with a device and a cell
width `csx` with `1 ≤ csx ≤ maxSize`, the values `xFit` and `yFit` of
`_recreateFontDependentResources` satisfy `xFit * yFit ≥ 65536` and
`csx * xFit ≤ maxSize`. If `csx > maxSize / 2` then `yFit = 65536` does not
fit 16 bits and the function fails fast: no atlas is built. If
`csx ≤ maxSize / 2` then `yFit ≤ 65535`, the function does not fail fast, it
returns a state whenever the backend creates the texture and the remaining
resources, and in every state it returns the atlas is `csx * xFit` pixels
wide, within the limit, and `(csy * yFit) mod 2^16` pixels high; it is
`xFit` cells wide, and when `csy * yFit < 2^16` it is `yFit` cells high and
holds at least 65536 cells. -/
theorem C24_atlas_capacity (env : FontEnv) (e : Engine) (hdev : e._r.device = true)
    (h1 : 1 ≤ e._api.cellSize.x)
    (h2 : e._api.cellSize.x ≤ atlasMaxSize env.featureLevel11) :
    65536 ≤ xFit (atlasMaxSize env.featureLevel11) e._api.cellSize.x
              * yFit (atlasMaxSize env.featureLevel11) e._api.cellSize.x ∧
    e._api.cellSize.x * xFit (atlasMaxSize env.featureLevel11) e._api.cellSize.x
      ≤ atlasMaxSize env.featureLevel11 ∧
    (atlasMaxSize env.featureLevel11 < 2 * e._api.cellSize.x →
      yFit (atlasMaxSize env.featureLevel11) e._api.cellSize.x = 65536 ∧
      _recreateFontDependentResources env e = .failFast) ∧
    (2 * e._api.cellSize.x ≤ atlasMaxSize env.featureLevel11 →
      yFit (atlasMaxSize env.featureLevel11) e._api.cellSize.x ≤ 65535 ∧
      _recreateFontDependentResources env e ≠ .failFast ∧
      (env.CreateTexture2D
          (e._api.cellSize.x * xFit (atlasMaxSize env.featureLevel11) e._api.cellSize.x)
          (e._api.cellSize.y * yFit (atlasMaxSize env.featureLevel11) e._api.cellSize.x
            % 65536) = none →
        env.rest = none → ∃ g, _recreateFontDependentResources env e = .ok g) ∧
      ∀ g, _recreateFontDependentResources env e = .ok g →
        g._r.atlasSizeInPixel.x
          = e._api.cellSize.x * xFit (atlasMaxSize env.featureLevel11) e._api.cellSize.x ∧
        g._r.atlasSizeInPixel.x ≤ atlasMaxSize env.featureLevel11 ∧
        g._r.atlasSizeInPixel.y
          = e._api.cellSize.y * yFit (atlasMaxSize env.featureLevel11) e._api.cellSize.x
              % 65536 ∧
        g._r.atlasSizeInPixel.x / e._api.cellSize.x
          = xFit (atlasMaxSize env.featureLevel11) e._api.cellSize.x ∧
        (1 ≤ e._api.cellSize.y →
          e._api.cellSize.y * yFit (atlasMaxSize env.featureLevel11) e._api.cellSize.x
            < 65536 →
          g._r.atlasSizeInPixel.y / e._api.cellSize.y
            = yFit (atlasMaxSize env.featureLevel11) e._api.cellSize.x ∧
          65536 ≤ g._r.atlasSizeInPixel.x / e._api.cellSize.x
                    * (g._r.atlasSizeInPixel.y / e._api.cellSize.y))) := by
  have hmax := atlasMaxSize_le env.featureLevel11
  obtain ⟨_, hcap, hw⟩ := fit_capacity h1 h2
  refine ⟨hcap, hw, fun h3 => ?_, fun h3 => ?_⟩
  · refine ⟨(yFit_overflow h1 h2 h3).2, ?_⟩
    rw [recreateFont_geometry env e hdev, atlasGeometry_overflow h1 h2 h3]
  · have hgeo := atlasGeometry_narrow h1 h3 hmax
    have hwx : e._api.cellSize.x * xFit (atlasMaxSize env.featureLevel11) e._api.cellSize.x
        % 65536
        = e._api.cellSize.x * xFit (atlasMaxSize env.featureLevel11) e._api.cellSize.x :=
      Nat.mod_eq_of_lt (by omega)
    have hrun := recreateFont_geometry env e hdev
    rw [hgeo] at hrun
    simp only [u16x2.mul, hwx] at hrun
    refine ⟨(yFit_narrow h1 h3).2, ?_, ?_, ?_⟩
    · rw [hrun]
      cases env.CreateTexture2D _ _ <;> cases env.rest <;> simp
    · intro hc hr
      rw [hrun, hc, hr]
      exact ⟨_, rfl⟩
    · intro g hg
      obtain ⟨_, _, _, _, _, _, _, _, _, hgeo2, _⟩ := recreateFont_ok hg
      have hgeo3 : atlasGeometry (atlasMaxSize env.featureLevel11) e._api.cellSize
          = some (g._r.atlasSizeInPixel, g._r.atlasPosition) := hgeo2
      rw [hgeo] at hgeo3
      have ha : g._r.atlasSizeInPixel
          = e._api.cellSize.mul
              { x := xFit (atlasMaxSize env.featureLevel11) e._api.cellSize.x,
                y := yFit (atlasMaxSize env.featureLevel11) e._api.cellSize.x } :=
        (congrArg Prod.fst (Option.some.inj hgeo3)).symm
      have hax : g._r.atlasSizeInPixel.x
          = e._api.cellSize.x * xFit (atlasMaxSize env.featureLevel11) e._api.cellSize.x := by
        rw [ha]
        exact hwx
      have hay : g._r.atlasSizeInPixel.y
          = e._api.cellSize.y * yFit (atlasMaxSize env.featureLevel11) e._api.cellSize.x
              % 65536 := by
        rw [ha]
        rfl
      have hdx : g._r.atlasSizeInPixel.x / e._api.cellSize.x
          = xFit (atlasMaxSize env.featureLevel11) e._api.cellSize.x := by
        rw [hax]
        exact Nat.mul_div_cancel_left _ (by omega)
      refine ⟨hax, by omega, hay, hdx, fun hy1 hy2 => ?_⟩
      have hdy : g._r.atlasSizeInPixel.y / e._api.cellSize.y
          = yFit (atlasMaxSize env.featureLevel11) e._api.cellSize.x := by
        rw [hay, Nat.mod_eq_of_lt hy2]
        exact Nat.mul_div_cancel_left _ (by omega)
      rw [hdx, hdy]
      exact ⟨rfl, hcap⟩

/-- C24, scenario: the font rebuild of `paintedEngine` (cell 8x16, limit
16384) returns `regeneratedEngine` with an atlas of 16384x512 pixels, which is
2048 cells wide and 32 cells high and holds 65536 cells. -/
theorem C24_atlas_capacity_witness :
    paintedEngine._r.device = true ∧ 1 ≤ paintedEngine._api.cellSize.x ∧
    2 * paintedEngine._api.cellSize.x ≤ atlasMaxSize okFontEnv.featureLevel11 ∧
    _recreateFontDependentResources okFontEnv paintedEngine = .ok regeneratedEngine ∧
    regeneratedEngine._r.atlasSizeInPixel = { x := 16384, y := 512 } ∧
    xFit 16384 8 = 2048 ∧ yFit 16384 8 = 32 ∧
    regeneratedEngine._r.atlasSizeInPixel.x / paintedEngine._api.cellSize.x = 2048 ∧
    regeneratedEngine._r.atlasSizeInPixel.y / paintedEngine._api.cellSize.y = 32 ∧
    65536 ≤ regeneratedEngine._r.atlasSizeInPixel.x / paintedEngine._api.cellSize.x
              * (regeneratedEngine._r.atlasSizeInPixel.y / paintedEngine._api.cellSize.y) :=
  ⟨rfl, by decide, by decide, rfl, rfl, rfl, rfl, rfl, rfl,
   ((((C24_atlas_capacity okFontEnv paintedEngine rfl (by decide) (by decide)).2.2.2
        (by decide)).2.2.2 regeneratedEngine rfl).2.2.2.2 (by decide) (by decide)).2⟩

theorem scenario_largeCell : runCalls Engine.new largeCellCalls = some largeCellStart := rfl

/-- C29, counterexample: with a cell of 100x200 pixels on a feature level 11
device (limit 16384), `xFit = 163` and `yFit = 403`. The first `StartPaint`
stores the atlas size (16300, 15064): the height is not the exact product
200 * 403 = 80600 but its low 16 bits, and the exact product exceeds the
limit. -/
theorem C29_counterexample :
    runCalls Engine.new largeCellCalls = some largeCellStart ∧
    largeCellStart._api.cellSize = { x := 100, y := 200 } ∧ 100 ≤ atlasMaxSize true ∧
    xFit (atlasMaxSize true) 100 = 163 ∧ yFit (atlasMaxSize true) 100 = 403 ∧
    largeCellStart._r.atlasSizeInPixel = { x := 16300, y := 15064 } ∧
    200 * yFit (atlasMaxSize true) 100 = 80600 ∧ atlasMaxSize true < 80600 :=
  ⟨rfl, rfl, by decide, by decide, by decide, rfl, by decide, by decide⟩

/-- C29 (amended): the atlas size that a completed
`_recreateFontDependentResources` stores has the exact width
`csx * xFit`, which does not exceed the limit `maxSize`; its height is
`csy * yFit` modulo 2^16, which is the exact product, and within the limit,
only when the product is. -/
theorem C29_atlas_size (env : FontEnv) (e g : Engine)
    (h : _recreateFontDependentResources env e = .ok g) :
    g._r.atlasSizeInPixel.x
      = e._api.cellSize.x * xFit (atlasMaxSize env.featureLevel11) e._api.cellSize.x ∧
    g._r.atlasSizeInPixel.x ≤ atlasMaxSize env.featureLevel11 ∧
    g._r.atlasSizeInPixel.y
      = (e._api.cellSize.y * yFit (atlasMaxSize env.featureLevel11) e._api.cellSize.x) % 65536 ∧
    (e._api.cellSize.y * yFit (atlasMaxSize env.featureLevel11) e._api.cellSize.x < 65536 →
      g._r.atlasSizeInPixel.y
        = e._api.cellSize.y * yFit (atlasMaxSize env.featureLevel11) e._api.cellSize.x) ∧
    (e._api.cellSize.y * yFit (atlasMaxSize env.featureLevel11) e._api.cellSize.x
        ≤ atlasMaxSize env.featureLevel11 →
      g._r.atlasSizeInPixel.y ≤ atlasMaxSize env.featureLevel11) := by
  obtain ⟨_, _, _, _, _, _, _, _, _, hgeo, _⟩ := recreateFont_ok h
  have hmax : atlasMaxSize env.featureLevel11 ≤ 16384 := by
    unfold atlasMaxSize
    split <;> decide
  change atlasGeometry (atlasMaxSize env.featureLevel11) e._api.cellSize = _ at hgeo
  obtain ⟨hpos, _, _, hle, _, _⟩ := atlasGeometry_spec hmax hgeo
  have hsz : e._api.cellSize.x ≤ atlasMaxSize env.featureLevel11 := by omega
  obtain ⟨_, _, hw⟩ := fit_capacity hpos hsz
  have hmul := atlasGeometry_mul hpos hsz hgeo
  rw [hmul]
  unfold u16x2.mul
  dsimp only
  generalize e._api.cellSize.x * xFit (atlasMaxSize env.featureLevel11) e._api.cellSize.x = w at hw ⊢
  generalize e._api.cellSize.y * yFit (atlasMaxSize env.featureLevel11) e._api.cellSize.x = v
  refine ⟨by omega, by omega, rfl, fun hv => by omega, fun hv => by omega⟩

/-- C29, scenario: the font rebuild of the scenario with an 8x16 pixel cell
stores the atlas size (16384, 512) = (8 * 2048, 16 * 32). -/
theorem C29_atlas_size_witness :
    _recreateFontDependentResources okFontEnv paintedEngine = .ok regeneratedEngine ∧
    regeneratedEngine._r.atlasSizeInPixel.x = 8 * xFit (atlasMaxSize true) 8 ∧
    regeneratedEngine._r.atlasSizeInPixel.y = (16 * yFit (atlasMaxSize true) 8) % 65536 :=
  ⟨rfl, (C29_atlas_size okFontEnv paintedEngine regeneratedEngine rfl).1,
    (C29_atlas_size okFontEnv paintedEngine regeneratedEngine rfl).2.2.1⟩

/-! ### The key hash -/

theorem mul128_portable (lhs rhs : Nat) (hl : lhs < 2 ^ 64) (hr : rhs < 2 ^ 64) :
    XXH3_mul128_fold64 .portable lhs rhs = mul128_fold64_spec lhs rhs := by
  have hmask : ∀ x : Nat, x &&& 0xFFFFFFFF = x % 4294967296 :=
    fun x => Nat.and_pow_two_sub_one_eq_mod x 32
  have hl2 : lhs < 18446744073709551616 := hl
  have hr2 : rhs < 18446744073709551616 := hr
  have ha : lhs / 4294967296 ≤ 4294967295 := by omega
  have hb : lhs % 4294967296 ≤ 4294967295 := by omega
  have hc : rhs / 4294967296 ≤ 4294967295 := by omega
  have hd : rhs % 4294967296 ≤ 4294967295 := by omega
  have hA := Nat.mul_le_mul ha hd
  have hB := Nat.mul_le_mul hb hc
  have hC := Nat.mul_le_mul ha hc
  have hD := Nat.mul_le_mul hb hd
  have hprod : lhs * rhs =
      (lhs / 4294967296) * (rhs / 4294967296) * 18446744073709551616 +
      ((lhs / 4294967296) * (rhs % 4294967296) + (lhs % 4294967296) * (rhs / 4294967296))
        * 4294967296 + (lhs % 4294967296) * (rhs % 4294967296) := by
    have e1 := Nat.div_add_mod lhs 4294967296
    have e2 := Nat.div_add_mod rhs 4294967296
    generalize lhs / 4294967296 = a at e1 ⊢
    generalize lhs % 4294967296 = b at e1 ⊢
    generalize rhs / 4294967296 = c at e2 ⊢
    generalize rhs % 4294967296 = d at e2 ⊢
    rw [← e1, ← e2]
    ring
  unfold XXH3_mul128_fold64 mul128_fold64_spec __emulu u64
  simp only [Nat.shiftRight_eq_div_pow, Nat.shiftLeft_eq, hmask]
  have hmm : ∀ x : Nat, x / 2 ^ 32 % 4294967296 = x / 4294967296 % 4294967296 := fun x => rfl
  have p32 : (2 : Nat) ^ 32 = 4294967296 := rfl
  have p64 : (2 : Nat) ^ 64 = 18446744073709551616 := rfl
  rw [p32, p64]
  have ha2 : lhs / 4294967296 % 4294967296 = lhs / 4294967296 := Nat.mod_eq_of_lt (by omega)
  have hc2 : rhs / 4294967296 % 4294967296 = rhs / 4294967296 := Nat.mod_eq_of_lt (by omega)
  rw [ha2, hc2, hprod]
  generalize (lhs / 4294967296) * (rhs % 4294967296) = A at hA ⊢
  generalize (lhs % 4294967296) * (rhs / 4294967296) = B at hB ⊢
  generalize (lhs / 4294967296) * (rhs / 4294967296) = C at hC ⊢
  generalize (lhs % 4294967296) * (rhs % 4294967296) = D at hD ⊢
  have hcross : (D / 4294967296 + A % 4294967296 + B) % 18446744073709551616
      = D / 4294967296 + A % 4294967296 + B := Nat.mod_eq_of_lt (by omega)
  rw [hcross]
  generalize hX : D / 4294967296 + A % 4294967296 + B = X
  have hlo : X * 4294967296 % 18446744073709551616 ||| D % 4294967296
      = (C * 18446744073709551616 + (A + B) * 4294967296 + D) % 18446744073709551616 := by
    have h1 : X * 4294967296 % 18446744073709551616 = 2 ^ 32 * (X % 4294967296) := by
      rw [p32]
      omega
    rw [h1, ← Nat.mul_add_lt_is_or (by rw [p32]; omega), p32]
    omega
  have hhi : (A / 4294967296 + X / 4294967296 + C) % 18446744073709551616
      = (C * 18446744073709551616 + (A + B) * 4294967296 + D) / 18446744073709551616 := by
    omega
  rw [hlo, hhi]

theorem mul128_amd64 (lhs rhs : Nat) :
    XXH3_mul128_fold64 .amd64 lhs rhs = mul128_fold64_spec lhs rhs := rfl

theorem mul128_arm64 (lhs rhs : Nat) :
    XXH3_mul128_fold64 .arm64 lhs rhs = mul128_fold64_spec lhs rhs := rfl

/-- C30: the portable branch of `XXH3_mul128_fold64`, built from four 32x32
bit partial products, returns for all 64-bit `lhs` and `rhs` the low 64 bits
of `lhs * rhs` xor its high 64 bits, as the `_umul128` branch and the
`__umulh` branch do; so `XXH3_len_32_64b` returns the same hash for the four
64-bit words of a key on every branch. -/
theorem C30_mul128_fold64_branches (lhs rhs : Nat) (inputs : List Nat)
    (hl : lhs < 2 ^ 64) (hr : rhs < 2 ^ 64) (hin : ∀ w ∈ inputs, w < 2 ^ 64) :
    XXH3_mul128_fold64 .portable lhs rhs = mul128_fold64_spec lhs rhs ∧
    XXH3_mul128_fold64 .amd64 lhs rhs = mul128_fold64_spec lhs rhs ∧
    XXH3_mul128_fold64 .arm64 lhs rhs = mul128_fold64_spec lhs rhs ∧
    XXH3_len_32_64b .portable inputs = XXH3_len_32_64b .amd64 inputs ∧
    XXH3_len_32_64b .arm64 inputs = XXH3_len_32_64b .amd64 inputs := by
  refine ⟨mul128_portable lhs rhs hl hr, rfl, rfl, ?_, rfl⟩
  have hk : ∀ i, XXH3_kSecret.getD i 0 < 2 ^ 64 :=
    fun i => getD_lt_of_forall (by decide) (by decide) i
  have hi : ∀ i, inputs.getD i 0 < 2 ^ 64 := fun i => getD_lt_of_forall hin (by decide) i
  unfold XXH3_len_32_64b
  simp only
  rw [mul128_portable _ _ (Nat.xor_lt_two_pow (hi 0) (hk 0)) (Nat.xor_lt_two_pow (hi 1) (hk 1)),
    mul128_portable _ _ (Nat.xor_lt_two_pow (hi 2) (hk 2)) (Nat.xor_lt_two_pow (hi 3) (hk 3)),
    mul128_amd64, mul128_amd64]

/-- C30, scenario: for `lhs = rhs = 2^64 - 1` the product is
`2^128 - 2^65 + 1`, with the low word 1 and the high word `2^64 - 2`; every
branch returns `2^64 - 1`. -/
theorem C30_mul128_fold64_branches_witness :
    XXH3_mul128_fold64 .portable 18446744073709551615 18446744073709551615
      = mul128_fold64_spec 18446744073709551615 18446744073709551615 ∧
    mul128_fold64_spec 18446744073709551615 18446744073709551615 = 18446744073709551615 ∧
    XXH3_len_32_64b .portable [1, 2, 3, 4] = XXH3_len_32_64b .amd64 [1, 2, 3, 4] :=
  ⟨(C30_mul128_fold64_branches 18446744073709551615 18446744073709551615 [1, 2, 3, 4]
      (by decide) (by decide) (by decide)).1,
    by decide,
    (C30_mul128_fold64_branches 18446744073709551615 18446744073709551615 [1, 2, 3, 4]
      (by decide) (by decide) (by decide)).2.2.2.1⟩

/-! ### Truncation and decoding of keys -/

theorem resolveGlyph_lookup (entry : glyph_entry) (cells : Nat) (e : Engine) :
    (resolveGlyph entry cells e).2._r.glyphs.lookup entry = some (resolveGlyph entry cells e).1 := by
  unfold resolveGlyph
  simp only
  split
  · exact glyphsStore_lookup _ _ _
  · rename_i hne
    cases hfind : e._r.glyphs.lookup entry with
    | none =>
      rw [hfind] at hne
      exact absurd rfl hne
    | some coords => rfl

theorem resolveGlyph_cached {entry : glyph_entry} {cells : Nat} {e : Engine} {c0 : List u16x2}
    (hfind : e._r.glyphs.lookup entry = some c0) (hne : c0.getD 0 {} ≠ ({} : u16x2)) :
    resolveGlyph entry cells e = (c0, e) := by
  unfold resolveGlyph
  simp only [hfind, Option.getD_some]
  rw [if_neg hne]

theorem makeEntry_truncated (key : List Nat) (attributes : glyph_entry_attributes) {x1 x2 : Nat}
    (hx : x1 < x2) (hu : x2 < 65536) :
    makeEntry key attributes (glyphCells x1 x2) =
      { chars := key.take (min key.length 15) ++ List.replicate (15 - min key.length 15) 0
        attributes := { attributes with cells := min (x2 - x1) 16 - 1 } } := by
  rw [glyphCells_span (Nat.le_of_lt hx) hu]
  unfold makeEntry
  simp only
  have h1 : (if key.length > 15 then 15 else key.length) = min key.length 15 := by
    split <;> omega
  have h2 : (min (x2 - x1) 16 + 15) % 16 = min (x2 - x1) 16 - 1 := by omega
  rw [h1, h2]

theorem emplaceGlyph_effect {key : List Nat} {y x1 x2 : Nat} {e : Engine}
    (hy : y < e._api.cellCount.y) (hx : x1 < x2) (hx2 : x2 ≤ e._api.cellCount.x)
    (hu : x2 < 65536) (hlen : e._r.cells.length = e._api.cellCount.x * e._api.cellCount.y) :
    ∃ e1, _emplaceGlyph key y x1 x2 e = some e1 ∧
      e1._r.glyphs.lookup (makeEntry key e._rapi.attributes (glyphCells x1 x2))
        = some (resolveGlyph (makeEntry key e._rapi.attributes (glyphCells x1 x2))
            (glyphCells x1 x2) e).1 ∧
      (∀ i, i < glyphCells x1 x2 →
        e1._r.cells[e._api.cellCount.x * y + x1 + i]? =
          some { glyphIndex16 :=
                   (resolveGlyph (makeEntry key e._rapi.attributes (glyphCells x1 x2))
                     (glyphCells x1 x2) e).1.getD i {}
                 flags := 0, color := e._rapi.currentColor }) ∧
      (∀ idx, idx < e._api.cellCount.x * y + x1 ∨
          e._api.cellCount.x * y + x1 + glyphCells x1 x2 ≤ idx →
        e1._r.cells[idx]? = e._r.cells[idx]?) := by
  obtain ⟨e1, h1⟩ := @emplaceGlyph_total key y x1 x2 e hy hx hx2 hu hlen
  obtain ⟨out, hw, he⟩ := emplaceGlyph_unfold h1
  obtain ⟨pos, glyphs, queue, hres⟩ :=
    resolveGlyph_frame (makeEntry key e._rapi.attributes (glyphCells x1 x2)) (glyphCells x1 x2) e
  have hrapi : (resolveGlyph (makeEntry key e._rapi.attributes (glyphCells x1 x2))
      (glyphCells x1 x2) e).2._rapi = e._rapi := by rw [hres]
  obtain ⟨hget, _⟩ := writeCells_get _ _ _ _ _ _ _ hw
  refine ⟨e1, h1, ?_, ?_, emplaceGlyph_outside h1⟩
  · rw [he]
    exact resolveGlyph_lookup _ _ _
  · intro i hi
    rw [he]
    dsimp only
    have := hget i (Nat.zero_le i) (by omega)
    rw [hrapi] at this
    exact this

theorem grid_index_outside {ccx y x1 n y2 x : Nat} (hx : x < ccx) (hn : x1 + n ≤ ccx)
    (hne : ¬ (y2 = y ∧ x1 ≤ x ∧ x < x1 + n)) :
    ccx * y2 + x < ccx * y + x1 ∨ ccx * y + x1 + n ≤ ccx * y2 + x := by
  rcases Nat.lt_trichotomy y2 y with hlt | heq | hgt
  · left
    have h1 : ccx * (y2 + 1) ≤ ccx * y := Nat.mul_le_mul_left _ hlt
    rw [Nat.mul_succ] at h1
    omega
  · subst heq
    by_cases h1 : x < x1
    · left
      omega
    · right
      have : ¬ x < x1 + n := fun h2 => hne ⟨rfl, by omega, h2⟩
      omega
  · right
    have h1 : ccx * (y + 1) ≤ ccx * y2 := Nat.mul_le_mul_left _ hgt
    rw [Nat.mul_succ] at h1
    omega

/-- C23: frame effect of `_emplaceGlyph` on the grid. For every call with
`y < cellCount.y` and `x1 < x2 ≤ cellCount.x` on a grid buffer of
`cellCount.x * cellCount.y` cells (the width being a `u16`) the call returns;
afterwards the key is cached with slots `coords`, which are the slots cached
before when the key was cached with a first slot other than (0,0) (a hit);
each cell `(x1 + i, y)` with `i < min(x2 - x1, 16)` holds `coords[i]`,
`flags = 0` and the current color pair, and every other cell of the grid is
as it was. -/
theorem C23_emplaceGlyph_writes_run (e : Engine) (key : List Nat) (y x1 x2 : Nat)
    (hy : y < e._api.cellCount.y) (hx : x1 < x2) (hx2 : x2 ≤ e._api.cellCount.x)
    (hu16 : e._api.cellCount.x < 65536)
    (hlen : e._r.cells.length = e._api.cellCount.x * e._api.cellCount.y) :
    ∃ e1 coords, _emplaceGlyph key y x1 x2 e = some e1 ∧
      e1._r.glyphs.lookup (makeEntry key e._rapi.attributes (glyphCells x1 x2)) = some coords ∧
      (∀ c0, e._r.glyphs.lookup (makeEntry key e._rapi.attributes (glyphCells x1 x2)) = some c0 →
        c0.getD 0 {} ≠ ({} : u16x2) → coords = c0 ∧ e1._r.glyphs = e._r.glyphs) ∧
      (∀ i, i < min (x2 - x1) 16 →
        e1._r.cells[e._api.cellCount.x * y + (x1 + i)]? =
          some { glyphIndex16 := coords.getD i {}, flags := 0, color := e._rapi.currentColor }) ∧
      (∀ y2 x, y2 < e._api.cellCount.y → x < e._api.cellCount.x →
        ¬ (y2 = y ∧ x1 ≤ x ∧ x < x1 + min (x2 - x1) 16) →
        e1._r.cells[e._api.cellCount.x * y2 + x]? = e._r.cells[e._api.cellCount.x * y2 + x]?) ∧
      e1._r.cells.length = e._r.cells.length := by
  have hu : x2 < 65536 := by omega
  have hspan := glyphCells_span (Nat.le_of_lt hx) hu
  obtain ⟨e1, h1, h2, h3, h4⟩ := @emplaceGlyph_effect key y x1 x2 e hy hx hx2 hu hlen
  obtain ⟨_, _, _, _, f5, _⟩ := emplaceGlyph_frame h1
  refine ⟨e1, _, h1, h2, ?_, ?_, ?_, f5⟩
  · intro c0 hfind hne
    rw [resolveGlyph_cached hfind hne]
    refine ⟨rfl, ?_⟩
    obtain ⟨out, _, he⟩ := emplaceGlyph_unfold h1
    rw [he, resolveGlyph_cached hfind hne]
  · intro i hi
    rw [← Nat.add_assoc]
    exact h3 i (by rw [hspan]; exact hi)
  · intro y2 x hy2 hxc hne
    apply h4
    rw [hspan]
    exact grid_index_outside hxc (by omega) hne

/-- C23, scenario: the call for "A" at the first cell of the 2x1 grid of
`regeneratedEngine` leaves the key cached and the cell (0, 0) with the first
cached slot, `flags = 0` and the current color pair. -/
theorem C23_emplaceGlyph_writes_run_witness :
    _emplaceGlyph [65] 0 0 1 regeneratedEngine = some paintedA ∧
    ∃ coords, paintedA._r.glyphs.lookup (makeEntry [65] {} 1) = some coords ∧
      paintedA._r.cells[0]? = some { glyphIndex16 := coords.getD 0 {}, flags := 0, color := {} } :=
  ⟨rfl,
    (C23_emplaceGlyph_writes_run regeneratedEngine [65] 0 0 1 (by decide) (by decide) (by decide)
      (by decide) rfl).elim fun e1 h => h.elim fun coords h =>
        have he : e1 = paintedA := Option.some.inj (h.1.symm.trans scenario_paintedA)
        ⟨coords, he ▸ h.2.1, he ▸ h.2.2.2.1 0 (by decide)⟩⟩

theorem wcsnlen_s_padded (key : List Nat) (m : Nat) (hnul : ∀ u ∈ key, u ≠ 0)
    (hlen : key.length + m = 15) :
    wcsnlen_s (key ++ List.replicate m 0) 15 = key.length := by
  unfold wcsnlen_s
  rw [List.take_of_length_le (by rw [List.length_append, List.length_replicate]; omega)]
  rw [List.takeWhile_append_of_pos (by
    intro u hu
    simpa using hnul u hu)]
  have hz : (List.replicate m 0).takeWhile (fun u => decide (u ≠ 0)) = [] := by
    cases m with
    | zero => rfl
    | succ m => simp [List.replicate_succ]
  rw [hz, List.append_nil]

/-- C28: what is rasterized is what was requested. For the key that
`_emplaceGlyph` forms from a text of `n ≥ 1` code units without U+0000 and a
span of `c = x2 - x1 ≥ 1` columns, `_drawGlyph` reads a text length of
`min(n, 15)` (the first 15 code units of the text), a cell count of
`min(c, 16)`, and the bold and italic flags of the call. When the key is not
cached, `_emplaceGlyph` makes exactly `min(c, 16)` allocations, and the slots
`_drawGlyph` copies to for the queued pair are the slots of these
allocations. -/
theorem C28_drawGlyph_decodes_key (key : List Nat) (attributes : glyph_entry_attributes)
    (x1 x2 : Nat) (hn : 1 ≤ key.length) (hnul : ∀ u ∈ key, u ≠ 0) (hx : x1 < x2)
    (hu : x2 < 65536) :
    drawGlyph_charsLength (makeEntry key attributes (glyphCells x1 x2)) = min key.length 15 ∧
    drawGlyph_text (makeEntry key attributes (glyphCells x1 x2)) = key.take 15 ∧
    drawGlyph_cells (makeEntry key attributes (glyphCells x1 x2)) = min (x2 - x1) 16 ∧
    drawGlyph_format (makeEntry key attributes (glyphCells x1 x2))
      = (attributes.bold, attributes.italic) ∧
    ∀ (y : Nat) (e e1 : Engine), e._rapi.attributes = attributes →
      e._r.glyphs.lookup (makeEntry key attributes (glyphCells x1 x2)) = none →
      _emplaceGlyph key y x1 x2 e = some e1 →
      ∃ coords,
        e1._r.glyphQueue
          = e._r.glyphQueue ++ [(makeEntry key attributes (glyphCells x1 x2), coords)] ∧
        e1._r.atlasPosition = (allocateN (min (x2 - x1) 16) e)._r.atlasPosition ∧
        heldSlots (makeEntry key attributes (glyphCells x1 x2), coords)
          = allocatedSlots (min (x2 - x1) 16) e := by
  have hspan := glyphCells_span (Nat.le_of_lt hx) hu
  have hentry := makeEntry_truncated key attributes hx hu
  have hnul2 : ∀ u ∈ key.take (min key.length 15), u ≠ 0 :=
    fun u hu2 => hnul u (List.mem_of_mem_take hu2)
  have hl : (key.take (min key.length 15)).length = min key.length 15 := by
    rw [List.length_take]
    omega
  have hchars : drawGlyph_charsLength (makeEntry key attributes (glyphCells x1 x2))
      = min key.length 15 := by
    unfold drawGlyph_charsLength
    rw [hentry]
    dsimp only
    rw [wcsnlen_s_padded _ _ hnul2 (by rw [hl]; omega), hl]
  have hcells : drawGlyph_cells (makeEntry key attributes (glyphCells x1 x2))
      = min (x2 - x1) 16 := by
    unfold drawGlyph_cells
    rw [hentry]
    dsimp only
    omega
  refine ⟨hchars, ?_, hcells, ?_, ?_⟩
  · unfold drawGlyph_text
    rw [hchars, hentry]
    dsimp only
    rw [List.take_append_of_le_length (by rw [hl]), List.take_take, Nat.min_self]
    by_cases hk : key.length ≤ 15
    · rw [Nat.min_eq_left hk, List.take_of_length_le hk, List.take_of_length_le (Nat.le_refl _)]
    · rw [Nat.min_eq_right (by omega)]
  · rw [hentry]
    rfl
  · intro y e e1 hattr hmiss hstep
    subst hattr
    obtain ⟨out, _, he⟩ := emplaceGlyph_unfold hstep
    rw [resolveGlyph_absent hmiss] at he
    refine ⟨(allocateCoords (glyphCells x1 x2) 0 emptyCoords e).1, ?_, ?_, ?_⟩
    · rw [he]
    · rw [he, hspan]
    · unfold heldSlots
      change List.take (drawGlyph_cells (makeEntry key e._rapi.attributes (glyphCells x1 x2))) _ = _
      rw [hcells, ← hspan]
      exact allocateCoords_take emptyCoords e (by rw [emptyCoords_length]; exact glyphCells_le x1 x2)

/-- C28, scenario: the key of the call for "A" in one column decodes to a text
of one code unit, [65], and one cell. -/
theorem C28_drawGlyph_decodes_key_witness :
    drawGlyph_charsLength (makeEntry [65] {} (glyphCells 0 1)) = 1 ∧
    drawGlyph_text (makeEntry [65] {} (glyphCells 0 1)) = [65] ∧
    drawGlyph_cells (makeEntry [65] {} (glyphCells 0 1)) = 1 :=
  ⟨(C28_drawGlyph_decodes_key [65] {} 0 1 (by decide) (by decide) (by decide) (by decide)).1,
    (C28_drawGlyph_decodes_key [65] {} 0 1 (by decide) (by decide) (by decide) (by decide)).2.1,
    (C28_drawGlyph_decodes_key [65] {} 0 1 (by decide) (by decide) (by decide) (by decide)).2.2.1⟩

theorem simpleRuns_eq (bufferLine bufferLinePos : List Nat) (size idx : Nat)
    (hpos : bufferLinePos.length = bufferLine.length + 1)
    (hsize : bufferLine.length < 4294967296) (n : Nat) :
    ∀ i : Nat, idx + i + n ≤ bufferLine.length →
      simpleRuns bufferLine bufferLinePos size idx n i =
        { runs := (List.range' i n).map fun k => simpleRun bufferLine bufferLinePos (idx + k)
          glyphProps := size, stop := none } := by
  induction n with
  | zero =>
    intro i _
    rfl
  | succ n ih =>
    intro i hin
    simp only [simpleRuns]
    rw [u32_of_lt (by omega), u32_of_lt (by omega), keyAt_inside (by omega),
      getElem?_eq_getD bufferLinePos _ 0 (by omega),
      getElem?_eq_getD bufferLinePos _ 0 (by omega)]
    simp only
    rw [ih (i + 1) (by omega)]
    simp only [List.range'_succ, List.map_cons]
    have hkey : List.take 1 (List.drop (idx + i) bufferLine) = [bufferLine.getD (idx + i) 0] := by
      have hlt : idx + i < bufferLine.length := by omega
      rw [List.drop_eq_getElem_cons hlt, List.take_succ_cons, List.take_zero,
        List.getD_eq_getElem?_getD, List.getElem?_eq_getElem hlt]
      rfl
    rw [hkey]
    rfl

theorem flattenClusters_unit_span (P : List Cluster) (c : Cluster) (R : List Cluster)
    (hc : c.text.length = 1)
    (hfit : columnsBefore (P ++ c :: R) (P ++ c :: R).length < 65536) :
    (flattenClusters 0 (P ++ c :: R)).2.getD (unitsBefore P P.length) 0
      = columnsBefore P P.length ∧
    columnsBefore P P.length + c.columns
      ≤ (flattenClusters 0 (P ++ c :: R)).2.getD (unitsBefore P P.length + 1) 0 := by
  have htot : columnsBefore (P ++ c :: R) (P ++ c :: R).length
      = columnsBefore P P.length + (c.columns + columnsBefore R R.length) := by
    rw [columnsBefore_append, columnsBefore_cons]
  rw [htot] at hfit
  constructor
  · have hd := flattenClusters_drop P 0 (c :: R) (by omega)
    rw [Nat.zero_add] at hd
    obtain ⟨t, ht⟩ : ∃ t, c.text = [t] := by
      cases hct : c.text with
      | nil => rw [hct] at hc; simp at hc
      | cons t tl =>
        cases tl with
        | nil => exact ⟨t, rfl⟩
        | cons _ _ => rw [hct] at hc; simp at hc
    have hcons : (flattenClusters (columnsBefore P P.length) (c :: R)).2
        = columnsBefore P P.length
          :: (flattenClusters ((columnsBefore P P.length + c.columns % 65536) % 65536) R).2 := by
      simp only [flattenClusters, ht, List.length_singleton, List.replicate_one,
        List.singleton_append]
    rw [hcons] at hd
    rw [List.getD_eq_getElem?_getD, getElem?_of_drop_eq_cons hd]
    rfl
  · have hsplit : P ++ c :: R = (P ++ [c]) ++ R := by simp
    have hu : unitsBefore (P ++ [c]) (P ++ [c]).length = unitsBefore P P.length + 1 := by
      rw [unitsBefore_append, unitsBefore_cons, hc]
      rfl
    have hcol : columnsBefore (P ++ [c]) (P ++ [c]).length = columnsBefore P P.length + c.columns := by
      rw [columnsBefore_append, columnsBefore_cons]
      rfl
    have hd := flattenClusters_drop (P ++ [c]) 0 R (by rw [hcol]; omega)
    rw [← hsplit, hu, hcol, Nat.zero_add] at hd
    have hsorted := (flattenClusters_sorted R (columnsBefore P P.length + c.columns)
      (by omega)).2
    have hlen := flattenClusters_length R (columnsBefore P P.length + c.columns)
    cases hl : (flattenClusters (columnsBefore P P.length + c.columns) R).2 with
    | nil =>
      rw [hl] at hlen
      simp at hlen
    | cons v tl =>
      rw [hl] at hd
      rw [List.getD_eq_getElem?_getD, getElem?_of_drop_eq_cons hd]
      exact (hsorted v (by rw [hl]; exact List.mem_cons_self _ _)).1

/-- C21: the simple fast path. When the complexity test at `idx` calls a
prefix of `L` code units inside the line simple, the iteration of the inner
loop of `_processBufferLine` consists of exactly `L` calls of
`_emplaceGlyph`, the `i`-th with the one code unit `bufferLine[idx + i]` and
the columns from `bufferLinePos[idx + i]` to `bufferLinePos[idx + i + 1]`;
the calls are a function of the line alone (no result of script analysis or of
`GetGlyphs` enters, and the `glyphProps` buffer keeps its length), and the
loop goes on at `idx + L`. When the code unit `idx + i` is a cluster of its
own that occupies at least one column, in a line of fewer than 2^16 columns,
its call has `x1 < x2`. -/
theorem C21_simple_fast_path (env : ShapingEnv) (bufferLine bufferLinePos : List Nat)
    (textProps mappedEnd fuel idx size L : Nat)
    (hlen : bufferLinePos.length = bufferLine.length + 1)
    (hsize : bufferLine.length < 4294967296)
    (hin : idx + L ≤ bufferLine.length) (hmore : idx < mappedEnd)
    (hsimple : env.GetTextComplexity idx (mappedEnd - idx) = .ok (true, L)) :
    complexityLoop env bufferLine bufferLinePos textProps mappedEnd (fuel + 1) idx size
      = Emission.andThen
          { runs := (List.range L).map fun i => simpleRun bufferLine bufferLinePos (idx + i)
            glyphProps := size, stop := none }
          (complexityLoop env bufferLine bufferLinePos textProps mappedEnd fuel (idx + L)) ∧
    ((List.range L).map fun i => simpleRun bufferLine bufferLinePos (idx + i)).length = L ∧
    ∀ (i : Nat) (P : List Cluster) (c : Cluster) (R : List Cluster), i < L →
      bufferLine = (flattenClusters 0 (P ++ c :: R)).1 →
      bufferLinePos = (flattenClusters 0 (P ++ c :: R)).2 →
      idx + i = unitsBefore P P.length → c.text.length = 1 → 1 ≤ c.columns →
      columnsBefore (P ++ c :: R) (P ++ c :: R).length < 65536 →
      (simpleRun bufferLine bufferLinePos (idx + i)).x1
        < (simpleRun bufferLine bufferLinePos (idx + i)).x2 := by
  refine ⟨?_, by rw [List.length_map, List.length_range], ?_⟩
  · simp only [complexityLoop]
    rw [if_pos hmore, hsimple]
    simp only [if_true]
    rw [simpleRuns_eq bufferLine bufferLinePos size idx hlen hsize L 0 (by omega),
      u32_of_lt (by omega), List.range_eq_range']
  · intro i P c R _ _ hp hidx hc hcol hfit
    obtain ⟨h1, h2⟩ := flattenClusters_unit_span P c R hc hfit
    unfold simpleRun
    dsimp only
    rw [hp, hidx, h1]
    omega

/-- C21, scenario: for the line "AB" the complexity test calls both code
units simple; the iteration is the two calls for "A" in column 0 and "B" in
column 1, and "B", a cluster of its own with one column, has `x1 < x2`. -/
theorem C21_simple_fast_path_witness :
    plainShapingEnv.GetTextComplexity 0 (2 - 0) = .ok (true, 2) ∧
    complexityLoop plainShapingEnv [65, 66] [0, 1, 2] 2 2 (2 + 1) 0 19
      = Emission.andThen
          { runs := (List.range 2).map fun i => simpleRun [65, 66] [0, 1, 2] (0 + i)
            glyphProps := 19, stop := none }
          (complexityLoop plainShapingEnv [65, 66] [0, 1, 2] 2 2 2 (0 + 2)) ∧
    (List.range 2).map (fun i => simpleRun [65, 66] [0, 1, 2] (0 + i))
      = [{ key := [65], x1 := 0, x2 := 1 }, { key := [66], x1 := 1, x2 := 2 }] ∧
    (simpleRun [65, 66] [0, 1, 2] (0 + 1)).x1 < (simpleRun [65, 66] [0, 1, 2] (0 + 1)).x2 :=
  ⟨rfl,
    (C21_simple_fast_path plainShapingEnv [65, 66] [0, 1, 2] 2 2 2 0 19 2 rfl (by decide)
      (by decide) (by decide) rfl).1,
    by decide,
    (C21_simple_fast_path plainShapingEnv [65, 66] [0, 1, 2] 2 2 2 0 19 2 rfl (by decide)
      (by decide) (by decide) rfl).2.2 1 [{ text := [65], columns := 1 }]
      { text := [66], columns := 1 } [] (by decide) rfl rfl rfl rfl (by decide) (by decide)⟩

/-! ### The selection and cursor passes -/

theorem orFlag_spec {bit : Nat} {cells out : List cell} {idx : Int}
    (h : orFlag bit cells idx = some out) :
    0 ≤ idx ∧ idx < cells.length ∧
    ∀ k : Nat, out[k]? = (cells[k]?).map fun c =>
      if (k : Int) = idx then { c with flags := c.flags ||| bit } else c := by
  unfold orFlag at h
  split at h
  · rename_i hb
    refine ⟨hb.1, hb.2, ?_⟩
    intro k
    rw [← Option.some.inj h, List.getElem?_modify]
    cases cells[k]? with
    | none => rfl
    | some c =>
      simp only [Option.map_eq_map, Option.map_some']
      by_cases hk : idx.toNat = k
      · rw [if_pos hk, if_pos (by omega)]
      · rw [if_neg hk, if_neg (by omega)]
  · exact absurd h (by simp)

theorem orFlags_spec (bit : Nat) (indices : List Int) :
    ∀ cells out : List cell, orFlags bit indices cells = some out →
      ∀ k : Nat, out[k]? = (cells[k]?).map fun c =>
        if (k : Int) ∈ indices then { c with flags := c.flags ||| bit } else c := by
  induction indices with
  | nil =>
    intro cells out h k
    simp only [orFlags] at h
    rw [← Option.some.inj h]
    cases cells[k]? <;> simp
  | cons idx rest ih =>
    intro cells out h k
    simp only [orFlags] at h
    split at h
    · exact absurd h (by simp)
    · rename_i cells1 h1
      obtain ⟨_, _, hget⟩ := orFlag_spec h1
      rw [ih cells1 out h k, hget k]
      cases cells[k]? with
      | none => rfl
      | some c =>
        simp only [Option.map_some', List.mem_cons]
        by_cases hk : (k : Int) = idx
        · rw [if_pos hk, if_pos (Or.inl hk)]
          by_cases hr : (k : Int) ∈ rest
          · rw [if_pos hr]
            simp only [Nat.or_assoc, Nat.or_self]
          · rw [if_neg hr]
        · rw [if_neg hk]
          by_cases hr : (k : Int) ∈ rest
          · rw [if_pos hr, if_pos (Or.inr hr)]
          · rw [if_neg hr, if_neg (by simp [hk, hr])]

theorem orFlags_total (bit : Nat) (indices : List Int) :
    ∀ cells : List cell, (∀ idx ∈ indices, 0 ≤ idx ∧ idx < cells.length) →
      ∃ out, orFlags bit indices cells = some out := by
  induction indices with
  | nil =>
    intro cells _
    exact ⟨cells, rfl⟩
  | cons idx rest ih =>
    intro cells hb
    have h0 := hb idx (List.mem_cons_self _ _)
    simp only [orFlags]
    have h1 : orFlag bit cells idx
        = some (cells.modify (fun c => { c with flags := c.flags ||| bit }) idx.toNat) := by
      unfold orFlag
      rw [if_pos h0]
    rw [h1]
    simp only
    apply ih
    intro j hj
    rw [List.length_modify]
    exact hb j (List.mem_cons_of_mem _ hj)

theorem or_testBit_two (f k : Nat) :
    (f ||| 2).testBit k = (f.testBit k || decide (k = 1)) := by
  rw [Nat.testBit_or]
  congr 1
  have : (2 : Nat) = 2 ^ 1 := rfl
  rw [this, Nat.testBit_two_pow]
  by_cases h : k = 1 <;> simp [h, eq_comm]

theorem or_testBit_one (f k : Nat) :
    (f ||| 1).testBit k = (f.testBit k || decide (k = 0)) := by
  rw [Nat.testBit_or]
  congr 1
  have : (1 : Nat) = 2 ^ 0 := rfl
  rw [this, Nat.testBit_two_pow]
  by_cases h : k = 0 <;> simp [h, eq_comm]

theorem grid_index_unique {ccx : Int} {y1 y2 x1 x2 : Int} (h1 : 0 ≤ x1) (h2 : x1 < ccx)
    (h3 : 0 ≤ x2) (h4 : x2 < ccx) (h : ccx * y1 + x1 = ccx * y2 + x2) : y1 = y2 ∧ x1 = x2 := by
  have hc : 0 ≤ ccx := by omega
  rcases Int.lt_trichotomy y1 y2 with hlt | heq | hgt
  · have := Int.mul_le_mul_of_nonneg_left (show y1 + 1 ≤ y2 by omega) hc
    rw [Int.mul_add, Int.mul_one] at this
    omega
  · subst heq
    exact ⟨rfl, by omega⟩
  · have := Int.mul_le_mul_of_nonneg_left (show y2 + 1 ≤ y1 by omega) hc
    rw [Int.mul_add, Int.mul_one] at this
    omega

theorem grid_index_bound {ccx ccy : Nat} {y x : Int} (hy0 : 0 ≤ y) (hy : y < ccy) (hx0 : 0 ≤ x)
    (hx : x < ccx) : 0 ≤ (ccx : Int) * y + x ∧ (ccx : Int) * y + x < ((ccx * ccy : Nat) : Int) := by
  have hc : (0 : Int) ≤ ccx := Int.ofNat_nonneg _
  have h1 := Int.mul_le_mul_of_nonneg_left (show y + 1 ≤ (ccy : Int) by omega) hc
  rw [Int.mul_add, Int.mul_one] at h1
  have h2 := Int.mul_nonneg hc hy0
  rw [Nat.cast_mul]
  omega

theorem selection_indices_mem {ccx : Nat} {L T R B : Int} (k : Int) :
    k ∈ (((List.range (B - T).toNat).map fun (i : Nat) => T + (i : Int)).flatMap
        fun (y : Int) => (List.range (R - L).toNat).map fun (i : Nat) => (ccx : Int) * y + L + (i : Int))
      ↔ ∃ y x : Int, T ≤ y ∧ y < B ∧ L ≤ x ∧ x < R ∧ k = (ccx : Int) * y + x := by
  simp only [List.mem_flatMap, List.mem_map, List.mem_range]
  constructor
  · rintro ⟨y, ⟨j, hj, rfl⟩, i, hi, rfl⟩
    exact ⟨T + j, L + i, by omega, by omega, by omega, by omega, by rw [Int.add_assoc]⟩
  · rintro ⟨y, x, h1, h2, h3, h4, rfl⟩
    refine ⟨y, ⟨(y - T).toNat, by omega, by omega⟩, (x - L).toNat, by omega, ?_⟩
    rw [Int.toNat_of_nonneg (by omega)]
    omega

theorem PaintSelection_spec {e : Engine} {rect : SMALL_RECT}
    (hlen : e._r.cells.length = e._api.cellCount.x * e._api.cellCount.y)
    (hL : 0 ≤ rect.Left) (hLR : rect.Left ≤ rect.Right)
    (hR : rect.Right ≤ e._api.cellCount.x) (hT : 0 ≤ rect.Top)
    (hB : rect.Bottom ≤ e._api.cellCount.y) :
    ∃ cells, PaintSelection rect e = some (S_OK, { e with _r := { e._r with cells := cells } }) ∧
      cells.length = e._r.cells.length ∧
      ∀ x y : Nat, x < e._api.cellCount.x → y < e._api.cellCount.y →
        cells[e._api.cellCount.x * y + x]? =
          (e._r.cells[e._api.cellCount.x * y + x]?).map fun c =>
            if rect.Left ≤ x ∧ (x : Int) < rect.Right ∧ rect.Top ≤ y ∧ (y : Int) < rect.Bottom then
              { c with flags := c.flags ||| 2 }
            else c := by
  have hin : ∀ idx ∈ (((List.range (rect.Bottom - rect.Top).toNat).map
        fun (i : Nat) => rect.Top + (i : Int)).flatMap fun (y : Int) =>
          (List.range (rect.Right - rect.Left).toNat).map fun (i : Nat) =>
            (e._api.cellCount.x : Int) * y + rect.Left + (i : Int)),
      0 ≤ idx ∧ idx < e._r.cells.length := by
    intro idx hidx
    obtain ⟨y, x, h1, h2, h3, h4, rfl⟩ := (selection_indices_mem idx).mp hidx
    rw [hlen]
    exact grid_index_bound (by omega) (by omega) (by omega) (by omega)
  obtain ⟨out, hout⟩ := orFlags_total 2 _ e._r.cells hin
  refine ⟨out, ?_, orFlags_length _ _ _ _ hout, ?_⟩
  · unfold PaintSelection
    simp only
    rw [if_neg (by omega), hout]
  · intro x y hx hy
    rw [orFlags_spec 2 _ _ _ hout]
    congr 1
    funext c
    have hiff : (((e._api.cellCount.x * y + x : Nat) : Int) ∈
        (((List.range (rect.Bottom - rect.Top).toNat).map
          fun (i : Nat) => rect.Top + (i : Int)).flatMap fun (y : Int) =>
            (List.range (rect.Right - rect.Left).toNat).map fun (i : Nat) =>
              (e._api.cellCount.x : Int) * y + rect.Left + (i : Int))) ↔
        (rect.Left ≤ x ∧ (x : Int) < rect.Right ∧ rect.Top ≤ y ∧ (y : Int) < rect.Bottom) := by
      rw [selection_indices_mem, Nat.cast_add, Nat.cast_mul]
      constructor
      · rintro ⟨y2, x2, h1, h2, h3, h4, heq⟩
        obtain ⟨e1, e2⟩ := grid_index_unique (show (0 : Int) ≤ x by omega) (by omega)
          (show (0 : Int) ≤ x2 by omega) (show x2 < (e._api.cellCount.x : Int) by omega) heq
        subst e1 e2
        exact ⟨h3, h4, h1, h2⟩
      · rintro ⟨h1, h2, h3, h4⟩
        exact ⟨y, x, h3, h4, h1, h2, rfl⟩
    by_cases h : rect.Left ≤ x ∧ (x : Int) < rect.Right ∧ rect.Top ≤ y ∧ (y : Int) < rect.Bottom
    · rw [if_pos h, if_pos (hiff.mpr h)]
    · rw [if_neg h, if_neg (fun hm => h (hiff.mp hm))]

theorem PaintCursor_spec {e : Engine} {options : CursorOptions}
    (hlen : e._r.cells.length = e._api.cellCount.x * e._api.cellCount.y)
    (hX0 : 0 ≤ options.coordCursor.X) (hX : options.coordCursor.X < e._api.cellCount.x)
    (hY0 : 0 ≤ options.coordCursor.Y) (hY : options.coordCursor.Y < e._api.cellCount.y)
    (hon : options.isOn = true) :
    ∃ cells, PaintCursor options e = some (S_OK, { e with _r := { e._r with cells := cells } }) ∧
      cells.length = e._r.cells.length ∧
      ∀ k : Nat, cells[k]? = (e._r.cells[k]?).map fun c =>
        if (k : Int) = (e._api.cellCount.x : Int) * options.coordCursor.Y + options.coordCursor.X ∨
            (options.fIsDoubleWidth = true ∧
              (k : Int) = (e._api.cellCount.x : Int) * options.coordCursor.Y
                + options.coordCursor.X + 1) then
          { c with flags := c.flags ||| 1 }
        else c := by
  obtain ⟨hd0, hd⟩ := @grid_index_bound e._api.cellCount.x e._api.cellCount.y
    options.coordCursor.Y options.coordCursor.X hY0 hY hX0 hX
  rw [← hlen] at hd
  generalize hdata : (e._api.cellCount.x : Int) * options.coordCursor.Y + options.coordCursor.X
    = data at hd0 hd ⊢
  have hmem : ∀ k : Int,
      k ∈ ((List.range
          (min (data + (options.fIsDoubleWidth.toNat : Int) + 1) (e._r.cells.length : Int)
            - data).toNat).map fun (i : Nat) => data + (i : Int)) ↔
        data ≤ k ∧ k < min (data + (options.fIsDoubleWidth.toNat : Int) + 1)
          (e._r.cells.length : Int) := by
    intro k
    simp only [List.mem_map, List.mem_range]
    constructor
    · rintro ⟨i, hi, rfl⟩
      omega
    · rintro ⟨h1, h2⟩
      exact ⟨(k - data).toNat, by omega, by omega⟩
  have hin : ∀ idx ∈ ((List.range
        (min (data + (options.fIsDoubleWidth.toNat : Int) + 1) (e._r.cells.length : Int)
          - data).toNat).map fun (i : Nat) => data + (i : Int)),
      0 ≤ idx ∧ idx < e._r.cells.length := by
    intro idx hidx
    have := (hmem idx).mp hidx
    omega
  obtain ⟨out, hout⟩ := orFlags_total 1 _ e._r.cells hin
  refine ⟨out, ?_, orFlags_length _ _ _ _ hout, ?_⟩
  · unfold PaintCursor
    rw [if_pos hon]
    simp only
    rw [hdata, if_neg (by omega), hout]
  · intro k
    rw [orFlags_spec 1 _ _ _ hout]
    cases hk : e._r.cells[k]? with
    | none => rfl
    | some c =>
      have hklt : k < e._r.cells.length := by
        by_contra hge
        rw [List.getElem?_eq_none (by omega)] at hk
        exact absurd hk (by simp)
      simp only [Option.map_some']
      congr 1
      have hdw : options.fIsDoubleWidth.toNat = 0 ∧ options.fIsDoubleWidth = false ∨
          options.fIsDoubleWidth.toNat = 1 ∧ options.fIsDoubleWidth = true := by
        cases options.fIsDoubleWidth <;> simp
      by_cases h : (k : Int) = data ∨ (options.fIsDoubleWidth = true ∧ (k : Int) = data + 1)
      · rw [if_pos h, if_pos ((hmem k).mpr (by
          rcases h with h | ⟨h1, h2⟩
          · omega
          · rcases hdw with ⟨_, h3⟩ | ⟨h3, _⟩
            · rw [h3] at h1
              exact absurd h1 (by simp)
            · omega))]
      · rw [if_neg h, if_neg (fun hm => h (by
          have := (hmem k).mp hm
          rcases hdw with ⟨h3, _⟩ | ⟨h3, h4⟩
          · left
            omega
          · by_cases hkd : (k : Int) = data
            · exact Or.inl hkd
            · exact Or.inr ⟨h4, by omega⟩))]

/-- C25: the selection and cursor passes only OR flags into cells. On a grid
buffer of `cellCount.x * cellCount.y` cells, `PaintSelection` with a rectangle
inside the grid returns `S_OK` and changes nothing but the cells: the cell
`(x, y)` gets `flags | 2` exactly when `Left ≤ x < Right` and
`Top ≤ y < Bottom`, and is unchanged otherwise. `PaintCursor` with `isOn`
and the cursor inside the grid returns `S_OK` and ORs 1 into the flags of the
cursor cell and, for a double width cursor, of the cell that follows it in the
buffer (if there is one); every other cell is unchanged; without `isOn` the
engine is unchanged. The glyph reference and the color of a cell are never
touched, and `f | 2` (`f | 1`) has bit 1 (bit 0) set and every other bit as
in `f`. -/
theorem C25_selection_cursor_or_flags (e : Engine) (rect : SMALL_RECT) (options : CursorOptions)
    (hlen : e._r.cells.length = e._api.cellCount.x * e._api.cellCount.y)
    (hL : 0 ≤ rect.Left) (hLR : rect.Left ≤ rect.Right)
    (hR : rect.Right ≤ e._api.cellCount.x) (hT : 0 ≤ rect.Top)
    (hB : rect.Bottom ≤ e._api.cellCount.y)
    (hX0 : 0 ≤ options.coordCursor.X) (hX : options.coordCursor.X < e._api.cellCount.x)
    (hY0 : 0 ≤ options.coordCursor.Y) (hY : options.coordCursor.Y < e._api.cellCount.y) :
    (∃ cells, PaintSelection rect e = some (S_OK, { e with _r := { e._r with cells := cells } }) ∧
      cells.length = e._r.cells.length ∧
      ∀ x y : Nat, x < e._api.cellCount.x → y < e._api.cellCount.y →
        cells[e._api.cellCount.x * y + x]? =
          (e._r.cells[e._api.cellCount.x * y + x]?).map fun c =>
            if rect.Left ≤ x ∧ (x : Int) < rect.Right ∧ rect.Top ≤ y ∧ (y : Int) < rect.Bottom then
              { c with flags := c.flags ||| 2 }
            else c) ∧
    (options.isOn = true →
      ∃ cells, PaintCursor options e = some (S_OK, { e with _r := { e._r with cells := cells } }) ∧
        cells.length = e._r.cells.length ∧
        ∀ k : Nat, cells[k]? = (e._r.cells[k]?).map fun c =>
          if (k : Int) = (e._api.cellCount.x : Int) * options.coordCursor.Y
                + options.coordCursor.X ∨
              (options.fIsDoubleWidth = true ∧
                (k : Int) = (e._api.cellCount.x : Int) * options.coordCursor.Y
                  + options.coordCursor.X + 1) then
            { c with flags := c.flags ||| 1 }
          else c) ∧
    (options.isOn = false → PaintCursor options e = some (S_OK, e)) ∧
    ∀ f k : Nat, (f ||| 2).testBit k = (f.testBit k || decide (k = 1)) ∧
      (f ||| 1).testBit k = (f.testBit k || decide (k = 0)) := by
  refine ⟨PaintSelection_spec hlen hL hLR hR hT hB,
    fun hon => PaintCursor_spec hlen hX0 hX hY0 hY hon, ?_,
    fun f k => ⟨or_testBit_two f k, or_testBit_one f k⟩⟩
  intro hoff
  unfold PaintCursor
  rw [hoff]
  rfl

/-- C25, scenario: on the 2x1 grid of `paintedEngine` the selection of the
first cell sets bit 1 of its flags and leaves the second cell alone; the
cursor pass on the second cell returns `S_OK`. -/
theorem C25_selection_cursor_or_flags_witness :
    PaintSelection { Left := 0, Top := 0, Right := 1, Bottom := 1 } paintedEngine
      = some (S_OK, { paintedEngine with
                      _r := { paintedEngine._r with cells := [{ flags := 2 }, {}] } }) ∧
    ∃ cells,
      PaintCursor { coordCursor := { X := 1, Y := 0 }, fIsDoubleWidth := false, isOn := true }
          paintedEngine
        = some (S_OK, { paintedEngine with _r := { paintedEngine._r with cells := cells } }) ∧
      cells.length = paintedEngine._r.cells.length :=
  ⟨rfl,
    ((C25_selection_cursor_or_flags paintedEngine { Left := 0, Top := 0, Right := 1, Bottom := 1 }
      { coordCursor := { X := 1, Y := 0 }, fIsDoubleWidth := false, isOn := true } rfl
      (by decide) (by decide) (by decide) (by decide) (by decide) (by decide) (by decide)
      (by decide) (by decide)).2.1 rfl).elim fun cells h => ⟨cells, h.1, h.2.1⟩⟩

/-! ### Termination of `_processBufferLine` -/

theorem ResourcesConsistent_of_frame {e s : Engine} (inv : ResourcesConsistent e)
    (h1 : s._r.device = e._r.device) (h2 : s._r.swapChain = e._r.swapChain)
    (h3 : s._r.renderTargetView = e._r.renderTargetView)
    (hd : s._invalidations.device = false → e._invalidations.device = false)
    (hs : s._invalidations.size = false → e._invalidations.size = false) :
    ResourcesConsistent s := by
  refine ⟨fun hdev => ?_, fun hdev hsize => ?_⟩
  · rw [h1, h2]
    exact inv.1 (hd hdev)
  · rw [h3]
    exact inv.2 (hd hdev) (hs hsize)

theorem recreateSize_handles {env : SizeEnv} {e : Engine} :
    (∀ s, _recreateSizeDependentResources env e = .ok s →
      e._r.device = true ∧ e._r.swapChain = true ∧ s._r.device = true ∧
      s._r.swapChain = true ∧ s._r.renderTargetView = true) ∧
    (∀ ex s, _recreateSizeDependentResources env e = .thrown ex s →
      s._r.device = e._r.device ∧ s._r.swapChain = e._r.swapChain) := by
  constructor
  · intro s h
    unfold _recreateSizeDependentResources at h
    simp only at h
    split at h
    · exact absurd h (by simp)
    · rename_i hdev
      have hdev1 : e._r.device = true := by
        cases hd : e._r.device
        · exact absurd (Or.inl hd) hdev
        · rfl
      have hsw1 : e._r.swapChain = true := by
        cases hd : e._r.swapChain
        · exact absurd (Or.inr hd) hdev
        · rfl
      cases h1 : env.ResizeBuffers with
      | some ex1 => simp [h1] at h
      | none =>
        cases h2 : env.CreateRenderTargetView with
        | some ex2 => simp [h1, h2] at h
        | none =>
          simp only [h1, h2] at h
          by_cases hlen : e._api.cellCount.area ≠ e._r.cells.length
          · rw [if_pos hlen] at h
            cases h3 : env.allocCells <;> cases h4 : env.CreateCellBuffer <;>
              simp [h3, h4, Outcome.bind] at h
            subst h
            simp [hdev1, hsw1]
          · rw [if_neg hlen] at h
            simp [Outcome.bind] at h
            subst h
            simp [hdev1, hsw1]
  · intro ex s h
    unfold _recreateSizeDependentResources at h
    simp only at h
    split at h
    · exact absurd h (by simp)
    · cases h1 : env.ResizeBuffers with
      | some ex1 =>
        simp [h1] at h
        obtain ⟨_, h⟩ := h
        subst h
        simp
      | none =>
        cases h2 : env.CreateRenderTargetView with
        | some ex2 =>
          simp [h1, h2] at h
          obtain ⟨_, h⟩ := h
          subst h
          simp
        | none =>
          simp only [h1, h2] at h
          by_cases hlen : e._api.cellCount.area ≠ e._r.cells.length
          · rw [if_pos hlen] at h
            cases h3 : env.allocCells <;> cases h4 : env.CreateCellBuffer <;>
              simp [h3, h4, Outcome.bind] at h <;>
              (obtain ⟨_, h⟩ := h; subst h; simp)
          · rw [if_neg hlen] at h
            simp [Outcome.bind] at h

theorem recreateFont_handles {env : FontEnv} {e : Engine} :
    (∀ s, _recreateFontDependentResources env e = .ok s →
      e._r.device = true ∧ s._r.device = e._r.device ∧ s._r.swapChain = e._r.swapChain ∧
      s._r.renderTargetView = e._r.renderTargetView) ∧
    (∀ ex s, _recreateFontDependentResources env e = .thrown ex s →
      s._r.device = e._r.device ∧ s._r.swapChain = e._r.swapChain ∧
      s._r.renderTargetView = e._r.renderTargetView) := by
  constructor
  · intro s h
    unfold _recreateFontDependentResources at h
    simp only at h
    split at h
    · exact absurd h (by simp)
    · rename_i hdev
      have hdev1 : e._r.device = true := by
        cases hd : e._r.device
        · exact absurd hd hdev
        · rfl
      split at h
      · exact absurd h (by simp)
      · rename_i asz apos hgeo
        cases h1 : env.CreateTexture2D asz.x asz.y <;> cases h2 : env.rest <;>
          simp [h1, h2] at h
        subst h
        simp [hdev1]
  · intro ex s h
    unfold _recreateFontDependentResources at h
    simp only at h
    split at h
    · exact absurd h (by simp)
    · split at h
      · exact absurd h (by simp)
      · rename_i asz apos hgeo
        cases h1 : env.CreateTexture2D asz.x asz.y <;> cases h2 : env.rest <;>
          simp [h1, h2] at h <;>
          (obtain ⟨_, h⟩ := h; subst h; simp)

theorem createResources_handles {env : CreateResourcesEnv} {e s : Engine}
    (h : _createResources env e = .ok s) : s._r.device = true ∧ s._r.swapChain = true := by
  obtain ⟨_, _, _, _, h5⟩ := createResources_ok h
  rw [h5]
  exact ⟨rfl, rfl⟩

theorem StartPaint_device_consistent {env : StartPaintEnv} {e : Engine}
    (inv : ResourcesConsistent e) :
    (∀ s, StartPaint_device env e = .ok s →
      ResourcesConsistent s ∧ s._r.device = true ∧ s._r.swapChain = true) ∧
    (∀ ex s, StartPaint_device env e = .thrown ex s → ResourcesConsistent s) := by
  constructor
  · intro s h
    obtain ⟨d1, _, _, d4, d5⟩ := StartPaint_device_ok h
    cases hdev : e._invalidations.device
    · rw [d4 hdev]
      exact ⟨inv, inv.1 hdev⟩
    · obtain ⟨hsz, _, _, _⟩ := d5 hdev
      have hsw : s._r.device = true ∧ s._r.swapChain = true := by
        unfold StartPaint_device at h
        simp only [WI_IsFlagSet, hdev, if_true] at h
        cases hc : _createResources env.create e with
        | ok s1 =>
          simp only [hc, Outcome.bind] at h
          obtain ⟨c1, c2⟩ := createResources_handles hc
          rw [← Outcome.ok.inj h]
          exact ⟨c1, c2⟩
        | thrown ex s1 => simp [hc, Outcome.bind] at h
        | failFast => simp [hc, Outcome.bind] at h
      refine ⟨⟨fun _ => hsw, fun _ hs => ?_⟩, hsw⟩
      rw [hsz] at hs
      exact absurd hs (by simp)
  · intro ex s h
    obtain ⟨t1, t2, _⟩ := StartPaint_device_thrown h
    refine ⟨fun hd => ?_, fun hd _ => ?_⟩ <;>
    · rw [t2, t1] at hd
      exact absurd hd (by simp)

theorem StartPaint_size_consistent {env : StartPaintEnv} {e : Engine}
    (inv : ResourcesConsistent e) (hdev : e._invalidations.device = false) :
    (∀ s, StartPaint_size env e = .ok s →
      ResourcesConsistent s ∧ s._invalidations.device = false ∧
      s._invalidations.size = false ∧ s._r.device = true ∧ s._r.swapChain = true ∧
      s._r.renderTargetView = true) ∧
    (∀ ex s, StartPaint_size env e = .thrown ex s → ResourcesConsistent s) := by
  constructor
  · intro s h
    obtain ⟨s1, s2, _, _, s5, _⟩ := StartPaint_size_ok h
    have hd2 : s._invalidations.device = false := by rw [s2, hdev]
    cases hsize : e._invalidations.size
    · rw [s5 hsize]
      exact ⟨inv, hdev, hsize, (inv.1 hdev).1, (inv.1 hdev).2, inv.2 hdev hsize⟩
    · have hres : s._r.device = true ∧ s._r.swapChain = true ∧ s._r.renderTargetView = true := by
        unfold StartPaint_size at h
        simp only [WI_IsFlagSet, hsize, if_true] at h
        cases hc : _recreateSizeDependentResources env.size e with
        | ok s1 =>
          simp only [hc, Outcome.bind] at h
          obtain ⟨_, _, c1, c2, c3⟩ := recreateSize_handles.1 s1 hc
          rw [← Outcome.ok.inj h]
          exact ⟨c1, c2, c3⟩
        | thrown ex s1 => simp [hc, Outcome.bind] at h
        | failFast => simp [hc, Outcome.bind] at h
      exact ⟨⟨fun _ => ⟨hres.1, hres.2.1⟩, fun _ _ => hres.2.2⟩, hd2, s1, hres.1, hres.2.1,
        hres.2.2⟩
  · intro ex s h
    obtain ⟨t1, t2, _⟩ := StartPaint_size_thrown h
    have hres : s._r.device = e._r.device ∧ s._r.swapChain = e._r.swapChain := by
      unfold StartPaint_size at h
      simp only [WI_IsFlagSet, t1, if_true] at h
      cases hc : _recreateSizeDependentResources env.size e with
      | ok s1 => simp [hc, Outcome.bind] at h
      | thrown ex1 s1 =>
        simp only [hc, Outcome.bind] at h
        have hs : s = s1 := by
          injection h with _ h2
          exact h2.symm
        rw [hs]
        exact recreateSize_handles.2 ex1 s1 hc
      | failFast => simp [hc, Outcome.bind] at h
    refine ⟨fun hd => ?_, fun _ hs => ?_⟩
    · rw [hres.1, hres.2]
      exact inv.1 hdev
    · rw [t2, t1] at hs
      exact absurd hs (by simp)

theorem StartPaint_font_consistent {env : StartPaintEnv} {e : Engine}
    (inv : ResourcesConsistent e) :
    (∀ s, StartPaint_font env e = .ok s → ResourcesConsistent s) ∧
    (∀ ex s, StartPaint_font env e = .thrown ex s → ResourcesConsistent s) := by
  constructor
  · intro s h
    obtain ⟨_, f2, f3, _, _, f6, _⟩ := StartPaint_font_ok h
    cases hfont : e._invalidations.font
    · rw [f6 hfont]
      exact inv
    · have hres : s._r.device = e._r.device ∧ s._r.swapChain = e._r.swapChain ∧
          s._r.renderTargetView = e._r.renderTargetView := by
        unfold StartPaint_font at h
        simp only [WI_IsFlagSet, hfont, if_true] at h
        cases hc : _recreateFontDependentResources env.font e with
        | ok s1 =>
          simp only [hc, Outcome.bind] at h
          obtain ⟨_, c1, c2, c3⟩ := recreateFont_handles.1 s1 hc
          rw [← Outcome.ok.inj h]
          exact ⟨c1, c2, c3⟩
        | thrown ex s1 => simp [hc, Outcome.bind] at h
        | failFast => simp [hc, Outcome.bind] at h
      exact ResourcesConsistent_of_frame inv hres.1 hres.2.1 hres.2.2
        (fun hd => by rw [← f2]; exact hd) (fun hs => by rw [← f3]; exact hs)
  · intro ex s h
    obtain ⟨t1, t2, _⟩ := StartPaint_font_thrown h
    have hres : s._r.device = e._r.device ∧ s._r.swapChain = e._r.swapChain ∧
        s._r.renderTargetView = e._r.renderTargetView := by
      unfold StartPaint_font at h
      simp only [WI_IsFlagSet, t1, if_true] at h
      cases hc : _recreateFontDependentResources env.font e with
      | ok s1 => simp [hc, Outcome.bind] at h
      | thrown ex1 s1 =>
        simp only [hc, Outcome.bind] at h
        have hs : s = s1 := by
          injection h with _ h2
          exact h2.symm
        rw [hs]
        exact recreateFont_handles.2 ex1 s1 hc
      | failFast => simp [hc, Outcome.bind] at h
    exact ResourcesConsistent_of_frame inv hres.1 hres.2.1 hres.2.2
      (fun hd => by rw [← t2]; exact hd) (fun hs => by rw [← t2]; exact hs)

theorem StartPaint_rebuild_consistent {env : StartPaintEnv} {e : Engine}
    (inv : ResourcesConsistent e) :
    (∀ s, StartPaint_rebuild env e = .ok s → ResourcesConsistent s) ∧
    (∀ ex s, StartPaint_rebuild env e = .thrown ex s → ResourcesConsistent s) := by
  constructor
  · intro s h
    obtain ⟨e1, e2, hd, hsz, hf⟩ := StartPaint_rebuild_ok h
    obtain ⟨inv1, _⟩ := (StartPaint_device_consistent inv).1 e1 hd
    obtain ⟨inv2, _⟩ := (StartPaint_size_consistent inv1 (StartPaint_device_ok hd).1).1 e2 hsz
    exact (StartPaint_font_consistent inv2).1 s hf
  · intro ex s h
    rcases StartPaint_rebuild_thrown h with hd | ⟨e1, hd, hsz⟩ | ⟨e1, e2, hd, hsz, hf⟩
    · exact (StartPaint_device_consistent inv).2 ex s hd
    · obtain ⟨inv1, _⟩ := (StartPaint_device_consistent inv).1 e1 hd
      exact (StartPaint_size_consistent inv1 (StartPaint_device_ok hd).1).2 ex s hsz
    · obtain ⟨inv1, _⟩ := (StartPaint_device_consistent inv).1 e1 hd
      obtain ⟨inv2, _⟩ := (StartPaint_size_consistent inv1 (StartPaint_device_ok hd).1).1 e2 hsz
      exact (StartPaint_font_consistent inv2).2 ex s hf

theorem StartPaint_hwnd_consistent {clientRect : SIZE} {e e1 : Engine}
    (h : StartPaint_hwnd clientRect e = some e1) (inv : ResourcesConsistent e) :
    ResourcesConsistent e1 := by
  obtain ⟨w1, _, w3, _, w5, _⟩ := StartPaint_hwnd_effect h
  refine ResourcesConsistent_of_frame inv (by rw [w5]) (by rw [w5]) (by rw [w5])
    (fun hd => by rw [← w1]; exact hd) (fun hs => ?_)
  cases hsz : e._invalidations.size
  · rfl
  · rw [w3 hsz] at hs
    exact absurd hs (by simp)

theorem StartPaint_try_consistent {env : StartPaintEnv} {e : Engine}
    (inv : ResourcesConsistent e) :
    (∀ s, StartPaint_try env e = .ok s → ResourcesConsistent s) ∧
    (∀ ex s, StartPaint_try env e = .thrown ex s → ResourcesConsistent s) := by
  constructor
  · intro s h
    obtain ⟨e1, e2, hh, hcase, h1, _, h3, _⟩ := StartPaint_try_ok h
    have inv1 := StartPaint_hwnd_consistent hh inv
    have inv2 : ResourcesConsistent e2 := by
      rcases hcase with ⟨_, he⟩ | ⟨_, hreb⟩
      · rw [he]
        exact inv1
      · exact (StartPaint_rebuild_consistent inv1).1 e2 hreb
    exact ResourcesConsistent_of_frame inv2 (by rw [h3]) (by rw [h3]) (by rw [h3])
      (fun hd => by rw [← h1]; exact hd) (fun hs => by rw [← h1]; exact hs)
  · intro ex s h
    obtain ⟨e1, hh, hreb⟩ := StartPaint_try_thrown h
    exact (StartPaint_rebuild_consistent (StartPaint_hwnd_consistent hh inv)).2 ex s hreb

theorem handleException_consistent {hr : HRESULT} {e : Engine} (inv : ResourcesConsistent e) :
    ResourcesConsistent (_handleException hr e).2 := by
  unfold _handleException
  split
  · refine ⟨fun hd => ?_, fun hd _ => ?_⟩ <;> simp [WI_SetFlag] at hd
  · exact inv

theorem catchReturn_consistent {o : Outcome Engine} {hr : HRESULT} {s : Engine}
    (h : catchReturn o = some (hr, s))
    (hok : ∀ s1, o = .ok s1 → ResourcesConsistent s1)
    (hth : ∀ ex s1, o = .thrown ex s1 → ResourcesConsistent s1) : ResourcesConsistent s := by
  unfold catchReturn at h
  split at h
  · rename_i s1
    have hs : s = s1 := (Prod.mk.inj (Option.some.inj h)).2.symm
    rw [hs]
    exact hok s1 rfl
  · rename_i c s1
    have h1 : _handleException c.hr s1 = (hr, s) := Option.some.inj h
    have := @handleException_consistent c.hr s1 (hth _ s1 rfl)
    rw [h1] at this
    exact this
  · rename_i c s1
    have hs : s = s1 := (Prod.mk.inj (Option.some.inj h)).2.symm
    rw [hs]
    exact hth _ s1 rfl
  · exact absurd h (by simp)

theorem PresentFrame_consistent {e s : Engine} (h : PresentFrame e s)
    (inv : ResourcesConsistent e) : ResourcesConsistent s := by
  obtain ⟨calls, queue, cb, rfl⟩ := h
  exact inv

theorem UpdateFont_handles {proposed : Except ErrorCode FontInfo} {e e1 : Engine} {hr : HRESULT}
    (h : UpdateFont proposed e = some (hr, e1)) :
    e1._r = e._r ∧ e1._invalidations.device = e._invalidations.device ∧
    (e1._invalidations.size = false → e._invalidations.size = false) := by
  unfold UpdateFont at h
  split at h
  · rw [← (Prod.mk.inj (Option.some.inj h)).2]
    exact ⟨rfl, rfl, fun hs => hs⟩
  · split at h
    · exact absurd h (by simp)
    · simp only at h
      split at h
      · exact absurd h (by simp)
      · split at h
        · split at h
          · exact absurd h (by simp)
          · have he : e1 = _ := (Prod.mk.inj (Option.some.inj h)).2.symm
            subst he
            simp [WI_SetFlag]
        · have he : e1 = _ := (Prod.mk.inj (Option.some.inj h)).2.symm
          subst he
          simp [WI_SetFlag]

theorem emplaceGlyph_handles {key : List Nat} {y x1 x2 : Nat} {e e1 : Engine}
    (h : _emplaceGlyph key y x1 x2 e = some e1) :
    e1._r.device = e._r.device ∧ e1._r.swapChain = e._r.swapChain ∧
    e1._r.renderTargetView = e._r.renderTargetView := by
  obtain ⟨out, _, he⟩ := emplaceGlyph_unfold h
  obtain ⟨pos, glyphs, queue, hres⟩ :=
    resolveGlyph_frame (makeEntry key e._rapi.attributes (glyphCells x1 x2)) (glyphCells x1 x2) e
  rw [he, hres]
  exact ⟨rfl, rfl, rfl⟩

theorem PaintSelection_handles {rect : SMALL_RECT} {e e1 : Engine} {hr : HRESULT}
    (h : PaintSelection rect e = some (hr, e1)) :
    ∃ cells, e1 = { e with _r := { e._r with cells := cells } } := by
  unfold PaintSelection at h
  simp only at h
  split at h
  · exact absurd h (by simp)
  · split at h
    · exact absurd h (by simp)
    · rename_i cells _
      exact ⟨cells, (Prod.mk.inj (Option.some.inj h)).2.symm⟩

theorem PaintCursor_handles {options : CursorOptions} {e e1 : Engine} {hr : HRESULT}
    (h : PaintCursor options e = some (hr, e1)) :
    ∃ cells, e1 = { e with _r := { e._r with cells := cells } } := by
  unfold PaintCursor at h
  split at h
  · simp only at h
    split at h
    · exact absurd h (by simp)
    · split at h
      · exact absurd h (by simp)
      · rename_i cells _
        exact ⟨cells, (Prod.mk.inj (Option.some.inj h)).2.symm⟩
  · exact ⟨e._r.cells, (Prod.mk.inj (Option.some.inj h)).2.symm⟩

theorem Call_run_consistent {c : Call} {e e1 : Engine} (h : c.run e = some e1)
    (inv : ResourcesConsistent e) : ResourcesConsistent e1 := by
  cases c with
  | SetWindowSize pixels =>
    simp only [Call.run, Option.map_eq_some'] at h
    obtain ⟨⟨hr, e2⟩, h1, h2⟩ := h
    simp only at h2
    subst h2
    rcases (SetWindowSize_effect h1).2 with h0 | ⟨g1, g2, _⟩
    · rw [h0]
      exact inv
    · refine ResourcesConsistent_of_frame inv (by rw [g2]) (by rw [g2]) (by rw [g2])
        (fun hd => ?_) (fun hs => ?_)
      · rw [g1] at hd
        simpa [WI_SetFlag] using hd
      · rw [g1] at hs
        simp [WI_SetFlag] at hs
  | UpdateFont proposed =>
    simp only [Call.run, Option.map_eq_some'] at h
    obtain ⟨⟨hr, e2⟩, h1, h2⟩ := h
    simp only at h2
    subst h2
    obtain ⟨g1, g2, g3⟩ := UpdateFont_handles h1
    exact ResourcesConsistent_of_frame inv (by rw [g1]) (by rw [g1]) (by rw [g1])
      (fun hd => by rw [← g2]; exact hd) g3
  | UpdateDpi dpi =>
    simp only [Call.run, Option.map_eq_some'] at h
    obtain ⟨⟨hr, e2⟩, h1, h2⟩ := h
    simp only at h2
    subst h2
    unfold UpdateDpi at h1
    split at h1
    · exact absurd h1 (by simp)
    · split at h1
      · rw [← (Prod.mk.inj (Option.some.inj h1)).2]
        exact inv
      · rw [← (Prod.mk.inj (Option.some.inj h1)).2]
        exact inv
  | SetAntialiasingMode mode =>
    simp only [Call.run] at h
    unfold SetAntialiasingMode at h
    split at h
    · exact absurd h (by simp)
    · rw [← Option.some.inj h]
      exact inv
  | SetHwnd hwnd =>
    simp only [Call.run] at h
    rw [← Option.some.inj h]
    exact inv
  | InvalidateTitle =>
    simp only [Call.run] at h
    rw [← Option.some.inj h]
    exact inv
  | SetSelectionBackground color =>
    simp only [Call.run] at h
    rw [← Option.some.inj h]
    unfold SetSelectionBackground
    split
    · exact inv
    · exact inv
  | UpdateDrawingBrushes fg bg b i d sd =>
    simp only [Call.run] at h
    rw [← Option.some.inj h]
    unfold UpdateDrawingBrushes
    split
    · exact inv
    · split
      · exact inv
      · exact inv
  | GetSwapChainHandle env =>
    simp only [Call.run] at h
    unfold GetSwapChainHandle at h
    by_cases hdev : e._r.device = false
    · have hbit : e._invalidations.device = true := by
        cases hb : e._invalidations.device
        · rw [(inv.1 hb).1] at hdev
          exact absurd hdev (by simp)
        · rfl
      rw [if_pos hdev] at h
      split at h
      · rename_i s hs
        obtain ⟨_, _, _, hinv, _⟩ := createResources_ok hs
        rw [← Option.some.inj h]
        refine ⟨fun hd => ?_, fun hd _ => ?_⟩ <;>
        · rw [hinv] at hd
          simp [WI_SetFlag, hbit] at hd
      · rename_i ex s hs
        obtain ⟨_, _, _, hinv, _⟩ := createResources_thrown hs
        rw [← Option.some.inj h]
        refine ⟨fun hd => ?_, fun hd _ => ?_⟩ <;>
        · rw [hinv, hbit] at hd
          exact absurd hd (by simp)
      · exact absurd h (by simp)
    · rw [if_neg hdev] at h
      simp only at h
      rw [← Option.some.inj h]
      exact inv
  | StartPaint env =>
    simp only [Call.run, Option.map_eq_some'] at h
    obtain ⟨⟨hr, e2⟩, h1, h2⟩ := h
    simp only at h2
    subst h2
    exact catchReturn_consistent h1 (StartPaint_try_consistent inv).1
      (StartPaint_try_consistent inv).2
  | emplaceGlyph key y x1 x2 =>
    simp only [Call.run] at h
    obtain ⟨_, _, f3, _⟩ := emplaceGlyph_frame h
    obtain ⟨g1, g2, g3⟩ := emplaceGlyph_handles h
    exact ResourcesConsistent_of_frame inv g1 g2 g3 (fun hd => by rw [← f3]; exact hd)
      (fun hs => by rw [← f3]; exact hs)
  | PaintSelection rect =>
    simp only [Call.run, Option.map_eq_some'] at h
    obtain ⟨⟨hr, e2⟩, h1, h2⟩ := h
    simp only at h2
    subst h2
    obtain ⟨cells, rfl⟩ := PaintSelection_handles h1
    exact inv
  | PaintCursor options =>
    simp only [Call.run, Option.map_eq_some'] at h
    obtain ⟨⟨hr, e2⟩, h1, h2⟩ := h
    simp only at h2
    subst h2
    obtain ⟨cells, rfl⟩ := PaintCursor_handles h1
    exact inv
  | Present env =>
    simp only [Call.run, Option.map_eq_some'] at h
    obtain ⟨⟨hr, e2⟩, h1, h2⟩ := h
    simp only at h2
    subst h2
    exact catchReturn_consistent h1
      (fun s1 hs => PresentFrame_consistent ((Present_try_frame env e).1 s1 hs) inv)
      (fun ex s1 hs => PresentFrame_consistent ((Present_try_frame env e).2 ex s1 hs) inv)

theorem runCalls_consistent (calls : List Call) :
    ∀ e e1 : Engine, ResourcesConsistent e → runCalls e calls = some e1 →
      ResourcesConsistent e1 := by
  induction calls with
  | nil =>
    intro e e1 inv h
    rw [← Option.some.inj h]
    exact inv
  | cons c cs ih =>
    intro e e1 inv h
    simp only [runCalls] at h
    split at h
    · exact absurd h (by simp)
    · rename_i e2 hstep
      exact ih e2 e1 (Call_run_consistent hstep inv) h

theorem Reachable_consistent {e : Engine} (h : Reachable e) : ResourcesConsistent e := by
  obtain ⟨calls, hrun⟩ := h
  refine runCalls_consistent calls Engine.new e ?_ hrun
  refine ⟨fun hd => ?_, fun hd _ => ?_⟩ <;> exact absurd hd (by decide)

theorem recreateSize_enters {env : SizeEnv} {e : Engine} (hd : e._r.device = true)
    (hs : e._r.swapChain = true) : _recreateSizeDependentResources env e ≠ .failFast := by
  unfold _recreateSizeDependentResources
  simp only
  rw [if_neg (by simp [hd, hs])]
  cases h1 : env.ResizeBuffers with
  | some ex1 => simp
  | none =>
    cases h2 : env.CreateRenderTargetView with
    | some ex2 => simp
    | none =>
      simp only
      by_cases hlen : e._api.cellCount.area ≠ e._r.cells.length
      · rw [if_pos hlen]
        cases h3 : env.allocCells <;> cases h4 : env.CreateCellBuffer <;> simp [Outcome.bind]
      · rw [if_neg hlen]
        simp [Outcome.bind]

/-- C27, failing input: in the first `StartPaint` the creation of the GPU
cell buffer fails with `E_FAIL` after the cell array was allocated; the call
returns `E_FAIL` with the size and font bits still set. In the second
`StartPaint` every backend call succeeds: the size rebuild finds the cell
array at the right length and skips the creation of the cell buffer, then the
font rebuild runs. The call returns `S_OK` with the device, size and font bits
clear and no cell buffer for the two cells of the grid. -/
theorem C27_counterexample :
    runCalls Engine.new retryCalls = some retriedEngine ∧
    StartPaint cellBufferFailEnv smallEngine = some (E_FAIL.hr, bufferFailedEngine) ∧
    StartPaint okStartPaintEnv bufferFailedEngine = some (S_OK, retriedEngine) ∧
    retriedEngine.calls
      = bufferFailedEngine.calls
        ++ [.recreateSizeDependentResources, .recreateFontDependentResources] ∧
    retriedEngine._invalidations.device = false ∧ retriedEngine._invalidations.size = false ∧
    retriedEngine._invalidations.font = false ∧
    retriedEngine._r.cells.length = 2 ∧ retriedEngine._r.cellBuffer = false :=
  ⟨rfl, rfl, rfl, rfl, rfl, rfl, rfl, rfl, rfl⟩

/-- In every state reachable from a new engine through the entry points of
the engine (device-loss handling included), if the device bit is clear the
device and the swap chain exist, and if the device and the size bit are clear
the render target view exists. So in every `StartPaint` from such a state the
size rebuild, if it runs, starts with a device and a swap chain and does not
stop at a null pointer, and the font rebuild, if it runs, starts with the
device and the size bit clear and the device, the swap chain and the render
target view present. -/
theorem Reachable_resources_present (e : Engine) (hreach : Reachable e) :
    (e._invalidations.device = false → e._r.device = true ∧ e._r.swapChain = true) ∧
    (e._invalidations.device = false → e._invalidations.size = false →
      e._r.renderTargetView = true) ∧
    ∀ (env : StartPaintEnv) (e1 e2 : Engine), StartPaint_hwnd env.clientRect e = some e1 →
      StartPaint_device env e1 = .ok e2 →
      (e2._invalidations.device = false ∧ e2._r.device = true ∧ e2._r.swapChain = true) ∧
      _recreateSizeDependentResources env.size e2 ≠ .failFast ∧
      ∀ e3, StartPaint_size env e2 = .ok e3 →
        e3._invalidations.device = false ∧ e3._invalidations.size = false ∧
        e3._r.device = true ∧ e3._r.swapChain = true ∧ e3._r.renderTargetView = true := by
  have inv := Reachable_consistent hreach
  refine ⟨inv.1, inv.2, ?_⟩
  intro env e1 e2 hh hd
  have inv1 := StartPaint_hwnd_consistent hh inv
  obtain ⟨inv2, d1, d2⟩ := (StartPaint_device_consistent inv1).1 e2 hd
  have hbit := (StartPaint_device_ok hd).1
  refine ⟨⟨hbit, d1, d2⟩, recreateSize_enters d1 d2, ?_⟩
  intro e3 hsz
  obtain ⟨_, s1, s2, s3, s4, s5⟩ := (StartPaint_size_consistent inv2 hbit).1 e3 hsz
  exact ⟨s1, s2, s3, s4, s5⟩

/-- Scenario: `paintedEngine`, reached by `UpdateFont`, `SetWindowSize` and a
first `StartPaint`, has the device bit clear and holds a device and a swap
chain. -/
theorem scenario_resources_present :
    runCalls Engine.new paintedCalls = some paintedEngine ∧
    paintedEngine._invalidations.device = false ∧
    paintedEngine._r.device = true ∧ paintedEngine._r.swapChain = true :=
  ⟨rfl, rfl, (Reachable_resources_present paintedEngine ⟨paintedCalls, rfl⟩).1 rfl⟩

end AtlasEngine
